import Mathlib

/-!
# nozzle/e : error contexts, stack frames and the wrap protocol

A shallow embedding of the Go package `e` (files `errors.go`, `stack.go`,
`wrap.go`, `wrap_options.go`, `interfaces.go`, `instrumentation.go`) and
theorems about it.

Conventions of the embedding

* A Go function that can panic returns `Option`; `none` is the panic.
* `*Err` is mutated in place by the Go code; here every operation returns the
  new value of the pointed-to context.
* `[]*frame` is a `List frame`; a write through a frame pointer is a `List.set`.
  `topAppFrame`, a pointer into `frames`, is the index of the frame it points to.
* A Go `map` is an association list in insertion order with unique keys; a nil
  map and an empty map are both `[]`.  Where the Go code ranges over a map, the
  list order stands for the order in which the range statement visits the keys.
* Go `int` is `Int` (no operation here comes near the 64-bit bounds).
* `interface{}` values given to `With` are the type `Value`.
-/

set_option autoImplicit false

namespace NozzleE

/-! ## Strings -/

/-- Go `strings.HasPrefix(s, p)`. -/
def stringsHasPrefix (s p : String) : Bool :=
  p.toList.isPrefixOf s.toList

/-- Whether `p` occurs in `s` starting at some position of `s`. -/
def containsAt (p : List Char) : List Char → Bool
  | [] => p.isEmpty
  | c :: cs => p.isPrefixOf (c :: cs) || containsAt p cs

/-- Go `strings.Contains(s, sub)`. -/
def stringsContains (s sub : String) : Bool :=
  containsAt sub.toList s.toList

/-! ## gRPC codes, levels, classes -/

/-- The gRPC `codes.Code` (an unsigned integer with named constants). -/
abbrev Code := Nat

namespace codes
def OK : Code := 0
def Canceled : Code := 1
def Unknown : Code := 2
def InvalidArgument : Code := 3
def DeadlineExceeded : Code := 4
def NotFound : Code := 5
def AlreadyExists : Code := 6
def PermissionDenied : Code := 7
def ResourceExhausted : Code := 8
def FailedPrecondition : Code := 9
def Aborted : Code := 10
def OutOfRange : Code := 11
def Unimplemented : Code := 12
def Internal : Code := 13
def Unavailable : Code := 14
def DataLoss : Code := 15
def Unauthenticated : Code := 16
end codes

/-- The severity `Level` (a Go `int` with three named constants). -/
abbrev Level := Int

def LevelCritical : Level := 1
def LevelError : Level := 2
def LevelWarning : Level := 3

/-- The frame `class`; `unset` is the zero value of the Go `int`. -/
inductive FrameClass where
  | unset
  | classApp
  | classPkg
  | classVendor
  | classStdLib
  | classPanic
deriving DecidableEq, Repr

/-- Go `CodeFromHTTPStatus`. -/
def CodeFromHTTPStatus (statusCode : Int) : Code :=
  if statusCode = 200 then codes.OK
  else if statusCode = 408 then codes.Canceled
  else if statusCode = 500 then codes.Unknown
  else if statusCode = 400 then codes.InvalidArgument
  else if statusCode = 504 then codes.DeadlineExceeded
  else if statusCode = 404 then codes.NotFound
  else if statusCode = 409 then codes.AlreadyExists
  else if statusCode = 403 then codes.PermissionDenied
  else if statusCode = 401 then codes.Unauthenticated
  else if statusCode = 429 then codes.ResourceExhausted
  else if statusCode = 501 then codes.Unimplemented
  else if statusCode = 503 then codes.Unavailable
  else codes.Unknown

/-! ## Values, capabilities, error values -/

/-- A byte slice: its content read as text, together with the verdict of
`jsoniter.Valid` on it (the JSON library is not part of this package). -/
structure Bytes where
  text : String
  validJSON : Bool
deriving DecidableEq, Repr

/-- The capability interfaces of `interfaces.go` other than `ErrVars`: each field
is `some x` when the value implements the interface and its method returns `x`. -/
structure Probe where
  /-- what `ErrTags()` returns, in the order one `range` over it visits the
  entries; another `range` over the same map is another order of the list
  (`rerangedTags`) -/
  tags : Option (List (String × String)) := none
  /-- what `ErrMsg()` returns -/
  msg : Option String := none
  /-- what `ErrCode()` returns -/
  code : Option Code := none
  /-- what `ErrRetriable()` returns -/
  retriable : Option Bool := none
  /-- what `ErrShouldReport()` returns -/
  shouldReport : Option Bool := none
  /-- what `ErrIsInfra()` returns -/
  isInfra : Option Bool := none
  /-- what `ErrLevel()` returns -/
  level : Option Level := none
deriving DecidableEq, Repr

/-- An `interface{}` value handed to `With`. -/
inductive Value where
  /-- a Go `string` -/
  | str (s : String)
  /-- a Go `int` -/
  | int (n : Int)
  /-- a `[]byte`; `none` is the nil slice -/
  | bytes (b : Option Bytes)
  /-- a `*[]byte`; `none` is the nil pointer, `some none` points to a nil slice -/
  | bytesPtr (p : Option (Option Bytes))
  /-- a `json.RawMessage` -/
  | rawMessage (b : Bytes)
  /-- a `codes.Code` -/
  | code (c : Code)
  /-- a `Level` -/
  | level (l : Level)
  /-- a `*googleapi.Error` with its HTTP status code -/
  | googleError (httpCode : Int)
  /-- a value of a type implementing some of the capability interfaces:
  `vars` is what `ErrVars()` returns, in the order one `range` over it visits
  the entries (`[]` also when the interface is absent), `p` the other
  interfaces.  Go fixes no order for `range` over a map: the value as another
  call of `getWrapOptionsFromInterfaces` sees it is given by `Value.reranged` -/
  | obj (vars : List (String × Value)) (p : Probe)
  /-- any other value, named by a tag -/
  | other (tag : String)
deriving Repr

/-- The capability interfaces implemented by a value. -/
structure Caps where
  vars : List (String × Value) := []
  probe : Probe := {}
deriving Repr

/-- The interfaces a `Value` implements: only `obj` implements any. -/
def Value.caps : Value → Caps
  | .obj vars p => { vars := vars, probe := p }
  | _ => {}

/-- What an error value is, by identity or dynamic type. -/
inductive ErrKind where
  /-- the sentinel `context.Canceled` -/
  | contextCanceled
  /-- the sentinel `context.DeadlineExceeded` -/
  | contextDeadlineExceeded
  /-- a `*googleapi.Error` with its HTTP status code (the type has none of the
  capability interfaces) -/
  | googleapi (httpCode : Int)
  /-- any other error -/
  | other
deriving DecidableEq, Repr

/-- An error reached through the `Unwrap()` or `Cause()` method of another one:
its `Error()` text and what it is. -/
structure ErrLink where
  text : String := ""
  kind : ErrKind := .other
deriving Repr

/-- A Go `error` that is not an `*Err` and has no `*Err` in its chain. -/
structure GoError where
  /-- what `Error()` returns -/
  text : String := ""
  kind : ErrKind := .other
  /-- the capability interfaces its type implements -/
  caps : Caps := {}
  /-- the errors reached by calling `Unwrap()` or `Cause()` again and again, in
  order, none of them an `*Err` (`[]` when the error exposes neither method; a
  method that is there is taken to return a non-nil error) -/
  unwraps : List ErrLink := []
deriving Repr

/-- Go `errors.New(s)`. -/
def errorsNew (s : String) : GoError := { text := s }

/-! ## Stack snapshots (package `panicparse/stack`) -/

/-- The `stack.Location` of a call. -/
inductive Location where
  | LocationUnknown
  | GoMod
  | GOPATH
  | GoPkg
  | Stdlib
deriving DecidableEq, Repr

/-- The `stack.Func` of a call. -/
structure StackFunc where
  Complete : String := ""
  ImportPath : String := ""
  DirName : String := ""
  Name : String := ""
deriving DecidableEq, Repr

/-- One raw call record, `stack.Call`. -/
structure Call where
  Func : StackFunc := {}
  SrcName : String := ""
  Line : Int := 0
  Location : Location := .LocationUnknown
deriving DecidableEq, Repr

/-- A raw stack (`[]byte`), given by what `stack.ScanSnapshot` decodes from it:
whether it reports an error other than `io.EOF`, and the call list of each
goroutine found. -/
structure RawStack where
  scanError : Bool := false
  goroutines : List (List Call) := []
deriving DecidableEq, Repr

/-! ## Frames and the error context -/

/-- A structured detail record (`proto.Message`). -/
inductive Detail where
  /-- a `*errdetails.BadRequest` with its field violations (field, description) -/
  | badRequest (violations : List (String × String))
  /-- any other message, by its text -/
  | other (text : String)
deriving DecidableEq, Repr

/-- The Go `frame`.  `cls` is the field `class`. -/
structure frame where
  msg : String := ""
  file : String := ""
  path : String := ""
  pkg : String := ""
  fn : String := ""
  full : String := ""
  line : Int := 0
  cls : FrameClass := .unset
  vars : List (String × Value) := []
  errDetails : List Detail := []
deriving Repr

/-- The Go `Err` (without `memStats` and the fields set by report options). -/
structure Err where
  rootErr : GoError := {}
  rawStack : RawStack := {}
  frames : List frame := []
  unknownFrames : List frame := []
  currentFrameIdx : Int := 0
  /-- index in `frames` of the frame `topAppFrame` points to; `none` is nil -/
  topAppFrame : Option Nat := none
  Level : Level := 0
  code : Code := codes.OK
  tags : List (String × String) := []
  isRetriable : Bool := false
  noReport : Bool := false
  isPanic : Bool := false
  isInfra : Bool := false
  skipFrames : Int := 0
deriving Repr

/-- Go `m[k] = v` on a map. -/
def mapSet {α : Type} (m : List (String × α)) (k : String) (v : α) : List (String × α) :=
  match m with
  | [] => [(k, v)]
  | (k1, v1) :: rest => if k1 = k then (k, v) :: rest else (k1, v1) :: mapSet rest k v

/-- Go `m[k]` on a map. -/
def mapGet {α : Type} (m : List (String × α)) (k : String) : Option α :=
  match m with
  | [] => none
  | (k1, v1) :: rest => if k1 = k then some v1 else mapGet rest k

/-! ## stack.go -/

/-- Go `getPanicParseStack`: panics on a scan error, on more than one goroutine,
and (indexing `Goroutines[0]`) when there is none. -/
def getPanicParseStack (rawStack : RawStack) : Option (List Call) :=
  if rawStack.scanError then none
  else if rawStack.goroutines.length > 1 then none
  else rawStack.goroutines.head?

/-- Go `getFrameClass`. -/
def getFrameClass (call : Call) : FrameClass :=
  if call.Func.Name = "panic" then .classPanic
  else if call.Location = .Stdlib then .classStdLib
  else if stringsHasPrefix call.Func.ImportPath "go.nozzle.io/pkg" then .classPkg
  else if stringsHasPrefix call.Func.ImportPath "go.nozzle.io/vendor" then .classVendor
  else if stringsHasPrefix call.Func.ImportPath "go.nozzle.io" then .classApp
  else if call.Location = .GoPkg ∨ call.Location = .GoMod then .classVendor
  else if !stringsContains call.Func.ImportPath "." then .classStdLib
  else .classVendor

/-- Go `shouldSkipFrame`. -/
def shouldSkipFrame (call : Call) (frameCount : Nat) : Bool :=
  if frameCount > 0 then false
  else if call.Func.DirName = "e" ∧
      (call.Func.Name = "wrap" ∨ call.Func.Name = "Wrap" ∨ call.Func.Name = "New"
        ∨ call.Func.Name = "StatusToError") then true
  else if call.Func.ImportPath = "runtime/debug" ∧ call.Func.Name = "Stack" then true
  else if call.Func.DirName = "ngrpc" ∧ call.Func.Name = "contextClientUnaryInterceptor" then true
  else if call.Func.DirName = "grpc" ∧ call.Func.Name = "(*ClientConn).Invoke" then true
  else if call.Func.DirName = "mysql" ∧
      (call.Func.Name = "normalizeError" ∨
        call.Func.Name = "(*DB).ExecContext" ∨ call.Func.Name = "(*DB).QueryContext"
        ∨ call.Func.Name = "(*DB).QueryRowContext" ∨
        call.Func.Name = "(*Tx).ExecContext" ∨ call.Func.Name = "(*Tx).QueryContext"
        ∨ call.Func.Name = "(*Tx).QueryRowContext" ∨
        call.Func.Name = "(*Stmt).ExecContext" ∨ call.Func.Name = "(*Stmt).QueryContext"
        ∨ call.Func.Name = "(*Stmt).QueryRowContext") then true
  else false

/-- Go `shouldTruncateStack`. -/
def shouldTruncateStack (call : Call) : Bool :=
  call.Func.Complete = "go.nozzle.io/pkg/router.route.func1"
    ∨ call.Func.Complete = "go.nozzle.io/pkg/ngrpc.execHandler"
    ∨ call.Func.Complete = "go.nozzle.io/pkg/workers.(*worker).execUserFn"
    ∨ call.Func.Complete = "github.com/spf13/cobra.(*Command).execute"
    ∨ call.Func.Complete = "testing.tRunner"

/-- The frame that `parseStack` appends for a call. -/
def frameOfCall (call : Call) : frame :=
  { file := call.SrcName
    path := call.Func.ImportPath
    pkg := call.Func.DirName
    fn := call.Func.Name
    full := call.Func.Complete
    line := call.Line
    cls := getFrameClass call }

/-- The loop of `parseStack` over the remaining calls, `frames` being the frames
emitted so far: `continue` on a skipped call, `break` on a truncating one. -/
def parseCalls : List Call → List frame → List frame
  | [], frames => frames
  | call :: rest, frames =>
    if shouldSkipFrame call frames.length then parseCalls rest frames
    else if shouldTruncateStack call && decide (frames.length > 1) then frames
    else parseCalls rest (frames ++ [frameOfCall call])

/-- Go `parseStack`. -/
def parseStack (rawStack : RawStack) : Option (List frame) :=
  (getPanicParseStack rawStack).map (fun calls => parseCalls calls [])

/-- The loop of `findFrame` from index `i`, over the frames from `i` on. -/
def findFrameFrom (fullFnName : String) : List frame → Nat → Int
  | [], _ => -1
  | f :: rest, i => if f.full = fullFnName then (i : Int) else findFrameFrom fullFnName rest (i + 1)

/-- Go `(*Err).findFrame`.  With a negative cursor the first loop test
`i < len(err.frames)` holds and `err.frames[i]` panics. -/
def Err.findFrame (err : Err) (fullFnName : String) : Option Int :=
  if err.currentFrameIdx < 0 then none
  else some (findFrameFrom fullFnName (err.frames.drop err.currentFrameIdx.toNat)
    err.currentFrameIdx.toNat)

/-! ## errors.go : the current frame -/

/-- Go `(*Err).currentFrame`: the frame the cursor designates; panics when the
index is out of range. -/
def Err.currentFrame (err : Err) : Option frame :=
  if err.currentFrameIdx = -1 then err.unknownFrames.getLast?
  else if err.currentFrameIdx < 0 then none
  else err.frames[err.currentFrameIdx.toNat]?

/-- A write of `f` through the pointer `currentFrame` returned. -/
def Err.setCurrentFrame (err : Err) (f : frame) : Err :=
  if err.currentFrameIdx = -1 then
    { err with unknownFrames := err.unknownFrames.set (err.unknownFrames.length - 1) f }
  else
    { err with frames := err.frames.set err.currentFrameIdx.toNat f }

/-! ## wrap_options.go and interfaces.go -/

/-- The options of `wrap_options.go`, by constructor and arguments. -/
inductive WrapOption where
  | Code (code : Code)
  | Critical
  | Error
  | Warning
  | Tag (key val : String)
  | NotRetriable
  | NoReport
  | Infra
  | Stack (stack : RawStack)
  | Override (overrideErr : GoError)
  | SkipFrames (skipFrames : Int)
  | Msg (msg : String)
  | With (k : String) (v : Value)
  | FieldViolation (field description : String)
deriving Repr

/-- The part of `getWrapOptionsFromInterfaces` after `ErrVars`: the options for
`ErrTags`, `ErrMsg`, `ErrCode`, `ErrRetriable`, `ErrReportable`, `ErrInfra` and
`ErrLevel`, in that order. -/
def probeOptions (p : Probe) : List WrapOption :=
  (match p.tags with
    | some tags => tags.map (fun kv => WrapOption.Tag kv.1 kv.2)
    | none => [])
  ++ (match p.msg with
    | some m => [WrapOption.Msg m]
    | none => [])
  ++ (match p.code with
    | some c => [WrapOption.Code c]
    | none => [])
  ++ (match p.retriable with
    | some r => if !r then [WrapOption.NotRetriable] else []
    | none => [])
  ++ (match p.shouldReport with
    | some r => if !r then [WrapOption.NoReport] else []
    | none => [])
  ++ (match p.isInfra with
    | some r => if !r then [WrapOption.Infra] else []
    | none => [])
  ++ (match p.level with
    | some l =>
      if l = LevelWarning then [WrapOption.Warning]
      else if l = LevelError then [WrapOption.Error]
      else if l = LevelCritical then [WrapOption.Critical]
      else [WrapOption.With "invalidLevel" (.level l)]
    | none => [])

/-- Go `getWrapOptionsFromInterfaces`, for one call: the entries of `ErrVars()`
and `ErrTags()` come in the order this call ranges the maps. -/
def getWrapOptionsFromInterfaces (c : Caps) : List WrapOption :=
  c.vars.map (fun kv => WrapOption.With kv.1 kv.2) ++ probeOptions c.probe

/-- The conversion `With` makes before storing: a non-nil `[]byte` (or the non-nil
slice a `*[]byte` points to) becomes a `json.RawMessage` when it is valid JSON
and a `string` otherwise. -/
def Value.stored : Value → Value
  | .bytes (some b) => if b.validJSON then .rawMessage b else .str b.text
  | .bytesPtr (some (some b)) => if b.validJSON then .rawMessage b else .str b.text
  | v => v

/-- The body of the closure of `With(k, v)` after the interface check:
take the current frame and store the (converted) value under `k`. -/
def withPlain (k : String) (v : Value) (err : Err) : Option Err :=
  (err.currentFrame).map (fun f => err.setCurrentFrame { f with vars := mapSet f.vars k v.stored })

/-- The loop of `FieldViolation` over the details: the violation is appended to
every `BadRequest`. -/
def addViolation (fv : String × String) : List Detail → List Detail
  | [] => []
  | .badRequest vs :: rest => .badRequest (vs ++ [fv]) :: addViolation fv rest
  | d :: rest => d :: addViolation fv rest

/-- Whether a detail is a `*errdetails.BadRequest`. -/
def Detail.isBadRequest : Detail → Bool
  | .badRequest _ => true
  | _ => false

/-- The closure returned by each option constructor, on a context; `withFn` is
the closure of `With`. -/
def applyCore (withFn : String → Value → Err → Option Err) : WrapOption → Err → Option Err
  | .Code code, err =>
    if code = codes.OK then withFn "invalidOkCode" (.code code) err
    else
      let err := if code = codes.InvalidArgument then { err with isRetriable := false } else err
      some { err with code := code }
  | .Critical, err => some { err with Level := LevelCritical }
  | .Error, err => some { err with Level := LevelError }
  | .Warning, err => some { err with Level := LevelWarning }
  | .Tag key val, err => some { err with tags := mapSet err.tags key val }
  | .NotRetriable, err => some { err with isRetriable := false }
  | .NoReport, err => some { err with noReport := true }
  | .Infra, err => some { err with isInfra := true }
  | .Stack stack, err => some { err with rawStack := stack }
  | .Override overrideErr, err => some { err with rootErr := overrideErr }
  | .SkipFrames skipFrames, err => some { err with skipFrames := skipFrames }
  | .Msg msg, err => (err.currentFrame).map (fun f => err.setCurrentFrame { f with msg := msg })
  | .With k v, err => withFn k v err
  | .FieldViolation field description, err =>
    (err.currentFrame).map (fun f =>
      if f.errDetails.any Detail.isBadRequest then
        err.setCurrentFrame { f with errDetails := addViolation (field, description) f.errDetails }
      else
        err.setCurrentFrame
          { f with errDetails := f.errDetails ++ [.badRequest [(field, description)]] })

/-- Go `for _, opt := range opts { opt(err) }`, a panic ending the loop. -/
def applyAll (ap : WrapOption → Err → Option Err) : List WrapOption → Err → Option Err
  | [], err => some err
  | o :: os, err => (ap o err).bind (applyAll ap os)

mutual
/-- One run of the closure returned by `With(k, v)`.  When `v` implements
capability interfaces that yield options, these run and nothing is stored: first
the `With` of each entry of `ErrVars()`, then the options of the other interfaces
(whose only `With` carries a `Level`, a value without interfaces).  The maps are
ranged in the order the value lists them; a second run of the same closure is
the run of a value that `Value.reranged` relates to `v`. -/
def applyWith (k : String) : Value → Err → Option Err
  | .obj vars p, err =>
    if vars.isEmpty && (probeOptions p).isEmpty then withPlain k (.obj vars p) err
    else (applyVars vars err).bind (applyAll (applyCore withPlain) (probeOptions p))
  | .str s, err => withPlain k (.str s) err
  | .int n, err => withPlain k (.int n) err
  | .bytes b, err => withPlain k (.bytes b) err
  | .bytesPtr b, err => withPlain k (.bytesPtr b) err
  | .rawMessage b, err => withPlain k (.rawMessage b) err
  | .code c, err => withPlain k (.code c) err
  | .level l, err => withPlain k (.level l) err
  | .googleError c, err => withPlain k (.googleError c) err
  | .other t, err => withPlain k (.other t) err
/-- The `With` options made from the entries of `ErrVars()`, run in order. -/
def applyVars : List (String × Value) → Err → Option Err
  | [], err => some err
  | (k, v) :: rest, err => (applyWith k v err).bind (applyVars rest)
end

/-- Running an option: the call `opt(err)`. -/
def WrapOption.apply (o : WrapOption) (err : Err) : Option Err :=
  applyCore applyWith o err

/-- Running a list of options in order. -/
def applyOptions (opts : List WrapOption) (err : Err) : Option Err :=
  applyAll WrapOption.apply opts err

/-! ## wrap.go -/

/-- Go `(*Err).setTopAppFrame`: the loop body for the frame at index `i`. -/
def setTopAppFrameStep (err : Err) (i : Nat) (f : frame) : Err :=
  let err := if err.topAppFrame = none ∧ f.cls = .classApp then
      { err with topAppFrame := some i } else err
  if f.cls = .classPanic then { err with isPanic := true } else err

/-- The loop of `setTopAppFrame` over the frames from index `i` on. -/
def setTopAppFrameLoop : List frame → Nat → Err → Err
  | [], _, err => err
  | f :: rest, i, err => setTopAppFrameLoop rest (i + 1) (setTopAppFrameStep err i f)

/-- Go `(*Err).setTopAppFrame`; `err.frames[0]` panics on an empty list. -/
def Err.setTopAppFrame (err : Err) : Option Err :=
  match err.frames with
  | [] => none
  | _ :: _ => some (setTopAppFrameLoop err.frames 0 { err with topAppFrame := some 0 })

/-- Go `(*Err).handleSkipFrameOption`. -/
def Err.handleSkipFrameOption (err : Err) : Option Err :=
  if err.skipFrames ≥ (err.frames.length : Int) then
    WrapOption.apply (.With "invalidSkipFrameCount" (.int err.skipFrames)) err
  else if err.skipFrames > 0 then
    match err.frames[err.skipFrames.toNat]?, err.frames[0]? with
    | some mergeFrame, some f0 =>
      let mergeFrame := { mergeFrame with vars := f0.vars, msg := f0.msg, errDetails := f0.errDetails }
      Err.setTopAppFrame
        { err with frames := (err.frames.set err.skipFrames.toNat mergeFrame).drop err.skipFrames.toNat }
    | _, _ => none
  else some err

/-- The default code `newErr` sets from the raw error. -/
def defaultCode (rawErr : GoError) : Code :=
  if rawErr.kind = .contextCanceled then codes.Canceled
  else if rawErr.kind = .contextDeadlineExceeded then codes.DeadlineExceeded
  else if stringsContains rawErr.text "context canceled" then codes.Canceled
  else if stringsContains rawErr.text "deadline exceeded" then codes.DeadlineExceeded
  else codes.Unknown

/-- Go `newErr`. -/
def newErr (rawErr : GoError) (stack : RawStack) : Option Err :=
  (parseStack stack).bind (fun frames =>
    let err : Err :=
      { rootErr := rawErr
        frames := frames
        currentFrameIdx := 0
        isRetriable := true
        Level := LevelError }
    let err := { err with code := defaultCode rawErr }
    (Err.setTopAppFrame err).map (fun err => { err with rawStack := stack }))

/-- What `runtime.Caller(2)` and `runtime.FuncForPC` report about the calling site. -/
structure CallSite where
  /-- what `fn.Name()` returns -/
  name : String := ""
  filepath : String := ""
  line : Int := 0
deriving DecidableEq, Repr

/-- What `wrap` reads from the Go runtime: the calling site two levels up
(`none` when `runtime.Caller` reports `ok = false`) and `debug.Stack()`. -/
structure Runtime where
  caller : Option CallSite := none
  stack : RawStack := {}
deriving DecidableEq, Repr

/-- The error handed to `wrap`. -/
inductive ErrorValue where
  /-- an `*Err` -/
  | wrapped (err : Err)
  /-- another error in whose chain `errors.As` finds the `*Err` -/
  | chained (outer : GoError) (err : Err)
  /-- an error with no `*Err` in its chain -/
  | raw (rawErr : GoError)
deriving Repr

/-- The options `wrap` prepends for a `*googleapi.Error`. -/
def googleOptions : ErrorValue → List WrapOption
  | .chained { kind := .googleapi c, .. } _ =>
    [.Code (CodeFromHTTPStatus c), .With "googleError" (.googleError c)]
  | .raw { kind := .googleapi c, .. } =>
    [.Code (CodeFromHTTPStatus c), .With "googleError" (.googleError c)]
  | _ => []

/-- The capability interfaces of the error handed to `wrap` (`*Err` has none). -/
def ErrorValue.caps : ErrorValue → Caps
  | .wrapped _ => {}
  | .chained outer _ => outer.caps
  | .raw rawErr => rawErr.caps

/-- The unknown frame `wrap` appends; on a nil `*runtime.Func`, `Name()` is "". -/
def unknownFrame (caller : Option CallSite) : frame :=
  match caller with
  | some site => { fn := site.name, full := site.name, file := site.filepath, line := site.line }
  | none => {}

/-- The `default` case of the first switch of `wrap`: correlate the calling site. -/
def correlate (rt : Runtime) (err : Err) : Option Err :=
  match rt.caller with
  | some site =>
    (err.findFrame site.name).map (fun idx =>
      let err := { err with currentFrameIdx := idx }
      if idx ≠ -1 then err
      else { err with unknownFrames := err.unknownFrames ++ [unknownFrame rt.caller] })
  | none => some { err with unknownFrames := err.unknownFrames ++ [unknownFrame rt.caller] }

/-- The end of `wrap`: add the interface options, run all options, then either
the skip merge or the cursor advance. -/
def finishWrap (wasAlreadyWrapped : Bool) (caps : Caps) (opts : List WrapOption) (err : Err) :
    Option Err :=
  let opts := opts ++ getWrapOptionsFromInterfaces caps
  (applyOptions opts err).bind (fun err =>
    if !wasAlreadyWrapped ∧ err.skipFrames > 0 then err.handleSkipFrameOption
    else some { err with currentFrameIdx := err.currentFrameIdx + 1 })

/-- Go `wrap`. -/
def wrap (rt : Runtime) (rawErr : ErrorValue) (opts : List WrapOption) : Option Err :=
  let opts := googleOptions rawErr ++ opts
  match rawErr with
  | .wrapped err =>
    if opts.isEmpty then some { err with currentFrameIdx := err.currentFrameIdx + 1 }
    else (correlate rt err).bind (finishWrap true rawErr.caps opts)
  | .chained _ err =>
    if opts.isEmpty then some { err with currentFrameIdx := err.currentFrameIdx + 1 }
    else (correlate rt err).bind (finishWrap true rawErr.caps opts)
  | .raw r => (newErr r rt.stack).bind (finishWrap false rawErr.caps opts)

/-- Go `New`. -/
def New (rt : Runtime) (s : String) (opts : List WrapOption) : Option Err :=
  wrap rt (.raw (errorsNew s)) opts

/-- Go `Wrap`; `none` as the error is Go's nil. -/
def Wrap (rt : Runtime) (err : Option ErrorValue) (opts : List WrapOption) : Option Err :=
  match err with
  | none =>
    New rt "you tried to wrap a nil error"
      [.Code codes.DataLoss, .Critical, .NotRetriable]
  | some e => wrap rt e opts

/-! ## Derived descriptions of option lists -/

mutual
/-- The options that run when `With(k, v)` is called, nested interface options
expanded: every `With` in the result stores its value. -/
def flattenWith (k : String) : Value → List WrapOption
  | .obj vars p =>
    if vars.isEmpty && (probeOptions p).isEmpty then [.With k (.obj vars p)]
    else flattenVars vars ++ probeOptions p
  | .str s => [.With k (.str s)]
  | .int n => [.With k (.int n)]
  | .bytes b => [.With k (.bytes b)]
  | .bytesPtr b => [.With k (.bytesPtr b)]
  | .rawMessage b => [.With k (.rawMessage b)]
  | .code c => [.With k (.code c)]
  | .level l => [.With k (.level l)]
  | .googleError c => [.With k (.googleError c)]
  | .other t => [.With k (.other t)]
/-- The expansion of the `With` options made from `ErrVars()`. -/
def flattenVars : List (String × Value) → List WrapOption
  | [] => []
  | (k, v) :: rest => flattenWith k v ++ flattenVars rest
end

/-- The expansion of one option. -/
def WrapOption.flatten : WrapOption → List WrapOption
  | .With k v => flattenWith k v
  | o => [o]

/-- The expansion of an option list. -/
def flattenAll : List WrapOption → List WrapOption
  | [] => []
  | o :: os => o.flatten ++ flattenAll os

/-- What an expanded option does to the frame it targets. -/
def frameEffect : WrapOption → frame → frame
  | .Code code, f =>
    if code = codes.OK then { f with vars := mapSet f.vars "invalidOkCode" (Value.code code) } else f
  | .Msg msg, f => { f with msg := msg }
  | .With k v, f => { f with vars := mapSet f.vars k v.stored }
  | .FieldViolation field description, f =>
    if f.errDetails.any Detail.isBadRequest then
      { f with errDetails := addViolation (field, description) f.errDetails }
    else { f with errDetails := f.errDetails ++ [.badRequest [(field, description)]] }
  | _, f => f

/-- What an expanded option does to the fields of the context other than its frames. -/
def errEffect : WrapOption → Err → Err
  | .Code code, err =>
    if code = codes.OK then err
    else
      let err := if code = codes.InvalidArgument then { err with isRetriable := false } else err
      { err with code := code }
  | .Critical, err => { err with Level := LevelCritical }
  | .Error, err => { err with Level := LevelError }
  | .Warning, err => { err with Level := LevelWarning }
  | .Tag key val, err => { err with tags := mapSet err.tags key val }
  | .NotRetriable, err => { err with isRetriable := false }
  | .NoReport, err => { err with noReport := true }
  | .Infra, err => { err with isInfra := true }
  | .Stack stack, err => { err with rawStack := stack }
  | .Override overrideErr, err => { err with rootErr := overrideErr }
  | .SkipFrames skipFrames, err => { err with skipFrames := skipFrames }
  | _, err => err

/-- The identity fields of a frame (everything but `msg`, `vars`, `errDetails`). -/
structure FrameId where
  file : String
  path : String
  pkg : String
  fn : String
  full : String
  line : Int
  cls : FrameClass
deriving DecidableEq, Repr

/-- The identity of a frame. -/
def frame.ident (f : frame) : FrameId :=
  { file := f.file, path := f.path, pkg := f.pkg, fn := f.fn, full := f.full, line := f.line,
    cls := f.cls }

/-- The frame-level effect of a list of expanded options, in order. -/
def frameEffects (opts : List WrapOption) (f : frame) : frame :=
  opts.foldl (fun f o => frameEffect o f) f

/-- The context-level effect of a list of expanded options, in order. -/
def errEffects (opts : List WrapOption) (err : Err) : Err :=
  opts.foldl (fun err o => errEffect o err) err

/-- A value that `With` stores as it is: its type yields no interface option and
it is not a non-nil byte slice (nor a pointer to one). -/
def Value.plain : Value → Bool
  | .obj vars p => vars.isEmpty && (probeOptions p).isEmpty
  | .bytes (some _) => false
  | .bytesPtr (some (some _)) => false
  | _ => true

/-- The fields `newErr` gives a new context, apart from `topAppFrame` and `isPanic`. -/
structure Fresh (r : GoError) (stack : RawStack) (F : List frame) (e : Err) : Prop where
  frames : e.frames = F
  unknownFrames : e.unknownFrames = []
  currentFrameIdx : e.currentFrameIdx = 0
  skipFrames : e.skipFrames = 0
  code : e.code = defaultCode r
  Level : e.Level = LevelError
  isRetriable : e.isRetriable = true
  rootErr : e.rootErr = r
  tags : e.tags = []
  noReport : e.noReport = false
  isInfra : e.isInfra = false
  rawStack : e.rawStack = stack

/-- The expanded list of the options a call `wrap(rawErr, opts...)` runs: the
options for a `*googleapi.Error`, the caller's, then the interface options. -/
def wrapOptions (rawErr : ErrorValue) (opts : List WrapOption) : List WrapOption :=
  flattenAll (googleOptions rawErr ++ opts ++ getWrapOptionsFromInterfaces rawErr.caps)

/-- The skip count a list of options leaves in `skipFrames`, starting from `n`:
the argument of the last `SkipFrames`. -/
def skipOf (opts : List WrapOption) (n : Int) : Int :=
  opts.foldl (fun n o => match o with
    | .SkipFrames m => m
    | _ => n) n

/-- The skip count requested by the caller's options of a first wrap (0 when there
is no `SkipFrames`). -/
def requestedSkip (opts : List WrapOption) : Int := skipOf opts 0

/-- The context an `ErrorValue` already carries, if any. -/
def ErrorValue.inner : ErrorValue → Option Err
  | .wrapped err => some err
  | .chained _ err => some err
  | .raw _ => none

/-! ## The blocks of `getWrapOptionsFromInterfaces` -/

/-- The options of the `ErrTags` block. -/
def tagOptions (p : Probe) : List WrapOption :=
  match p.tags with
  | some tags => tags.map (fun kv => WrapOption.Tag kv.1 kv.2)
  | none => []

/-- The option of the `ErrMsg` block. -/
def msgOptions (p : Probe) : List WrapOption :=
  match p.msg with
  | some m => [WrapOption.Msg m]
  | none => []

/-- The option of the `ErrCode` block. -/
def codeOptions (p : Probe) : List WrapOption :=
  match p.code with
  | some c => [WrapOption.Code c]
  | none => []

/-- The options of the `ErrRetriable`, `ErrReportable` and `ErrInfra` blocks. -/
def flagOptions (p : Probe) : List WrapOption :=
  (match p.retriable with
    | some r => if !r then [WrapOption.NotRetriable] else []
    | none => [])
  ++ (match p.shouldReport with
    | some r => if !r then [WrapOption.NoReport] else []
    | none => [])
  ++ (match p.isInfra with
    | some r => if !r then [WrapOption.Infra] else []
    | none => [])

/-- The option of the `ErrLevel` block. -/
def levelOptions (p : Probe) : List WrapOption :=
  match p.level with
  | some l =>
    if l = LevelWarning then [WrapOption.Warning]
    else if l = LevelError then [WrapOption.Error]
    else if l = LevelCritical then [WrapOption.Critical]
    else [WrapOption.With "invalidLevel" (.level l)]
  | none => []

/-- Writing a list of entries into a map, in order. -/
def mapWrites {α : Type} (ws : List (String × α)) (m : List (String × α)) : List (String × α) :=
  ws.foldl (fun m w => mapSet m w.1 w.2) m

/-- The entries a list of expanded options writes into `tags`, in order. -/
def tagWrites : List WrapOption → List (String × String)
  | [] => []
  | .Tag key val :: os => (key, val) :: tagWrites os
  | _ :: os => tagWrites os

/-- The entries a list of expanded options writes into the variables of the
frame it targets, in order. -/
def varWrites : List WrapOption → List (String × Value)
  | [] => []
  | .With k v :: os => (k, v.stored) :: varWrites os
  | .Code code :: os =>
    if code = codes.OK then ("invalidOkCode", Value.code code) :: varWrites os else varWrites os
  | _ :: os => varWrites os

/-- The constructors of the options `getWrapOptionsFromInterfaces` can return. -/
def WrapOption.fromInterfaces : WrapOption → Bool
  | .Tag _ _ => true
  | .Msg _ => true
  | .Code _ => true
  | .NotRetriable => true
  | .NoReport => true
  | .Infra => true
  | .Warning => true
  | .Error => true
  | .Critical => true
  | .With _ _ => true
  | _ => false

/-- The root error a list of options leaves, starting from `r`: the argument of
the last `Override`. -/
def rootOf (opts : List WrapOption) (r : GoError) : GoError :=
  opts.foldl (fun r o => match o with
    | .Override overrideErr => overrideErr
    | _ => r) r

/-- The level a level option sets: `Critical()`, `Error()` and `Warning()` are
the level options. -/
def WrapOption.levelSet : WrapOption → Option Level
  | .Critical => some LevelCritical
  | .Error => some LevelError
  | .Warning => some LevelWarning
  | _ => none

/-- Whether a frame is classified Panic. -/
def frame.isPanicFrame (f : frame) : Bool := decide (f.cls = .classPanic)

/-- Whether a frame is classified App. -/
def frame.isAppFrame (f : frame) : Bool := decide (f.cls = .classApp)

/-! ## The decision list of the specification for frame classes -/

/-- The classification the specification words: the panic sentinel is Panic; a
record located in the standard runtime is StandardLibrary; an import path with
the internal-library prefix is InternalLibrary, with the vendored prefix Vendor,
with the application prefix App; an import path with no namespace separator is
StandardLibrary; anything else is Vendor. -/
def specFrameClass (call : Call) : FrameClass :=
  if call.Func.Name = "panic" then .classPanic
  else if call.Location = .Stdlib then .classStdLib
  else if stringsHasPrefix call.Func.ImportPath "go.nozzle.io/pkg" then .classPkg
  else if stringsHasPrefix call.Func.ImportPath "go.nozzle.io/vendor" then .classVendor
  else if stringsHasPrefix call.Func.ImportPath "go.nozzle.io" then .classApp
  else if !stringsContains call.Func.ImportPath "." then .classStdLib
  else .classVendor

/-- The records left once the skippable records at the top are dropped. -/
def afterSkipped (calls : List Call) : List Call :=
  calls.dropWhile (fun c => shouldSkipFrame c 0)

/-- The records the truncation rule keeps of a run: the first two whatever they
are, then the following ones up to the first boundary call site. -/
def beforeBoundary (run : List Call) : List Call :=
  run.take 2 ++ (run.drop 2).takeWhile (fun c => !shouldTruncateStack c)

/-! ## instrumentation.go -/

/-- The Go constant `maxErrorMutators`. -/
def maxErrorMutators : Nat := 10

/-- The Go constant `maxErrorMutatorLen`. -/
def maxErrorMutatorLen : Nat := 250

/-- A `tag.Mutator` (package opencensus): `nil` is the zero value of the
interface, `insert key value` is what `tag.Insert` returns. -/
inductive Mutator where
  | nil
  | insert (key value : String)
deriving DecidableEq, Repr

/-- The package variable `mutatorErrorOther`. -/
def mutatorErrorOther : Mutator := .insert "error" "other"

/-- The UTF-8 bytes of a character. -/
def utf8Bytes (c : Char) : List Nat :=
  let n := c.toNat
  if n < 128 then [n]
  else if n < 2048 then [192 + n / 64, 128 + n % 64]
  else if n < 65536 then [224 + n / 4096, 128 + (n / 64) % 64, 128 + n % 64]
  else [240 + n / 262144, 128 + (n / 4096) % 64, 128 + (n / 64) % 64, 128 + n % 64]

/-- The bytes of a list of characters. -/
def bytesOfChars : List Char → List Nat
  | [] => []
  | c :: cs => utf8Bytes c ++ bytesOfChars cs

/-- The bytes of a Go `string` holding the text `s` (`len` and slicing of a Go
string count bytes). -/
def goBytes (s : String) : List Nat := bytesOfChars s.toList

/-- Go `m[k]` with the `ok` result, on a map keyed by byte strings. -/
def keyGet {α : Type} (m : List (List Nat × α)) (k : List Nat) : Option α :=
  match m with
  | [] => none
  | (k1, v1) :: rest => if k1 = k then some v1 else keyGet rest k

/-- Go `m[k] = v`, on a map keyed by byte strings. -/
def keySet {α : Type} (m : List (List Nat × α)) (k : List Nat) (v : α) : List (List Nat × α) :=
  match m with
  | [] => [(k, v)]
  | (k1, v1) :: rest => if k1 = k then (k, v) :: rest else (k1, v1) :: keySet rest k v

/-- Go `Cause` on a non-nil error: the root error of an `*Err`, found directly or
(for an error that unwraps to an `*Err`) by following `Unwrap()`; for any other
error the last error its `Unwrap()`/`Cause()` chain reaches, and the error
itself when it exposes neither method. -/
def Cause : ErrorValue → GoError
  | .wrapped err => err.rootErr
  | .chained _ err => err.rootErr
  | .raw rawErr =>
    match rawErr.unwraps.getLast? with
    | some link => { text := link.text, kind := link.kind }
    | none => rawErr

/-- The message `MutatorFromError` looks up: the bytes of the root error text, cut
to `maxErrorMutatorLen` bytes. -/
def reportKey (text : String) : List Nat :=
  if (goBytes text).length > maxErrorMutatorLen then (goBytes text).take maxErrorMutatorLen
  else goBytes text

/-- Go `MutatorFromError`, on the package map `errKeys`: the mutator returned and
the new map.  With a nil error, `Cause` returns nil and `Error()` panics.  On a
miss below the limit the zero value `mut` left by the failed lookup is stored and
returned (the line that would create a mutator is commented out). -/
def MutatorFromError (errKeys : List (List Nat × Mutator)) (err : Option ErrorValue) :
    Option (Mutator × List (List Nat × Mutator)) :=
  match err with
  | none => none
  | some ev =>
    let reportErr := reportKey (Cause ev).text
    match keyGet errKeys reportErr with
    | some mutator => some (mutator, errKeys)
    | none =>
      if errKeys.length > maxErrorMutators then some (mutatorErrorOther, errKeys)
      else some (Mutator.nil, keySet errKeys reportErr Mutator.nil)

/-- A sequence of `MutatorFromError` calls: the map after the last call. -/
def mutatorCalls : List (List Nat × Mutator) → List (Option ErrorValue) →
    Option (List (List Nat × Mutator))
  | errKeys, [] => some errKeys
  | errKeys, err :: rest =>
    (MutatorFromError errKeys err).bind (fun r => mutatorCalls r.2 rest)

/-! ## Call chains -/

/-- The later calls of a call chain: `Wrap(err, With(k, v))` once per entry, each
entry giving what the runtime reports at that call, the key and the value. -/
def wrapEach : List (Runtime × String × Value) → Err → Option Err
  | [], err => some err
  | (rt, k, v) :: rest, err => (Wrap rt (some (.wrapped err)) [.With k v]).bind (wrapEach rest)

/-- A call chain: the error is created by `New(msg, With(k, v))` at the first
entry and then wrapped once per further entry, in order. -/
def wrapChain (msg : String) : List (Runtime × String × Value) → Option Err
  | [] => none
  | (rt, k, v) :: rest => (New rt msg [.With k v]).bind (wrapEach rest)

/-- The signature of the calling site the runtime reports ("" when it reports none). -/
def Runtime.callerName (rt : Runtime) : String :=
  match rt.caller with
  | some site => site.name
  | none => ""

/-! ## Example inputs -/

/-- An example stack: `debug.Stack`, `wrap` and `New` above the application
functions `inner` (which creates the error) and `outer` (its caller). -/
def exStack : RawStack :=
  { goroutines := [[
      { Func := { Complete := "runtime/debug.Stack", ImportPath := "runtime/debug",
                  DirName := "debug", Name := "Stack" },
        SrcName := "stack.go", Line := 24, Location := .Stdlib },
      { Func := { Complete := "github.com/nozzle/e.wrap", ImportPath := "github.com/nozzle/e",
                  DirName := "e", Name := "wrap" },
        SrcName := "wrap.go", Line := 52, Location := .GoMod },
      { Func := { Complete := "github.com/nozzle/e.New", ImportPath := "github.com/nozzle/e",
                  DirName := "e", Name := "New" },
        SrcName := "wrap.go", Line := 16, Location := .GoMod },
      { Func := { Complete := "go.nozzle.io/app.inner", ImportPath := "go.nozzle.io/app",
                  DirName := "app", Name := "inner" },
        SrcName := "app.go", Line := 20, Location := .GOPATH },
      { Func := { Complete := "go.nozzle.io/app.outer", ImportPath := "go.nozzle.io/app",
                  DirName := "app", Name := "outer" },
        SrcName := "app.go", Line := 10, Location := .GOPATH }]] }

/-- The frames `exStack` parses to. -/
def exFrames : List frame :=
  [{ file := "app.go", path := "go.nozzle.io/app", pkg := "app", fn := "inner",
     full := "go.nozzle.io/app.inner", line := 20, cls := .classApp },
   { file := "app.go", path := "go.nozzle.io/app", pkg := "app", fn := "outer",
     full := "go.nozzle.io/app.outer", line := 10, cls := .classApp }]

/-- What the runtime reports to a wrap called from `inner`. -/
def exInner : Runtime :=
  { caller := some { name := "go.nozzle.io/app.inner", filepath := "app.go", line := 21 }
    stack := exStack }

/-- What the runtime reports to a wrap called from `outer`. -/
def exOuter : Runtime :=
  { caller := some { name := "go.nozzle.io/app.outer", filepath := "app.go", line := 11 }
    stack := exStack }

/-- What the runtime reports to a wrap called from a function started in
another goroutine, absent from the stack of the error. -/
def exElsewhere : Runtime :=
  { caller := some { name := "go.nozzle.io/app.worker", filepath := "worker.go", line := 7 }
    stack := exStack }

/-- A context whose error was created in `inner` and whose cursor is on `outer`. -/
def exErr : Err :=
  { rootErr := errorsNew "boom", rawStack := exStack, frames := exFrames, currentFrameIdx := 1
    topAppFrame := some 0, Level := LevelError, code := codes.Unknown, isRetriable := true }

/-- A context on which frame 0 carries a message and a variable and one frame
is to be skipped. -/
def exSkipErr : Err :=
  { rootErr := errorsNew "boom", rawStack := exStack
    frames :=
      [{ file := "app.go", path := "go.nozzle.io/app", pkg := "app", fn := "inner",
         full := "go.nozzle.io/app.inner", line := 20, cls := .classApp,
         msg := "skip msg", vars := [("helper", .str "final")] },
       { file := "app.go", path := "go.nozzle.io/app", pkg := "app", fn := "outer",
         full := "go.nozzle.io/app.outer", line := 10, cls := .classApp }]
    currentFrameIdx := 0, topAppFrame := some 0, Level := LevelError, code := codes.Unknown
    isRetriable := true, skipFrames := 1 }

/-- A raw error that reports a code, a message and a level of its own. -/
def exSelfReporting : GoError :=
  { text := "row missing"
    caps := { probe := { code := some codes.NotFound, msg := some "self msg",
                         level := some LevelWarning } } }

/-- The call records of `debug.Stack`, `wrap`, `New` and `Wrap`, which the parse skips. -/
def callDebugStack : Call :=
  { Func := { Complete := "runtime/debug.Stack", ImportPath := "runtime/debug",
              DirName := "debug", Name := "Stack" },
    SrcName := "stack.go", Line := 24, Location := .Stdlib }

def callWrapLower : Call :=
  { Func := { Complete := "github.com/nozzle/e.wrap", ImportPath := "github.com/nozzle/e",
              DirName := "e", Name := "wrap" },
    SrcName := "wrap.go", Line := 52, Location := .GoMod }

def callNew : Call :=
  { Func := { Complete := "github.com/nozzle/e.New", ImportPath := "github.com/nozzle/e",
              DirName := "e", Name := "New" },
    SrcName := "wrap.go", Line := 16, Location := .GoMod }

def callWrapUpper : Call :=
  { Func := { Complete := "github.com/nozzle/e.Wrap", ImportPath := "github.com/nozzle/e",
              DirName := "e", Name := "Wrap" },
    SrcName := "wrap.go", Line := 24, Location := .GoMod }

/-- Application functions. -/
def callInner : Call :=
  { Func := { Complete := "go.nozzle.io/app.inner", ImportPath := "go.nozzle.io/app",
              DirName := "app", Name := "inner" },
    SrcName := "app.go", Line := 20, Location := .GOPATH }

def callOuter : Call :=
  { Func := { Complete := "go.nozzle.io/app.outer", ImportPath := "go.nozzle.io/app",
              DirName := "app", Name := "outer" },
    SrcName := "app.go", Line := 10, Location := .GOPATH }

def callRecoverer : Call :=
  { Func := { Complete := "go.nozzle.io/app.outer.func1", ImportPath := "go.nozzle.io/app",
              DirName := "app", Name := "outer.func1" },
    SrcName := "app.go", Line := 14, Location := .GOPATH }

/-- A function of a third-party module. -/
def callLibQuery : Call :=
  { Func := { Complete := "github.com/lib/pq.(*conn).Query", ImportPath := "github.com/lib/pq",
              DirName := "pq", Name := "(*conn).Query" },
    SrcName := "conn.go", Line := 860, Location := .GoMod }

/-- The record of the runtime function `panic`. -/
def callPanic : Call :=
  { Func := { Complete := "panic", ImportPath := "", DirName := "", Name := "panic" },
    SrcName := "panic.go", Line := 491, Location := .Stdlib }

/-- The record of the test runner, a truncation boundary. -/
def callTestRunner : Call :=
  { Func := { Complete := "testing.tRunner", ImportPath := "testing", DirName := "testing",
              Name := "tRunner" },
    SrcName := "testing.go", Line := 865, Location := .Stdlib }

/-- The record of the scheduler entry below the test runner. -/
def callGoexit : Call :=
  { Func := { Complete := "runtime.goexit", ImportPath := "runtime", DirName := "runtime",
              Name := "goexit" },
    SrcName := "asm_amd64.s", Line := 1337, Location := .Stdlib }

/-- A function of a module whose path has no dot, found in the module cache. -/
def callDotless : Call :=
  { Func := { Complete := "mymodule/util.Parse", ImportPath := "mymodule/util",
              DirName := "util", Name := "Parse" },
    SrcName := "parse.go", Line := 12, Location := .GoMod }

/-- A stack whose error is created inside a third-party module called from the
application: the first retained frame is Vendor, the second is App. -/
def exLibStack : RawStack :=
  { goroutines := [[callDebugStack, callWrapLower, callNew, callLibQuery, callOuter]] }

/-- The stack of a wrap made in a deferred function while `inner` panics. -/
def exPanicStack : RawStack :=
  { goroutines := [[callDebugStack, callWrapLower, callWrapUpper, callRecoverer, callPanic,
      callInner, callOuter]] }

/-- What the runtime reports to the wrap made in the deferred function. -/
def exRecovering : Runtime :=
  { caller := some { name := "go.nozzle.io/app.outer.func1", filepath := "app.go", line := 14 }
    stack := exPanicStack }

/-- The stack of `go e.New("x")`: the goroutine holds nothing but the package's
own entry points. -/
def exBareStack : RawStack :=
  { goroutines := [[callDebugStack, callWrapLower, callNew]] }

/-- The stack of a wrap inside a test: `Wrap` called by a helper that wraps
again, below them the test function, the test runner and the scheduler entry. -/
def exTestCalls : List Call :=
  [callDebugStack, callWrapLower, callWrapUpper, callInner, callWrapLower, callWrapUpper,
    callOuter, callTestRunner, callGoexit]

/-- The stack snapshot holding `exTestCalls`. -/
def exTestStack : RawStack := { goroutines := [exTestCalls] }

/-- A raw error whose message holds both "context canceled" and "deadline exceeded". -/
def exBothTexts : GoError :=
  errorsNew "rpc error: context canceled (context deadline exceeded)"

/-- A `*googleapi.Error` with HTTP status 503 whose message holds "deadline exceeded". -/
def exGoogleDeadline : GoError :=
  { text := "googleapi: Error 503: upstream request deadline exceeded, backendError"
    kind := .googleapi 503 }

/-- A raw error whose message holds "deadline exceeded". -/
def exDeadline : GoError := errorsNew "read tcp: i/o deadline exceeded"

/-- Eleven errors with distinct messages. -/
def exElevenErrors : List (Option ErrorValue) :=
  (List.range 11).map (fun i => some (.raw (errorsNew (String.mk [Char.ofNat (97 + i)]))))

/-! ## errors.go : the text of an error context -/

/-- Go `strings.TrimPrefix(s, p)`. -/
def stringsTrimPrefix (s p : String) : String :=
  if stringsHasPrefix s p then String.mk (s.toList.drop p.length) else s

/-- The method `String()` of `codes.Code` (package `google.golang.org/grpc/codes`). -/
def codeString (c : Code) : String :=
  if c = codes.OK then "OK"
  else if c = codes.Canceled then "Canceled"
  else if c = codes.Unknown then "Unknown"
  else if c = codes.InvalidArgument then "InvalidArgument"
  else if c = codes.DeadlineExceeded then "DeadlineExceeded"
  else if c = codes.NotFound then "NotFound"
  else if c = codes.AlreadyExists then "AlreadyExists"
  else if c = codes.PermissionDenied then "PermissionDenied"
  else if c = codes.ResourceExhausted then "ResourceExhausted"
  else if c = codes.FailedPrecondition then "FailedPrecondition"
  else if c = codes.Aborted then "Aborted"
  else if c = codes.OutOfRange then "OutOfRange"
  else if c = codes.Unimplemented then "Unimplemented"
  else if c = codes.Internal then "Internal"
  else if c = codes.Unavailable then "Unavailable"
  else if c = codes.DataLoss then "DataLoss"
  else if c = codes.Unauthenticated then "Unauthenticated"
  else "Code(" ++ toString c ++ ")"

/-- What the formatting libraries print, taken as given: `fmt` with the verb
`%#v`, the method `String()` of the values that have one, and `spew.Sdump`. -/
structure Formats where
  /-- the result of `String()` when the value implements `fmt.Stringer` -/
  stringerText : Value → Option String
  /-- the output of `%#v` for the Go string with the given bytes -/
  quoteText : List Nat → String
  /-- the output of `%#v` for a value -/
  valueText : Value → String
  /-- the output of `%#v` for the root error -/
  rootText : GoError → String
  /-- the output of `spew.Sdump` for the root error -/
  dumpText : GoError → String

def maxLogStringLen : Nat := 500

/-- The cut `if len(str) > maxLogStringLen then str[:maxLogStringLen]`, on bytes. -/
def cutLog (b : List Nat) : List Nat :=
  if b.length > maxLogStringLen then b.take maxLogStringLen else b

/-- The line `frame.String()` writes for one variable. -/
def varLine (fm : Formats) (k : String) (v : Value) : String :=
  match fm.stringerText v with
  | some str => "\n + " ++ k ++ ": " ++ fm.quoteText (cutLog (goBytes str))
  | none =>
    match v with
    | .str t => "\n + " ++ k ++ ": " ++ fm.quoteText (cutLog (goBytes t))
    | .bytes (some b) => "\n + " ++ k ++ ": " ++ fm.quoteText (cutLog (goBytes b.text))
    | .bytes none => "\n + " ++ k ++ ": " ++ fm.quoteText []
    | _ => "\n + " ++ k ++ ": " ++ fm.valueText v

/-- The loop of `frame.String()` over the variables, in the order of the range. -/
def varLines (fm : Formats) : List (String × Value) → String
  | [] => ""
  | (k, v) :: rest => varLine fm k v ++ varLines fm rest

/-- The loop of `frame.String()` over the violations of a `BadRequest`. -/
def violationLines : List (String × String) → String
  | [] => ""
  | (field, description) :: rest =>
    ("\n\t" ++ field ++ ": " ++ description) ++ violationLines rest

/-- The loop of `frame.String()` over the details. -/
def detailLines : List Detail → String
  | [] => ""
  | .badRequest vs :: rest => ("\n" ++ " + Bad Request:" ++ violationLines vs) ++ detailLines rest
  | .other t :: rest => ("\n" ++ " + Unknown ErrDetail: " ++ t) ++ detailLines rest

/-- Go `frame.String()`.  (`getBuffer`, which is not among the sources, is taken
to return an empty buffer.) -/
def frame.string (fm : Formats) (f : frame) : String :=
  (if f.msg ≠ "" then "*** " ++ f.msg ++ "\n" else "")
    ++ (f.pkg ++ "." ++ f.fn)
    ++ ("\n " ++ f.path ++ "/" ++ f.file ++ ":" ++ toString f.line)
    ++ varLines fm f.vars
    ++ detailLines f.errDetails
    ++ "\n-------------------------------"

/-- The loop of `stackframes.String()`. -/
def frameLines (fm : Formats) : List frame → String
  | [] => ""
  | f :: rest => (f.string fm ++ "\n") ++ frameLines fm rest

/-- Go `stackframes.String()`. -/
def framesString (fm : Formats) (fs : List frame) : String :=
  "-------------------------------\n" ++ frameLines fm fs

/-- Go `(*Err).githubURL`. -/
def Err.githubURL (err : Err) : String :=
  match err.frames with
  | [] => ""
  | d :: _ =>
    "https://github.com/nozzle/e/blob/" ++ "main" ++ stringsTrimPrefix d.path "github.com/nozzle/e"
      ++ "/" ++ d.file ++ "#L" ++ toString d.line

/-- Go `(*Err).Error`. -/
def Err.Error (fm : Formats) (err : Err) : String :=
  err.rootErr.text ++ "\n" ++ "\n" ++ "Error Code: " ++ codeString err.code ++ "\n"
    ++ err.githubURL ++ "\n" ++ "\n"
    ++ (if !err.isRetriable then "--- NOT RETRIABLE ---\n\n" else "")
    ++ framesString fm err.frames
    ++ (if err.unknownFrames.length > 0 then
          "\n\n--- UNKNOWN STACK FRAMES FOUND ---" ++ framesString fm err.unknownFrames
        else "")
    ++ (if !stringsHasPrefix (fm.rootText err.rootErr) "&errors.errorString" then
          "\nErr: " ++ fm.dumpText err.rootErr
        else "")

/-- The options `NewErrInvalidArg` makes from its arguments, read two by two. -/
def invalidArgOptions : List String → List WrapOption
  | field :: description :: rest =>
    .FieldViolation field description :: .With field (.str description) :: invalidArgOptions rest
  | _ => []

/-- Go `NewErrInvalidArg` (the context argument is not used). -/
def NewErrInvalidArg (rt : Runtime) (fields : List String) : Option Err :=
  if fields.length % 2 = 1 then none
  else New rt "invalid argument" (.Code codes.InvalidArgument :: invalidArgOptions fields)

/-- The (field, description) pairs of an argument list. -/
def fieldPairs : List String → List (String × String)
  | field :: description :: rest => (field, description) :: fieldPairs rest
  | _ => []

/-- Formatting functions for the examples. -/
def exFormats : Formats :=
  { stringerText := fun _ => none
    quoteText := fun b => "\"" ++ String.mk (b.map Char.ofNat) ++ "\""
    valueText := fun _ => "?"
    rootText := fun r => "&errors.errorString:" ++ r.text
    dumpText := fun r => r.text }

/-! ## errors.go : the code of an error -/

/-- Go `CodeFromError`; `none` is the nil error.  The type assertion `err.(*Err)`
holds only for an error that is itself an `*Err`. -/
def CodeFromError (err : Option ErrorValue) : Code :=
  match err with
  | none => codes.OK
  | some (.wrapped typedErr) => typedErr.code
  | some _ => codes.Unknown

/-- A raw error whose `Unwrap()` leads to one more error. -/
def exWrappedEOF : GoError :=
  { text := "read config: unexpected EOF", unwraps := [{ text := "unexpected EOF" }] }

/-- The options `FieldViolation(f1, d1), ..., FieldViolation(fn, dn)`. -/
def violationOptions (vs : List (String × String)) : List WrapOption :=
  vs.map (fun p => WrapOption.FieldViolation p.1 p.2)

/-! ## grpc.go : statuses -/

/-- One element of `st.Details()`: a decoded protocol message, the error the
decoding of a detail gave, or a value of another type. -/
inductive StatusDetail where
  | message (d : Detail)
  | parseError (text : String)
  | unknown (v : Value)
deriving Repr

/-- What `StatusToError` reads of a `*status.Status`. -/
structure Status where
  code : Code := codes.OK
  message : String := ""
  details : List StatusDetail := []
deriving Repr

/-- The loop of `StatusToError` over the details; the pointer `f` taken before
the loop is the frame the unchanged cursor designates. -/
def statusDetails : List StatusDetail → Err → Option Err
  | [], e => some e
  | .message d :: rest, e =>
    e.currentFrame.bind (fun f =>
      statusDetails rest (e.setCurrentFrame { f with errDetails := f.errDetails ++ [d] }))
  | .parseError _ :: rest, e => statusDetails rest e
  | .unknown v :: rest, e =>
    (WrapOption.apply (.With "unknown detail" v) e).bind (statusDetails rest)

/-- Go `StatusToError`: `New`, then `f := e.currentFrame()`, an empty
`f.errDetails`, and the loop over the details. -/
def StatusToError (rt : Runtime) (st : Status) : Option Err :=
  (New rt st.message [.Code st.code]).bind (fun e =>
    e.currentFrame.bind (fun f =>
      statusDetails st.details (e.setCurrentFrame { f with errDetails := [] })))

/-- Go `(*Err).Details`: the details of all frames, in frame order. -/
def Err.Details (err : Err) : List Detail :=
  err.frames.foldl (fun details f => details ++ f.errDetails) []

/-- The call record of `StatusToError`, which the parse skips. -/
def callStatusToError : Call :=
  { Func := { Complete := "github.com/nozzle/e.StatusToError",
              ImportPath := "github.com/nozzle/e", DirName := "e", Name := "StatusToError" },
    SrcName := "grpc.go", Line := 32, Location := .GoMod }

/-- What the runtime reports inside `StatusToError` called from `inner`, itself
called from `outer`. -/
def exStatusRuntime : Runtime :=
  { caller := some { name := "github.com/nozzle/e.StatusToError", filepath := "grpc.go", line := 32 }
    stack := { goroutines := [[callDebugStack, callWrapLower, callNew, callStatusToError,
      callInner, callOuter]] } }

/-- What the runtime reports inside `StatusToError` called from `inner` when
`inner` is the function its goroutine started with. -/
def exStatusEntryRuntime : Runtime :=
  { caller := some { name := "github.com/nozzle/e.StatusToError", filepath := "grpc.go", line := 32 }
    stack := { goroutines := [[callDebugStack, callWrapLower, callNew, callStatusToError,
      callInner]] } }

/-- A status with code NotFound and two protocol-message details. -/
def exStatus : Status :=
  { code := codes.NotFound, message := "no such row"
    details := [.message (.other "retry info"), .message (.badRequest [("id", "unknown")])] }

/-! ## Successive wraps of one context -/

/-- Successive calls `Wrap(err, opts...)` on one context, each with what the
runtime reports at the call and its options.  The result lists, per call, the
cursor its options run on: the cursor the correlation of the calling site leaves. -/
def wrapsFrom : List (Runtime × List WrapOption) → Err → Option (List Int)
  | [], _ => some []
  | (rt, opts) :: rest, e =>
    (correlate rt e).bind (fun c =>
      (wrap rt (.wrapped e) opts).bind (fun e1 =>
        (wrapsFrom rest e1).map (fun ts => c.currentFrameIdx :: ts)))

/-- A recursive application function. -/
def callWalk : Call :=
  { Func := { Complete := "go.nozzle.io/app.walk", ImportPath := "go.nozzle.io/app",
              DirName := "app", Name := "walk" },
    SrcName := "walk.go", Line := 30, Location := .GOPATH }

/-- The stack of an error created three levels deep in the recursion of `walk`,
which `outer` started. -/
def exRecursionStack : RawStack :=
  { goroutines := [[callDebugStack, callWrapLower, callNew, callWalk, callWalk, callWalk,
      callOuter]] }

/-- What the runtime reports to a wrap called from `walk`. -/
def exWalk : Runtime :=
  { caller := some { name := "go.nozzle.io/app.walk", filepath := "walk.go", line := 31 }
    stack := exRecursionStack }

/-- The context `New("boom")` gives at the deepest `walk`: three frames of
`walk` below `outer`, the cursor one past the origin frame. -/
def exWalkErr : Err :=
  { rootErr := errorsNew "boom", rawStack := exRecursionStack
    frames := [frameOfCall callWalk, frameOfCall callWalk, frameOfCall callWalk,
      frameOfCall callOuter]
    currentFrameIdx := 1, topAppFrame := some 0, Level := LevelError, code := codes.Unknown
    isRetriable := true }

/-! ## handler.go -/

/-- The value `recover()` returned, by the cases of the type switch of `Recover`. -/
inductive Recovered where
  /-- a `string` -/
  | text (s : String)
  /-- a `[]byte`, by the string it converts to -/
  | bytes (s : String)
  /-- an `error` -/
  | error (r : GoError)
  /-- a value of any other type -/
  | other
deriving Repr

/-- The raw error `Recover` makes of the recovered value. -/
def Recovered.rawErr : Recovered → GoError
  | .text s => errorsNew s
  | .bytes s => errorsNew s
  | .error r => r
  | .other => errorsNew "unknown panic"

/-- Go `recoverData`.  The user's function is given by what it leaves of the
context it is handed; it is taken to return. -/
structure recoverData where
  shouldReport : Bool
  shouldLog : Bool
  shouldPanic : Bool
  fn : Option (Err → Err)

/-- The recover options of `handler.go`. -/
inductive RecoverOption where
  | RecoverNoReport
  | RecoverNoLog
  | RecoverNoPanic
  | RecoverFunc (fn : Err → Err)

/-- What a recover option does to the `recoverData`. -/
def RecoverOption.run : RecoverOption → recoverData → recoverData
  | .RecoverNoReport, rd => { rd with shouldReport := false }
  | .RecoverNoLog, rd => { rd with shouldLog := false }
  | .RecoverNoPanic, rd => { rd with shouldPanic := false }
  | .RecoverFunc fn, rd => { rd with fn := some fn }

/-- Whether the option is `RecoverNoPanic()`. -/
def RecoverOption.isNoPanic : RecoverOption → Bool
  | .RecoverNoPanic => true
  | _ => false

/-- The `recoverData` of `Recover`: the options run in order on the defaults. -/
def recoverDataOf (opts : List RecoverOption) : recoverData :=
  opts.foldl (fun rd opt => opt.run rd)
    { shouldReport := true, shouldLog := true, shouldPanic := true, fn := none }

/-- The context after the user's function, when there is one, has run on it. -/
def recoverData.handed (rd : recoverData) (err : Err) : Err :=
  match rd.fn with
  | some fn => fn err
  | none => err

/-- What a call of `Recover` does: the context it built (`none` when it built
none), whether it reported and logged it, and the value it panics with (`none`
when it returns).  `Report` and `log.Println` are taken to return. -/
structure RecoverResult where
  built : Option Err := none
  reported : Bool := false
  logged : Bool := false
  panicValue : Option Err := none

/-- Go `Recover`.  `rec` is what `recover()` returns (`none` is nil: no panic in
flight), `cErr` the text of `c.Err()` (`none` is nil); the result is `none` when
a step of `Recover` itself panics. -/
def Recover (rt : Runtime) (cErr : Option String) (opts : List RecoverOption)
    (rec : Option Recovered) : Option RecoverResult :=
  match rec with
  | none => some {}
  | some x =>
    let rd := recoverDataOf opts
    (newErr x.rawErr rt.stack).bind (fun err =>
      let err := { err with Level := LevelCritical, code := codes.Internal }
      (match cErr with
        | some text => wrap rt (.wrapped err) [.With "c.Err()" (.str text)]
        | none => some err).map (fun err =>
          { built := some err, reported := rd.shouldReport, logged := rd.shouldLog
            panicValue := if rd.shouldPanic then some (rd.handed err) else none }))

/-- The call record of `Recover`. -/
def callRecover : Call :=
  { Func := { Complete := "github.com/nozzle/e.Recover", ImportPath := "github.com/nozzle/e",
              DirName := "e", Name := "Recover" },
    SrcName := "handler.go", Line := 83, Location := .GoMod }

/-- What the runtime reports inside `Recover` deferred by `inner` while `inner`
panics: the calling site two levels above `wrap` is the runtime's `panic`. -/
def exRecoverRuntime : Runtime :=
  { caller := some { name := "runtime.gopanic", filepath := "panic.go", line := 884 }
    stack := { goroutines := [[callDebugStack, callRecover, callPanic, callInner, callOuter]] } }

/-! ## Maps ranged again -/

/-- What two `range` loops over the map `ErrTags()` returns visit: the same
entries, in orders that may differ (`none`: the interface is absent). -/
def rerangedTags : Option (List (String × String)) → Option (List (String × String)) → Prop
  | some t, some t' => t.Perm t'
  | none, none => True
  | _, _ => False

/-- The value `v` as another call of `getWrapOptionsFromInterfaces` sees it: the
same methods with the same results, the maps `ErrVars()` and `ErrTags()` return
being ranged in orders that may differ from those of `v`. -/
def Value.reranged : Value → Value → Prop
  | .obj vars p, v' =>
    ∃ vars' tags', v' = .obj vars' { p with tags := tags' } ∧ vars.Perm vars'
      ∧ rerangedTags p.tags tags'
  | v, v' => v' = v

/-- The option `o` as it runs another time: the same closure, which for `With`
ranges the maps of its value again. -/
def WrapOption.reranged : WrapOption → WrapOption → Prop
  | .With k v, o' => ∃ v', o' = .With k v' ∧ v.reranged v'
  | o, o' => o' = o

/-- The maps `ErrVars()` and `ErrTags()` of the value have pairwise distinct
keys, as Go maps do, and no variable `ErrVars()` reports yields an interface
option of its own. -/
def Value.flatMaps : Value → Prop
  | .obj vars p =>
    (vars.map Prod.fst).Nodup ∧ (∀ kv ∈ vars, getWrapOptionsFromInterfaces kv.2.caps = [])
      ∧ ∀ t, p.tags = some t → (t.map Prod.fst).Nodup
  | _ => True

/-- A value reporting two variables that each report a message of their own. -/
def exTwoMessages : Value :=
  .obj [("a", .obj [] { msg := some "A" }), ("b", .obj [] { msg := some "B" })] {}

/-- The value `exTwoMessages` with its map ranged in the other order. -/
def exTwoMessagesAgain : Value :=
  .obj [("b", .obj [] { msg := some "B" }), ("a", .obj [] { msg := some "A" })] {}

/-- A value reporting two plain variables, two tags, a message and a code. -/
def exReporting : Value :=
  .obj [("a", .int 1), ("b", .str "x")]
    { msg := some "m", code := some codes.NotFound, tags := some [("t", "1"), ("u", "2")] }

/-- The value `exReporting` with both maps ranged in the other order. -/
def exReportingAgain : Value :=
  .obj [("b", .str "x"), ("a", .int 1)]
    { msg := some "m", code := some codes.NotFound, tags := some [("u", "2"), ("t", "1")] }

/-! # Auxiliary lemmas -/

/-! ## Running option lists -/

theorem applyAll_append (ap : WrapOption → Err → Option Err) (l1 l2 : List WrapOption) (e : Err) :
    applyAll ap (l1 ++ l2) e = (applyAll ap l1 e).bind (applyAll ap l2) := by
  induction l1 generalizing e with
  | nil => simp [applyAll]
  | cons o os ih =>
    simp only [List.cons_append, applyAll]
    cases h : ap o e with
    | none => simp
    | some e1 => simp [ih]

theorem applyAll_single (ap : WrapOption → Err → Option Err) (o : WrapOption) (e : Err) :
    applyAll ap [o] e = ap o e := by
  simp only [applyAll]
  cases ap o e <;> rfl

mutual
theorem applyWith_flatten (k : String) :
    ∀ (v : Value) (e : Err), applyWith k v e = applyAll (applyCore withPlain) (flattenWith k v) e
  | .obj vars p, e => by
    simp only [applyWith, flattenWith]
    split
    · rw [applyAll_single]; rfl
    · rw [applyAll_append, applyVars_flatten vars e]
  | .str s, e => by simp only [applyWith, flattenWith, applyAll_single]; rfl
  | .int n, e => by simp only [applyWith, flattenWith, applyAll_single]; rfl
  | .bytes b, e => by simp only [applyWith, flattenWith, applyAll_single]; rfl
  | .bytesPtr b, e => by simp only [applyWith, flattenWith, applyAll_single]; rfl
  | .rawMessage b, e => by simp only [applyWith, flattenWith, applyAll_single]; rfl
  | .code c, e => by simp only [applyWith, flattenWith, applyAll_single]; rfl
  | .level l, e => by simp only [applyWith, flattenWith, applyAll_single]; rfl
  | .googleError c, e => by simp only [applyWith, flattenWith, applyAll_single]; rfl
  | .other t, e => by simp only [applyWith, flattenWith, applyAll_single]; rfl
theorem applyVars_flatten :
    ∀ (vars : List (String × Value)) (e : Err),
      applyVars vars e = applyAll (applyCore withPlain) (flattenVars vars) e
  | [], e => by simp [applyVars, flattenVars, applyAll]
  | (k, v) :: rest, e => by
    simp only [applyVars, flattenVars]
    rw [applyAll_append, applyWith_flatten k v e]
    congr 1
    funext e1
    exact applyVars_flatten rest e1
end

/-- Running an option is running its expansion, each `With` storing its value. -/
theorem apply_flatten (o : WrapOption) (e : Err) :
    o.apply e = applyAll (applyCore withPlain) o.flatten e := by
  cases o with
  | With k v => exact applyWith_flatten k v e
  | Code c =>
    simp only [WrapOption.flatten, applyAll_single, WrapOption.apply, applyCore]
    split
    · simp only [applyWith]
    · rfl
  | _ => simp only [WrapOption.flatten, applyAll_single, WrapOption.apply, applyCore]

theorem applyOptions_flatten (opts : List WrapOption) (e : Err) :
    applyOptions opts e = applyAll (applyCore withPlain) (flattenAll opts) e := by
  induction opts generalizing e with
  | nil => rfl
  | cons o os ih =>
    simp only [applyOptions, applyAll, flattenAll] at ih ⊢
    rw [applyAll_append, apply_flatten]
    congr 1
    funext e1
    exact ih e1

/-! ## The current frame -/

theorem set_of_getElem? {α : Type} (l : List α) (i : Nat) (a : α) (h : l[i]? = some a) :
    l.set i a = l := by
  induction l generalizing i with
  | nil => rfl
  | cons x xs ih =>
    cases i with
    | zero => simp at h; simp [h]
    | succ n => simp at h; simp [ih n h]

theorem currentFrame_setCurrentFrame (e : Err) (f g : frame) (h : e.currentFrame = some f) :
    (e.setCurrentFrame g).currentFrame = some g := by
  unfold Err.currentFrame at h
  unfold Err.setCurrentFrame Err.currentFrame
  by_cases h1 : e.currentFrameIdx = -1
  · simp only [h1, if_true] at h ⊢
    have hne : e.unknownFrames ≠ [] := by
      intro h0; simp [h0] at h
    have hlen : 0 < e.unknownFrames.length := List.length_pos.mpr hne
    rw [List.getLast?_eq_getElem?]
    simp only [List.length_set]
    rw [List.getElem?_set_self (by omega)]
  · simp only [h1, if_false] at h ⊢
    by_cases h2 : e.currentFrameIdx < 0
    · simp [h2] at h
    · simp only [h2, if_false] at h ⊢
      have hlt : e.currentFrameIdx.toNat < e.frames.length := by
        rcases List.getElem?_eq_some_iff.mp h with ⟨hl, _⟩
        exact hl
      rw [List.getElem?_set_self hlt]

theorem setCurrentFrame_setCurrentFrame (e : Err) (f g : frame) :
    (e.setCurrentFrame f).setCurrentFrame g = e.setCurrentFrame g := by
  unfold Err.setCurrentFrame
  by_cases h1 : e.currentFrameIdx = -1
  · simp [h1, List.set_set]
  · simp [h1, List.set_set]

theorem setCurrentFrame_self (e : Err) (f : frame) (h : e.currentFrame = some f) :
    e.setCurrentFrame f = e := by
  unfold Err.currentFrame at h
  unfold Err.setCurrentFrame
  by_cases h1 : e.currentFrameIdx = -1
  · rw [if_pos h1] at h ⊢
    rw [List.getLast?_eq_getElem?] at h
    rw [set_of_getElem? _ _ _ h]
  · rw [if_neg h1] at h ⊢
    by_cases h2 : e.currentFrameIdx < 0
    · simp [h2] at h
    · rw [if_neg h2] at h
      rw [set_of_getElem? _ _ _ h]

theorem errEffect_setCurrentFrame (o : WrapOption) (e : Err) (f : frame) :
    errEffect o (e.setCurrentFrame f) = (errEffect o e).setCurrentFrame f := by
  cases o <;> simp only [errEffect, Err.setCurrentFrame] <;> (try split_ifs) <;> rfl


theorem errEffect_shape (o : WrapOption) (e : Err) :
    (errEffect o e).frames = e.frames ∧ (errEffect o e).unknownFrames = e.unknownFrames
      ∧ (errEffect o e).currentFrameIdx = e.currentFrameIdx
      ∧ (errEffect o e).topAppFrame = e.topAppFrame ∧ (errEffect o e).isPanic = e.isPanic := by
  cases o <;> simp only [errEffect] <;> (try split_ifs) <;> simp

theorem currentFrame_congr (e1 e2 : Err) (h1 : e1.frames = e2.frames)
    (h2 : e1.unknownFrames = e2.unknownFrames) (h3 : e1.currentFrameIdx = e2.currentFrameIdx) :
    e1.currentFrame = e2.currentFrame := by
  unfold Err.currentFrame
  rw [h1, h2, h3]

theorem currentFrame_errEffect (o : WrapOption) (e : Err) :
    (errEffect o e).currentFrame = e.currentFrame :=
  currentFrame_congr _ _ (errEffect_shape o e).1 (errEffect_shape o e).2.1
    (errEffect_shape o e).2.2.1

theorem errEffects_shape (l : List WrapOption) (e : Err) :
    (errEffects l e).frames = e.frames ∧ (errEffects l e).unknownFrames = e.unknownFrames
      ∧ (errEffects l e).currentFrameIdx = e.currentFrameIdx
      ∧ (errEffects l e).topAppFrame = e.topAppFrame ∧ (errEffects l e).isPanic = e.isPanic := by
  induction l generalizing e with
  | nil => simp [errEffects]
  | cons o os ih =>
    have h1 := errEffect_shape o e
    have h2 := ih (errEffect o e)
    simp only [errEffects, List.foldl_cons] at h2 ⊢
    refine ⟨h2.1.trans h1.1, h2.2.1.trans h1.2.1, h2.2.2.1.trans h1.2.2.1,
      h2.2.2.2.1.trans h1.2.2.2.1, h2.2.2.2.2.trans h1.2.2.2.2⟩

theorem errEffects_setCurrentFrame (l : List WrapOption) (e : Err) (f : frame) :
    errEffects l (e.setCurrentFrame f) = (errEffects l e).setCurrentFrame f := by
  induction l generalizing e with
  | nil => rfl
  | cons o os ih =>
    simp only [errEffects, List.foldl_cons] at ih ⊢
    rw [errEffect_setCurrentFrame, ih]

theorem errEffects_append (l1 l2 : List WrapOption) (e : Err) :
    errEffects (l1 ++ l2) e = errEffects l2 (errEffects l1 e) := by
  simp [errEffects, List.foldl_append]

theorem frameEffects_append (l1 l2 : List WrapOption) (f : frame) :
    frameEffects (l1 ++ l2) f = frameEffects l2 (frameEffects l1 f) := by
  simp [frameEffects, List.foldl_append]

theorem frameEffect_ident (o : WrapOption) (f : frame) : (frameEffect o f).ident = f.ident := by
  cases o <;> simp only [frameEffect] <;> (try split_ifs) <;> rfl

theorem frameEffects_ident (l : List WrapOption) (f : frame) :
    (frameEffects l f).ident = f.ident := by
  induction l generalizing f with
  | nil => rfl
  | cons o os ih =>
    simp only [frameEffects, List.foldl_cons] at ih ⊢
    rw [ih, frameEffect_ident]

/-- One expanded option, run on a context whose cursor designates the frame `f`,
succeeds: it is its context-level effect together with its effect on `f`. -/
theorem applyCore_effect (o : WrapOption) (e : Err) (f : frame) (h : e.currentFrame = some f) :
    applyCore withPlain o e = some ((errEffect o e).setCurrentFrame (frameEffect o f)) := by
  have hself : ∀ o1 : WrapOption, (errEffect o1 e).setCurrentFrame f = errEffect o1 e := fun o1 =>
    setCurrentFrame_self _ _ ((currentFrame_errEffect o1 e).trans h)
  cases o with
  | Code c =>
    by_cases hc : c = codes.OK
    · simp [applyCore, withPlain, errEffect, frameEffect, hc, h, Value.stored]
    · have h1 := hself (.Code c)
      simp only [errEffect, hc, if_false] at h1
      simp only [applyCore, errEffect, frameEffect, hc, if_false]
      rw [h1]
  | Msg m => simp [applyCore, errEffect, frameEffect, h]
  | With k v => simp [applyCore, withPlain, errEffect, frameEffect, h]
  | FieldViolation fd d =>
    simp only [applyCore, errEffect, frameEffect, h, Option.map_some']
    split_ifs <;> rfl
  | Critical => have h1 := hself .Critical; simp only [errEffect] at h1; simp [applyCore, errEffect, frameEffect, h1]
  | Error => have h1 := hself .Error; simp only [errEffect] at h1; simp [applyCore, errEffect, frameEffect, h1]
  | Warning => have h1 := hself .Warning; simp only [errEffect] at h1; simp [applyCore, errEffect, frameEffect, h1]
  | Tag a b => have h1 := hself (.Tag a b); simp only [errEffect] at h1; simp [applyCore, errEffect, frameEffect, h1]
  | NotRetriable => have h1 := hself .NotRetriable; simp only [errEffect] at h1; simp [applyCore, errEffect, frameEffect, h1]
  | NoReport => have h1 := hself .NoReport; simp only [errEffect] at h1; simp [applyCore, errEffect, frameEffect, h1]
  | Infra => have h1 := hself .Infra; simp only [errEffect] at h1; simp [applyCore, errEffect, frameEffect, h1]
  | Stack a => have h1 := hself (.Stack a); simp only [errEffect] at h1; simp [applyCore, errEffect, frameEffect, h1]
  | Override a => have h1 := hself (.Override a); simp only [errEffect] at h1; simp [applyCore, errEffect, frameEffect, h1]
  | SkipFrames a => have h1 := hself (.SkipFrames a); simp only [errEffect] at h1; simp [applyCore, errEffect, frameEffect, h1]

theorem applyAll_effect (l : List WrapOption) (e : Err) (f : frame) (h : e.currentFrame = some f) :
    applyAll (applyCore withPlain) l e
      = some ((errEffects l e).setCurrentFrame (frameEffects l f)) := by
  induction l generalizing e f with
  | nil => simp [applyAll, errEffects, frameEffects, setCurrentFrame_self e f h]
  | cons o os ih =>
    have h1 : ((errEffect o e).setCurrentFrame (frameEffect o f)).currentFrame
        = some (frameEffect o f) :=
      currentFrame_setCurrentFrame _ f _ ((currentFrame_errEffect o e).trans h)
    simp only [applyAll, applyCore_effect o e f h, Option.some_bind]
    rw [ih _ _ h1, errEffects_setCurrentFrame, setCurrentFrame_setCurrentFrame]
    rfl

/-- Running an option list on a context whose cursor designates the frame `f`
succeeds; the result is the context-level effect of the expanded options, with
the current frame replaced by their effect on `f`. -/
theorem applyOptions_effect (opts : List WrapOption) (e : Err) (f : frame)
    (h : e.currentFrame = some f) :
    applyOptions opts e
      = some ((errEffects (flattenAll opts) e).setCurrentFrame (frameEffects (flattenAll opts) f)) := by
  rw [applyOptions_flatten, applyAll_effect _ _ _ h]

/-! ## Parsed stacks -/

theorem parseCalls_eq (calls : List Call) (acc : List frame) :
    ∃ cs : List Call, cs.Sublist calls ∧ parseCalls calls acc = acc ++ cs.map frameOfCall := by
  induction calls generalizing acc with
  | nil => exact ⟨[], List.Sublist.refl _, by simp [parseCalls]⟩
  | cons c rest ih =>
    simp only [parseCalls]
    split_ifs with h1 h2
    · obtain ⟨cs, hs, he⟩ := ih acc
      exact ⟨cs, hs.cons c, he⟩
    · exact ⟨[], List.nil_sublist _, by simp⟩
    · obtain ⟨cs, hs, he⟩ := ih (acc ++ [frameOfCall c])
      exact ⟨c :: cs, hs.cons₂ c, by simp [he]⟩

/-- Every frame of a parsed stack is the frame of one of its call records, so it
carries no message, no variable and no detail. -/
theorem parseStack_frames (rawStack : RawStack) (F : List frame) (h : parseStack rawStack = some F) :
    ∀ f ∈ F, f.msg = "" ∧ f.vars = [] ∧ f.errDetails = [] := by
  unfold parseStack at h
  cases hc : getPanicParseStack rawStack with
  | none => simp [hc] at h
  | some calls =>
    simp only [hc, Option.map_some', Option.some.injEq] at h
    obtain ⟨cs, _, he⟩ := parseCalls_eq calls []
    rw [he] at h
    intro f hf
    rw [← h] at hf
    simp only [List.nil_append, List.mem_map] at hf
    obtain ⟨c, _, rfl⟩ := hf
    simp [frameOfCall]

/-! ## Plain values -/

theorem applyWith_plain (k : String) (v : Value) (e : Err) (hv : v.plain = true) :
    applyWith k v e = withPlain k v e := by
  cases v with
  | obj vars p =>
    simp only [Value.plain] at hv
    simp only [applyWith, hv, if_true]
  | _ => simp only [applyWith]

theorem stored_plain (v : Value) (hv : v.plain = true) : v.stored = v := by
  cases v with
  | bytes b => cases b with
    | none => rfl
    | some b => simp [Value.plain] at hv
  | bytesPtr p => cases p with
    | none => rfl
    | some q => cases q with
      | none => rfl
      | some b => simp [Value.plain] at hv
  | _ => rfl

theorem getElem?_append_cons {α : Type} (done : List α) (f : α) (todo : List α) :
    (done ++ f :: todo)[done.length]? = some f := by
  induction done with
  | nil => simp
  | cons x xs ih => simpa using ih

theorem set_append_cons {α : Type} (done : List α) (f g : α) (todo : List α) :
    (done ++ f :: todo).set done.length g = done ++ g :: todo := by
  induction done with
  | nil => rfl
  | cons x xs ih => simp [ih]

theorem findFrameFrom_head (name : String) (f : frame) (rest : List frame) (i : Nat)
    (h : f.full = name) : findFrameFrom name (f :: rest) i = (i : Int) := by
  simp [findFrameFrom, h]

/-- A wrap with one plain `With`, made from the function of the frame at the
cursor, stores the variable on that frame and moves the cursor past it. -/
theorem Wrap_at_cursor (e : Err) (rt : Runtime) (k : String) (v : Value)
    (done todo : List frame) (f : frame)
    (hfr : e.frames = done ++ f :: todo) (hidx : e.currentFrameIdx = (done.length : Int))
    (hsite : rt.callerName = f.full) (hcaller : rt.caller.isSome = true) (hv : v.plain = true) :
    Wrap rt (some (.wrapped e)) [.With k v]
      = some { e with frames := done ++ { f with vars := mapSet f.vars k v } :: todo
                      currentFrameIdx := (done.length : Int) + 1 } := by
  cases hc : rt.caller with
  | none => simp [hc] at hcaller
  | some site =>
    have hname : site.name = f.full := by simpa [Runtime.callerName, hc] using hsite
    have hfind : e.findFrame site.name = some (done.length : Int) := by
      unfold Err.findFrame
      have hnn : ¬ e.currentFrameIdx < 0 := by omega
      rw [if_neg hnn, hidx, hfr]
      simp [findFrameFrom, hname]
    have hne : ((done.length : Int) ≠ -1) := by omega
    have hcur : ({ e with currentFrameIdx := (done.length : Int) } : Err).currentFrame = some f := by
      unfold Err.currentFrame
      simp only [hne, if_false, hfr]
      have : ¬ ((done.length : Int) < 0) := by omega
      simp only [this, if_false, Int.toNat_ofNat]
      exact getElem?_append_cons done f todo
    simp only [Wrap, wrap, googleOptions, List.nil_append, List.isEmpty_cons, Bool.false_eq_true,
      if_false, correlate, hc, hfind, Option.map_some', Option.some_bind, finishWrap,
      ErrorValue.caps, getWrapOptionsFromInterfaces, probeOptions, List.map_nil, List.append_nil,
      applyOptions, applyAll, WrapOption.apply, applyCore, applyWith_plain k v _ hv, withPlain,
      hne, ne_eq, not_false_eq_true, if_true, hcur, stored_plain v hv]
    simp [Err.setCurrentFrame, hne, hfr, set_append_cons]

/-! ## The first wrap -/

theorem setTopAppFrameLoop_shape (l : List frame) (i : Nat) (e : Err) :
    (setTopAppFrameLoop l i e).frames = e.frames
      ∧ (setTopAppFrameLoop l i e).unknownFrames = e.unknownFrames
      ∧ (setTopAppFrameLoop l i e).currentFrameIdx = e.currentFrameIdx
      ∧ (setTopAppFrameLoop l i e).skipFrames = e.skipFrames
      ∧ (setTopAppFrameLoop l i e).code = e.code
      ∧ (setTopAppFrameLoop l i e).Level = e.Level
      ∧ (setTopAppFrameLoop l i e).isRetriable = e.isRetriable
      ∧ (setTopAppFrameLoop l i e).rootErr = e.rootErr
      ∧ (setTopAppFrameLoop l i e).tags = e.tags
      ∧ (setTopAppFrameLoop l i e).noReport = e.noReport
      ∧ (setTopAppFrameLoop l i e).isInfra = e.isInfra
      ∧ (setTopAppFrameLoop l i e).rawStack = e.rawStack := by
  induction l generalizing i e with
  | nil => simp [setTopAppFrameLoop]
  | cons f rest ih =>
    simp only [setTopAppFrameLoop]
    have h := ih (i + 1) (setTopAppFrameStep e i f)
    have hs : (setTopAppFrameStep e i f).frames = e.frames
        ∧ (setTopAppFrameStep e i f).unknownFrames = e.unknownFrames
        ∧ (setTopAppFrameStep e i f).currentFrameIdx = e.currentFrameIdx
        ∧ (setTopAppFrameStep e i f).skipFrames = e.skipFrames
        ∧ (setTopAppFrameStep e i f).code = e.code
        ∧ (setTopAppFrameStep e i f).Level = e.Level
        ∧ (setTopAppFrameStep e i f).isRetriable = e.isRetriable
        ∧ (setTopAppFrameStep e i f).rootErr = e.rootErr
        ∧ (setTopAppFrameStep e i f).tags = e.tags
        ∧ (setTopAppFrameStep e i f).noReport = e.noReport
        ∧ (setTopAppFrameStep e i f).isInfra = e.isInfra
        ∧ (setTopAppFrameStep e i f).rawStack = e.rawStack := by
      simp only [setTopAppFrameStep]
      split_ifs <;> simp
    obtain ⟨a1, a2, a3, a4, a5, a6, a7, a8, a9, a10, a11, a12⟩ := h
    obtain ⟨b1, b2, b3, b4, b5, b6, b7, b8, b9, b10, b11, b12⟩ := hs
    exact ⟨a1.trans b1, a2.trans b2, a3.trans b3, a4.trans b4, a5.trans b5, a6.trans b6,
      a7.trans b7, a8.trans b8, a9.trans b9, a10.trans b10, a11.trans b11, a12.trans b12⟩

/-- When the stack parses to at least one frame, `newErr` returns a context. -/
theorem newErr_fresh (r : GoError) (stack : RawStack) (F : List frame)
    (hparse : parseStack stack = some F) (hne : F ≠ []) :
    ∃ e, newErr r stack = some e ∧ Fresh r stack F e := by
  cases F with
  | nil => exact absurd rfl hne
  | cons f0 rest =>
    simp only [newErr, hparse, Option.some_bind, Err.setTopAppFrame, Option.map_some']
    refine ⟨_, rfl, ?_⟩
    obtain ⟨a1, a2, a3, a4, a5, a6, a7, a8, a9, a10, a11, _⟩ :=
      setTopAppFrameLoop_shape (f0 :: rest) 0
        { rootErr := r, frames := f0 :: rest, currentFrameIdx := 0, isRetriable := true,
          Level := LevelError, code := defaultCode r, topAppFrame := some 0 }
    exact ⟨a1, a2, a3, a4, a5, a6, a7, a8, a9, a10, a11, rfl⟩

theorem Fresh.currentFrame {r : GoError} {stack : RawStack} {f0 : frame} {rest : List frame}
    {e : Err} (h : Fresh r stack (f0 :: rest) e) : e.currentFrame = some f0 := by
  unfold Err.currentFrame
  rw [h.currentFrameIdx, h.frames]
  simp

/-- The first wrap of a raw error: the options run on the new context with the
cursor on frame 0; then the skip merge when a skip count was left, the cursor
advance otherwise. -/
theorem wrap_raw_eq (rt : Runtime) (r : GoError) (opts : List WrapOption) (e0 : Err) (f0 : frame)
    (h0 : newErr r rt.stack = some e0) (hcur : e0.currentFrame = some f0) :
    wrap rt (.raw r) opts =
      if ((errEffects (wrapOptions (.raw r) opts) e0).setCurrentFrame
            (frameEffects (wrapOptions (.raw r) opts) f0)).skipFrames > 0 then
        ((errEffects (wrapOptions (.raw r) opts) e0).setCurrentFrame
            (frameEffects (wrapOptions (.raw r) opts) f0)).handleSkipFrameOption
      else
        some { (errEffects (wrapOptions (.raw r) opts) e0).setCurrentFrame
            (frameEffects (wrapOptions (.raw r) opts) f0) with
          currentFrameIdx := ((errEffects (wrapOptions (.raw r) opts) e0).setCurrentFrame
            (frameEffects (wrapOptions (.raw r) opts) f0)).currentFrameIdx + 1 } := by
  simp only [wrap, h0, Option.some_bind, finishWrap, applyOptions_effect _ _ _ hcur, wrapOptions,
    ErrorValue.caps, List.append_assoc, Bool.not_false, true_and]

theorem skipFrames_setCurrentFrame (e : Err) (f : frame) :
    (e.setCurrentFrame f).skipFrames = e.skipFrames := by
  unfold Err.setCurrentFrame
  split_ifs <;> rfl

theorem currentFrameIdx_setCurrentFrame (e : Err) (f : frame) :
    (e.setCurrentFrame f).currentFrameIdx = e.currentFrameIdx := by
  unfold Err.setCurrentFrame
  split_ifs <;> rfl

theorem flattenWith_plain (k : String) (v : Value) (hv : v.plain = true) :
    flattenWith k v = [.With k v] := by
  cases v with
  | obj vars p =>
    simp only [Value.plain] at hv
    simp only [flattenWith, hv, if_true]
  | _ => simp only [flattenWith]

/-! ## Maps -/

theorem mapGet_mapSet {α : Type} (m : List (String × α)) (k : String) (v : α) :
    mapGet (mapSet m k v) k = some v := by
  induction m with
  | nil => simp [mapSet, mapGet]
  | cons kv rest ih =>
    obtain ⟨k1, v1⟩ := kv
    by_cases h : k1 = k
    · simp [mapSet, mapGet, h]
    · simp [mapSet, mapGet, h, ih]

theorem mapGet_mapSet_ne {α : Type} (m : List (String × α)) (k k2 : String) (v : α)
    (h : k2 ≠ k) : mapGet (mapSet m k v) k2 = mapGet m k2 := by
  induction m with
  | nil => simp [mapSet, mapGet, Ne.symm h]
  | cons kv rest ih =>
    obtain ⟨k1, v1⟩ := kv
    by_cases h1 : k1 = k
    · subst h1
      simp [mapSet, mapGet, Ne.symm h]
    · by_cases h2 : k1 = k2
      · subst h2
        simp [mapSet, mapGet, h1]
      · simp [mapSet, mapGet, h1, h2, ih]

/-! ## findFrame -/

theorem findFrameFrom_spec (s : String) (l : List frame) (base : Nat) :
    (findFrameFrom s l base = -1 ∧ ∀ f ∈ l, f.full ≠ s)
    ∨ ∃ n f, findFrameFrom s l base = ((base + n : Nat) : Int) ∧ l[n]? = some f ∧ f.full = s
        ∧ ∀ m g, m < n → l[m]? = some g → g.full ≠ s := by
  induction l generalizing base with
  | nil => left; simp [findFrameFrom]
  | cons f rest ih =>
    by_cases h : f.full = s
    · right
      refine ⟨0, f, by simp [findFrameFrom, h], by simp, h, ?_⟩
      intro m g hm
      omega
    · rcases ih (base + 1) with ⟨h1, h2⟩ | ⟨n, g, h1, h2, h3, h4⟩
      · left
        refine ⟨by simp [findFrameFrom, h, h1], ?_⟩
        intro g hg
        rcases List.mem_cons.mp hg with rfl | hg
        · exact h
        · exact h2 g hg
      · right
        refine ⟨n + 1, g, ?_, by simpa using h2, h3, ?_⟩
        · simp only [findFrameFrom, h, if_false, h1]
          congr 1
          omega
        · intro m g1 hm hg1
          cases m with
          | zero =>
            simp at hg1
            rw [← hg1]
            exact h
          | succ m =>
            simp at hg1
            exact h4 m g1 (by omega) hg1

/-! ## Skip counts -/

theorem skipOf_append (l1 l2 : List WrapOption) (n : Int) :
    skipOf (l1 ++ l2) n = skipOf l2 (skipOf l1 n) := by
  simp [skipOf, List.foldl_append]

theorem skipOf_of_no_skip (l : List WrapOption) (n : Int)
    (h : ∀ o ∈ l, ∀ m, o ≠ WrapOption.SkipFrames m) : skipOf l n = n := by
  induction l generalizing n with
  | nil => rfl
  | cons o os ih =>
    have ho := h o (List.mem_cons_self _ _)
    have hos : skipOf os n = n := ih n (fun o1 h1 => h o1 (List.mem_cons_of_mem _ h1))
    cases o with
    | SkipFrames m => exact absurd rfl (ho m)
    | _ => simpa [skipOf] using hos

theorem probeOptions_no_skip (p : Probe) :
    ∀ o ∈ probeOptions p, ∀ m, o ≠ WrapOption.SkipFrames m := by
  intro o ho m heq
  subst heq
  simp only [probeOptions, List.mem_append] at ho
  rcases ho with (((((h | h) | h) | h) | h) | h) | h
  · split at h <;> simp at h
  · split at h <;> simp at h
  · split at h <;> simp at h
  · split at h
    · split_ifs at h <;> simp at h
    · simp at h
  · split at h
    · split_ifs at h <;> simp at h
    · simp at h
  · split at h
    · split_ifs at h <;> simp at h
    · simp at h
  · split at h
    · split_ifs at h <;> simp at h
    · simp at h

mutual
theorem flattenWith_no_skip (k : String) :
    ∀ (v : Value) (n : Int), skipOf (flattenWith k v) n = n
  | .obj vars p, n => by
    simp only [flattenWith]
    split
    · rfl
    · rw [skipOf_append, flattenVars_no_skip vars n,
        skipOf_of_no_skip _ _ (probeOptions_no_skip p)]
  | .str s, n => rfl
  | .int m, n => rfl
  | .bytes b, n => rfl
  | .bytesPtr b, n => rfl
  | .rawMessage b, n => rfl
  | .code c, n => rfl
  | .level l, n => rfl
  | .googleError c, n => rfl
  | .other t, n => rfl
theorem flattenVars_no_skip :
    ∀ (vars : List (String × Value)) (n : Int), skipOf (flattenVars vars) n = n
  | [], n => rfl
  | (k, v) :: rest, n => by
    simp only [flattenVars]
    rw [skipOf_append, flattenWith_no_skip k v n, flattenVars_no_skip rest n]
end

theorem skipOf_flatten (o : WrapOption) (n : Int) : skipOf o.flatten n = skipOf [o] n := by
  cases o with
  | With k v => simpa [WrapOption.flatten, skipOf] using flattenWith_no_skip k v n
  | _ => rfl

theorem skipOf_flattenAll (opts : List WrapOption) (n : Int) :
    skipOf (flattenAll opts) n = skipOf opts n := by
  induction opts generalizing n with
  | nil => rfl
  | cons o os ih =>
    simp only [flattenAll]
    rw [skipOf_append, ih, skipOf_flatten]
    rfl

theorem skipOf_interfaces (c : Caps) (n : Int) :
    skipOf (getWrapOptionsFromInterfaces c) n = n := by
  apply skipOf_of_no_skip
  intro o ho m heq
  subst heq
  simp only [getWrapOptionsFromInterfaces, List.mem_append, List.mem_map] at ho
  rcases ho with ⟨kv, _, h⟩ | h
  · cases h
  · exact probeOptions_no_skip c.probe _ h m rfl

theorem skipOf_google (ev : ErrorValue) (n : Int) : skipOf (googleOptions ev) n = n := by
  unfold googleOptions
  split <;> rfl

/-- The skip count left by all the options of a wrap is the one its caller requested. -/
theorem skipOf_wrapOptions (ev : ErrorValue) (opts : List WrapOption) (n : Int) :
    skipOf (wrapOptions ev opts) n = skipOf opts n := by
  simp only [wrapOptions, skipOf_flattenAll, skipOf_append, skipOf_interfaces, skipOf_google]

theorem errEffects_skipFrames (l : List WrapOption) (e : Err) :
    (errEffects l e).skipFrames = skipOf l e.skipFrames := by
  induction l generalizing e with
  | nil => rfl
  | cons o os ih =>
    simp only [errEffects, skipOf, List.foldl_cons] at ih ⊢
    rw [ih]
    cases o <;> first | rfl | (simp only [errEffect]; split_ifs <;> rfl)

/-! ## The skip merge -/

theorem drop_set_self {α : Type} (l : List α) (n : Nat) (a : α) (h : n < l.length) :
    (l.set n a).drop n = a :: l.drop (n + 1) := by
  induction l generalizing n with
  | nil => simp at h
  | cons x xs ih =>
    cases n with
    | zero => simp
    | succ m =>
      simp only [List.length_cons, Nat.add_lt_add_iff_right] at h
      simpa using ih m h

/-- The skip merge with a valid count: the frame at the skip count takes the
payload of frame 0 and becomes the first frame. -/
theorem handleSkip_valid (e : Err) (n : Nat) (hn : e.skipFrames = (n : Int)) (h0 : 0 < n)
    (hlt : n < e.frames.length) :
    ∃ f0 fn, e.frames[0]? = some f0 ∧ e.frames[n]? = some fn
      ∧ e.handleSkipFrameOption
        = some (setTopAppFrameLoop
            ({ fn with vars := f0.vars, msg := f0.msg, errDetails := f0.errDetails }
              :: e.frames.drop (n + 1)) 0
            { e with
              frames := { fn with vars := f0.vars, msg := f0.msg, errDetails := f0.errDetails }
                :: e.frames.drop (n + 1)
              topAppFrame := some 0 }) := by
  have h0len : 0 < e.frames.length := by omega
  refine ⟨e.frames[0], e.frames[n], List.getElem?_eq_getElem h0len,
    List.getElem?_eq_getElem hlt, ?_⟩
  unfold Err.handleSkipFrameOption
  have h1 : ¬ (e.skipFrames ≥ (e.frames.length : Int)) := by omega
  have h2 : e.skipFrames > 0 := by omega
  rw [if_neg h1, if_pos h2, hn]
  simp only [Int.toNat_ofNat, List.getElem?_eq_getElem hlt, List.getElem?_eq_getElem h0len,
    drop_set_self _ _ _ hlt, Err.setTopAppFrame]

/-- The skip merge with a count that is not below the number of frames: the
diagnostic variable is stored on the current frame. -/
theorem handleSkip_invalid (e : Err) (f : frame) (hcur : e.currentFrame = some f)
    (hge : e.skipFrames ≥ (e.frames.length : Int)) :
    e.handleSkipFrameOption
      = some (e.setCurrentFrame
          { f with vars := mapSet f.vars "invalidSkipFrameCount" (Value.int e.skipFrames) }) := by
  unfold Err.handleSkipFrameOption
  rw [if_pos hge]
  simp [WrapOption.apply, applyCore, applyWith, withPlain, hcur, Value.stored]

/-- On a context with the cursor on frame 0 the skip merge returns: the cursor
stays 0, the new frame 0 carries the message of the old one, and the fields
of the context other than frames and `topAppFrame`, `isPanic` are unchanged. -/
theorem handleSkip_total (e : Err) (f0 : frame) (rest : List frame)
    (hfr : e.frames = f0 :: rest) (hidx : e.currentFrameIdx = 0) :
    ∃ e1 g tl, e.handleSkipFrameOption = some e1 ∧ e1.frames = g :: tl ∧ g.msg = f0.msg
      ∧ e1.currentFrameIdx = 0 ∧ e1.unknownFrames = e.unknownFrames
      ∧ e1.code = e.code ∧ e1.Level = e.Level ∧ e1.isRetriable = e.isRetriable
      ∧ e1.isInfra = e.isInfra ∧ e1.noReport = e.noReport ∧ e1.tags = e.tags
      ∧ e1.rootErr = e.rootErr ∧ e1.skipFrames = e.skipFrames := by
  have hcur : e.currentFrame = some f0 := by
    unfold Err.currentFrame
    rw [hidx, hfr]
    simp
  by_cases hge : e.skipFrames ≥ (e.frames.length : Int)
  · refine ⟨_, { f0 with vars := mapSet f0.vars "invalidSkipFrameCount" (Value.int e.skipFrames) },
      rest, handleSkip_invalid e f0 hcur hge, ?_⟩
    simp [Err.setCurrentFrame, hidx, hfr]
  · by_cases hpos : e.skipFrames > 0
    · obtain ⟨n, hn⟩ : ∃ n : Nat, e.skipFrames = (n : Int) := ⟨e.skipFrames.toNat, by omega⟩
      obtain ⟨g0, gn, hg0, hgn, heq⟩ := handleSkip_valid e n hn (by omega) (by omega)
      have hg : g0 = f0 := by
        rw [hfr] at hg0
        simpa using hg0.symm
      obtain ⟨a1, a2, a3, a4, a5, a6, a7, a8, a9, a10, a11, _⟩ :=
        setTopAppFrameLoop_shape
          ({ gn with vars := g0.vars, msg := g0.msg, errDetails := g0.errDetails }
              :: e.frames.drop (n + 1)) 0
          { e with
            frames := { gn with vars := g0.vars, msg := g0.msg, errDetails := g0.errDetails }
              :: e.frames.drop (n + 1)
            topAppFrame := some 0 }
      refine ⟨_, _, _, heq, a1, ?_, a3.trans hidx, a2, a5, a6, a7, a11, a10, a9, a8, a4⟩
      simp [hg]
    · refine ⟨e, f0, rest, ?_, hfr, rfl, hidx, rfl, rfl, rfl, rfl, rfl, rfl, rfl, rfl, rfl⟩
      unfold Err.handleSkipFrameOption
      rw [if_neg hge, if_neg hpos]

/-! ## Wraps of an already wrapped error -/

/-- A wrap of an `*Err` with options, once the calling site is correlated and the
cursor designates the frame `f`. -/
theorem wrap_wrapped_eq (rt : Runtime) (e : Err) (opts : List WrapOption) (e1 : Err) (f : frame)
    (hopts : opts ≠ []) (hcorr : correlate rt e = some e1) (hcur : e1.currentFrame = some f) :
    wrap rt (.wrapped e) opts
      = some { (errEffects (wrapOptions (.wrapped e) opts) e1).setCurrentFrame
                (frameEffects (wrapOptions (.wrapped e) opts) f) with
          currentFrameIdx := e1.currentFrameIdx + 1 } := by
  have hne : (opts.isEmpty) = false := by
    cases opts with
    | nil => exact absurd rfl hopts
    | cons o os => rfl
  simp only [wrap, googleOptions, List.nil_append, hne, Bool.false_eq_true, if_false, hcorr,
    Option.some_bind, finishWrap, applyOptions_effect _ _ _ hcur, wrapOptions, ErrorValue.caps,
    Bool.not_true, false_and, currentFrameIdx_setCurrentFrame, (errEffects_shape _ _).2.2.1]

/-- Correlation of a calling site that matches no frame at or after the cursor. -/
theorem correlate_miss (rt : Runtime) (e : Err) (site : CallSite) (hcaller : rt.caller = some site)
    (hfind : e.findFrame site.name = some (-1)) :
    correlate rt e
      = some { e with currentFrameIdx := -1
                      unknownFrames := e.unknownFrames ++ [unknownFrame (some site)] } := by
  simp [correlate, hcaller, hfind]

/-! ## The cursor is not moved by options -/

theorem applyCore_idx (o : WrapOption) (e e1 : Err) (h : applyCore withPlain o e = some e1) :
    e1.currentFrameIdx = e.currentFrameIdx := by
  cases hc : e.currentFrame with
  | some f =>
    rw [applyCore_effect o e f hc] at h
    cases h
    rw [currentFrameIdx_setCurrentFrame, (errEffect_shape o e).2.2.1]
  | none =>
    cases o with
    | Code c =>
      by_cases hcode : c = codes.OK
      · simp [applyCore, withPlain, hcode, hc] at h
      · simp only [applyCore, hcode, if_false, Option.some.injEq] at h
        rw [← h]
        split_ifs <;> rfl
    | Msg m => simp [applyCore, hc] at h
    | With k v => simp [applyCore, withPlain, hc] at h
    | FieldViolation a b => simp [applyCore, hc] at h
    | _ =>
      simp only [applyCore, Option.some.injEq] at h
      rw [← h]

theorem applyAll_idx (l : List WrapOption) (e e1 : Err)
    (h : applyAll (applyCore withPlain) l e = some e1) :
    e1.currentFrameIdx = e.currentFrameIdx := by
  induction l generalizing e with
  | nil =>
    simp only [applyAll, Option.some.injEq] at h
    rw [h]
  | cons o os ih =>
    simp only [applyAll] at h
    cases h1 : applyCore withPlain o e with
    | none => simp [h1] at h
    | some e2 =>
      simp only [h1, Option.some_bind] at h
      rw [ih e2 h, applyCore_idx o e e2 h1]

/-- Running options never moves the cursor. -/
theorem applyOptions_idx (opts : List WrapOption) (e e1 : Err) (h : applyOptions opts e = some e1) :
    e1.currentFrameIdx = e.currentFrameIdx := by
  rw [applyOptions_flatten] at h
  exact applyAll_idx _ e e1 h

theorem frames_setCurrentFrame_zero (e : Err) (f f0 : frame) (rest : List frame)
    (hidx : e.currentFrameIdx = 0) (hfr : e.frames = f0 :: rest) :
    (e.setCurrentFrame f).frames = f :: rest
      ∧ (e.setCurrentFrame f).unknownFrames = e.unknownFrames := by
  simp [Err.setCurrentFrame, hidx, hfr]

/-! ## Correlation -/

theorem findFrame_cases (e : Err) (s : String) (hcur : 0 ≤ e.currentFrameIdx) :
    (e.findFrame s = some (-1)
      ∧ ∀ (i : Nat) (f : frame), e.currentFrameIdx ≤ (i : Int) → e.frames[i]? = some f →
          f.full ≠ s)
    ∨ ∃ (i : Nat) (f : frame), e.findFrame s = some (i : Int) ∧ e.frames[i]? = some f
        ∧ f.full = s ∧ e.currentFrameIdx ≤ (i : Int) := by
  obtain ⟨c, hc⟩ : ∃ c : Nat, e.currentFrameIdx = (c : Int) := ⟨e.currentFrameIdx.toNat, by omega⟩
  have hfind : e.findFrame s = some (findFrameFrom s (e.frames.drop c) c) := by
    unfold Err.findFrame
    have : ¬ e.currentFrameIdx < 0 := by omega
    rw [if_neg this, hc]
    rfl
  rcases findFrameFrom_spec s (e.frames.drop c) c with ⟨h1, h2⟩ | ⟨n, f, h1, h2, h3, _⟩
  · left
    refine ⟨by rw [hfind, h1], ?_⟩
    intro i f hi hf
    apply h2 f
    have : (e.frames.drop c)[i - c]? = some f := by
      rw [List.getElem?_drop, ← hf]
      congr 1
      omega
    exact List.getElem?_mem this
  · right
    rw [List.getElem?_drop] at h2
    exact ⟨c + n, f, by rw [hfind, h1], h2, h3, by omega⟩

theorem findFrame_miss (e : Err) (s : String) (hcur : 0 ≤ e.currentFrameIdx)
    (hmiss : ∀ (i : Nat) (f : frame),
      e.currentFrameIdx ≤ (i : Int) → e.frames[i]? = some f → f.full ≠ s) :
    e.findFrame s = some (-1) := by
  rcases findFrame_cases e s hcur with ⟨h, _⟩ | ⟨i, f, _, h2, h3, h4⟩
  · exact h
  · exact absurd h3 (hmiss i f h4 h2)

/-- A wrap of an `*Err` with options from a known calling site, the cursor not
being negative: `findFrame` returns an index `r`, the cursor is set to it and
designates a frame (that of index `r`, or the new unknown frame when `r = -1`),
the options run on it, and the cursor ends at `r + 1`. -/
theorem wrap_correlated (rt : Runtime) (e : Err) (opts : List WrapOption) (site : CallSite)
    (hcaller : rt.caller = some site) (hcur : 0 ≤ e.currentFrameIdx) (hopts : opts ≠ []) :
    ∃ (r : Int) (e1 : Err) (f : frame), e.findFrame site.name = some r
      ∧ correlate rt e = some e1 ∧ e1.currentFrameIdx = r ∧ e1.currentFrame = some f
      ∧ e1.frames = e.frames
      ∧ wrap rt (.wrapped e) opts
        = some { (errEffects (wrapOptions (.wrapped e) opts) e1).setCurrentFrame
                  (frameEffects (wrapOptions (.wrapped e) opts) f) with
            currentFrameIdx := r + 1 } := by
  rcases findFrame_cases e site.name hcur with ⟨h, _⟩ | ⟨i, f, h1, h2, _, _⟩
  · have hcorr := correlate_miss rt e site hcaller h
    have hcf : ({ e with currentFrameIdx := -1
                         unknownFrames := e.unknownFrames ++ [unknownFrame (some site)] } :
        Err).currentFrame = some (unknownFrame (some site)) := by
      simp [Err.currentFrame]
    exact ⟨-1, _, _, h, hcorr, rfl, hcf, rfl, wrap_wrapped_eq rt e opts _ _ hopts hcorr hcf⟩
  · have hne : ((i : Int) ≠ -1) := by omega
    have hcorr : correlate rt e = some { e with currentFrameIdx := (i : Int) } := by
      simp [correlate, hcaller, h1, hne]
    have hcf : ({ e with currentFrameIdx := (i : Int) } : Err).currentFrame = some f := by
      have hnn : ¬ ((i : Int) < 0) := by omega
      simp [Err.currentFrame, hne, hnn, h2]
    exact ⟨i, _, _, h1, hcorr, rfl, hcf, rfl, wrap_wrapped_eq rt e opts _ _ hopts hcorr hcf⟩

/-! ## Interface options -/

theorem probeOptions_eq (p : Probe) :
    probeOptions p
      = tagOptions p ++ msgOptions p ++ codeOptions p ++ flagOptions p ++ levelOptions p := by
  simp only [probeOptions, tagOptions, msgOptions, codeOptions, flagOptions, levelOptions,
    List.append_assoc]

theorem flattenAll_append (l1 l2 : List WrapOption) :
    flattenAll (l1 ++ l2) = flattenAll l1 ++ flattenAll l2 := by
  induction l1 with
  | nil => rfl
  | cons o os ih => simp [flattenAll, ih]

theorem flattenAll_of_plain (l : List WrapOption)
    (h : ∀ o ∈ l, ∀ k v, o = WrapOption.With k v → v.plain = true) : flattenAll l = l := by
  induction l with
  | nil => rfl
  | cons o os ih =>
    have hos := ih (fun o1 h1 => h o1 (List.mem_cons_of_mem _ h1))
    simp only [flattenAll, hos]
    cases o with
    | With k v =>
      simp [WrapOption.flatten, flattenWith_plain k v (h _ (List.mem_cons_self _ _) k v rfl)]
    | _ => rfl

theorem flattenAll_tagOptions (p : Probe) : flattenAll (tagOptions p) = tagOptions p := by
  apply flattenAll_of_plain
  intro o ho k v heq
  subst heq
  unfold tagOptions at ho
  split at ho <;> simp at ho

theorem flattenAll_msgOptions (p : Probe) : flattenAll (msgOptions p) = msgOptions p := by
  unfold msgOptions
  split <;> rfl

theorem flattenAll_codeOptions (p : Probe) : flattenAll (codeOptions p) = codeOptions p := by
  unfold codeOptions
  split <;> rfl

theorem flattenAll_flagOptions (p : Probe) : flattenAll (flagOptions p) = flagOptions p := by
  apply flattenAll_of_plain
  intro o ho k v heq
  subst heq
  simp only [flagOptions, List.mem_append] at ho
  rcases ho with (h | h) | h <;> split at h <;> (try split_ifs at h) <;> simp at h

theorem flattenAll_levelOptions (p : Probe) : flattenAll (levelOptions p) = levelOptions p := by
  unfold levelOptions
  split
  · split_ifs <;> rfl
  · rfl

/-- The interface options other than those of `ErrVars` expand to themselves. -/
theorem flattenAll_probeOptions (p : Probe) : flattenAll (probeOptions p) = probeOptions p := by
  rw [probeOptions_eq]
  simp only [flattenAll_append, flattenAll_tagOptions, flattenAll_msgOptions,
    flattenAll_codeOptions, flattenAll_flagOptions, flattenAll_levelOptions]

/-- The expanded options of a wrap end with the interface options of the error
other than those of `ErrVars`. -/
theorem wrapOptions_split (ev : ErrorValue) (opts : List WrapOption) :
    wrapOptions ev opts
      = flattenAll (googleOptions ev ++ opts
            ++ ev.caps.vars.map (fun kv => WrapOption.With kv.1 kv.2))
          ++ (tagOptions ev.caps.probe ++ msgOptions ev.caps.probe)
          ++ codeOptions ev.caps.probe ++ flagOptions ev.caps.probe
          ++ levelOptions ev.caps.probe := by
  simp only [wrapOptions, getWrapOptionsFromInterfaces, flattenAll_append, probeOptions_eq,
    List.append_assoc, flattenAll_tagOptions, flattenAll_msgOptions, flattenAll_codeOptions,
    flattenAll_flagOptions, flattenAll_levelOptions]

theorem errEffects_flagOptions (p : Probe) (e : Err) :
    (errEffects (flagOptions p) e).code = e.code
      ∧ (errEffects (flagOptions p) e).Level = e.Level := by
  simp only [flagOptions, errEffects_append]
  rcases p.retriable with _ | _ | _ <;> rcases p.shouldReport with _ | _ | _ <;>
    rcases p.isInfra with _ | _ | _ <;> exact ⟨rfl, rfl⟩

theorem errEffects_levelOptions_code (p : Probe) (e : Err) :
    (errEffects (levelOptions p) e).code = e.code := by
  unfold levelOptions
  split
  · split_ifs <;> rfl
  · rfl

theorem errEffects_levelOptions (p : Probe) (e : Err) (l : Level) (h : p.level = some l)
    (hl : l = LevelCritical ∨ l = LevelError ∨ l = LevelWarning) :
    (errEffects (levelOptions p) e).Level = l := by
  unfold levelOptions
  rw [h]
  rcases hl with rfl | rfl | rfl <;> rfl

theorem errEffects_codeOptions (p : Probe) (e : Err) (c : Code) (h : p.code = some c)
    (hc : c ≠ codes.OK) : (errEffects (codeOptions p) e).code = c := by
  unfold codeOptions
  rw [h]
  simp [errEffects, errEffect, hc]

theorem frameEffects_msg_of_no_msg (l : List WrapOption) (f : frame)
    (h : ∀ o ∈ l, ∀ m, o ≠ WrapOption.Msg m) : (frameEffects l f).msg = f.msg := by
  induction l generalizing f with
  | nil => rfl
  | cons o os ih =>
    have ho := h o (List.mem_cons_self _ _)
    have hos := ih (frameEffect o f) (fun o1 h1 => h o1 (List.mem_cons_of_mem _ h1))
    simp only [frameEffects, List.foldl_cons] at hos ⊢
    rw [hos]
    cases o with
    | Msg m => exact absurd rfl (ho m)
    | _ => simp only [frameEffect] <;> (try split_ifs) <;> rfl

theorem frameEffects_after_msg (p : Probe) (f : frame) :
    (frameEffects (codeOptions p ++ flagOptions p ++ levelOptions p) f).msg = f.msg := by
  apply frameEffects_msg_of_no_msg
  intro o ho m heq
  subst heq
  simp only [codeOptions, flagOptions, levelOptions, List.mem_append] at ho
  rcases ho with (h | (h | h) | h) | h <;> split at h <;> (try split_ifs at h) <;> simp at h

theorem frameEffects_msgOptions (p : Probe) (f : frame) (m : String) (h : p.msg = some m) :
    (frameEffects (msgOptions p) f).msg = m := by
  unfold msgOptions
  rw [h]
  rfl

theorem setCurrentFrame_fields (e : Err) (f : frame) :
    (e.setCurrentFrame f).code = e.code ∧ (e.setCurrentFrame f).Level = e.Level
      ∧ (e.setCurrentFrame f).isRetriable = e.isRetriable
      ∧ (e.setCurrentFrame f).isInfra = e.isInfra
      ∧ (e.setCurrentFrame f).noReport = e.noReport
      ∧ (e.setCurrentFrame f).tags = e.tags
      ∧ (e.setCurrentFrame f).rootErr = e.rootErr := by
  unfold Err.setCurrentFrame
  split_ifs <;> exact ⟨rfl, rfl, rfl, rfl, rfl, rfl, rfl⟩

/-! ## `With` on a value with interfaces -/

theorem flattenAll_map_With (vars : List (String × Value)) :
    flattenAll (vars.map (fun kv => WrapOption.With kv.1 kv.2)) = flattenVars vars := by
  induction vars with
  | nil => rfl
  | cons kv rest ih =>
    obtain ⟨k, v⟩ := kv
    simp [flattenAll, flattenVars, WrapOption.flatten, ih]

/-- The closure of `With(k, v)` as the source writes it: when
`getWrapOptionsFromInterfaces(v)` is not empty its options run and nothing is
stored, otherwise the value is stored on the current frame. -/
theorem applyWith_eq (k : String) (v : Value) (e : Err) :
    applyWith k v e
      = if (getWrapOptionsFromInterfaces v.caps).isEmpty then withPlain k v e
        else applyOptions (getWrapOptionsFromInterfaces v.caps) e := by
  cases v with
  | obj vars p =>
    have hemp : (getWrapOptionsFromInterfaces (Value.obj vars p).caps).isEmpty
        = (vars.isEmpty && (probeOptions p).isEmpty) := by
      cases vars <;> simp [getWrapOptionsFromInterfaces, Value.caps]
    rw [hemp]
    simp only [applyWith]
    split
    · rfl
    · rw [applyOptions_flatten, applyVars_flatten, ← applyAll_append]
      simp only [getWrapOptionsFromInterfaces, Value.caps, flattenAll_append,
        flattenAll_map_With, flattenAll_probeOptions]
  | _ => simp [applyWith, getWrapOptionsFromInterfaces, Value.caps, probeOptions]

/-! ## The cursor is never negative -/

theorem apply_idx (o : WrapOption) (e e1 : Err) (h : o.apply e = some e1) :
    e1.currentFrameIdx = e.currentFrameIdx := by
  rw [apply_flatten] at h
  exact applyAll_idx _ e e1 h

theorem setTopAppFrame_idx (e e1 : Err) (h : e.setTopAppFrame = some e1) :
    e1.currentFrameIdx = e.currentFrameIdx := by
  unfold Err.setTopAppFrame at h
  split at h
  · simp at h
  · simp only [Option.some.injEq] at h
    rw [← h]
    exact (setTopAppFrameLoop_shape _ _ _).2.2.1

theorem handleSkip_idx (e e1 : Err) (h : e.handleSkipFrameOption = some e1) :
    e1.currentFrameIdx = e.currentFrameIdx := by
  unfold Err.handleSkipFrameOption at h
  split_ifs at h with h1 h2
  · exact apply_idx _ e e1 h
  · split at h
    · have hi := setTopAppFrame_idx _ e1 h
      exact hi
    · simp at h
  · simp only [Option.some.injEq] at h
    rw [h]

theorem newErr_idx (r : GoError) (stack : RawStack) (e0 : Err) (h : newErr r stack = some e0) :
    e0.currentFrameIdx = 0 := by
  cases hp : parseStack stack with
  | none => simp [newErr, hp] at h
  | some F =>
    cases F with
    | nil => simp [newErr, hp, Err.setTopAppFrame] at h
    | cons f0 rest =>
      obtain ⟨e, he, hfresh⟩ := newErr_fresh r stack (f0 :: rest) hp (List.cons_ne_nil _ _)
      rw [he] at h
      cases h
      exact hfresh.currentFrameIdx

theorem finishWrap_idx (b : Bool) (caps : Caps) (opts : List WrapOption) (e e1 : Err)
    (h : finishWrap b caps opts e = some e1) :
    e1.currentFrameIdx = e.currentFrameIdx ∨ e1.currentFrameIdx = e.currentFrameIdx + 1 := by
  unfold finishWrap at h
  cases ha : applyOptions (opts ++ getWrapOptionsFromInterfaces caps) e with
  | none => simp [ha] at h
  | some e2 =>
    have hi := applyOptions_idx _ _ _ ha
    simp only [ha, Option.some_bind] at h
    split_ifs at h
    · left
      rw [handleSkip_idx e2 e1 h, hi]
    · right
      simp only [Option.some.injEq] at h
      rw [← h, ← hi]

theorem finishWrap_true_idx (caps : Caps) (opts : List WrapOption) (e e1 : Err)
    (h : finishWrap true caps opts e = some e1) :
    e1.currentFrameIdx = e.currentFrameIdx + 1 := by
  unfold finishWrap at h
  cases ha : applyOptions (opts ++ getWrapOptionsFromInterfaces caps) e with
  | none => simp [ha] at h
  | some e2 =>
    simp only [ha, Option.some_bind, Bool.not_true, Bool.false_eq_true, false_and, if_false,
      Option.some.injEq] at h
    rw [← h, ← applyOptions_idx _ _ _ ha]

theorem correlate_idx (rt : Runtime) (e e1 : Err) (hcur : 0 ≤ e.currentFrameIdx)
    (h : correlate rt e = some e1) : -1 ≤ e1.currentFrameIdx := by
  unfold correlate at h
  split at h
  · next site _ =>
    rcases findFrame_cases e site.name hcur with ⟨hf, _⟩ | ⟨i, f, hf, _, _, _⟩
    · simp only [hf, Option.map_some', ne_eq, not_true_eq_false, if_false,
        Option.some.injEq] at h
      rw [← h]
    · have hne : ((i : Int) ≠ -1) := by omega
      simp only [hf, Option.map_some', ne_eq, hne, not_false_eq_true, if_true,
        Option.some.injEq] at h
      rw [← h]
      show (-1 : Int) ≤ (i : Int)
      omega
  · simp only [Option.some.injEq] at h
    rw [← h]
    show (-1 : Int) ≤ e.currentFrameIdx
    omega

/-- The cursor of a context returned by `wrap` is not negative, provided the
cursor of the context wrapped (if any) is not: so no context built by `New` and
`Wrap` ever has a negative cursor between calls. -/
theorem wrap_cursor_nonneg (rt : Runtime) (ev : ErrorValue) (opts : List WrapOption) (e1 : Err)
    (hin : ∀ e, ev.inner = some e → 0 ≤ e.currentFrameIdx) (h : wrap rt ev opts = some e1) :
    0 ≤ e1.currentFrameIdx := by
  cases ev with
  | raw r =>
    simp only [wrap] at h
    cases h0 : newErr r rt.stack with
    | none => simp [h0] at h
    | some e0 =>
      simp only [h0, Option.some_bind] at h
      have hi := newErr_idx r rt.stack e0 h0
      rcases finishWrap_idx _ _ _ _ _ h with h2 | h2 <;> omega
  | wrapped e =>
    have hcur := hin e rfl
    simp only [wrap] at h
    split_ifs at h
    · simp only [Option.some.injEq] at h
      rw [← h]
      show 0 ≤ e.currentFrameIdx + 1
      omega
    · cases hc : correlate rt e with
      | none => simp [hc] at h
      | some e2 =>
        simp only [hc, Option.some_bind] at h
        have hi := correlate_idx rt e e2 hcur hc
        have hf := finishWrap_true_idx _ _ _ _ h
        omega
  | chained outer e =>
    have hcur := hin e rfl
    simp only [wrap] at h
    split_ifs at h
    · simp only [Option.some.injEq] at h
      rw [← h]
      show 0 ≤ e.currentFrameIdx + 1
      omega
    · cases hc : correlate rt e with
      | none => simp [hc] at h
      | some e2 =>
        simp only [hc, Option.some_bind] at h
        have hi := correlate_idx rt e e2 hcur hc
        have hf := finishWrap_true_idx _ _ _ _ h
        omega

/-! ## The shape of a parsed stack -/

theorem shouldSkipFrame_pos (c : Call) (n : Nat) (h : 0 < n) : shouldSkipFrame c n = false := by
  unfold shouldSkipFrame
  rw [if_pos h]

theorem parseCalls_two (calls : List Call) (acc : List frame) (h : 2 ≤ acc.length) :
    parseCalls calls acc
      = acc ++ (calls.takeWhile (fun c => !shouldTruncateStack c)).map frameOfCall := by
  induction calls generalizing acc with
  | nil => simp [parseCalls]
  | cons c rest ih =>
    have hlen : acc.length > 1 := by omega
    simp only [parseCalls, shouldSkipFrame_pos c acc.length (by omega), Bool.false_eq_true,
      if_false, hlen, decide_True, Bool.and_true]
    by_cases hb : shouldTruncateStack c = true
    · simp [hb, List.takeWhile]
    · have hb2 : shouldTruncateStack c = false := by simpa using hb
      rw [if_neg hb, ih (acc ++ [frameOfCall c]) (by simp; omega)]
      simp [List.takeWhile, hb2]

theorem parseCalls_one (calls : List Call) (f : frame) :
    parseCalls calls [f]
      = f :: (calls.take 1 ++ (calls.drop 1).takeWhile (fun c => !shouldTruncateStack c)).map
          frameOfCall := by
  cases calls with
  | nil => simp [parseCalls]
  | cons c rest =>
    simp only [parseCalls, shouldSkipFrame_pos c [f].length (by simp), Bool.false_eq_true,
      if_false]
    have hnot : ¬ ((shouldTruncateStack c && decide ([f].length > 1)) = true) := by simp
    rw [if_neg hnot, parseCalls_two rest _ (by simp)]
    simp

/-- The frames parsed from a call list: the skippable records at the top are
dropped; of the rest the first two are kept, then those up to the first
boundary call site. -/
theorem parseCalls_eq_beforeBoundary (calls : List Call) :
    parseCalls calls [] = (beforeBoundary (afterSkipped calls)).map frameOfCall := by
  induction calls with
  | nil => simp [parseCalls, beforeBoundary, afterSkipped]
  | cons c rest ih =>
    by_cases hs : shouldSkipFrame c 0 = true
    · simp only [parseCalls, List.length_nil, hs, if_true]
      rw [ih]
      simp [afterSkipped, List.dropWhile, hs]
    · have hs2 : shouldSkipFrame c 0 = false := by simpa using hs
      have hrun : afterSkipped (c :: rest) = c :: rest := by
        simp [afterSkipped, List.dropWhile, hs2]
      have hnot : ¬ ((shouldTruncateStack c && decide (0 > 1)) = true) := by
        simp
      simp only [parseCalls, List.length_nil, hs2, Bool.false_eq_true, if_false]
      rw [if_neg hnot, hrun]
      simp only [List.nil_append]
      rw [parseCalls_one]
      cases rest with
      | nil => simp [beforeBoundary]
      | cons d rest2 => simp [beforeBoundary]

theorem afterSkipped_split (calls : List Call) :
    ∃ skipped, calls = skipped ++ afterSkipped calls
      ∧ (∀ c ∈ skipped, shouldSkipFrame c 0 = true)
      ∧ (∀ c, (afterSkipped calls).head? = some c → shouldSkipFrame c 0 = false) := by
  refine ⟨calls.takeWhile (fun c => shouldSkipFrame c 0), ?_, ?_, ?_⟩
  · exact (List.takeWhile_append_dropWhile _ _).symm
  · intro c hc
    exact List.mem_takeWhile_imp (p := fun c => shouldSkipFrame c 0) hc
  · intro c hc
    unfold afterSkipped at hc
    have := List.head?_dropWhile_not (fun c => shouldSkipFrame c 0) calls
    rw [hc] at this
    simpa using this

theorem takeWhile_eq_take {α : Type} (p : α → Bool) (l : List α) :
    l.takeWhile p = l.take (l.takeWhile p).length
      ∧ ∀ b, l[(l.takeWhile p).length]? = some b → p b = false := by
  induction l with
  | nil => simp
  | cons x xs ih =>
    by_cases hx : p x = true
    · simp only [List.takeWhile_cons, hx, if_true, List.length_cons, List.take_succ_cons,
        List.getElem?_cons_succ]
      exact ⟨by rw [← ih.1], ih.2⟩
    · have hx2 : p x = false := by simpa using hx
      simp [List.takeWhile_cons, hx2]

/-- The records kept of a run are a prefix of it that stops, if before the end,
at a boundary call site at position 2 or later. -/
theorem beforeBoundary_eq_take (run : List Call) :
    ∃ k, beforeBoundary run = run.take k
      ∧ (k < run.length → 2 ≤ k ∧ ∃ b, run[k]? = some b ∧ shouldTruncateStack b = true)
      ∧ (∀ i d, 2 ≤ i → i < k → run[i]? = some d → shouldTruncateStack d = false) := by
  obtain ⟨h1, h2⟩ := takeWhile_eq_take (fun c => !shouldTruncateStack c) (run.drop 2)
  by_cases hlen : run.length < 2
  · refine ⟨run.length, ?_, fun h => absurd h (lt_irrefl _), ?_⟩
    · have hd : run.drop 2 = [] := List.drop_eq_nil_of_le (by omega)
      simp [beforeBoundary, hd, List.take_of_length_le (Nat.le_of_lt hlen)]
    · intro i d hi hk
      omega
  · refine ⟨2 + ((run.drop 2).takeWhile (fun c => !shouldTruncateStack c)).length, ?_, ?_, ?_⟩
    · unfold beforeBoundary
      rw [List.take_add]
      rw [← h1]
    · intro hk
      refine ⟨by omega, ?_⟩
      have hlt : ((run.drop 2).takeWhile (fun c => !shouldTruncateStack c)).length
          < (run.drop 2).length := by
        simp only [List.length_drop]
        omega
      obtain ⟨b, hb⟩ : ∃ b, (run.drop 2)[((run.drop 2).takeWhile
          (fun c => !shouldTruncateStack c)).length]? = some b :=
        ⟨_, List.getElem?_eq_getElem hlt⟩
      have hb2 := h2 b hb
      rw [List.getElem?_drop] at hb
      exact ⟨b, hb, by simpa using hb2⟩
    · intro i d hi hk hd
      have hmem : d ∈ (run.drop 2).takeWhile (fun c => !shouldTruncateStack c) := by
        rw [h1]
        apply List.getElem?_mem (n := i - 2)
        rw [List.getElem?_take_of_lt (by omega), List.getElem?_drop, ← hd]
        congr 1
        omega
      simpa using List.mem_takeWhile_imp (p := fun c => !shouldTruncateStack c) hmem

/-! ## `topAppFrame` and `isPanic` -/

theorem setTopAppFrameLoop_top (l : List frame) (i : Nat) (e : Err) (t : Nat)
    (h : e.topAppFrame = some t) : (setTopAppFrameLoop l i e).topAppFrame = some t := by
  induction l generalizing i e with
  | nil => simpa [setTopAppFrameLoop] using h
  | cons f rest ih =>
    simp only [setTopAppFrameLoop]
    apply ih
    simp only [setTopAppFrameStep, h]
    split_ifs <;> simp_all

theorem setTopAppFrameLoop_isPanic (l : List frame) (i : Nat) (e : Err) :
    (setTopAppFrameLoop l i e).isPanic = (e.isPanic || l.any frame.isPanicFrame) := by
  induction l generalizing i e with
  | nil => simp [setTopAppFrameLoop]
  | cons f rest ih =>
    simp only [setTopAppFrameLoop, ih, List.any_cons]
    have hs : (setTopAppFrameStep e i f).isPanic = (e.isPanic || f.isPanicFrame) := by
      simp only [setTopAppFrameStep, frame.isPanicFrame]
      split_ifs <;> simp_all
    rw [hs, Bool.or_assoc]

/-- What `setTopAppFrame` returns: `topAppFrame` is frame 0 whatever the classes,
and `isPanic` is set when a frame is Panic and otherwise left as it was. -/
theorem setTopAppFrame_spec (e e1 : Err) (h : e.setTopAppFrame = some e1) :
    e1.topAppFrame = some 0 ∧ e1.isPanic = (e.isPanic || e.frames.any frame.isPanicFrame)
      ∧ e1.frames = e.frames := by
  unfold Err.setTopAppFrame at h
  split at h
  · simp at h
  · simp only [Option.some.injEq] at h
    rw [← h]
    exact ⟨setTopAppFrameLoop_top _ _ _ 0 rfl, setTopAppFrameLoop_isPanic _ _ _,
      (setTopAppFrameLoop_shape _ _ _).1⟩

theorem newErr_isPanic (r : GoError) (stack : RawStack) (F : List frame) (e0 : Err)
    (hparse : parseStack stack = some F) (h0 : newErr r stack = some e0) :
    e0.isPanic = F.any frame.isPanicFrame ∧ e0.topAppFrame = some 0 := by
  simp only [newErr, hparse, Option.some_bind] at h0
  cases hs : Err.setTopAppFrame
      { rootErr := r, frames := F, currentFrameIdx := 0, isRetriable := true, Level := LevelError,
        code := defaultCode r } with
  | none => simp [hs] at h0
  | some e1 =>
    simp only [hs, Option.map_some', Option.some.injEq] at h0
    obtain ⟨a1, a2, _⟩ := setTopAppFrame_spec _ _ hs
    rw [← h0]
    exact ⟨by simpa using a2, a1⟩

theorem parseStack_mem (rawStack : RawStack) (F : List frame) (h : parseStack rawStack = some F) :
    ∀ f ∈ F, ∃ c, f = frameOfCall c := by
  unfold parseStack at h
  cases hc : getPanicParseStack rawStack with
  | none => simp [hc] at h
  | some calls =>
    simp only [hc, Option.map_some', Option.some.injEq] at h
    obtain ⟨cs, _, he⟩ := parseCalls_eq calls []
    rw [he] at h
    intro f hf
    rw [← h] at hf
    simp only [List.nil_append, List.mem_map] at hf
    obtain ⟨c, _, rfl⟩ := hf
    exact ⟨c, rfl⟩

theorem any_isPanicFrame (l : List frame) :
    l.any frame.isPanicFrame = true ↔ ∃ f ∈ l, f.cls = .classPanic := by
  simp [List.any_eq_true, frame.isPanicFrame]

theorem panic_of_cls_suffix (l1 l2 : List frame)
    (h : l1.map (fun f => f.cls) <:+ l2.map (fun f => f.cls))
    (h1 : ∃ f ∈ l1, f.cls = .classPanic) : ∃ f ∈ l2, f.cls = .classPanic := by
  obtain ⟨f, hf, hc⟩ := h1
  have hm : FrameClass.classPanic ∈ l1.map (fun f => f.cls) := by
    rw [← hc]
    exact List.mem_map_of_mem _ hf
  have hm2 := h.subset hm
  obtain ⟨g, hg, hgc⟩ := List.mem_map.mp hm2
  exact ⟨g, hg, hgc⟩

theorem set_map_of_eq {α β : Type} (l : List α) (i : Nat) (a b : α) (g : α → β)
    (h : l[i]? = some a) (hab : g b = g a) : (l.set i b).map g = l.map g := by
  induction l generalizing i with
  | nil => rfl
  | cons x xs ih =>
    cases i with
    | zero =>
      simp only [List.getElem?_cons_zero, Option.some.injEq] at h
      simp [h, hab]
    | succ n =>
      simp only [List.getElem?_cons_succ] at h
      simp [ih n h]

/-- A write through the current-frame pointer that keeps the identity of the
frame keeps the identities of all frames, known and unknown. -/
theorem setCurrentFrame_ident (e : Err) (f g : frame) (h : e.currentFrame = some f)
    (hg : g.ident = f.ident) :
    (e.setCurrentFrame g).frames.map frame.ident = e.frames.map frame.ident
      ∧ (e.setCurrentFrame g).unknownFrames.map frame.ident = e.unknownFrames.map frame.ident
      ∧ (e.setCurrentFrame g).isPanic = e.isPanic
      ∧ (e.setCurrentFrame g).topAppFrame = e.topAppFrame := by
  unfold Err.currentFrame at h
  unfold Err.setCurrentFrame
  by_cases h1 : e.currentFrameIdx = -1
  · rw [if_pos h1] at h ⊢
    rw [List.getLast?_eq_getElem?] at h
    exact ⟨rfl, set_map_of_eq _ _ f g frame.ident h hg, rfl, rfl⟩
  · rw [if_neg h1] at h ⊢
    by_cases h2 : e.currentFrameIdx < 0
    · simp [h2] at h
    · rw [if_neg h2] at h
      exact ⟨set_map_of_eq _ _ f g frame.ident h hg, rfl, rfl, rfl⟩

theorem applyCore_keeps (o : WrapOption) (e e1 : Err) (h : applyCore withPlain o e = some e1) :
    e1.frames.map frame.ident = e.frames.map frame.ident
      ∧ e1.unknownFrames.map frame.ident = e.unknownFrames.map frame.ident
      ∧ e1.isPanic = e.isPanic ∧ e1.topAppFrame = e.topAppFrame := by
  cases hc : e.currentFrame with
  | some f =>
    rw [applyCore_effect o e f hc] at h
    cases h
    obtain ⟨s1, s2, _, s4, s5⟩ := errEffect_shape o e
    obtain ⟨a1, a2, a3, a4⟩ := setCurrentFrame_ident (errEffect o e) f (frameEffect o f)
      ((currentFrame_errEffect o e).trans hc) (frameEffect_ident o f)
    exact ⟨by rw [a1, s1], by rw [a2, s2], by rw [a3, s5], by rw [a4, s4]⟩
  | none =>
    cases o with
    | Code c =>
      by_cases hcode : c = codes.OK
      · simp [applyCore, withPlain, hcode, hc] at h
      · simp only [applyCore, hcode, if_false, Option.some.injEq] at h
        rw [← h]
        split_ifs <;> exact ⟨rfl, rfl, rfl, rfl⟩
    | Msg m => simp [applyCore, hc] at h
    | With k v => simp [applyCore, withPlain, hc] at h
    | FieldViolation a b => simp [applyCore, hc] at h
    | _ =>
      simp only [applyCore, Option.some.injEq] at h
      rw [← h]
      exact ⟨rfl, rfl, rfl, rfl⟩

theorem applyAll_keeps (l : List WrapOption) (e e1 : Err)
    (h : applyAll (applyCore withPlain) l e = some e1) :
    e1.frames.map frame.ident = e.frames.map frame.ident
      ∧ e1.unknownFrames.map frame.ident = e.unknownFrames.map frame.ident
      ∧ e1.isPanic = e.isPanic ∧ e1.topAppFrame = e.topAppFrame := by
  induction l generalizing e with
  | nil =>
    simp only [applyAll, Option.some.injEq] at h
    rw [h]
    exact ⟨rfl, rfl, rfl, rfl⟩
  | cons o os ih =>
    simp only [applyAll] at h
    cases h1 : applyCore withPlain o e with
    | none => simp [h1] at h
    | some e2 =>
      simp only [h1, Option.some_bind] at h
      obtain ⟨a1, a2, a3, a4⟩ := ih e2 h
      obtain ⟨b1, b2, b3, b4⟩ := applyCore_keeps o e e2 h1
      exact ⟨a1.trans b1, a2.trans b2, a3.trans b3, a4.trans b4⟩

/-- Running options changes neither the identity of any frame nor `isPanic` nor
`topAppFrame`. -/
theorem applyOptions_keeps (opts : List WrapOption) (e e1 : Err)
    (h : applyOptions opts e = some e1) :
    e1.frames.map frame.ident = e.frames.map frame.ident
      ∧ e1.unknownFrames.map frame.ident = e.unknownFrames.map frame.ident
      ∧ e1.isPanic = e.isPanic ∧ e1.topAppFrame = e.topAppFrame := by
  rw [applyOptions_flatten] at h
  exact applyAll_keeps _ e e1 h

theorem cls_of_ident (l1 l2 : List frame) (h : l1.map frame.ident = l2.map frame.ident) :
    l1.map (fun f => f.cls) = l2.map (fun f => f.cls) := by
  have := congrArg (List.map FrameId.cls) h
  simpa [List.map_map, Function.comp, frame.ident] using this


theorem isPanic_setCurrentFrame (e : Err) (f : frame) :
    (e.setCurrentFrame f).isPanic = e.isPanic ∧ (e.setCurrentFrame f).topAppFrame = e.topAppFrame := by
  unfold Err.setCurrentFrame
  split_ifs <;> exact ⟨rfl, rfl⟩

/-- The skip merge and `isPanic`: on a context with the cursor on frame 0 the
merge returns; `isPanic` is never cleared, it can only be set by a Panic frame
among the new frames; the classes of the new frames are a suffix of the old
ones, and the same list when the skip count is not valid. -/
theorem handleSkip_panic (e : Err) (f0 : frame) (rest : List frame)
    (hfr : e.frames = f0 :: rest) (hidx : e.currentFrameIdx = 0) :
    ∃ e1, e.handleSkipFrameOption = some e1
      ∧ (e.isPanic = true → e1.isPanic = true)
      ∧ (e1.isPanic = true → e.isPanic = true ∨ ∃ f ∈ e1.frames, f.cls = .classPanic)
      ∧ e1.frames.map (fun f => f.cls) <:+ e.frames.map (fun f => f.cls)
      ∧ (¬ (0 < e.skipFrames ∧ e.skipFrames < (e.frames.length : Int)) →
          e1.frames.map (fun f => f.cls) = e.frames.map (fun f => f.cls)) := by
  have hcur : e.currentFrame = some f0 := by
    unfold Err.currentFrame
    rw [hidx, hfr]
    simp
  by_cases hge : e.skipFrames ≥ (e.frames.length : Int)
  · have hcls : (e.setCurrentFrame
        { f0 with vars := mapSet f0.vars "invalidSkipFrameCount" (Value.int e.skipFrames) }).frames.map
          (fun f => f.cls) = e.frames.map (fun f => f.cls) :=
      cls_of_ident _ _ (setCurrentFrame_ident e f0
        { f0 with vars := mapSet f0.vars "invalidSkipFrameCount" (Value.int e.skipFrames) }
        hcur rfl).1
    refine ⟨_, handleSkip_invalid e f0 hcur hge, ?_, ?_, ?_, fun _ => hcls⟩
    · intro h
      rw [(isPanic_setCurrentFrame _ _).1]
      exact h
    · intro h
      rw [(isPanic_setCurrentFrame _ _).1] at h
      exact Or.inl h
    · rw [hcls]
  · by_cases hpos : e.skipFrames > 0
    · obtain ⟨n, hn⟩ : ∃ n : Nat, e.skipFrames = (n : Int) := ⟨e.skipFrames.toNat, by omega⟩
      have hlt : n < e.frames.length := by omega
      obtain ⟨g0, gn, hg0, hgn, heq⟩ := handleSkip_valid e n hn (by omega) hlt
      have hp := setTopAppFrameLoop_isPanic
          ({ gn with vars := g0.vars, msg := g0.msg, errDetails := g0.errDetails }
              :: e.frames.drop (n + 1)) 0
          { e with
            frames := { gn with vars := g0.vars, msg := g0.msg, errDetails := g0.errDetails }
              :: e.frames.drop (n + 1)
            topAppFrame := some 0 }
      have hf := (setTopAppFrameLoop_shape
          ({ gn with vars := g0.vars, msg := g0.msg, errDetails := g0.errDetails }
              :: e.frames.drop (n + 1)) 0
          { e with
            frames := { gn with vars := g0.vars, msg := g0.msg, errDetails := g0.errDetails }
              :: e.frames.drop (n + 1)
            topAppFrame := some 0 }).1
      have hdrop : e.frames.drop n = gn :: e.frames.drop (n + 1) := by
        rw [List.drop_eq_getElem_cons hlt]
        congr 1
        have := List.getElem?_eq_getElem hlt
        rw [hgn] at this
        exact (Option.some.inj this).symm
      refine ⟨_, heq, ?_, ?_, ?_, ?_⟩
      · intro h
        rw [hp]
        simp [h]
      · intro h
        rw [hp] at h
        simp only [Bool.or_eq_true] at h
        rcases h with h | h
        · exact Or.inl h
        · right
          rw [hf]
          exact (any_isPanicFrame _).mp h
      · rw [hf]
        have : (({ gn with vars := g0.vars, msg := g0.msg, errDetails := g0.errDetails } : frame)
            :: e.frames.drop (n + 1)).map (fun f => f.cls)
            = (e.frames.drop n).map (fun f => f.cls) := by
          rw [hdrop]
          rfl
        rw [this, List.map_drop]
        exact List.drop_suffix _ _
      · intro hnot
        exact absurd ⟨hpos, by omega⟩ hnot
    · refine ⟨e, ?_, id, Or.inl, List.suffix_refl _, fun _ => rfl⟩
      unfold Err.handleSkipFrameOption
      rw [if_neg hge, if_neg hpos]

/-- The first wrap and `isPanic`: when the stack parses to the non-empty frames
`F`, the wrap returns; `isPanic` is true exactly when a frame of `F` is Panic;
the classes of the returned frames are a suffix of those of `F`, and the same
list unless a valid skip count was requested. -/
theorem wrap_raw_panic (rt : Runtime) (r : GoError) (opts : List WrapOption) (F : List frame)
    (hparse : parseStack rt.stack = some F) (hne : F ≠ []) :
    ∃ e, wrap rt (.raw r) opts = some e
      ∧ (e.isPanic = true ↔ ∃ f ∈ F, f.cls = .classPanic)
      ∧ e.frames.map (fun f => f.cls) <:+ F.map (fun f => f.cls)
      ∧ (¬ (0 < requestedSkip opts ∧ requestedSkip opts < (F.length : Int)) →
          e.frames.map (fun f => f.cls) = F.map (fun f => f.cls)) := by
  obtain ⟨e0, h0, hfresh⟩ := newErr_fresh r rt.stack F hparse hne
  have hp0 := (newErr_isPanic r rt.stack F e0 hparse h0).1
  cases F with
  | nil => exact absurd rfl hne
  | cons f0 rest =>
    have hcur := hfresh.currentFrame
    have hw := wrap_raw_eq rt r opts e0 f0 h0 hcur
    obtain ⟨s1, _, s3, _, s5⟩ := errEffects_shape (wrapOptions (.raw r) opts) e0
    have hcur1 : (errEffects (wrapOptions (.raw r) opts) e0).currentFrame = some f0 :=
      (currentFrame_congr _ _ s1 (errEffects_shape _ _).2.1 s3).trans hcur
    have hskip : ((errEffects (wrapOptions (.raw r) opts) e0).setCurrentFrame
        (frameEffects (wrapOptions (.raw r) opts) f0)).skipFrames = requestedSkip opts := by
      rw [skipFrames_setCurrentFrame, errEffects_skipFrames, hfresh.skipFrames,
        skipOf_wrapOptions]
      rfl
    have hidx : ((errEffects (wrapOptions (.raw r) opts) e0).setCurrentFrame
        (frameEffects (wrapOptions (.raw r) opts) f0)).currentFrameIdx = 0 := by
      rw [currentFrameIdx_setCurrentFrame, s3, hfresh.currentFrameIdx]
    have hfr := (frames_setCurrentFrame_zero (errEffects (wrapOptions (.raw r) opts) e0)
      (frameEffects (wrapOptions (.raw r) opts) f0) f0 rest
      (s3.trans hfresh.currentFrameIdx) (s1.trans hfresh.frames)).1
    have hcls : ((errEffects (wrapOptions (.raw r) opts) e0).setCurrentFrame
        (frameEffects (wrapOptions (.raw r) opts) f0)).frames.map (fun f => f.cls)
        = (f0 :: rest).map (fun f => f.cls) := by
      have := cls_of_ident _ _ (setCurrentFrame_ident _ f0
        (frameEffects (wrapOptions (.raw r) opts) f0) hcur1 (frameEffects_ident _ _)).1
      rw [this, s1, hfresh.frames]
    have hpan : ((errEffects (wrapOptions (.raw r) opts) e0).setCurrentFrame
        (frameEffects (wrapOptions (.raw r) opts) f0)).isPanic
        = (f0 :: rest).any frame.isPanicFrame := by
      rw [(isPanic_setCurrentFrame _ _).1, s5, hp0]
    split_ifs at hw with hs
    · obtain ⟨e1, he1, p1, p2, p3, p4⟩ := handleSkip_panic _ _ _ hfr hidx
      rw [he1] at hw
      rw [hcls] at p3
      refine ⟨e1, hw, ⟨fun h => ?_, fun h => ?_⟩, p3, ?_⟩
      · rcases p2 h with h2 | h2
        · rw [hpan] at h2
          exact (any_isPanicFrame _).mp h2
        · exact panic_of_cls_suffix _ _ p3 h2
      · apply p1
        rw [hpan]
        exact (any_isPanicFrame _).mpr h
      · intro hnot
        rw [← hcls]
        apply p4
        rw [hskip]
        have hl := congrArg List.length hcls
        simp only [List.length_map] at hl
        rw [hl]
        exact hnot
    · refine ⟨_, hw, ?_, ?_, fun _ => ?_⟩
      · show ((errEffects (wrapOptions (.raw r) opts) e0).setCurrentFrame
          (frameEffects (wrapOptions (.raw r) opts) f0)).isPanic = true ↔ _
        rw [hpan]
        exact any_isPanicFrame _
      · show ((errEffects (wrapOptions (.raw r) opts) e0).setCurrentFrame
          (frameEffects (wrapOptions (.raw r) opts) f0)).frames.map (fun f => f.cls) <:+ _
        rw [hcls]
      · exact hcls

theorem correlate_keeps (rt : Runtime) (e e1 : Err) (h : correlate rt e = some e1) :
    e1.frames = e.frames ∧ e1.isPanic = e.isPanic ∧ e1.topAppFrame = e.topAppFrame := by
  unfold correlate at h
  split at h
  · next site _ =>
    cases hf : e.findFrame site.name with
    | none =>
      rw [hf] at h
      exact absurd h (by simp)
    | some idx =>
      rw [hf] at h
      simp only [Option.map_some', Option.some.injEq] at h
      rw [← h]
      split_ifs <;> exact ⟨rfl, rfl, rfl⟩
  · simp only [Option.some.injEq] at h
    rw [← h]
    exact ⟨rfl, rfl, rfl⟩

theorem finishWrap_true_keeps (caps : Caps) (opts : List WrapOption) (e e1 : Err)
    (h : finishWrap true caps opts e = some e1) :
    e1.frames.map frame.ident = e.frames.map frame.ident ∧ e1.isPanic = e.isPanic
      ∧ e1.topAppFrame = e.topAppFrame := by
  unfold finishWrap at h
  cases ha : applyOptions (opts ++ getWrapOptionsFromInterfaces caps) e with
  | none => simp [ha] at h
  | some e2 =>
    simp only [ha, Option.some_bind, Bool.not_true, Bool.false_eq_true, false_and, if_false,
      Option.some.injEq] at h
    obtain ⟨a1, _, a3, a4⟩ := applyOptions_keeps _ _ _ ha
    rw [← h]
    exact ⟨a1, a3, a4⟩

/-- A wrap of an error that already carries a context keeps the identity of every
frame, `isPanic` and `topAppFrame`. -/
theorem wrap_later_keeps (rt : Runtime) (ev : ErrorValue) (opts : List WrapOption) (e e1 : Err)
    (hin : ev.inner = some e) (h : wrap rt ev opts = some e1) :
    e1.frames.map frame.ident = e.frames.map frame.ident ∧ e1.isPanic = e.isPanic
      ∧ e1.topAppFrame = e.topAppFrame := by
  cases ev with
  | raw r => simp [ErrorValue.inner] at hin
  | wrapped e2 =>
    simp only [ErrorValue.inner, Option.some.injEq] at hin
    subst hin
    simp only [wrap] at h
    split_ifs at h
    · simp only [Option.some.injEq] at h
      rw [← h]
      exact ⟨rfl, rfl, rfl⟩
    · cases hc : correlate rt e2 with
      | none => simp [hc] at h
      | some e3 =>
        simp only [hc, Option.some_bind] at h
        obtain ⟨a1, a2, a3⟩ := finishWrap_true_keeps _ _ _ _ h
        obtain ⟨b1, b2, b3⟩ := correlate_keeps rt e2 e3 hc
        exact ⟨by rw [a1, b1], a2.trans b2, a3.trans b3⟩
  | chained outer e2 =>
    simp only [ErrorValue.inner, Option.some.injEq] at hin
    subst hin
    simp only [wrap] at h
    split_ifs at h
    · simp only [Option.some.injEq] at h
      rw [← h]
      exact ⟨rfl, rfl, rfl⟩
    · cases hc : correlate rt e2 with
      | none => simp [hc] at h
      | some e3 =>
        simp only [hc, Option.some_bind] at h
        obtain ⟨a1, a2, a3⟩ := finishWrap_true_keeps _ _ _ _ h
        obtain ⟨b1, b2, b3⟩ := correlate_keeps rt e2 e3 hc
        exact ⟨by rw [a1, b1], a2.trans b2, a3.trans b3⟩


theorem frames_length_setCurrentFrame (e : Err) (f : frame) :
    (e.setCurrentFrame f).frames.length = e.frames.length := by
  unfold Err.setCurrentFrame
  split_ifs
  · rfl
  · simp

/-- The cursor of a first wrap: the options run on frame 0 of the fresh context,
and the context returned has a frame and its cursor on 0 or 1. -/
theorem wrap_raw_cursor (rt : Runtime) (r : GoError) (opts : List WrapOption) (F : List frame)
    (hparse : parseStack rt.stack = some F) (hne : F ≠ []) :
    ∃ e0 f0 e, newErr r rt.stack = some e0 ∧ e0.currentFrameIdx = 0
      ∧ e0.currentFrame = some f0
      ∧ wrap rt (.raw r) opts = some e ∧ e.frames ≠ []
      ∧ (e.currentFrameIdx = 0 ∨ e.currentFrameIdx = 1) := by
  obtain ⟨e0, h0, hfresh⟩ := newErr_fresh r rt.stack F hparse hne
  cases F with
  | nil => exact absurd rfl hne
  | cons f0 rest =>
    have hcur := hfresh.currentFrame
    have hw := wrap_raw_eq rt r opts e0 f0 h0 hcur
    obtain ⟨s1, _, s3, _, _⟩ := errEffects_shape (wrapOptions (.raw r) opts) e0
    have hidx : ((errEffects (wrapOptions (.raw r) opts) e0).setCurrentFrame
        (frameEffects (wrapOptions (.raw r) opts) f0)).currentFrameIdx = 0 := by
      rw [currentFrameIdx_setCurrentFrame, s3, hfresh.currentFrameIdx]
    have hfr := (frames_setCurrentFrame_zero (errEffects (wrapOptions (.raw r) opts) e0)
      (frameEffects (wrapOptions (.raw r) opts) f0) f0 rest
      (s3.trans hfresh.currentFrameIdx) (s1.trans hfresh.frames)).1
    refine ⟨e0, f0, ?_⟩
    split_ifs at hw with hs
    · obtain ⟨e1, g, tl, he1, hg, _, hi, _⟩ := handleSkip_total _ _ _ hfr hidx
      rw [he1] at hw
      refine ⟨e1, h0, hfresh.currentFrameIdx, hcur, hw, ?_, Or.inl hi⟩
      rw [hg]
      exact List.cons_ne_nil _ _
    · refine ⟨_, h0, hfresh.currentFrameIdx, hcur, hw, ?_, Or.inr ?_⟩
      · show ((errEffects (wrapOptions (.raw r) opts) e0).setCurrentFrame
          (frameEffects (wrapOptions (.raw r) opts) f0)).frames ≠ []
        rw [hfr]
        exact List.cons_ne_nil _ _
      · show ((errEffects (wrapOptions (.raw r) opts) e0).setCurrentFrame
          (frameEffects (wrapOptions (.raw r) opts) f0)).currentFrameIdx + 1 = 1
        rw [hidx]
        rfl

/-- The cursor of a re-wrap with options from a calling site the runtime
reports: while the options run it is on an existing frame, of `frames` or the
last of `unknownFrames`; on return it is one more. -/
theorem wrap_rewrap_cursor (rt : Runtime) (e : Err) (opts : List WrapOption) (site : CallSite)
    (hcaller : rt.caller = some site) (hcur : 0 ≤ e.currentFrameIdx) (hopts : opts ≠ []) :
    ∃ (r : Int) (e1 : Err) (f : frame) (e2 : Err), correlate rt e = some e1
      ∧ e1.currentFrameIdx = r ∧ e1.currentFrame = some f
      ∧ ((0 ≤ r ∧ r < (e1.frames.length : Int)) ∨ (r = -1 ∧ e1.unknownFrames ≠ []))
      ∧ wrap rt (.wrapped e) opts = some e2 ∧ e2.currentFrameIdx = r + 1
      ∧ e2.frames.length = e1.frames.length := by
  obtain ⟨r, e1, f, hfind, hcorr, hidx, hcurf, hfr, hwrap⟩ :=
    wrap_correlated rt e opts site hcaller hcur hopts
  refine ⟨r, e1, f, _, hcorr, hidx, hcurf, ?_, hwrap, rfl, ?_⟩
  · rcases findFrame_cases e site.name hcur with ⟨hf, _⟩ | ⟨i, g, hf, hg, _, _⟩
    · rw [hf] at hfind
      have hr : r = -1 := (Option.some.inj hfind).symm
      refine Or.inr ⟨hr, fun hnil => ?_⟩
      unfold Err.currentFrame at hcurf
      rw [hidx, hr, if_pos rfl, hnil] at hcurf
      exact absurd hcurf (by simp)
    · rw [hf] at hfind
      have hr : r = (i : Int) := (Option.some.inj hfind).symm
      have hi : i < e.frames.length := by
        by_contra hcon
        rw [List.getElem?_eq_none (by omega)] at hg
        exact absurd hg (by simp)
      refine Or.inl ⟨by omega, ?_⟩
      rw [hfr, hr]
      exact_mod_cast hi
  · show ((errEffects (wrapOptions (.wrapped e) opts) e1).setCurrentFrame
        (frameEffects (wrapOptions (.wrapped e) opts) f)).frames.length = e1.frames.length
    rw [frames_length_setCurrentFrame, (errEffects_shape _ _).1]

theorem errEffect_code_of_ne (o : WrapOption) (e : Err) (h : ∀ c, o ≠ .Code c) :
    (errEffect o e).code = e.code := by
  cases o <;> first | rfl | exact absurd rfl (h _)

theorem errEffects_code_of_ne (l : List WrapOption) (e : Err)
    (h : ∀ o ∈ l, ∀ c, o ≠ .Code c) : (errEffects l e).code = e.code := by
  induction l generalizing e with
  | nil => rfl
  | cons o os ih =>
    have h1 : errEffects (o :: os) e = errEffects os (errEffect o e) := rfl
    rw [h1, ih _ (fun o1 ho1 => h o1 (List.mem_cons_of_mem _ ho1)),
      errEffect_code_of_ne o e (h o (List.mem_cons_self _ _))]

/-- The code after a first wrap is the code the expanded options leave on the
fresh context. -/
theorem wrap_raw_code (rt : Runtime) (r : GoError) (opts : List WrapOption) (F : List frame)
    (hparse : parseStack rt.stack = some F) (hne : F ≠ []) :
    ∃ e0 e, newErr r rt.stack = some e0 ∧ e0.code = defaultCode r
      ∧ wrap rt (.raw r) opts = some e
      ∧ e.code = (errEffects (wrapOptions (.raw r) opts) e0).code := by
  obtain ⟨e0, h0, hfresh⟩ := newErr_fresh r rt.stack F hparse hne
  cases F with
  | nil => exact absurd rfl hne
  | cons f0 rest =>
    have hcur := hfresh.currentFrame
    have hw := wrap_raw_eq rt r opts e0 f0 h0 hcur
    obtain ⟨s1, _, s3, _, _⟩ := errEffects_shape (wrapOptions (.raw r) opts) e0
    have hidx : ((errEffects (wrapOptions (.raw r) opts) e0).setCurrentFrame
        (frameEffects (wrapOptions (.raw r) opts) f0)).currentFrameIdx = 0 := by
      rw [currentFrameIdx_setCurrentFrame, s3, hfresh.currentFrameIdx]
    have hfr := (frames_setCurrentFrame_zero (errEffects (wrapOptions (.raw r) opts) e0)
      (frameEffects (wrapOptions (.raw r) opts) f0) f0 rest
      (s3.trans hfresh.currentFrameIdx) (s1.trans hfresh.frames)).1
    have hcode := (setCurrentFrame_fields (errEffects (wrapOptions (.raw r) opts) e0)
      (frameEffects (wrapOptions (.raw r) opts) f0)).1
    refine ⟨e0, ?_⟩
    split_ifs at hw with hs
    · obtain ⟨e1, g, tl, he1, _, _, _, _, hc, _⟩ := handleSkip_total _ _ _ hfr hidx
      rw [he1] at hw
      exact ⟨e1, h0, hfresh.code, hw, hc.trans hcode⟩
    · exact ⟨_, h0, hfresh.code, hw, hcode⟩

theorem googleOptions_raw (r : GoError) (h : ∀ c, r.kind ≠ .googleapi c) :
    googleOptions (.raw r) = [] := by
  obtain ⟨text, kind, caps, unwraps⟩ := r
  cases kind with
  | googleapi c => exact absurd rfl (h c)
  | contextCanceled => rfl
  | contextDeadlineExceeded => rfl
  | other => rfl

/-! ### The mutator cache -/

theorem keyGet_keySet {α : Type} (m : List (List Nat × α)) (k : List Nat) (v : α) :
    keyGet (keySet m k v) k = some v := by
  induction m with
  | nil => simp [keySet, keyGet]
  | cons kv rest ih =>
    obtain ⟨k1, v1⟩ := kv
    by_cases h : k1 = k
    · simp [keySet, keyGet, h]
    · simp [keySet, keyGet, h, ih]

theorem keyGet_keySet_ne {α : Type} (m : List (List Nat × α)) (k k2 : List Nat) (v : α)
    (h : k2 ≠ k) : keyGet (keySet m k v) k2 = keyGet m k2 := by
  induction m with
  | nil =>
    have h2 : ¬ k = k2 := fun h3 => h h3.symm
    simp [keySet, keyGet, h2]
  | cons kv rest ih =>
    obtain ⟨k1, v1⟩ := kv
    by_cases h1 : k1 = k
    · subst h1
      have h2 : ¬ k1 = k2 := fun h3 => h h3.symm
      simp [keySet, keyGet, h2]
    · by_cases h3 : k1 = k2
      · subst h3
        simp [keySet, keyGet, h1]
      · simp [keySet, keyGet, h1, h3, ih]

theorem MutatorFromError_hit (c : List (List Nat × Mutator)) (ev : ErrorValue) (m : Mutator)
    (h : keyGet c (reportKey (Cause ev).text) = some m) :
    MutatorFromError c (some ev) = some (m, c) := by
  simp only [MutatorFromError]
  rw [h]

theorem MutatorFromError_miss_full (c : List (List Nat × Mutator)) (ev : ErrorValue)
    (h : keyGet c (reportKey (Cause ev).text) = none) (hfull : c.length > maxErrorMutators) :
    MutatorFromError c (some ev) = some (mutatorErrorOther, c) := by
  simp only [MutatorFromError]
  rw [h]
  simp only [if_pos hfull]

theorem MutatorFromError_miss (c : List (List Nat × Mutator)) (ev : ErrorValue)
    (h : keyGet c (reportKey (Cause ev).text) = none) (hfull : ¬ c.length > maxErrorMutators) :
    MutatorFromError c (some ev)
      = some (Mutator.nil, keySet c (reportKey (Cause ev).text) Mutator.nil) := by
  simp only [MutatorFromError]
  rw [h]
  simp only [if_neg hfull]

/-- A call of `MutatorFromError` on a non-nil error returns, and an entry of the
map is still there, with its value, after it. -/
theorem MutatorFromError_keeps (c : List (List Nat × Mutator)) (ev : ErrorValue) (k : List Nat)
    (m : Mutator) (h : keyGet c k = some m) :
    ∃ r c1, MutatorFromError c (some ev) = some (r, c1) ∧ keyGet c1 k = some m := by
  cases hg : keyGet c (reportKey (Cause ev).text) with
  | some m1 => exact ⟨m1, c, MutatorFromError_hit c ev m1 hg, h⟩
  | none =>
    by_cases hfull : c.length > maxErrorMutators
    · exact ⟨mutatorErrorOther, c, MutatorFromError_miss_full c ev hg hfull, h⟩
    · refine ⟨Mutator.nil, _, MutatorFromError_miss c ev hg hfull, ?_⟩
      rw [keyGet_keySet_ne _ _ _ _ (fun hk => by rw [hk, hg] at h; exact absurd h (by simp))]
      exact h

/-- A call of `MutatorFromError` on a map with more than `maxErrorMutators`
entries leaves the map as it is. -/
theorem MutatorFromError_full (c : List (List Nat × Mutator)) (ev : ErrorValue)
    (hfull : c.length > maxErrorMutators) :
    ∃ r, MutatorFromError c (some ev) = some (r, c) := by
  cases hg : keyGet c (reportKey (Cause ev).text) with
  | some m1 => exact ⟨m1, MutatorFromError_hit c ev m1 hg⟩
  | none => exact ⟨mutatorErrorOther, MutatorFromError_miss_full c ev hg hfull⟩

theorem mutatorCalls_keeps (l : List ErrorValue) :
    ∀ (c : List (List Nat × Mutator)) (k : List Nat) (m : Mutator), keyGet c k = some m →
      ∃ c1, mutatorCalls c (l.map some) = some c1 ∧ keyGet c1 k = some m := by
  induction l with
  | nil => exact fun c k m h => ⟨c, rfl, h⟩
  | cons ev rest ih =>
    intro c k m h
    obtain ⟨r, c1, h1, h2⟩ := MutatorFromError_keeps c ev k m h
    obtain ⟨c2, h3, h4⟩ := ih c1 k m h2
    exact ⟨c2, by simp [mutatorCalls, h1, h3], h4⟩

theorem mutatorCalls_full (l : List ErrorValue) (c : List (List Nat × Mutator))
    (hfull : c.length > maxErrorMutators) : mutatorCalls c (l.map some) = some c := by
  induction l with
  | nil => rfl
  | cons ev rest ih =>
    obtain ⟨r, h1⟩ := MutatorFromError_full c ev hfull
    simp [mutatorCalls, h1, ih]

/-! ### Options applied in sequence -/

theorem currentFrame_errEffects (l : List WrapOption) (e : Err) :
    (errEffects l e).currentFrame = e.currentFrame := by
  obtain ⟨s1, s2, s3, _, _⟩ := errEffects_shape l e
  exact currentFrame_congr _ _ s1 s2 s3

/-- The options on a context whose cursor is on the frame `f`: the context
returned, and the frame its cursor is on. -/
theorem applyOptions_current (opts : List WrapOption) (e : Err) (f : frame)
    (h : e.currentFrame = some f) :
    ∃ e1, applyOptions opts e = some e1
      ∧ e1 = (errEffects (flattenAll opts) e).setCurrentFrame (frameEffects (flattenAll opts) f)
      ∧ e1.currentFrame = some (frameEffects (flattenAll opts) f) := by
  refine ⟨_, applyOptions_effect opts e f h, rfl, ?_⟩
  exact currentFrame_setCurrentFrame _ f _ ((currentFrame_errEffects _ e).trans h)

/-- A list of level options always runs, and leaves the level of its last option. -/
theorem applyOptions_levels (ls : List WrapOption) (last : WrapOption) (e : Err)
    (h : ∀ o ∈ ls ++ [last], o.levelSet.isSome = true) :
    ∃ e1, applyOptions (ls ++ [last]) e = some e1 ∧ some e1.Level = last.levelSet := by
  induction ls generalizing e with
  | nil =>
    have h1 := h last (by simp)
    cases last <;> first | exact ⟨_, rfl, rfl⟩ | exact absurd h1 (by simp [WrapOption.levelSet])
  | cons o os ih =>
    have hos : ∀ o1 ∈ os ++ [last], o1.levelSet.isSome = true :=
      fun o1 h1 => h o1 (List.mem_cons_of_mem _ h1)
    have h1 := h o (by simp)
    cases o with
    | Critical => exact ih { e with Level := LevelCritical } hos
    | Error => exact ih { e with Level := LevelError } hos
    | Warning => exact ih { e with Level := LevelWarning } hos
    | _ => exact absurd h1 (by simp [WrapOption.levelSet])

/-! ### Frame identities and the root error through a wrap -/

/-- The skip merge and the identity of frames: the new frames are the old ones
from some position on, with their identities. -/
theorem handleSkip_ident (e : Err) (f0 : frame) (rest : List frame)
    (hfr : e.frames = f0 :: rest) (hidx : e.currentFrameIdx = 0) :
    ∃ e1 n, e.handleSkipFrameOption = some e1 ∧ n < e.frames.length
      ∧ e1.frames.map frame.ident = (e.frames.drop n).map frame.ident := by
  have hcur : e.currentFrame = some f0 := by
    unfold Err.currentFrame
    rw [hidx, hfr]
    simp
  have hlen : 0 < e.frames.length := by rw [hfr]; simp
  by_cases hge : e.skipFrames ≥ (e.frames.length : Int)
  · refine ⟨_, 0, handleSkip_invalid e f0 hcur hge, hlen, ?_⟩
    rw [List.drop_zero]
    exact (setCurrentFrame_ident e f0
      { f0 with vars := mapSet f0.vars "invalidSkipFrameCount" (Value.int e.skipFrames) }
      hcur rfl).1
  · by_cases hpos : e.skipFrames > 0
    · obtain ⟨n, hn⟩ : ∃ n : Nat, e.skipFrames = (n : Int) := ⟨e.skipFrames.toNat, by omega⟩
      have hlt : n < e.frames.length := by omega
      obtain ⟨g0, gn, hg0, hgn, heq⟩ := handleSkip_valid e n hn (by omega) hlt
      have hf := (setTopAppFrameLoop_shape
          ({ gn with vars := g0.vars, msg := g0.msg, errDetails := g0.errDetails }
              :: e.frames.drop (n + 1)) 0
          { e with
            frames := { gn with vars := g0.vars, msg := g0.msg, errDetails := g0.errDetails }
              :: e.frames.drop (n + 1)
            topAppFrame := some 0 }).1
      have hdrop : e.frames.drop n = gn :: e.frames.drop (n + 1) := by
        rw [List.drop_eq_getElem_cons hlt]
        congr 1
        have := List.getElem?_eq_getElem hlt
        rw [hgn] at this
        exact (Option.some.inj this).symm
      refine ⟨_, n, heq, hlt, ?_⟩
      rw [hf, hdrop]
      rfl
    · refine ⟨e, 0, ?_, hlen, by rw [List.drop_zero]⟩
      unfold Err.handleSkipFrameOption
      rw [if_neg hge, if_neg hpos]

/-- The first wrap and the identity of frames: the frames returned are the
parsed ones from some position on, with their identities. -/
theorem wrap_raw_ident (rt : Runtime) (r : GoError) (opts : List WrapOption) (F : List frame)
    (hparse : parseStack rt.stack = some F) (hne : F ≠ []) :
    ∃ e n, wrap rt (.raw r) opts = some e ∧ n < F.length
      ∧ e.frames.map frame.ident = (F.drop n).map frame.ident := by
  obtain ⟨e0, h0, hfresh⟩ := newErr_fresh r rt.stack F hparse hne
  cases F with
  | nil => exact absurd rfl hne
  | cons f0 rest =>
    have hcur := hfresh.currentFrame
    have hw := wrap_raw_eq rt r opts e0 f0 h0 hcur
    obtain ⟨s1, _, s3, _, _⟩ := errEffects_shape (wrapOptions (.raw r) opts) e0
    have hcur1 : (errEffects (wrapOptions (.raw r) opts) e0).currentFrame = some f0 :=
      (currentFrame_errEffects _ e0).trans hcur
    have hidx : ((errEffects (wrapOptions (.raw r) opts) e0).setCurrentFrame
        (frameEffects (wrapOptions (.raw r) opts) f0)).currentFrameIdx = 0 := by
      rw [currentFrameIdx_setCurrentFrame, s3, hfresh.currentFrameIdx]
    have hfr := (frames_setCurrentFrame_zero (errEffects (wrapOptions (.raw r) opts) e0)
      (frameEffects (wrapOptions (.raw r) opts) f0) f0 rest
      (s3.trans hfresh.currentFrameIdx) (s1.trans hfresh.frames)).1
    have hid : ((errEffects (wrapOptions (.raw r) opts) e0).setCurrentFrame
        (frameEffects (wrapOptions (.raw r) opts) f0)).frames.map frame.ident
        = (f0 :: rest).map frame.ident := by
      rw [(setCurrentFrame_ident _ f0 (frameEffects (wrapOptions (.raw r) opts) f0) hcur1
        (frameEffects_ident _ _)).1, s1, hfresh.frames]
    split_ifs at hw with hs
    · obtain ⟨e1, n, he1, hn, hd⟩ := handleSkip_ident _ _ _ hfr hidx
      rw [he1] at hw
      have hl := congrArg List.length hid
      simp only [List.length_map] at hl
      refine ⟨e1, n, hw, by rw [← hl]; exact hn, ?_⟩
      rw [hd]
      simp only [List.map_drop, hid]
    · refine ⟨_, 0, hw, by simp, ?_⟩
      rw [List.drop_zero]
      exact hid

theorem errEffect_rootErr (o : WrapOption) (e : Err) :
    (errEffect o e).rootErr = rootOf [o] e.rootErr := by
  cases o with
  | Code c =>
    simp only [errEffect, rootOf, List.foldl]
    split_ifs <;> rfl
  | _ => rfl

theorem rootOf_cons (o : WrapOption) (os : List WrapOption) (r : GoError) :
    rootOf (o :: os) r = rootOf os (rootOf [o] r) := rfl

theorem rootOf_append (l1 l2 : List WrapOption) (r : GoError) :
    rootOf (l1 ++ l2) r = rootOf l2 (rootOf l1 r) := by
  simp [rootOf, List.foldl_append]

theorem rootOf_of_no_override (l : List WrapOption)
    (h : ∀ o ∈ l, ∀ x, o ≠ .Override x) (r : GoError) : rootOf l r = r := by
  induction l generalizing r with
  | nil => rfl
  | cons o os ih =>
    rw [rootOf_cons, ih (fun o1 h1 => h o1 (List.mem_cons_of_mem _ h1))]
    have ho := h o (List.mem_cons_self _ _)
    cases o <;> first | rfl | exact absurd rfl (ho _)

theorem errEffects_rootErr (l : List WrapOption) (e : Err) :
    (errEffects l e).rootErr = rootOf l e.rootErr := by
  induction l generalizing e with
  | nil => rfl
  | cons o os ih =>
    have h1 : errEffects (o :: os) e = errEffects os (errEffect o e) := rfl
    rw [h1, ih, errEffect_rootErr, ← rootOf_cons]

theorem applyCore_rootErr (o : WrapOption) (e e1 : Err) (h : applyCore withPlain o e = some e1) :
    e1.rootErr = rootOf [o] e.rootErr := by
  cases hc : e.currentFrame with
  | some f =>
    rw [applyCore_effect o e f hc] at h
    cases h
    rw [(setCurrentFrame_fields _ _).2.2.2.2.2.2, errEffect_rootErr]
  | none =>
    cases o with
    | Code c =>
      by_cases hcode : c = codes.OK
      · simp [applyCore, withPlain, hcode, hc] at h
      · simp only [applyCore, hcode, if_false, Option.some.injEq] at h
        rw [← h]
        split_ifs <;> rfl
    | Msg m => simp [applyCore, hc] at h
    | With k v => simp [applyCore, withPlain, hc] at h
    | FieldViolation a b => simp [applyCore, hc] at h
    | _ =>
      simp only [applyCore, Option.some.injEq] at h
      rw [← h]
      rfl

theorem applyAll_rootErr (l : List WrapOption) (e e1 : Err)
    (h : applyAll (applyCore withPlain) l e = some e1) :
    e1.rootErr = rootOf l e.rootErr := by
  induction l generalizing e with
  | nil =>
    simp only [applyAll, Option.some.injEq] at h
    rw [h]
    rfl
  | cons o os ih =>
    simp only [applyAll] at h
    cases h1 : applyCore withPlain o e with
    | none => simp [h1] at h
    | some e2 =>
      simp only [h1, Option.some_bind] at h
      rw [ih e2 h, applyCore_rootErr o e e2 h1, ← rootOf_cons]

/-- Running options leaves as root error the argument of the last `Override`
among the options that run. -/
theorem applyOptions_rootErr (opts : List WrapOption) (e e1 : Err)
    (h : applyOptions opts e = some e1) :
    e1.rootErr = rootOf (flattenAll opts) e.rootErr := by
  rw [applyOptions_flatten] at h
  exact applyAll_rootErr _ e e1 h

theorem correlate_rootErr (rt : Runtime) (e e1 : Err) (h : correlate rt e = some e1) :
    e1.rootErr = e.rootErr := by
  unfold correlate at h
  split at h
  · next site _ =>
    cases hf : e.findFrame site.name with
    | none =>
      rw [hf] at h
      exact absurd h (by simp)
    | some idx =>
      rw [hf] at h
      simp only [Option.map_some', Option.some.injEq] at h
      rw [← h]
      split_ifs <;> rfl
  · simp only [Option.some.injEq] at h
    rw [← h]

theorem probeOptions_kind (p : Probe) : ∀ o ∈ probeOptions p, o.fromInterfaces = true := by
  intro o ho
  simp only [probeOptions, List.mem_append] at ho
  rcases ho with (((((h | h) | h) | h) | h) | h) | h
  · split at h
    · obtain ⟨kv, _, hkv⟩ := List.mem_map.mp h
      rw [← hkv]
      rfl
    · simp at h
  · split at h
    · rw [List.mem_singleton.mp h]
      rfl
    · simp at h
  · split at h
    · rw [List.mem_singleton.mp h]
      rfl
    · simp at h
  · split at h
    · split_ifs at h
      · rw [List.mem_singleton.mp h]
        rfl
      · simp at h
    · simp at h
  · split at h
    · split_ifs at h
      · rw [List.mem_singleton.mp h]
        rfl
      · simp at h
    · simp at h
  · split at h
    · split_ifs at h
      · rw [List.mem_singleton.mp h]
        rfl
      · simp at h
    · simp at h
  · split at h
    · split_ifs at h <;> rw [List.mem_singleton.mp h] <;> rfl
    · simp at h

mutual
theorem flattenWith_kind (k : String) :
    ∀ (v : Value), ∀ o ∈ flattenWith k v, o.fromInterfaces = true
  | .obj vars p, o, ho => by
    simp only [flattenWith] at ho
    split at ho
    · rw [List.mem_singleton.mp ho]
      rfl
    · rcases List.mem_append.mp ho with h | h
      · exact flattenVars_kind vars o h
      · exact probeOptions_kind p o h
  | .str s, o, ho => by rw [List.mem_singleton.mp ho]; rfl
  | .int m, o, ho => by rw [List.mem_singleton.mp ho]; rfl
  | .bytes b, o, ho => by rw [List.mem_singleton.mp ho]; rfl
  | .bytesPtr b, o, ho => by rw [List.mem_singleton.mp ho]; rfl
  | .rawMessage b, o, ho => by rw [List.mem_singleton.mp ho]; rfl
  | .code c, o, ho => by rw [List.mem_singleton.mp ho]; rfl
  | .level l, o, ho => by rw [List.mem_singleton.mp ho]; rfl
  | .googleError c, o, ho => by rw [List.mem_singleton.mp ho]; rfl
  | .other t, o, ho => by rw [List.mem_singleton.mp ho]; rfl
theorem flattenVars_kind :
    ∀ (vars : List (String × Value)), ∀ o ∈ flattenVars vars, o.fromInterfaces = true
  | [], o, ho => by simp [flattenVars] at ho
  | (k, v) :: rest, o, ho => by
    simp only [flattenVars] at ho
    rcases List.mem_append.mp ho with h | h
    · exact flattenWith_kind k v o h
    · exact flattenVars_kind rest o h
end

theorem interfaces_kind (c : Caps) :
    ∀ o ∈ getWrapOptionsFromInterfaces c, o.fromInterfaces = true := by
  intro o ho
  simp only [getWrapOptionsFromInterfaces, List.mem_append, List.mem_map] at ho
  rcases ho with ⟨kv, _, h⟩ | h
  · rw [← h]
    rfl
  · exact probeOptions_kind c.probe o h

theorem no_override_of_kind (l : List WrapOption) (h : ∀ o ∈ l, o.fromInterfaces = true) :
    ∀ o ∈ l, ∀ x, o ≠ .Override x := by
  intro o ho x heq
  have := h o ho
  rw [heq] at this
  exact absurd this (by simp [WrapOption.fromInterfaces])

theorem rootOf_flatten (o : WrapOption) (r : GoError) : rootOf o.flatten r = rootOf [o] r := by
  cases o with
  | With k v =>
    show rootOf (flattenWith k v) r = r
    exact rootOf_of_no_override _ (no_override_of_kind _ (flattenWith_kind k v)) r
  | _ => rfl

theorem rootOf_flattenAll (opts : List WrapOption) (r : GoError) :
    rootOf (flattenAll opts) r = rootOf opts r := by
  induction opts generalizing r with
  | nil => rfl
  | cons o os ih =>
    simp only [flattenAll]
    rw [rootOf_append, ih, rootOf_flatten]
    rfl

theorem rootOf_interfaces (c : Caps) (r : GoError) :
    rootOf (getWrapOptionsFromInterfaces c) r = r :=
  rootOf_of_no_override _ (no_override_of_kind _ (interfaces_kind c)) r

theorem rootOf_google (ev : ErrorValue) (r : GoError) : rootOf (googleOptions ev) r = r := by
  unfold googleOptions
  split <;> rfl

/-- The root error after a wrap of an error that already carries a context: the
argument of the last `Override` among the options of the caller. -/
theorem wrap_later_rootErr (rt : Runtime) (ev : ErrorValue) (opts : List WrapOption)
    (e e1 : Err) (hin : ev.inner = some e) (h : wrap rt ev opts = some e1) :
    e1.rootErr = rootOf opts e.rootErr := by
  have key : ∀ (caps : Caps) (e2 : Err),
      (if ((googleOptions ev ++ opts).isEmpty : Bool) = true then
          some { e2 with currentFrameIdx := e2.currentFrameIdx + 1 }
        else (correlate rt e2).bind (finishWrap true caps (googleOptions ev ++ opts))) = some e1 →
      e1.rootErr = rootOf opts e2.rootErr := by
    intro caps e2 h2
    split_ifs at h2 with hl
    · simp only [Option.some.injEq] at h2
      rw [← h2]
      have hnil : googleOptions ev ++ opts = [] := List.isEmpty_iff.mp hl
      rw [(List.append_eq_nil.mp hnil).2]
      rfl
    · cases hc : correlate rt e2 with
      | none => simp [hc] at h2
      | some e3 =>
        simp only [hc, Option.some_bind, finishWrap] at h2
        cases ha : applyOptions (googleOptions ev ++ opts ++ getWrapOptionsFromInterfaces caps)
            e3 with
        | none =>
          rw [ha] at h2
          simp at h2
        | some e4 =>
          rw [ha] at h2
          simp only [Option.some_bind, Bool.not_true, Bool.false_eq_true, false_and,
            if_false, Option.some.injEq] at h2
          rw [← h2]
          show e4.rootErr = _
          rw [applyOptions_rootErr _ e3 e4 ha, correlate_rootErr rt e2 e3 hc, rootOf_flattenAll,
            rootOf_append, rootOf_append, rootOf_interfaces, rootOf_google]
  cases ev with
  | raw r => simp [ErrorValue.inner] at hin
  | wrapped e2 =>
    simp only [ErrorValue.inner, Option.some.injEq] at hin
    subst hin
    exact key _ e2 h
  | chained outer e2 =>
    simp only [ErrorValue.inner, Option.some.injEq] at hin
    subst hin
    exact key _ e2 h

/-- The root error after a first wrap: the error wrapped, or the argument of the
last `Override` among the options of the caller. -/
theorem wrap_raw_rootErr (rt : Runtime) (r : GoError) (opts : List WrapOption) (F : List frame)
    (hparse : parseStack rt.stack = some F) (hne : F ≠ []) :
    ∃ e, wrap rt (.raw r) opts = some e ∧ e.rootErr = rootOf opts r := by
  obtain ⟨e0, h0, hfresh⟩ := newErr_fresh r rt.stack F hparse hne
  cases F with
  | nil => exact absurd rfl hne
  | cons f0 rest =>
    have hcur := hfresh.currentFrame
    have hw := wrap_raw_eq rt r opts e0 f0 h0 hcur
    obtain ⟨s1, _, s3, _, _⟩ := errEffects_shape (wrapOptions (.raw r) opts) e0
    have hidx : ((errEffects (wrapOptions (.raw r) opts) e0).setCurrentFrame
        (frameEffects (wrapOptions (.raw r) opts) f0)).currentFrameIdx = 0 := by
      rw [currentFrameIdx_setCurrentFrame, s3, hfresh.currentFrameIdx]
    have hfr := (frames_setCurrentFrame_zero (errEffects (wrapOptions (.raw r) opts) e0)
      (frameEffects (wrapOptions (.raw r) opts) f0) f0 rest
      (s3.trans hfresh.currentFrameIdx) (s1.trans hfresh.frames)).1
    have hroot : ((errEffects (wrapOptions (.raw r) opts) e0).setCurrentFrame
        (frameEffects (wrapOptions (.raw r) opts) f0)).rootErr = rootOf opts r := by
      rw [(setCurrentFrame_fields _ _).2.2.2.2.2.2, errEffects_rootErr, hfresh.rootErr]
      simp only [wrapOptions, rootOf_flattenAll, rootOf_append, rootOf_interfaces, rootOf_google]
    split_ifs at hw with hs
    · obtain ⟨e1, g, tl, he1, _, _, _, _, _, _, _, _, _, _, hr, _⟩ :=
        handleSkip_total _ _ _ hfr hidx
      rw [he1] at hw
      exact ⟨e1, hw, hr.trans hroot⟩
    · exact ⟨_, hw, hroot⟩

/-! ### Writes into a map, twice -/

theorem mapSet_mapSet_same {α : Type} (m : List (String × α)) (k : String) (a b : α) :
    mapSet (mapSet m k a) k b = mapSet m k b := by
  induction m with
  | nil => simp [mapSet]
  | cons kv rest ih =>
    obtain ⟨k0, v0⟩ := kv
    by_cases h : k0 = k
    · simp [mapSet, h]
    · simp [mapSet, h, ih]

theorem mapSet_of_get {α : Type} (m : List (String × α)) (k : String) (v : α)
    (h : mapGet m k = some v) : mapSet m k v = m := by
  induction m with
  | nil => simp [mapGet] at h
  | cons kv rest ih =>
    obtain ⟨k0, v0⟩ := kv
    by_cases h0 : k0 = k
    · subst h0
      simp only [mapGet, if_true, Option.some.injEq] at h
      simp [mapSet, h]
    · simp only [mapGet, if_neg h0] at h
      simp [mapSet, h0, ih h]

theorem mapSet_comm {α : Type} (m : List (String × α)) (k1 k2 : String) (a b : α)
    (hne : k1 ≠ k2) (hp : (mapGet m k1).isSome = true) :
    mapSet (mapSet m k1 a) k2 b = mapSet (mapSet m k2 b) k1 a := by
  induction m with
  | nil => simp [mapGet] at hp
  | cons kv rest ih =>
    obtain ⟨k0, v0⟩ := kv
    by_cases h1 : k0 = k1
    · subst h1
      have h2 : ¬ k0 = k2 := hne
      simp [mapSet, h2]
    · simp only [mapGet, if_neg h1] at hp
      by_cases h2 : k0 = k2
      · subst h2
        simp [mapSet, h1]
      · simp [mapSet, h1, h2, ih hp]

theorem mapGet_isSome_mapSet {α : Type} (m : List (String × α)) (k k2 : String) (v : α)
    (h : (mapGet m k2).isSome = true) : (mapGet (mapSet m k v) k2).isSome = true := by
  by_cases hk : k2 = k
  · rw [hk, mapGet_mapSet]
    rfl
  · rw [mapGet_mapSet_ne _ _ _ _ hk]
    exact h

theorem mapWrites_cons {α : Type} (w : String × α) (ws : List (String × α))
    (m : List (String × α)) : mapWrites (w :: ws) m = mapWrites ws (mapSet m w.1 w.2) := rfl

theorem mapGet_isSome_mapWrites {α : Type} (ws : List (String × α)) (m : List (String × α))
    (k : String) (h : (mapGet m k).isSome = true) : (mapGet (mapWrites ws m) k).isSome = true := by
  induction ws generalizing m with
  | nil => exact h
  | cons w ws ih =>
    rw [mapWrites_cons]
    exact ih _ (mapGet_isSome_mapSet m w.1 k w.2 h)

/-- A write after a list of writes to keys already present: the write moves
before them, and absorbs those to its own key. -/
theorem mapSet_mapWrites {α : Type} (ps : List (String × α)) (m : List (String × α))
    (k : String) (v : α) (hp : ∀ w ∈ ps, (mapGet m w.1).isSome = true) :
    mapSet (mapWrites ps m) k v
      = mapWrites (ps.filter (fun w => decide (w.1 ≠ k))) (mapSet m k v) := by
  induction ps generalizing m with
  | nil => rfl
  | cons p ps ih =>
    have hp1 := hp p (List.mem_cons_self _ _)
    rw [mapWrites_cons, ih _ (fun w hw =>
      mapGet_isSome_mapSet m p.1 w.1 p.2 (hp w (List.mem_cons_of_mem _ hw)))]
    by_cases hk : p.1 = k
    · have hf : (p :: ps).filter (fun w => decide (w.1 ≠ k))
          = ps.filter (fun w => decide (w.1 ≠ k)) := by
        simp [List.filter, hk]
      rw [hf, hk, mapSet_mapSet_same]
    · have hf : (p :: ps).filter (fun w => decide (w.1 ≠ k))
          = p :: ps.filter (fun w => decide (w.1 ≠ k)) := by
        simp [List.filter, hk]
      rw [hf, mapWrites_cons, mapSet_comm m p.1 k p.2 v hk hp1]

theorem mapWrites_of_get {α : Type} (ps : List (String × α)) (m : List (String × α))
    (h : ∀ w ∈ ps, mapGet m w.1 = some w.2) : mapWrites ps m = m := by
  induction ps with
  | nil => rfl
  | cons p ps ih =>
    rw [mapWrites_cons, mapSet_of_get m p.1 p.2 (h p (List.mem_cons_self _ _))]
    exact ih (fun w hw => h w (List.mem_cons_of_mem _ hw))

/-- Writes `ws`, then pending writes `ps` to keys already present which `ws`
overwrites or which the map already holds, then `ws` again: the same map as
after `ws`. -/
theorem mapWrites_absorb {α : Type} (ws : List (String × α)) :
    ∀ (m : List (String × α)) (ps : List (String × α)),
      (∀ w ∈ ps, (mapGet m w.1).isSome = true
        ∧ ((∀ u ∈ ws, u.1 ≠ w.1) → mapGet m w.1 = some w.2)) →
      mapWrites ws (mapWrites ps (mapWrites ws m)) = mapWrites ws m := by
  induction ws with
  | nil =>
    intro m ps h
    exact mapWrites_of_get ps m (fun w hw => (h w hw).2 (fun u hu => by simp at hu))
  | cons u us ih =>
    intro m ps h
    have hpres : ∀ w ∈ ps, (mapGet (mapWrites us (mapSet m u.1 u.2)) w.1).isSome = true :=
      fun w hw => mapGet_isSome_mapWrites us _ w.1
        (mapGet_isSome_mapSet m u.1 w.1 u.2 (h w hw).1)
    rw [mapWrites_cons, mapWrites_cons, mapSet_mapWrites ps _ u.1 u.2 hpres,
      ← mapWrites_cons u (ps.filter (fun w => decide (w.1 ≠ u.1)))]
    apply ih
    intro w hw
    rcases List.mem_cons.mp hw with hwu | hwf
    · rw [hwu]
      exact ⟨by rw [mapGet_mapSet]; rfl, fun _ => mapGet_mapSet m u.1 u.2⟩
    · obtain ⟨hwps, hwk⟩ := List.mem_filter.mp hwf
      have hne : w.1 ≠ u.1 := by simpa using hwk
      refine ⟨mapGet_isSome_mapSet m u.1 w.1 u.2 (h w hwps).1, fun hus => ?_⟩
      rw [mapGet_mapSet_ne _ _ _ _ hne]
      apply (h w hwps).2
      intro x hx
      rcases List.mem_cons.mp hx with hxu | hxus
      · rw [hxu]
        exact fun hc => hne hc.symm
      · exact hus x hxus

/-- Writing the same entries twice is writing them once. -/
theorem mapWrites_idem {α : Type} (ws : List (String × α)) (m : List (String × α)) :
    mapWrites ws (mapWrites ws m) = mapWrites ws m :=
  mapWrites_absorb ws m [] (fun w hw => by simp at hw)

/-! ### Options applied twice -/

/-- A field that every step either sets to a constant or leaves alone is, after
a fold of steps, a constant or the field at the start. -/
theorem fold_const_or_id {S α : Type} (step : WrapOption → S → S) (π : S → α)
    (l : List WrapOption)
    (h : ∀ o ∈ l, (∃ c, ∀ s, π (step o s) = c) ∨ (∀ s, π (step o s) = π s)) :
    (∃ c, ∀ s, π (l.foldl (fun s o => step o s) s) = c)
      ∨ (∀ s, π (l.foldl (fun s o => step o s) s) = π s) := by
  induction l with
  | nil => exact Or.inr (fun _ => rfl)
  | cons o os ih =>
    rcases ih (fun o1 h1 => h o1 (List.mem_cons_of_mem _ h1)) with ⟨c, hc⟩ | hid
    · exact Or.inl ⟨c, fun s => hc _⟩
    · rcases h o (List.mem_cons_self _ _) with ⟨c, hc⟩ | ho
      · exact Or.inl ⟨c, fun s => (hid _).trans (hc s)⟩
      · exact Or.inr (fun s => (hid _).trans (ho s))

theorem fold_field_idem {S α : Type} (step : WrapOption → S → S) (π : S → α)
    (l : List WrapOption)
    (h : ∀ o ∈ l, (∃ c, ∀ s, π (step o s) = c) ∨ (∀ s, π (step o s) = π s)) (s : S) :
    π (l.foldl (fun s o => step o s) (l.foldl (fun s o => step o s) s))
      = π (l.foldl (fun s o => step o s) s) := by
  rcases fold_const_or_id step π l h with ⟨c, hc⟩ | hid
  · rw [hc, hc]
  · rw [hid]

theorem errEffect_steps (o : WrapOption) :
    ((∃ c, ∀ s : Err, (errEffect o s).rootErr = c) ∨ ∀ s : Err, (errEffect o s).rootErr = s.rootErr)
    ∧ ((∃ c, ∀ s : Err, (errEffect o s).rawStack = c)
        ∨ ∀ s : Err, (errEffect o s).rawStack = s.rawStack)
    ∧ ((∃ c, ∀ s : Err, (errEffect o s).Level = c) ∨ ∀ s : Err, (errEffect o s).Level = s.Level)
    ∧ ((∃ c, ∀ s : Err, (errEffect o s).code = c) ∨ ∀ s : Err, (errEffect o s).code = s.code)
    ∧ ((∃ c, ∀ s : Err, (errEffect o s).isRetriable = c)
        ∨ ∀ s : Err, (errEffect o s).isRetriable = s.isRetriable)
    ∧ ((∃ c, ∀ s : Err, (errEffect o s).noReport = c)
        ∨ ∀ s : Err, (errEffect o s).noReport = s.noReport)
    ∧ ((∃ c, ∀ s : Err, (errEffect o s).isInfra = c)
        ∨ ∀ s : Err, (errEffect o s).isInfra = s.isInfra)
    ∧ ((∃ c, ∀ s : Err, (errEffect o s).skipFrames = c)
        ∨ ∀ s : Err, (errEffect o s).skipFrames = s.skipFrames) := by
  cases o with
  | Code c =>
    by_cases h1 : c = codes.OK
    · have he : ∀ s : Err, errEffect (.Code c) s = s := fun s => by
        simp only [errEffect, if_pos h1]
      exact ⟨Or.inr fun s => by rw [he], Or.inr fun s => by rw [he], Or.inr fun s => by rw [he],
        Or.inr fun s => by rw [he], Or.inr fun s => by rw [he], Or.inr fun s => by rw [he],
        Or.inr fun s => by rw [he], Or.inr fun s => by rw [he]⟩
    · by_cases h2 : c = codes.InvalidArgument
      · have he : ∀ s : Err, errEffect (.Code c) s
            = { s with isRetriable := false, code := c } := fun s => by
          simp only [errEffect, if_neg h1, if_pos h2]
        exact ⟨Or.inr fun s => by rw [he], Or.inr fun s => by rw [he],
          Or.inr fun s => by rw [he], Or.inl ⟨c, fun s => by rw [he]⟩,
          Or.inl ⟨false, fun s => by rw [he]⟩, Or.inr fun s => by rw [he],
          Or.inr fun s => by rw [he], Or.inr fun s => by rw [he]⟩
      · have he : ∀ s : Err, errEffect (.Code c) s = { s with code := c } := fun s => by
          simp only [errEffect, if_neg h1, if_neg h2]
        exact ⟨Or.inr fun s => by rw [he], Or.inr fun s => by rw [he],
          Or.inr fun s => by rw [he], Or.inl ⟨c, fun s => by rw [he]⟩,
          Or.inr fun s => by rw [he], Or.inr fun s => by rw [he],
          Or.inr fun s => by rw [he], Or.inr fun s => by rw [he]⟩
  | Critical =>
    exact ⟨Or.inr fun _ => rfl, Or.inr fun _ => rfl, Or.inl ⟨LevelCritical, fun _ => rfl⟩,
      Or.inr fun _ => rfl, Or.inr fun _ => rfl, Or.inr fun _ => rfl, Or.inr fun _ => rfl,
      Or.inr fun _ => rfl⟩
  | Error =>
    exact ⟨Or.inr fun _ => rfl, Or.inr fun _ => rfl, Or.inl ⟨LevelError, fun _ => rfl⟩,
      Or.inr fun _ => rfl, Or.inr fun _ => rfl, Or.inr fun _ => rfl, Or.inr fun _ => rfl,
      Or.inr fun _ => rfl⟩
  | Warning =>
    exact ⟨Or.inr fun _ => rfl, Or.inr fun _ => rfl, Or.inl ⟨LevelWarning, fun _ => rfl⟩,
      Or.inr fun _ => rfl, Or.inr fun _ => rfl, Or.inr fun _ => rfl, Or.inr fun _ => rfl,
      Or.inr fun _ => rfl⟩
  | NotRetriable =>
    exact ⟨Or.inr fun _ => rfl, Or.inr fun _ => rfl, Or.inr fun _ => rfl, Or.inr fun _ => rfl,
      Or.inl ⟨false, fun _ => rfl⟩, Or.inr fun _ => rfl, Or.inr fun _ => rfl,
      Or.inr fun _ => rfl⟩
  | NoReport =>
    exact ⟨Or.inr fun _ => rfl, Or.inr fun _ => rfl, Or.inr fun _ => rfl, Or.inr fun _ => rfl,
      Or.inr fun _ => rfl, Or.inl ⟨true, fun _ => rfl⟩, Or.inr fun _ => rfl,
      Or.inr fun _ => rfl⟩
  | Infra =>
    exact ⟨Or.inr fun _ => rfl, Or.inr fun _ => rfl, Or.inr fun _ => rfl, Or.inr fun _ => rfl,
      Or.inr fun _ => rfl, Or.inr fun _ => rfl, Or.inl ⟨true, fun _ => rfl⟩,
      Or.inr fun _ => rfl⟩
  | Stack st =>
    exact ⟨Or.inr fun _ => rfl, Or.inl ⟨st, fun _ => rfl⟩, Or.inr fun _ => rfl,
      Or.inr fun _ => rfl, Or.inr fun _ => rfl, Or.inr fun _ => rfl, Or.inr fun _ => rfl,
      Or.inr fun _ => rfl⟩
  | Override x =>
    exact ⟨Or.inl ⟨x, fun _ => rfl⟩, Or.inr fun _ => rfl, Or.inr fun _ => rfl,
      Or.inr fun _ => rfl, Or.inr fun _ => rfl, Or.inr fun _ => rfl, Or.inr fun _ => rfl,
      Or.inr fun _ => rfl⟩
  | SkipFrames n =>
    exact ⟨Or.inr fun _ => rfl, Or.inr fun _ => rfl, Or.inr fun _ => rfl, Or.inr fun _ => rfl,
      Or.inr fun _ => rfl, Or.inr fun _ => rfl, Or.inr fun _ => rfl,
      Or.inl ⟨n, fun _ => rfl⟩⟩
  | _ =>
    exact ⟨Or.inr fun _ => rfl, Or.inr fun _ => rfl, Or.inr fun _ => rfl, Or.inr fun _ => rfl,
      Or.inr fun _ => rfl, Or.inr fun _ => rfl, Or.inr fun _ => rfl, Or.inr fun _ => rfl⟩

theorem errEffects_tags (l : List WrapOption) (e : Err) :
    (errEffects l e).tags = mapWrites (tagWrites l) e.tags := by
  induction l generalizing e with
  | nil => rfl
  | cons o os ih =>
    have h1 : errEffects (o :: os) e = errEffects os (errEffect o e) := rfl
    rw [h1, ih]
    cases o with
    | Code c =>
      simp only [errEffect, tagWrites]
      split_ifs <;> rfl
    | _ => rfl

theorem frameEffects_vars (l : List WrapOption) (f : frame) :
    (frameEffects l f).vars = mapWrites (varWrites l) f.vars := by
  induction l generalizing f with
  | nil => rfl
  | cons o os ih =>
    have h1 : frameEffects (o :: os) f = frameEffects os (frameEffect o f) := rfl
    rw [h1, ih]
    cases o with
    | Code c =>
      simp only [frameEffect, varWrites]
      split_ifs <;> rfl
    | FieldViolation a b =>
      simp only [frameEffect, varWrites]
      split_ifs <;> rfl
    | _ => rfl

theorem frameEffect_steps (o : WrapOption) (h : ∀ a b, o ≠ .FieldViolation a b) :
    ((∃ c, ∀ s : frame, (frameEffect o s).msg = c) ∨ ∀ s : frame, (frameEffect o s).msg = s.msg)
    ∧ ((∃ c, ∀ s : frame, (frameEffect o s).errDetails = c)
        ∨ ∀ s : frame, (frameEffect o s).errDetails = s.errDetails) := by
  cases o with
  | Code c =>
    simp only [frameEffect]
    refine ⟨Or.inr fun s => ?_, Or.inr fun s => ?_⟩ <;> split_ifs <;> rfl
  | Msg m => exact ⟨Or.inl ⟨m, fun _ => rfl⟩, Or.inr fun _ => rfl⟩
  | FieldViolation a b => exact absurd rfl (h a b)
  | _ => exact ⟨Or.inr fun _ => rfl, Or.inr fun _ => rfl⟩

theorem Err_eq_of_fields (a b : Err) (h1 : a.rootErr = b.rootErr) (h2 : a.rawStack = b.rawStack)
    (h3 : a.frames = b.frames) (h4 : a.unknownFrames = b.unknownFrames)
    (h5 : a.currentFrameIdx = b.currentFrameIdx) (h6 : a.topAppFrame = b.topAppFrame)
    (h7 : a.Level = b.Level) (h8 : a.code = b.code) (h9 : a.tags = b.tags)
    (h10 : a.isRetriable = b.isRetriable) (h11 : a.noReport = b.noReport)
    (h12 : a.isPanic = b.isPanic) (h13 : a.isInfra = b.isInfra)
    (h14 : a.skipFrames = b.skipFrames) : a = b := by
  cases a
  cases b
  simp only at h1 h2 h3 h4 h5 h6 h7 h8 h9 h10 h11 h12 h13 h14
  simp only [h1, h2, h3, h4, h5, h6, h7, h8, h9, h10, h11, h12, h13, h14]

theorem frame_eq_of_fields (f g : frame) (hi : f.ident = g.ident) (hm : f.msg = g.msg)
    (hv : f.vars = g.vars) (hd : f.errDetails = g.errDetails) : f = g := by
  cases f
  cases g
  simp only [frame.ident, FrameId.mk.injEq] at hi
  simp only at hm hv hd
  obtain ⟨i1, i2, i3, i4, i5, i6, i7⟩ := hi
  simp only [hm, hv, hd, i1, i2, i3, i4, i5, i6, i7]

/-- The context-level effect of a list of expanded options, twice, is that
effect once. -/
theorem errEffects_idem (l : List WrapOption) (e : Err) :
    errEffects l (errEffects l e) = errEffects l e := by
  obtain ⟨s1, s2, s3, s4, s5⟩ := errEffects_shape l (errEffects l e)
  apply Err_eq_of_fields
  · exact fold_field_idem errEffect (fun s => s.rootErr) l (fun o _ => (errEffect_steps o).1) e
  · exact fold_field_idem errEffect (fun s => s.rawStack) l
      (fun o _ => (errEffect_steps o).2.1) e
  · exact s1
  · exact s2
  · exact s3
  · exact s4
  · exact fold_field_idem errEffect (fun s => s.Level) l
      (fun o _ => (errEffect_steps o).2.2.1) e
  · exact fold_field_idem errEffect (fun s => s.code) l
      (fun o _ => (errEffect_steps o).2.2.2.1) e
  · rw [errEffects_tags, errEffects_tags, mapWrites_idem]
  · exact fold_field_idem errEffect (fun s => s.isRetriable) l
      (fun o _ => (errEffect_steps o).2.2.2.2.1) e
  · exact fold_field_idem errEffect (fun s => s.noReport) l
      (fun o _ => (errEffect_steps o).2.2.2.2.2.1) e
  · exact s5
  · exact fold_field_idem errEffect (fun s => s.isInfra) l
      (fun o _ => (errEffect_steps o).2.2.2.2.2.2.1) e
  · exact fold_field_idem errEffect (fun s => s.skipFrames) l
      (fun o _ => (errEffect_steps o).2.2.2.2.2.2.2) e

/-- The frame-level effect of a list of expanded options without
`FieldViolation`, twice, is that effect once. -/
theorem frameEffects_idem (l : List WrapOption) (h : ∀ o ∈ l, ∀ a b, o ≠ .FieldViolation a b)
    (f : frame) : frameEffects l (frameEffects l f) = frameEffects l f := by
  apply frame_eq_of_fields
  · rw [frameEffects_ident, frameEffects_ident]
  · exact fold_field_idem frameEffect (fun s => s.msg) l
      (fun o ho => (frameEffect_steps o (h o ho)).1) f
  · rw [frameEffects_vars, frameEffects_vars, mapWrites_idem]
  · exact fold_field_idem frameEffect (fun s => s.errDetails) l
      (fun o ho => (frameEffect_steps o (h o ho)).2) f

theorem flatten_no_violation (o : WrapOption) (h : ∀ a b, o ≠ .FieldViolation a b) :
    ∀ x ∈ flattenAll [o], ∀ a b, x ≠ .FieldViolation a b := by
  intro x hx a b heq
  simp only [flattenAll, List.append_nil] at hx
  cases o with
  | With k v =>
    have := flattenWith_kind k v x hx
    rw [heq] at this
    exact absurd this (by simp [WrapOption.fromInterfaces])
  | FieldViolation c d => exact absurd rfl (h c d)
  | _ =>
    simp only [WrapOption.flatten, List.mem_singleton] at hx
    rw [heq] at hx
    exact absurd hx (by simp)

/-- An option other than `FieldViolation`, on a context whose cursor is on a
frame, runs, and run again on the result, the maps of its value being ranged in
the same order, it returns that result. -/
theorem apply_idem (o : WrapOption) (e : Err) (f : frame) (hcur : e.currentFrame = some f)
    (h : ∀ a b, o ≠ .FieldViolation a b) :
    ∃ e1, o.apply e = some e1 ∧ o.apply e1 = some e1 := by
  obtain ⟨e1, he1, heq, hc1⟩ := applyOptions_current [o] e f hcur
  obtain ⟨e2, he2, heq2, _⟩ := applyOptions_current [o] e1 _ hc1
  have hsingle : ∀ x : Err, applyOptions [o] x = o.apply x := fun x => applyAll_single _ o x
  rw [hsingle] at he1 he2
  refine ⟨e1, he1, ?_⟩
  rw [he2, heq2]
  congr 1
  rw [frameEffects_idem _ (flatten_no_violation o h)]
  conv_lhs => rw [heq]
  rw [errEffects_setCurrentFrame, errEffects_idem, setCurrentFrame_setCurrentFrame, ← heq]

/-! ### Substrings of the text of an error -/

theorem isPrefixOf_append (p l b : List Char) (h : p.isPrefixOf l = true) :
    p.isPrefixOf (l ++ b) = true := by
  rw [List.isPrefixOf_iff_prefix] at h ⊢
  exact h.trans (List.prefix_append l b)

theorem containsAt_self (p : List Char) : containsAt p p = true := by
  cases p with
  | nil => rfl
  | cons c cs =>
    simp only [containsAt, Bool.or_eq_true]
    left
    rw [List.isPrefixOf_iff_prefix]

theorem containsAt_nil (l : List Char) : containsAt [] l = true := by
  cases l with
  | nil => rfl
  | cons c cs => simp [containsAt, List.isPrefixOf]

theorem containsAt_append_right (p a b : List Char) (h : containsAt p b = true) :
    containsAt p (a ++ b) = true := by
  induction a with
  | nil => exact h
  | cons c cs ih =>
    simp only [List.cons_append, containsAt, Bool.or_eq_true]
    exact Or.inr ih

theorem containsAt_append_left (p a b : List Char) (h : containsAt p a = true) :
    containsAt p (a ++ b) = true := by
  induction a with
  | nil =>
    have hp : p = [] := by
      simpa [containsAt] using h
    rw [hp]
    exact containsAt_nil _
  | cons c cs ih =>
    simp only [containsAt, Bool.or_eq_true] at h
    simp only [List.cons_append, containsAt, Bool.or_eq_true]
    rcases h with h | h
    · exact Or.inl (isPrefixOf_append p (c :: cs) b h)
    · exact Or.inr (ih h)

theorem stringsContains_self (s : String) : stringsContains s s = true :=
  containsAt_self _

theorem stringsContains_append_left (a b sub : String) (h : stringsContains a sub = true) :
    stringsContains (a ++ b) sub = true := by
  unfold stringsContains at h ⊢
  have hab : (a ++ b).toList = a.toList ++ b.toList := String.data_append a b
  rw [hab]
  exact containsAt_append_left _ _ _ h

theorem stringsContains_append_right (a b sub : String) (h : stringsContains b sub = true) :
    stringsContains (a ++ b) sub = true := by
  unfold stringsContains at h ⊢
  have hab : (a ++ b).toList = a.toList ++ b.toList := String.data_append a b
  rw [hab]
  exact containsAt_append_right _ _ _ h

theorem violationLines_contains (vs : List (String × String)) (p : String × String)
    (h : p ∈ vs) : stringsContains (violationLines vs) (p.1 ++ ": " ++ p.2) = true := by
  induction vs with
  | nil => simp at h
  | cons v rest ih =>
    obtain ⟨field, description⟩ := v
    simp only [violationLines]
    rcases List.mem_cons.mp h with hp | hp
    · apply stringsContains_append_left
      rw [hp]
      have h1 : "\n\t" ++ field ++ ": " ++ description
          = "\n\t" ++ (field ++ ": " ++ description) := by
        simp only [String.append_assoc]
      rw [h1]
      exact stringsContains_append_right _ _ _ (stringsContains_self _)
    · exact stringsContains_append_right _ _ _ (ih hp)

theorem detailLines_contains (ds : List Detail) (vs : List (String × String))
    (p : String × String) (hd : Detail.badRequest vs ∈ ds) (h : p ∈ vs) :
    stringsContains (detailLines ds) (p.1 ++ ": " ++ p.2) = true := by
  induction ds with
  | nil => simp at hd
  | cons d rest ih =>
    rcases List.mem_cons.mp hd with hp | hp
    · rw [← hp]
      simp only [detailLines]
      apply stringsContains_append_left
      exact stringsContains_append_right _ _ _ (violationLines_contains vs p h)
    · cases d with
      | badRequest ws =>
        simp only [detailLines]
        exact stringsContains_append_right _ _ _ (ih hp)
      | other t =>
        simp only [detailLines]
        exact stringsContains_append_right _ _ _ (ih hp)

theorem frame_string_contains (fm : Formats) (f : frame) (sub : String)
    (h : stringsContains (detailLines f.errDetails) sub = true) :
    stringsContains (f.string fm) sub = true := by
  unfold frame.string
  apply stringsContains_append_left
  exact stringsContains_append_right _ _ _ h

theorem frameLines_contains (fm : Formats) (fs : List frame) (f : frame) (sub : String)
    (hf : f ∈ fs) (h : stringsContains (f.string fm) sub = true) :
    stringsContains (frameLines fm fs) sub = true := by
  induction fs with
  | nil => simp at hf
  | cons g rest ih =>
    simp only [frameLines]
    rcases List.mem_cons.mp hf with hp | hp
    · rw [← hp]
      apply stringsContains_append_left
      exact stringsContains_append_left _ _ _ h
    · exact stringsContains_append_right _ _ _ (ih hp)

/-- The text of an error contains whatever the text of one of its frames contains. -/
theorem Error_contains (fm : Formats) (e : Err) (f : frame) (sub : String) (hf : f ∈ e.frames)
    (h : stringsContains (f.string fm) sub = true) :
    stringsContains (e.Error fm) sub = true := by
  unfold Err.Error
  apply stringsContains_append_left
  apply stringsContains_append_left
  apply stringsContains_append_right
  unfold framesString
  exact stringsContains_append_right _ _ _ (frameLines_contains fm e.frames f sub hf h)

/-! ### Field violations on a frame -/

theorem addViolation_keeps (fv : String × String) (ds : List Detail)
    (vs : List (String × String)) (h : Detail.badRequest vs ∈ ds) :
    Detail.badRequest (vs ++ [fv]) ∈ addViolation fv ds := by
  induction ds with
  | nil => simp at h
  | cons d rest ih =>
    rcases List.mem_cons.mp h with hp | hp
    · rw [← hp]
      simp [addViolation]
    · cases d with
      | badRequest ws =>
        simp only [addViolation]
        exact List.mem_cons_of_mem _ (ih hp)
      | other t =>
        simp only [addViolation]
        exact List.mem_cons_of_mem _ (ih hp)

theorem any_isBadRequest (ds : List Detail) (h : ds.any Detail.isBadRequest = true) :
    ∃ vs, Detail.badRequest vs ∈ ds := by
  obtain ⟨d, hd, hb⟩ := List.any_eq_true.mp h
  cases d with
  | badRequest vs => exact ⟨vs, hd⟩
  | other t => simp [Detail.isBadRequest] at hb

/-- A violation recorded on a frame is still recorded after any expanded option. -/
theorem frameEffect_keeps_violation (o : WrapOption) (f : frame) (p : String × String)
    (h : ∃ vs, Detail.badRequest vs ∈ f.errDetails ∧ p ∈ vs) :
    ∃ vs, Detail.badRequest vs ∈ (frameEffect o f).errDetails ∧ p ∈ vs := by
  obtain ⟨vs, hvs, hp⟩ := h
  cases o with
  | Code c =>
    simp only [frameEffect]
    split_ifs <;> exact ⟨vs, hvs, hp⟩
  | FieldViolation a b =>
    simp only [frameEffect]
    split_ifs
    · exact ⟨vs ++ [(a, b)], addViolation_keeps (a, b) f.errDetails vs hvs,
        List.mem_append_left _ hp⟩
    · exact ⟨vs, List.mem_append_left _ hvs, hp⟩
  | _ => exact ⟨vs, hvs, hp⟩

theorem frameEffects_keeps_violation (l : List WrapOption) (f : frame) (p : String × String)
    (h : ∃ vs, Detail.badRequest vs ∈ f.errDetails ∧ p ∈ vs) :
    ∃ vs, Detail.badRequest vs ∈ (frameEffects l f).errDetails ∧ p ∈ vs := by
  induction l generalizing f with
  | nil => exact h
  | cons o os ih => exact ih (frameEffect o f) (frameEffect_keeps_violation o f p h)

/-- After `FieldViolation(a, b)` the violation is recorded on the frame. -/
theorem frameEffect_records_violation (a b : String) (f : frame) :
    ∃ vs, Detail.badRequest vs ∈ (frameEffect (.FieldViolation a b) f).errDetails
      ∧ (a, b) ∈ vs := by
  simp only [frameEffect]
  split_ifs with h
  · obtain ⟨vs, hvs⟩ := any_isBadRequest f.errDetails h
    exact ⟨vs ++ [(a, b)], addViolation_keeps (a, b) f.errDetails vs hvs, by simp⟩
  · exact ⟨[(a, b)], by simp, by simp⟩

theorem invalidArgOptions_records :
    ∀ (fields : List String) (f : frame) (p : String × String), p ∈ fieldPairs fields →
      ∃ vs, Detail.badRequest vs ∈ (frameEffects (invalidArgOptions fields) f).errDetails
        ∧ p ∈ vs
  | [], f, p, hp => by simp [fieldPairs] at hp
  | [_], f, p, hp => by simp [fieldPairs] at hp
  | field :: description :: rest, f, p, hp => by
    simp only [fieldPairs, List.mem_cons] at hp
    have hstep : frameEffects (invalidArgOptions (field :: description :: rest)) f
        = frameEffects (invalidArgOptions rest)
            (frameEffect (.With field (.str description))
              (frameEffect (.FieldViolation field description) f)) := rfl
    rw [hstep]
    rcases hp with hp | hp
    · rw [hp]
      exact frameEffects_keeps_violation _ _ _
        (frameEffect_keeps_violation _ _ _ (frameEffect_records_violation field description f))
    · exact invalidArgOptions_records rest _ p hp

theorem invalidArgOptions_mem :
    ∀ (fields : List String), ∀ o ∈ invalidArgOptions fields,
      (∃ a b, o = .FieldViolation a b) ∨ (∃ k d, o = .With k (.str d))
  | [], o, ho => by simp [invalidArgOptions] at ho
  | [_], o, ho => by simp [invalidArgOptions] at ho
  | field :: description :: rest, o, ho => by
    simp only [invalidArgOptions, List.mem_cons] at ho
    rcases ho with h | h | h
    · exact Or.inl ⟨_, _, h⟩
    · exact Or.inr ⟨_, _, h⟩
    · exact invalidArgOptions_mem rest o h

theorem errEffects_notRetriable (l : List WrapOption) (e : Err) (h : e.isRetriable = false) :
    (errEffects l e).isRetriable = false := by
  induction l generalizing e with
  | nil => exact h
  | cons o os ih =>
    apply ih
    cases o with
    | Code c =>
      simp only [errEffect]
      split_ifs <;> first | exact h | rfl
    | NotRetriable => rfl
    | _ => exact h

/-- A first wrap whose options request no skip: the context returned, by the
effects of the expanded options on the fresh context and on frame 0. -/
theorem wrap_raw_noskip (rt : Runtime) (r : GoError) (opts : List WrapOption) (F : List frame)
    (hparse : parseStack rt.stack = some F) (hne : F ≠ []) (hskip : requestedSkip opts = 0) :
    ∃ e0 f0 rest e, newErr r rt.stack = some e0 ∧ Fresh r rt.stack F e0 ∧ F = f0 :: rest
      ∧ wrap rt (.raw r) opts = some e
      ∧ e.frames = frameEffects (wrapOptions (.raw r) opts) f0 :: rest
      ∧ e.code = (errEffects (wrapOptions (.raw r) opts) e0).code
      ∧ e.isRetriable = (errEffects (wrapOptions (.raw r) opts) e0).isRetriable := by
  obtain ⟨e0, h0, hfresh⟩ := newErr_fresh r rt.stack F hparse hne
  cases F with
  | nil => exact absurd rfl hne
  | cons f0 rest =>
    have hcur := hfresh.currentFrame
    have hw := wrap_raw_eq rt r opts e0 f0 h0 hcur
    obtain ⟨s1, _, s3, _, _⟩ := errEffects_shape (wrapOptions (.raw r) opts) e0
    have hsk : ((errEffects (wrapOptions (.raw r) opts) e0).setCurrentFrame
        (frameEffects (wrapOptions (.raw r) opts) f0)).skipFrames = 0 := by
      rw [skipFrames_setCurrentFrame, errEffects_skipFrames, hfresh.skipFrames,
        skipOf_wrapOptions]
      exact hskip
    have hfr := (frames_setCurrentFrame_zero (errEffects (wrapOptions (.raw r) opts) e0)
      (frameEffects (wrapOptions (.raw r) opts) f0) f0 rest
      (s3.trans hfresh.currentFrameIdx) (s1.trans hfresh.frames)).1
    obtain ⟨c1, _, c3, _⟩ := setCurrentFrame_fields (errEffects (wrapOptions (.raw r) opts) e0)
      (frameEffects (wrapOptions (.raw r) opts) f0)
    rw [if_neg (by rw [hsk]; decide)] at hw
    exact ⟨e0, f0, rest, _, h0, hfresh, rfl, hw, hfr, c1, c3⟩

/-! ### Retriability -/

theorem errEffect_notRetriable (o : WrapOption) (e : Err) (h : e.isRetriable = false) :
    (errEffect o e).isRetriable = false :=
  errEffects_notRetriable [o] e h

theorem applyCore_notRetriable (o : WrapOption) (e e1 : Err)
    (h : applyCore withPlain o e = some e1) (hr : e.isRetriable = false) :
    e1.isRetriable = false := by
  cases hc : e.currentFrame with
  | some f =>
    rw [applyCore_effect o e f hc] at h
    cases h
    rw [(setCurrentFrame_fields _ _).2.2.1]
    exact errEffect_notRetriable o e hr
  | none =>
    cases o with
    | Code c =>
      by_cases hcode : c = codes.OK
      · simp [applyCore, withPlain, hcode, hc] at h
      · simp only [applyCore, hcode, if_false, Option.some.injEq] at h
        rw [← h]
        split_ifs <;> first | exact hr | rfl
    | Msg m => simp [applyCore, hc] at h
    | With k v => simp [applyCore, withPlain, hc] at h
    | FieldViolation a b => simp [applyCore, hc] at h
    | NotRetriable =>
      simp only [applyCore, Option.some.injEq] at h
      rw [← h]
    | _ =>
      simp only [applyCore, Option.some.injEq] at h
      rw [← h]
      exact hr

theorem applyAll_notRetriable (l : List WrapOption) (e e1 : Err)
    (h : applyAll (applyCore withPlain) l e = some e1) (hr : e.isRetriable = false) :
    e1.isRetriable = false := by
  induction l generalizing e with
  | nil =>
    simp only [applyAll, Option.some.injEq] at h
    rw [← h]
    exact hr
  | cons o os ih =>
    simp only [applyAll] at h
    cases h1 : applyCore withPlain o e with
    | none => simp [h1] at h
    | some e2 =>
      simp only [h1, Option.some_bind] at h
      exact ih e2 h (applyCore_notRetriable o e e2 h1 hr)

/-- An option that returns leaves a context that is not retriable not retriable. -/
theorem apply_notRetriable (o : WrapOption) (e e1 : Err) (h : o.apply e = some e1)
    (hr : e.isRetriable = false) : e1.isRetriable = false := by
  rw [apply_flatten] at h
  exact applyAll_notRetriable _ e e1 h hr

/-! ### Field violations, in sequence -/

theorem addViolation_of_none (fv : String × String) (ds : List Detail)
    (h : ds.any Detail.isBadRequest = false) : addViolation fv ds = ds := by
  induction ds with
  | nil => rfl
  | cons d rest ih =>
    simp only [List.any_cons, Bool.or_eq_false_iff] at h
    cases d with
    | badRequest vs => simp [Detail.isBadRequest] at h
    | other t =>
      simp only [addViolation]
      rw [ih h.2]

theorem addViolation_append (fv : String × String) (ds1 ds2 : List Detail) :
    addViolation fv (ds1 ++ ds2) = addViolation fv ds1 ++ addViolation fv ds2 := by
  induction ds1 with
  | nil => rfl
  | cons d rest ih =>
    cases d with
    | badRequest vs => simp [addViolation, ih]
    | other t => simp [addViolation, ih]

theorem addViolation_filter (fv : String × String) (ds : List Detail) :
    (addViolation fv ds).filter (fun d => !d.isBadRequest)
      = ds.filter (fun d => !d.isBadRequest) := by
  induction ds with
  | nil => rfl
  | cons d rest ih =>
    cases d with
    | badRequest vs =>
      have h1 : ∀ ws, (!(Detail.badRequest ws).isBadRequest) = false := fun _ => rfl
      simp only [addViolation, List.filter_cons, h1, Bool.false_eq_true, if_false]
      exact ih
    | other t =>
      have h2 : (!(Detail.other t).isBadRequest) = true := rfl
      simp only [addViolation, List.filter_cons, h2, if_true]
      rw [ih]

theorem violationOptions_cons (p : String × String) (vs : List (String × String)) (f : frame) :
    frameEffects (violationOptions (p :: vs)) f
      = frameEffects (violationOptions vs) (frameEffect (.FieldViolation p.1 p.2) f) := rfl

/-- Further violations on a frame whose only `BadRequest` is its last detail are
appended to it, in order. -/
theorem violationOptions_append (vs : List (String × String)) :
    ∀ (f : frame) (ds : List Detail) (acc : List (String × String)),
      f.errDetails = ds ++ [.badRequest acc] → ds.any Detail.isBadRequest = false →
      (frameEffects (violationOptions vs) f).errDetails = ds ++ [.badRequest (acc ++ vs)] := by
  induction vs with
  | nil =>
    intro f ds acc h _
    simpa [violationOptions, frameEffects] using h
  | cons p rest ih =>
    intro f ds acc h hds
    rw [violationOptions_cons]
    have hany : f.errDetails.any Detail.isBadRequest = true := by
      rw [h]
      simp [Detail.isBadRequest]
    have hstep : (frameEffect (.FieldViolation p.1 p.2) f).errDetails
        = ds ++ [.badRequest (acc ++ [p])] := by
      simp only [frameEffect, hany, if_true]
      rw [h, addViolation_append, addViolation_of_none _ ds hds]
      rfl
    rw [ih _ ds (acc ++ [p]) hstep hds]
    simp

/-- The violations `v, rest` on a frame without `BadRequest`: one `BadRequest`
is appended, with the violations in order. -/
theorem violationOptions_details (f : frame) (v : String × String)
    (rest : List (String × String)) (h : f.errDetails.any Detail.isBadRequest = false) :
    (frameEffects (violationOptions (v :: rest)) f).errDetails
      = f.errDetails ++ [.badRequest (v :: rest)] := by
  rw [violationOptions_cons]
  have hstep : (frameEffect (.FieldViolation v.1 v.2) f).errDetails
      = f.errDetails ++ [.badRequest [v]] := by
    simp only [frameEffect, h]
    rfl
  rw [violationOptions_append rest _ f.errDetails [v] hstep h]
  rfl

theorem violationOptions_others (vs : List (String × String)) (f : frame) :
    (frameEffects (violationOptions vs) f).errDetails.filter (fun d => !d.isBadRequest)
        = f.errDetails.filter (fun d => !d.isBadRequest)
      ∧ (frameEffects (violationOptions vs) f).msg = f.msg
      ∧ (frameEffects (violationOptions vs) f).vars = f.vars := by
  induction vs generalizing f with
  | nil => exact ⟨rfl, rfl, rfl⟩
  | cons p rest ih =>
    rw [violationOptions_cons]
    obtain ⟨h1, h2, h3⟩ := ih (frameEffect (.FieldViolation p.1 p.2) f)
    rw [h1, h2, h3]
    simp only [frameEffect]
    split_ifs
    · exact ⟨addViolation_filter _ _, rfl, rfl⟩
    · refine ⟨?_, rfl, rfl⟩
      simp [List.filter_append, Detail.isBadRequest]

theorem flattenAll_violationOptions (vs : List (String × String)) :
    flattenAll (violationOptions vs) = violationOptions vs := by
  apply flattenAll_of_plain
  intro o ho k v heq
  obtain ⟨p, _, hp⟩ := List.mem_map.mp ho
  rw [heq] at hp
  exact WrapOption.noConfusion hp

/-! ### The layout of the text of an error -/

theorem frameLines_foldr (fm : Formats) (fs : List frame) :
    frameLines fm fs = (fs.map (fun f => f.string fm ++ "\n")).foldr (fun a b => a ++ b) "" := by
  induction fs with
  | nil => rfl
  | cons f rest ih =>
    simp only [frameLines, List.map_cons, List.foldr_cons]
    rw [ih]

theorem stringsHasPrefix_append (a b p : String) (h : stringsHasPrefix a p = true) :
    stringsHasPrefix (a ++ b) p = true := by
  unfold stringsHasPrefix at h ⊢
  have hab : (a ++ b).toList = a.toList ++ b.toList := String.data_append a b
  rw [hab]
  exact isPrefixOf_append _ _ _ h

theorem stringsHasPrefix_self_append (a b : String) : stringsHasPrefix (a ++ b) a = true := by
  apply stringsHasPrefix_append
  unfold stringsHasPrefix
  rw [List.isPrefixOf_iff_prefix]

theorem banner_prefix (t : String) :
    stringsHasPrefix ("--- NOT RETRIABLE ---\n\n" ++ t) "--- NOT RETRIABLE ---" = true :=
  stringsHasPrefix_append _ _ _ (by decide)

theorem dashes_not_banner (t : String) :
    stringsHasPrefix ("-------------------------------\n" ++ t) "--- NOT RETRIABLE ---"
      = false := by
  unfold stringsHasPrefix
  have hab : ("-------------------------------\n" ++ t).toList
      = "-------------------------------\n".toList ++ t.toList := String.data_append _ _
  rw [hab]
  have h1 : "--- NOT RETRIABLE ---".toList
      = '-' :: '-' :: '-' :: ' ' :: "NOT RETRIABLE ---".toList := by decide
  have h2 : "-------------------------------\n".toList
      = '-' :: '-' :: '-' :: '-' :: "---------------------------\n".toList := by decide
  rw [h1, h2]
  simp [List.isPrefixOf]

/-! ## Successive wraps -/

theorem frames_full_of_ident (a b : List frame) (h : a.map frame.ident = b.map frame.ident) :
    a.map frame.full = b.map frame.full := by
  have h1 := congrArg (List.map FrameId.full) h
  simpa [List.map_map, Function.comp_def, frame.ident] using h1

/-- Option-carrying wraps from one signature: the targets exist, and when none
is a miss they increase strictly and each designates a frame of that signature. -/
theorem wrapsFrom_increasing (s : String) (calls : List (Runtime × List WrapOption)) :
    ∀ e : Err, 0 ≤ e.currentFrameIdx →
    (∀ c ∈ calls, (∃ site, c.1.caller = some site ∧ site.name = s) ∧ c.2 ≠ []) →
    ∃ ts, wrapsFrom calls e = some ts ∧ ts.length = calls.length
      ∧ ((-1 : Int) ∉ ts → ts.Pairwise (fun a b => a < b)
          ∧ ∀ t ∈ ts, e.currentFrameIdx ≤ t
              ∧ (e.frames.map frame.full)[t.toNat]? = some s) := by
  induction calls with
  | nil =>
    intro e _ _
    exact ⟨[], rfl, rfl, fun _ => ⟨List.Pairwise.nil, fun t ht => absurd ht (List.not_mem_nil t)⟩⟩
  | cons c rest ih =>
    intro e hcur hall
    obtain ⟨rt, opts⟩ := c
    obtain ⟨⟨site, hcaller, hname⟩, hopts⟩ := hall (rt, opts) (List.mem_cons_self _ _)
    have hcaller1 : rt.caller = some site := hcaller
    have hopts1 : opts ≠ [] := hopts
    obtain ⟨r, e1, f, hfind, hcorr, hr, -, -, hwrap⟩ :=
      wrap_correlated rt e opts site hcaller1 hcur hopts1
    obtain ⟨e2, hw2, hc2⟩ : ∃ e2, wrap rt (.wrapped e) opts = some e2
        ∧ e2.currentFrameIdx = r + 1 := ⟨_, hwrap, rfl⟩
    have hfull : e2.frames.map frame.full = e.frames.map frame.full :=
      frames_full_of_ident _ _ (wrap_later_keeps rt (.wrapped e) opts e e2 rfl hw2).1
    have hcases := findFrame_cases e site.name hcur
    have hr0 : -1 ≤ r := by
      rcases hcases with ⟨h1, -⟩ | ⟨i, g, h1, -, -, h4⟩
      · rw [hfind] at h1
        have := Option.some.inj h1
        omega
      · rw [hfind] at h1
        have := Option.some.inj h1
        omega
    have hcur2 : 0 ≤ e2.currentFrameIdx := by omega
    obtain ⟨ts, hts, hlen, hinc⟩ := ih e2 hcur2 (fun c hc => hall c (List.mem_cons_of_mem _ hc))
    refine ⟨r :: ts, ?_, ?_, ?_⟩
    · simp only [wrapsFrom, hcorr, hw2, hts, Option.bind_some, Option.some_bind, Option.map_some',
        hr]
    · simp only [List.length_cons, hlen]
    · intro hno
      have hrne : r ≠ -1 := fun h => hno (h ▸ List.mem_cons_self _ _)
      have hts1 : (-1 : Int) ∉ ts := fun h => hno (List.mem_cons_of_mem _ h)
      obtain ⟨hpw, hmem⟩ := hinc hts1
      rcases hcases with ⟨h1, -⟩ | ⟨i, g, h1, h2, h3, h4⟩
      · rw [hfind] at h1
        exact absurd (Option.some.inj h1) hrne
      · rw [hfind] at h1
        have hri : r = (i : Int) := Option.some.inj h1
        refine ⟨List.Pairwise.cons (fun t ht => ?_) hpw, fun t ht => ?_⟩
        · have := (hmem t ht).1
          omega
        · rcases List.mem_cons.mp ht with h | h
          · subst h
            refine ⟨by omega, ?_⟩
            rw [hri, Int.toNat_ofNat, List.getElem?_map, h2, Option.map_some', h3, hname]
          · obtain ⟨h5, h6⟩ := hmem t h
            refine ⟨by omega, ?_⟩
            rw [← hfull]
            exact h6

/-! ## handler.go -/

theorem foldl_run_shouldPanic (opts : List RecoverOption) :
    ∀ rd : recoverData, (opts.foldl (fun rd opt => opt.run rd) rd).shouldPanic
      = (rd.shouldPanic && !(opts.any RecoverOption.isNoPanic)) := by
  induction opts with
  | nil => intro rd; simp
  | cons o rest ih =>
    intro rd
    rw [List.foldl_cons, ih, List.any_cons]
    cases o <;> simp [RecoverOption.run, RecoverOption.isNoPanic]

theorem recoverDataOf_shouldPanic (opts : List RecoverOption) :
    (recoverDataOf opts).shouldPanic = !(opts.any RecoverOption.isNoPanic) := by
  unfold recoverDataOf
  rw [foldl_run_shouldPanic]
  simp

/-- Inside `Recover` the stack starts with `debug.Stack` and `Recover`; the
parse keeps the frame of `Recover` as the origin frame. -/
theorem parseStack_in_Recover (rest : List Call) :
    ∃ F, parseStack { goroutines := [callDebugStack :: callRecover :: rest] }
      = some (frameOfCall callRecover :: F) := by
  refine ⟨((rest.take 1 ++ (rest.drop 1).takeWhile (fun c => !shouldTruncateStack c)).map
    frameOfCall), ?_⟩
  rw [← parseCalls_one]
  rfl

theorem correlate_fields (rt : Runtime) (e e1 : Err) (h : correlate rt e = some e1) :
    e1.code = e.code ∧ e1.Level = e.Level := by
  unfold correlate at h
  split at h
  · next site _ =>
    cases hf : e.findFrame site.name with
    | none =>
      rw [hf] at h
      exact absurd h (by simp)
    | some idx =>
      rw [hf] at h
      simp only [Option.map_some', Option.some.injEq] at h
      rw [← h]
      split_ifs <;> exact ⟨rfl, rfl⟩
  · simp only [Option.some.injEq] at h
    rw [← h]
    exact ⟨rfl, rfl⟩

/-- With the cursor on a frame, the correlation of the calling site returns and
leaves the cursor on a frame, whatever the runtime reports. -/
theorem correlate_current (rt : Runtime) (e : Err) (f0 : frame) (hcur : 0 ≤ e.currentFrameIdx)
    (hf0 : e.currentFrame = some f0) :
    ∃ e1 f, correlate rt e = some e1 ∧ e1.currentFrame = some f := by
  cases hc : rt.caller with
  | some site =>
    obtain ⟨_, e1, f, -, hcorr, -, hf, -, -⟩ :=
      wrap_correlated rt e [.Critical] site hc hcur (by simp)
    exact ⟨e1, f, hcorr, hf⟩
  | none =>
    have hcorr : correlate rt e
        = some { e with unknownFrames := e.unknownFrames ++ [unknownFrame rt.caller] } := by
      simp only [correlate, hc]
    refine ⟨_, f0, hcorr, ?_⟩
    have hne : e.currentFrameIdx ≠ -1 := by omega
    have hnl : ¬ e.currentFrameIdx < 0 := by omega
    simp only [Err.currentFrame, hne, hnl, if_false] at hf0 ⊢
    exact hf0

/-- A wrap of a context whose cursor is on a frame, with one `With` of a string,
returns and keeps root error, code and level. -/
theorem wrap_with_str (rt : Runtime) (e : Err) (f0 : frame) (k text : String)
    (hcur : 0 ≤ e.currentFrameIdx) (hf0 : e.currentFrame = some f0) :
    ∃ e2, wrap rt (.wrapped e) [.With k (.str text)] = some e2
      ∧ e2.rootErr = e.rootErr ∧ e2.code = e.code ∧ e2.Level = e.Level := by
  obtain ⟨e1, f, hcorr, hf⟩ := correlate_current rt e f0 hcur hf0
  have hw := wrap_wrapped_eq rt e [.With k (.str text)] e1 f (by simp) hcorr hf
  have hwo : wrapOptions (.wrapped e) [.With k (.str text)] = [.With k (.str text)] := rfl
  rw [hwo] at hw
  have hee : errEffects [.With k (.str text)] e1 = e1 := rfl
  rw [hee] at hw
  obtain ⟨hcode, hlevel, -, -, -, -, hroot⟩ :=
    setCurrentFrame_fields e1 (frameEffects [.With k (.str text)] f)
  obtain ⟨hc1, hl1⟩ := correlate_fields rt e e1 hcorr
  refine ⟨_, hw, ?_, ?_, ?_⟩
  · show (e1.setCurrentFrame (frameEffects [.With k (.str text)] f)).rootErr = e.rootErr
    rw [hroot, correlate_rootErr rt e e1 hcorr]
  · show (e1.setCurrentFrame (frameEffects [.With k (.str text)] f)).code = e.code
    rw [hcode, hc1]
  · show (e1.setCurrentFrame (frameEffects [.With k (.str text)] f)).Level = e.Level
    rw [hlevel, hl1]

/-- Inside `Recover` with a panic in flight, the context is built and the call
ends as the recover data say. -/
theorem Recover_built (rt : Runtime) (cErr : Option String) (opts : List RecoverOption)
    (x : Recovered) (f0 : frame) (F : List frame) (hparse : parseStack rt.stack = some (f0 :: F)) :
    ∃ built, Recover rt cErr opts (some x)
        = some { built := some built, reported := (recoverDataOf opts).shouldReport
                 logged := (recoverDataOf opts).shouldLog
                 panicValue := if (recoverDataOf opts).shouldPanic then
                   some ((recoverDataOf opts).handed built) else none }
      ∧ built.rootErr = x.rawErr ∧ built.code = codes.Internal ∧ built.Level = LevelCritical := by
  obtain ⟨e0, h0, hfresh⟩ := newErr_fresh x.rawErr rt.stack (f0 :: F) hparse (by simp)
  have hcf : e0.currentFrame = some f0 := hfresh.currentFrame
  have hcf1 : ({ e0 with Level := LevelCritical, code := codes.Internal } : Err).currentFrame
      = some f0 := hcf
  have hidx : (0 : Int) ≤ ({ e0 with Level := LevelCritical, code := codes.Internal } : Err).currentFrameIdx := by
    show 0 ≤ e0.currentFrameIdx
    rw [hfresh.currentFrameIdx]
  cases cErr with
  | none =>
    refine ⟨{ e0 with Level := LevelCritical, code := codes.Internal }, ?_, hfresh.rootErr, rfl, rfl⟩
    simp only [Recover, h0, Option.bind_some, Option.some_bind, Option.map_some']
  | some text =>
    obtain ⟨e2, hw, hroot, hcode, hlevel⟩ :=
      wrap_with_str rt { e0 with Level := LevelCritical, code := codes.Internal } f0 "c.Err()" text
        hidx hcf1
    refine ⟨e2, ?_, ?_, ?_, ?_⟩
    · simp only [Recover, h0, Option.bind_some, Option.some_bind, hw, Option.map_some']
    · rw [hroot]
      exact hfresh.rootErr
    · rw [hcode]
    · rw [hlevel]

/-! ## Maps ranged in another order -/

theorem mapGet_isSome_of_mem {α : Type} (ws : List (String × α)) :
    ∀ (m : List (String × α)) (w : String × α), w ∈ ws →
      (mapGet (mapWrites ws m) w.1).isSome = true := by
  induction ws with
  | nil => intro m w hw; exact absurd hw (List.not_mem_nil w)
  | cons u us ih =>
    intro m w hw
    rw [mapWrites_cons]
    rcases List.mem_cons.mp hw with h | h
    · rw [h]
      apply mapGet_isSome_mapWrites
      rw [mapGet_mapSet]
      rfl
    · exact ih _ w h

/-- Writes to pairwise distinct keys already present, in another order: the
same map. -/
theorem mapWrites_perm {α : Type} {ws ws' : List (String × α)} (hp : ws.Perm ws') :
    (ws.map Prod.fst).Nodup → ∀ m : List (String × α),
      (∀ w ∈ ws, (mapGet m w.1).isSome = true) → mapWrites ws' m = mapWrites ws m := by
  induction hp with
  | nil => intro _ m _; rfl
  | cons x _ ih =>
    intro hnd m hpres
    rw [mapWrites_cons, mapWrites_cons]
    simp only [List.map_cons, List.nodup_cons] at hnd
    exact ih hnd.2 _ (fun w hw =>
      mapGet_isSome_mapSet m x.1 w.1 x.2 (hpres w (List.mem_cons_of_mem _ hw)))
  | swap x y l =>
    intro hnd m hpres
    simp only [mapWrites_cons]
    simp only [List.map_cons, List.nodup_cons, List.mem_cons, not_or] at hnd
    have hne : x.1 ≠ y.1 := fun h => hnd.1.1 h.symm
    rw [mapSet_comm m x.1 y.1 x.2 y.2 hne
      (hpres x (List.mem_cons_of_mem _ (List.mem_cons_self _ _)))]
  | trans h1 _ ih1 ih2 =>
    intro hnd m hpres
    rw [ih2 ((h1.map Prod.fst).nodup_iff.mp hnd) m (fun w hw => hpres w (h1.mem_iff.mpr hw)),
      ih1 hnd m hpres]

theorem frameEffects_cons (o : WrapOption) (os : List WrapOption) (g : frame) :
    frameEffects (o :: os) g = frameEffects os (frameEffect o g) := rfl

theorem errEffects_cons (o : WrapOption) (os : List WrapOption) (e : Err) :
    errEffects (o :: os) e = errEffects os (errEffect o e) := rfl

theorem frameEffects_map_With (vs : List (String × Value)) :
    ∀ g : frame, frameEffects (vs.map (fun kv => WrapOption.With kv.1 kv.2)) g
      = { g with vars := mapWrites (vs.map (fun kv => (kv.1, kv.2.stored))) g.vars } := by
  induction vs with
  | nil => intro g; rfl
  | cons kv rest ih =>
    intro g
    rw [List.map_cons, frameEffects_cons, ih]
    rfl

theorem errEffects_map_With (vs : List (String × Value)) :
    ∀ e : Err, errEffects (vs.map (fun kv => WrapOption.With kv.1 kv.2)) e = e := by
  induction vs with
  | nil => intro e; rfl
  | cons kv rest ih =>
    intro e
    rw [List.map_cons, errEffects_cons, ih]
    rfl

theorem frameEffects_map_Tag (ts : List (String × String)) :
    ∀ g : frame, frameEffects (ts.map (fun kv => WrapOption.Tag kv.1 kv.2)) g = g := by
  induction ts with
  | nil => intro g; rfl
  | cons kv rest ih =>
    intro g
    rw [List.map_cons, frameEffects_cons, ih]
    rfl

theorem errEffects_map_Tag (ts : List (String × String)) :
    ∀ e : Err, errEffects (ts.map (fun kv => WrapOption.Tag kv.1 kv.2)) e
      = { e with tags := mapWrites ts e.tags } := by
  induction ts with
  | nil => intro e; rfl
  | cons kv rest ih =>
    intro e
    rw [List.map_cons, errEffects_cons, ih]
    rfl

theorem varWrites_mem (l : List WrapOption) (k : String) (v : Value)
    (h : WrapOption.With k v ∈ l) : (k, v.stored) ∈ varWrites l := by
  induction l with
  | nil => exact absurd h (List.not_mem_nil _)
  | cons o os ih =>
    rcases List.mem_cons.mp h with h1 | h1
    · rw [← h1]
      simp only [varWrites, List.mem_cons, true_or]
    · have := ih h1
      cases o with
      | With k2 v2 =>
        simp only [varWrites, List.mem_cons]
        exact Or.inr this
      | Code c =>
        simp only [varWrites]
        split_ifs
        · exact List.mem_cons_of_mem _ this
        · exact this
      | _ => simpa only [varWrites] using this

theorem tagWrites_mem (l : List WrapOption) (k v : String)
    (h : WrapOption.Tag k v ∈ l) : (k, v) ∈ tagWrites l := by
  induction l with
  | nil => exact absurd h (List.not_mem_nil _)
  | cons o os ih =>
    rcases List.mem_cons.mp h with h1 | h1
    · rw [← h1]
      simp only [tagWrites, List.mem_cons, true_or]
    · have := ih h1
      cases o with
      | Tag k2 v2 =>
        simp only [tagWrites, List.mem_cons]
        exact Or.inr this
      | _ => simpa only [tagWrites] using this

theorem flattenWith_of_none (k : String) (v : Value)
    (h : getWrapOptionsFromInterfaces v.caps = []) : flattenWith k v = [.With k v] := by
  cases v with
  | obj vars p =>
    have h1 : vars.map (fun kv => WrapOption.With kv.1 kv.2) ++ probeOptions p = [] := h
    obtain ⟨hv, hp⟩ := List.append_eq_nil.mp h1
    have hv1 : vars = [] := List.map_eq_nil_iff.mp hv
    simp only [flattenWith, hv1, hp, List.isEmpty_nil, Bool.and_self, if_true]
  | _ => simp only [flattenWith]

theorem flattenVars_of_none (vars : List (String × Value))
    (h : ∀ kv ∈ vars, getWrapOptionsFromInterfaces kv.2.caps = []) :
    flattenVars vars = vars.map (fun kv => WrapOption.With kv.1 kv.2) := by
  induction vars with
  | nil => simp only [flattenVars, List.map_nil]
  | cons kv rest ih =>
    obtain ⟨k, v⟩ := kv
    simp only [flattenVars, List.map_cons]
    rw [flattenWith_of_none k v (h (k, v) (List.mem_cons_self _ _)),
      ih (fun kv hkv => h kv (List.mem_cons_of_mem _ hkv))]
    rfl

theorem tagOptions_of_some (p : Probe) (t : List (String × String)) (h : p.tags = some t) :
    tagOptions p = t.map (fun kv => WrapOption.Tag kv.1 kv.2) := by
  simp only [tagOptions, h]

theorem tagOptions_of_none (p : Probe) (h : p.tags = none) : tagOptions p = [] := by
  simp only [tagOptions, h]

/-- The options of the other interfaces of a value whose tags are ranged again:
the tag options of that ranging, then the same options as before. -/
theorem probeOptions_retag (p : Probe) (tags' : Option (List (String × String))) :
    probeOptions { p with tags := tags' }
      = tagOptions { p with tags := tags' } ++ msgOptions p ++ codeOptions p ++ flagOptions p
          ++ levelOptions p :=
  probeOptions_eq { p with tags := tags' }

theorem errEffects_tagOptions_reranged (p : Probe) (tags' : Option (List (String × String)))
    (htags : rerangedTags p.tags tags')
    (hnd : ∀ t, p.tags = some t → (t.map Prod.fst).Nodup) (x : Err)
    (ht : ∀ t, p.tags = some t → ∀ w ∈ t, (mapGet x.tags w.1).isSome = true) :
    errEffects (tagOptions { p with tags := tags' }) x = errEffects (tagOptions p) x := by
  cases hpt : p.tags with
  | none =>
    rw [hpt] at htags
    cases tags' with
    | none => rw [tagOptions_of_none p hpt, tagOptions_of_none _ rfl]
    | some t' => exact absurd htags (by simp [rerangedTags])
  | some t =>
    rw [hpt] at htags
    cases tags' with
    | none => exact absurd htags (by simp [rerangedTags])
    | some t' =>
      have hperm : t.Perm t' := htags
      rw [tagOptions_of_some p t hpt, tagOptions_of_some _ t' rfl, errEffects_map_Tag,
        errEffects_map_Tag, mapWrites_perm hperm (hnd t hpt) x.tags (ht t hpt)]

theorem frameEffects_tagOptions (p : Probe) (g : frame) : frameEffects (tagOptions p) g = g := by
  cases hpt : p.tags with
  | none => rw [tagOptions_of_none p hpt]; rfl
  | some t => rw [tagOptions_of_some p t hpt, frameEffects_map_Tag]

theorem isEmpty_of_length_eq {α β : Type} (a : List α) (b : List β) (h : a.length = b.length) :
    a.isEmpty = b.isEmpty := by
  cases a <;> cases b <;> simp_all

theorem tagOptions_length_reranged (p : Probe) (tags' : Option (List (String × String)))
    (htags : rerangedTags p.tags tags') :
    (tagOptions { p with tags := tags' }).length = (tagOptions p).length := by
  cases hpt : p.tags with
  | none =>
    rw [hpt] at htags
    cases tags' with
    | none => rw [tagOptions_of_none p hpt, tagOptions_of_none _ rfl]
    | some t' => exact absurd htags (by simp [rerangedTags])
  | some t =>
    rw [hpt] at htags
    cases tags' with
    | none => exact absurd htags (by simp [rerangedTags])
    | some t' =>
      have hperm : t.Perm t' := htags
      rw [tagOptions_of_some p t hpt, tagOptions_of_some _ t' rfl, List.length_map,
        List.length_map, hperm.length_eq]

/-- The options a value with flat maps yields are already expanded. -/
theorem flattenAll_interfaces_of_none (vars : List (String × Value)) (p : Probe)
    (h : ∀ kv ∈ vars, getWrapOptionsFromInterfaces kv.2.caps = []) :
    flattenAll (getWrapOptionsFromInterfaces { vars := vars, probe := p })
      = vars.map (fun kv => WrapOption.With kv.1 kv.2) ++ probeOptions p := by
  show flattenAll (vars.map (fun kv => WrapOption.With kv.1 kv.2) ++ probeOptions p) = _
  rw [flattenAll_append, flattenAll_map_With, flattenAll_probeOptions, flattenVars_of_none vars h]

/-- A `With` of a value with flat maps, run on a context that already holds the
keys of these maps: ranging the maps in another order gives the same result. -/
theorem applyWith_reranged (k : String) (vars vars' : List (String × Value)) (p : Probe)
    (tags' : Option (List (String × String)))
    (hperm : vars.Perm vars') (htags : rerangedTags p.tags tags')
    (hflat : (Value.obj vars p).flatMaps)
    (x : Err) (g : frame) (hx : x.currentFrame = some g)
    (hv : ∀ kv ∈ vars, (mapGet g.vars kv.1).isSome = true)
    (ht : ∀ t, p.tags = some t → ∀ w ∈ t, (mapGet x.tags w.1).isSome = true) :
    (WrapOption.With k (.obj vars' { p with tags := tags' })).apply x
      = (WrapOption.With k (.obj vars p)).apply x := by
  obtain ⟨hnd, hnone, hndt⟩ := hflat
  have hnone' : ∀ kv ∈ vars', getWrapOptionsFromInterfaces kv.2.caps = [] :=
    fun kv hkv => hnone kv (hperm.mem_iff.mpr hkv)
  have happ : ∀ v : Value, (WrapOption.With k v).apply x = applyWith k v x := fun _ => rfl
  rw [happ, happ, applyWith_eq, applyWith_eq]
  have hlen : (getWrapOptionsFromInterfaces (Value.obj vars' { p with tags := tags' }).caps).length
      = (getWrapOptionsFromInterfaces (Value.obj vars p).caps).length := by
    show (vars'.map (fun kv => WrapOption.With kv.1 kv.2)
        ++ probeOptions { p with tags := tags' }).length
      = (vars.map (fun kv => WrapOption.With kv.1 kv.2) ++ probeOptions p).length
    rw [probeOptions_retag, probeOptions_eq p]
    simp only [List.length_append, List.length_map, hperm.length_eq,
      tagOptions_length_reranged p tags' htags]
  rw [isEmpty_of_length_eq _ _ hlen]
  by_cases hemp : (getWrapOptionsFromInterfaces (Value.obj vars p).caps).isEmpty = true
  · -- nothing is ranged: the two values are the same value
    have hnil : vars.map (fun kv => WrapOption.With kv.1 kv.2) ++ probeOptions p = [] :=
      List.isEmpty_iff.mp hemp
    obtain ⟨h1, h2⟩ := List.append_eq_nil.mp hnil
    have hvars : vars = [] := List.map_eq_nil_iff.mp h1
    have hvars' : vars' = [] := by
      rw [hvars] at hperm
      exact hperm.nil_eq.symm
    have htag0 : (tagOptions p).length = 0 := by
      have h3 := congrArg List.length h2
      rw [probeOptions_eq] at h3
      simp only [List.length_append, List.length_nil] at h3
      omega
    have hp : ({ p with tags := tags' } : Probe) = p := by
      cases hpt : p.tags with
      | none =>
        rw [hpt] at htags
        cases tags' with
        | none =>
          cases p
          simp only at hpt
          simp only [hpt]
        | some t' => exact absurd htags (by simp [rerangedTags])
      | some t =>
        rw [hpt] at htags
        rw [tagOptions_of_some p t hpt, List.length_map] at htag0
        have ht0 : t = [] := List.eq_nil_of_length_eq_zero htag0
        cases tags' with
        | none => exact absurd htags (by simp [rerangedTags])
        | some t' =>
          have hperm2 : t.Perm t' := htags
          rw [ht0] at hperm2
          have ht' : t' = [] := hperm2.nil_eq.symm
          cases p
          simp only at hpt
          simp only [hpt, ht0, ht']
    rw [hvars', hvars, hp]
  · rw [if_neg hemp, if_neg hemp, applyOptions_effect _ x g hx, applyOptions_effect _ x g hx]
    have hL : flattenAll (getWrapOptionsFromInterfaces (Value.obj vars p).caps)
        = vars.map (fun kv => WrapOption.With kv.1 kv.2) ++ probeOptions p :=
      flattenAll_interfaces_of_none vars p hnone
    have hL' : flattenAll (getWrapOptionsFromInterfaces
          (Value.obj vars' { p with tags := tags' }).caps)
        = vars'.map (fun kv => WrapOption.With kv.1 kv.2) ++ probeOptions { p with tags := tags' } :=
      flattenAll_interfaces_of_none vars' _ hnone'
    rw [hL, hL']
    have hE : errEffects (vars'.map (fun kv => WrapOption.With kv.1 kv.2)
          ++ probeOptions { p with tags := tags' }) x
        = errEffects (vars.map (fun kv => WrapOption.With kv.1 kv.2) ++ probeOptions p) x := by
      rw [errEffects_append, errEffects_append, errEffects_map_With, errEffects_map_With,
        probeOptions_retag, probeOptions_eq p]
      simp only [errEffects_append]
      rw [errEffects_tagOptions_reranged p tags' htags hndt x ht]
    have hF : frameEffects (vars'.map (fun kv => WrapOption.With kv.1 kv.2)
          ++ probeOptions { p with tags := tags' }) g
        = frameEffects (vars.map (fun kv => WrapOption.With kv.1 kv.2) ++ probeOptions p) g := by
      have hW : frameEffects (vars'.map (fun kv => WrapOption.With kv.1 kv.2)) g
          = frameEffects (vars.map (fun kv => WrapOption.With kv.1 kv.2)) g := by
        rw [frameEffects_map_With, frameEffects_map_With]
        have hnd2 : ((vars.map (fun kv => (kv.1, kv.2.stored))).map Prod.fst).Nodup := by
          rw [List.map_map]
          exact hnd
        rw [mapWrites_perm (hperm.map (fun kv => (kv.1, kv.2.stored))) hnd2 g.vars
          (fun w hw => by
            obtain ⟨kv, hkv, rfl⟩ := List.mem_map.mp hw
            exact hv kv hkv)]
      rw [frameEffects_append, frameEffects_append, hW, probeOptions_retag, probeOptions_eq p]
      simp only [frameEffects_append, frameEffects_tagOptions]
    rw [hE, hF]

/-- The options for the entries of the maps of a value are among the expanded
options of a `With` of that value. -/
theorem flatten_obj_mem (k : String) (vars : List (String × Value)) (p : Probe)
    (hnone : ∀ kv ∈ vars, getWrapOptionsFromInterfaces kv.2.caps = []) :
    ∀ o ∈ vars.map (fun kv => WrapOption.With kv.1 kv.2) ++ tagOptions p,
      o ∈ flattenAll [WrapOption.With k (.obj vars p)] := by
  intro o ho
  simp only [flattenAll, WrapOption.flatten, List.append_nil, flattenWith]
  split_ifs with hc
  · exfalso
    simp only [Bool.and_eq_true, List.isEmpty_iff] at hc
    obtain ⟨h1, h2⟩ := hc
    have h3 := congrArg List.length h2
    rw [probeOptions_eq] at h3
    simp only [List.length_append, List.length_nil] at h3
    have h4 : tagOptions p = [] := List.eq_nil_of_length_eq_zero (by omega)
    rw [h1, h4] at ho
    exact absurd ho (by simp)
  · rw [flattenVars_of_none vars hnone, probeOptions_eq]
    simp only [List.mem_append] at ho ⊢
    rcases ho with h1 | h1
    · exact Or.inl h1
    · exact Or.inr (Or.inl (Or.inl (Or.inl (Or.inl h1))))

/-- An option other than `FieldViolation`, on a context whose cursor is on a
frame, runs; run again, with the maps of its value ranged in the same order, or
in any order when these maps are flat, it returns the context the first run
returned. -/
theorem apply_reranged (o o' : WrapOption) (e : Err) (f : frame)
    (hcur : e.currentFrame = some f) (h : ∀ a b, o ≠ .FieldViolation a b)
    (hre : o.reranged o') (hflat : o' = o ∨ ∀ k v, o = .With k v → v.flatMaps) :
    ∃ e1, o.apply e = some e1 ∧ o'.apply e1 = some e1 := by
  obtain ⟨e1, he1, hidem⟩ := apply_idem o e f hcur h
  refine ⟨e1, he1, ?_⟩
  rcases hflat with hsame | hflat
  · rw [hsame]
    exact hidem
  · cases o with
    | With k v =>
      obtain ⟨v', hv', hv⟩ := hre
      rw [hv']
      cases v with
      | obj vars p =>
        obtain ⟨vars', tags', hvv, hperm, htags⟩ := hv
        rw [hvv]
        obtain ⟨hnd, hnone, hndt⟩ := hflat k _ rfl
        obtain ⟨e2, he2, heq, hc1⟩ := applyOptions_current [.With k (.obj vars p)] e f hcur
        have hsingle : applyOptions [.With k (.obj vars p)] e
            = (WrapOption.With k (.obj vars p)).apply e := applyAll_single _ _ e
        rw [hsingle, he1] at he2
        have he12 : e1 = e2 := Option.some.inj he2
        rw [← he12] at heq hc1
        have hmem := flatten_obj_mem k vars p hnone
        have hpv : ∀ kv ∈ vars, (mapGet
            (frameEffects (flattenAll [.With k (.obj vars p)]) f).vars kv.1).isSome = true := by
          intro kv hkv
          rw [frameEffects_vars]
          exact mapGet_isSome_of_mem _ f.vars (kv.1, kv.2.stored)
            (varWrites_mem _ kv.1 kv.2 (hmem _ (List.mem_append_left _
              (List.mem_map.mpr ⟨kv, hkv, rfl⟩))))
        have hpt : ∀ t, p.tags = some t → ∀ w ∈ t, (mapGet e1.tags w.1).isSome = true := by
          intro t ht w hw
          rw [heq, (setCurrentFrame_fields _ _).2.2.2.2.2.1, errEffects_tags]
          apply mapGet_isSome_of_mem _ e.tags w
          apply tagWrites_mem
          apply hmem
          apply List.mem_append_right
          rw [tagOptions_of_some p t ht]
          exact List.mem_map.mpr ⟨w, hw, rfl⟩
        rw [applyWith_reranged k vars vars' p tags' hperm htags ⟨hnd, hnone, hndt⟩ e1 _ hc1
          hpv hpt]
        exact hidem
      | _ =>
        have h2 : v' = _ := hv
        rw [h2]
        exact hidem
    | _ =>
      have h2 : o' = _ := hre
      rw [h2]
      exact hidem

/-! # Properties of the specification -/

/-! ## C1 : cursor correctness along a call chain -/

theorem wrapEach_vars (rest : List (Runtime × String × Value)) :
    ∀ (e : Err) (done todo : List frame),
      e.frames = done ++ todo → e.currentFrameIdx = (done.length : Int) →
      rest.map (fun c => c.1.callerName) = todo.map (fun f => f.full) →
      (∀ c ∈ rest, c.1.caller.isSome = true) → (∀ c ∈ rest, c.2.2.plain = true) →
      (∀ f ∈ todo, f.vars = []) →
      ∃ e1, wrapEach rest e = some e1
        ∧ e1.frames.map (fun f => f.vars)
            = done.map (fun f => f.vars) ++ rest.map (fun c => [(c.2.1, c.2.2)])
        ∧ e1.frames.map frame.ident = e.frames.map frame.ident
        ∧ e1.unknownFrames = e.unknownFrames
        ∧ e1.currentFrameIdx = (e.frames.length : Int) := by
  induction rest with
  | nil =>
    intro e done todo hfr hidx hsites _ _ _
    have ht : todo = [] := by
      cases todo with
      | nil => rfl
      | cons f t => simp at hsites
    subst ht
    refine ⟨e, rfl, ?_, rfl, rfl, ?_⟩
    · simp [hfr]
    · simp [hfr, hidx]
  | cons c rest ih =>
    intro e done todo hfr hidx hsites hcallers hplain hempty
    obtain ⟨rt, k, v⟩ := c
    cases todo with
    | nil => simp at hsites
    | cons f todo =>
      simp only [List.map_cons, List.cons.injEq] at hsites
      have hv : v.plain = true := hplain (rt, k, v) (List.mem_cons_self _ _)
      have hstep := Wrap_at_cursor e rt k v done todo f hfr hidx hsites.1
        (hcallers (rt, k, v) (List.mem_cons_self _ _)) hv
      have hfv : f.vars = [] := hempty f (List.mem_cons_self _ _)
      obtain ⟨e1, h1, h2, h3, h4, h5⟩ :=
        ih { e with frames := done ++ { f with vars := mapSet f.vars k v } :: todo
                    currentFrameIdx := (done.length : Int) + 1 }
          (done ++ [{ f with vars := mapSet f.vars k v }]) todo
          (by simp) (by simp) hsites.2
          (fun c hc => hcallers c (List.mem_cons_of_mem _ hc))
          (fun c hc => hplain c (List.mem_cons_of_mem _ hc))
          (fun g hg => hempty g (List.mem_cons_of_mem _ hg))
      refine ⟨e1, ?_, ?_, ?_, h4, ?_⟩
      · simp only [wrapEach, hstep, Option.some_bind, h1]
      · rw [h2]; simp [hfv, mapSet]
      · rw [h3, hfr]; simp [frame.ident]
      · rw [h5, hfr]; simp

/-- C1 (amended): along a call chain whose stack parses to the frames `F`, where
the error is created by `New` with one `With` in the function of frame 0 and
then wrapped once, with one `With`, from the function of each further frame in
order, and every attached value is plain, the resulting context has exactly as
many frames as calls, with the identities of `F`, no unknown frame, and frame
`i` carries exactly the variable attached by call `i`.  (The signatures need
not be distinct: each search starts at the cursor.) -/
theorem wrapChain_cursor_correct (msg : String) (c0 : Runtime × String × Value)
    (rest : List (Runtime × String × Value)) (F : List frame)
    (hparse : parseStack c0.1.stack = some F)
    (hsites : (c0 :: rest).map (fun c => c.1.callerName) = F.map (fun f => f.full))
    (hcallers : ∀ c ∈ rest, c.1.caller.isSome = true)
    (hplain : ∀ c ∈ c0 :: rest, c.2.2.plain = true) :
    ∃ e, wrapChain msg (c0 :: rest) = some e
      ∧ e.frames.length = (c0 :: rest).length
      ∧ e.unknownFrames = []
      ∧ e.frames.map (fun f => f.vars) = (c0 :: rest).map (fun c => [(c.2.1, c.2.2)])
      ∧ e.frames.map frame.ident = F.map frame.ident := by
  obtain ⟨rt, k, v⟩ := c0
  cases F with
  | nil => simp at hsites
  | cons f0 todo =>
    simp only [List.map_cons, List.cons.injEq] at hsites
    have hpay := parseStack_frames _ _ hparse
    have hv : v.plain = true := hplain (rt, k, v) (List.mem_cons_self _ _)
    obtain ⟨e0, h0, hfresh⟩ := newErr_fresh (errorsNew msg) rt.stack (f0 :: todo) hparse
      (List.cons_ne_nil _ _)
    have hcur := hfresh.currentFrame
    have hopts : wrapOptions (.raw (errorsNew msg)) [.With k v] = [.With k v] := by
      simp [wrapOptions, googleOptions, errorsNew, ErrorValue.caps, getWrapOptionsFromInterfaces,
        probeOptions, flattenAll, WrapOption.flatten, flattenWith_plain k v hv]
    have hnew : New rt msg [.With k v]
        = some { e0.setCurrentFrame { f0 with vars := mapSet f0.vars k v } with
            currentFrameIdx := 1 } := by
      simp only [New]
      rw [wrap_raw_eq rt (errorsNew msg) _ e0 f0 h0 hcur, hopts]
      simp [errEffects, frameEffects, errEffect, frameEffect, skipFrames_setCurrentFrame,
        currentFrameIdx_setCurrentFrame, hfresh.skipFrames, hfresh.currentFrameIdx,
        stored_plain v hv]
    have hf0 : f0.vars = [] := (hpay f0 (List.mem_cons_self _ _)).2.1
    have hset : (e0.setCurrentFrame { f0 with vars := mapSet f0.vars k v }).frames
        = { f0 with vars := mapSet f0.vars k v } :: todo := by
      simp [Err.setCurrentFrame, hfresh.currentFrameIdx, hfresh.frames]
    have hunk : (e0.setCurrentFrame { f0 with vars := mapSet f0.vars k v }).unknownFrames = [] := by
      simp [Err.setCurrentFrame, hfresh.currentFrameIdx, hfresh.unknownFrames]
    obtain ⟨e1, h1, h2, h3, h4, h5⟩ :=
      wrapEach_vars rest
        { e0.setCurrentFrame { f0 with vars := mapSet f0.vars k v } with currentFrameIdx := 1 }
        [{ f0 with vars := mapSet f0.vars k v }] todo
        (by simp [hset]) (by simp) hsites.2 hcallers
        (fun c hc => hplain c (List.mem_cons_of_mem _ hc))
        (fun g hg => (hpay g (List.mem_cons_of_mem _ hg)).2.1)
    refine ⟨e1, ?_, ?_, ?_, ?_, ?_⟩
    · simp only [wrapChain, hnew, Option.some_bind, h1]
    · have := congrArg List.length h2
      simpa using this
    · rw [h4]; exact hunk
    · rw [h2]; simp [hf0, mapSet]
    · rw [h3]; simp [hset, frame.ident]

theorem exStack_parse : parseStack exStack = some exFrames := by rfl

theorem wrapChain_cursor_correct_witness :
    parseStack exInner.stack = some exFrames
      ∧ ∃ e, wrapChain "boom" [(exInner, "a", Value.int 1), (exOuter, "b", Value.str "x")] = some e
        ∧ e.frames.length = 2
        ∧ e.unknownFrames = []
        ∧ e.frames.map (fun f => f.vars) = [[("a", Value.int 1)], [("b", Value.str "x")]]
        ∧ e.frames.map frame.ident = exFrames.map frame.ident :=
  ⟨exStack_parse,
    wrapChain_cursor_correct "boom" (exInner, "a", Value.int 1) [(exOuter, "b", Value.str "x")]
      exFrames exStack_parse (by rfl) (by simp [exOuter]) (by simp [Value.plain])⟩

/-- C1 as stated fails for the values `With` does not store as they are: a
`[]byte` that is not valid JSON is stored as a `string`, and for a value whose
type reports a message through `ErrMsg` the message is set and no variable is
stored; in both chains frame 0 does not carry exactly the attached variable. -/
theorem wrapChain_value_counterexample :
    (∃ e, wrapChain "boom"
          [(exInner, "a", Value.bytes (some { text := "x", validJSON := false })),
           (exOuter, "b", Value.int 2)] = some e
      ∧ e.frames.map (fun f => f.vars) = [[("a", Value.str "x")], [("b", Value.int 2)]]
      ∧ e.frames.map (fun f => f.vars)
          ≠ [[("a", Value.bytes (some { text := "x", validJSON := false }))],
              [("b", Value.int 2)]])
    ∧ (∃ e, wrapChain "boom"
          [(exInner, "a", Value.obj [] { msg := some "self msg" }),
           (exOuter, "b", Value.int 2)] = some e
      ∧ e.frames.map (fun f => f.vars) = [[], [("b", Value.int 2)]]
      ∧ e.frames.map (fun f => f.vars)
          ≠ [[("a", Value.obj [] { msg := some "self msg" })], [("b", Value.int 2)]]) := by
  refine ⟨⟨_, rfl, rfl, fun h => ?_⟩, ⟨_, rfl, rfl, fun h => ?_⟩⟩
  · have h2 : [[("a", Value.str "x")], [("b", Value.int 2)]]
        = [[("a", Value.bytes (some { text := "x", validJSON := false }))],
            [("b", Value.int 2)]] := h
    simp at h2
  · have h2 : ([[], [("b", Value.int 2)]] : List (List (String × Value)))
        = [[("a", Value.obj [] { msg := some "self msg" })], [("b", Value.int 2)]] := h
    simp at h2

/-! ## C2 : re-wrap without options -/

/-- C2: wrapping an `*Err` with no option returns the same context with the cursor
increased by one; frames, unknown frames, root cause, code, level, tags and all
flags are those of the context wrapped. -/
theorem wrap_no_options (rt : Runtime) (e : Err) :
    wrap rt (.wrapped e) [] = some { e with currentFrameIdx := e.currentFrameIdx + 1 }
      ∧ Wrap rt (some (.wrapped e)) [] = some { e with currentFrameIdx := e.currentFrameIdx + 1 }
      ∧ ∃ e1, wrap rt (.wrapped e) [] = some e1
        ∧ e1.currentFrameIdx = e.currentFrameIdx + 1
        ∧ e1.frames = e.frames ∧ e1.unknownFrames = e.unknownFrames
        ∧ e1.topAppFrame = e.topAppFrame
        ∧ e1.rootErr = e.rootErr
        ∧ e1.code = e.code ∧ e1.Level = e.Level ∧ e1.tags = e.tags
        ∧ e1.isRetriable = e.isRetriable ∧ e1.noReport = e.noReport
        ∧ e1.isPanic = e.isPanic ∧ e1.isInfra = e.isInfra ∧ e1.skipFrames = e.skipFrames
        ∧ e1.rawStack = e.rawStack := by
  refine ⟨rfl, rfl, _, rfl, ?_⟩
  simp

/-! ## C3 : correlation -/

/-- C3: with a cursor that is not negative, `findFrame(s)` returns; the result is
-1 exactly when no frame at or after the cursor has signature `s`, and otherwise
it is the least index at or after the cursor of a frame with signature `s`.  In
particular, searching from cursor 0 for the signature of a frame of the stack
returns an index, not after that frame, of a frame with the same signature. -/
theorem findFrame_least (e : Err) (s : String) (hcur : 0 ≤ e.currentFrameIdx) :
    ∃ r, e.findFrame s = some r
      ∧ (r = -1 ↔ ∀ (i : Nat) (f : frame),
            e.currentFrameIdx ≤ (i : Int) → e.frames[i]? = some f → f.full ≠ s)
      ∧ (r ≠ -1 → ∃ (i : Nat) (f : frame), r = (i : Int) ∧ e.currentFrameIdx ≤ (i : Int)
            ∧ e.frames[i]? = some f ∧ f.full = s
            ∧ ∀ (j : Nat) (g : frame), e.currentFrameIdx ≤ (j : Int) → j < i →
                e.frames[j]? = some g → g.full ≠ s)
      ∧ (e.currentFrameIdx = 0 → ∀ (i : Nat) (f : frame), e.frames[i]? = some f → f.full = s →
            ∃ (j : Nat) (g : frame), r = (j : Int) ∧ j ≤ i ∧ e.frames[j]? = some g
              ∧ g.full = f.full) := by
  obtain ⟨c, hc⟩ : ∃ c : Nat, e.currentFrameIdx = (c : Int) := ⟨e.currentFrameIdx.toNat, by omega⟩
  have hfind : e.findFrame s = some (findFrameFrom s (e.frames.drop c) c) := by
    unfold Err.findFrame
    have : ¬ e.currentFrameIdx < 0 := by omega
    rw [if_neg this, hc]
    rfl
  refine ⟨_, hfind, ?_⟩
  rcases findFrameFrom_spec s (e.frames.drop c) c with ⟨h1, h2⟩ | ⟨n, f, h1, h2, h3, h4⟩
  · have hnone : ∀ (i : Nat) (f : frame),
        e.currentFrameIdx ≤ (i : Int) → e.frames[i]? = some f → f.full ≠ s := by
      intro i f hi hf
      apply h2 f
      have hci : c ≤ i := by omega
      have : (e.frames.drop c)[i - c]? = some f := by
        rw [List.getElem?_drop]
        rw [← hf]
        congr 1
        omega
      exact List.getElem?_mem this
    refine ⟨⟨fun _ => hnone, fun _ => h1⟩, fun hr => absurd h1 hr, ?_⟩
    intro h0 i f hf hs
    exact absurd hs (hnone i f (by omega) hf)
  · rw [List.getElem?_drop] at h2
    have hr : findFrameFrom s (e.frames.drop c) c ≠ -1 := by
      rw [h1]
      omega
    have hleast : ∀ (j : Nat) (g : frame), e.currentFrameIdx ≤ (j : Int) → j < c + n →
        e.frames[j]? = some g → g.full ≠ s := by
      intro j g hj hlt hg
      apply h4 (j - c) g (by omega)
      rw [List.getElem?_drop, ← hg]
      congr 1
      omega
    refine ⟨⟨fun hr1 => absurd hr1 hr, fun hall => ?_⟩, fun _ => ?_, ?_⟩
    · exact absurd h3 (hall (c + n) f (by omega) h2)
    · exact ⟨c + n, f, h1, by omega, h2, h3, hleast⟩
    · intro h0 i g hg hs
      refine ⟨c + n, f, h1, ?_, h2, h3.trans hs.symm⟩
      by_contra hlt
      exact hleast i g (by omega) (by omega) hg hs

theorem findFrame_least_witness :
    ∃ r, ({ frames := exFrames } : Err).findFrame "go.nozzle.io/app.outer" = some r
      ∧ (r = -1 ↔ ∀ (i : Nat) (f : frame),
            ({ frames := exFrames } : Err).currentFrameIdx ≤ (i : Int) →
            ({ frames := exFrames } : Err).frames[i]? = some f → f.full ≠ "go.nozzle.io/app.outer")
      ∧ (r ≠ -1 → ∃ (i : Nat) (f : frame), r = (i : Int)
            ∧ ({ frames := exFrames } : Err).currentFrameIdx ≤ (i : Int)
            ∧ ({ frames := exFrames } : Err).frames[i]? = some f ∧ f.full = "go.nozzle.io/app.outer"
            ∧ ∀ (j : Nat) (g : frame), ({ frames := exFrames } : Err).currentFrameIdx ≤ (j : Int) →
                j < i → ({ frames := exFrames } : Err).frames[j]? = some g →
                g.full ≠ "go.nozzle.io/app.outer")
      ∧ (({ frames := exFrames } : Err).currentFrameIdx = 0 → ∀ (i : Nat) (f : frame),
            ({ frames := exFrames } : Err).frames[i]? = some f → f.full = "go.nozzle.io/app.outer" →
            ∃ (j : Nat) (g : frame), r = (j : Int) ∧ j ≤ i
              ∧ ({ frames := exFrames } : Err).frames[j]? = some g ∧ g.full = f.full) :=
  findFrame_least { frames := exFrames } "go.nozzle.io/app.outer" (by decide)

/-! ## C4 : correlation miss -/

/-- C4: when an `*Err` whose cursor is not negative is wrapped with at least one
option from a calling site whose signature matches no frame at or after the
cursor, the wrap returns; `frames` is unchanged; one frame is appended to
`unknownFrames`, the earlier unknown frames being unchanged; that frame has the
caller's signature as `fn` and `full`, the caller's file and line, and its
payload is the frame-level effect of all the options of the call on the new
unknown frame; the cursor is 0. -/
theorem wrap_miss_unknown_frame (rt : Runtime) (e : Err) (opts : List WrapOption) (site : CallSite)
    (hcaller : rt.caller = some site) (hcur : 0 ≤ e.currentFrameIdx) (hopts : opts ≠ [])
    (hmiss : ∀ (i : Nat) (f : frame),
      e.currentFrameIdx ≤ (i : Int) → e.frames[i]? = some f → f.full ≠ site.name) :
    ∃ e1 f1, wrap rt (.wrapped e) opts = some e1
      ∧ e1.frames = e.frames
      ∧ e1.unknownFrames = e.unknownFrames ++ [f1]
      ∧ f1.fn = site.name ∧ f1.full = site.name ∧ f1.file = site.filepath ∧ f1.line = site.line
      ∧ f1 = frameEffects (flattenAll opts)
          { fn := site.name, full := site.name, file := site.filepath, line := site.line }
      ∧ e1.currentFrameIdx = 0 := by
  have hcorr := correlate_miss rt e site hcaller (findFrame_miss e site.name hcur hmiss)
  have hcf : ({ e with currentFrameIdx := -1
                       unknownFrames := e.unknownFrames ++ [unknownFrame (some site)] } :
      Err).currentFrame = some (unknownFrame (some site)) := by
    simp [Err.currentFrame]
  have hw := wrap_wrapped_eq rt e opts _ _ hopts hcorr hcf
  have hall : wrapOptions (.wrapped e) opts = flattenAll opts := by
    simp [wrapOptions, googleOptions, ErrorValue.caps, getWrapOptionsFromInterfaces, probeOptions]
  rw [hall] at hw
  have hid := frameEffects_ident (flattenAll opts) (unknownFrame (some site))
  obtain ⟨s1, s2, s3, _, _⟩ := errEffects_shape (flattenAll opts)
    { e with currentFrameIdx := -1
             unknownFrames := e.unknownFrames ++ [unknownFrame (some site)] }
  refine ⟨_, frameEffects (flattenAll opts) (unknownFrame (some site)), hw, ?_, ?_, ?_, ?_, ?_, ?_,
    rfl, ?_⟩
  · simp [Err.setCurrentFrame, s3, s1]
  · simp [Err.setCurrentFrame, s3, s2]
  · exact congrArg FrameId.fn hid
  · exact congrArg FrameId.full hid
  · exact congrArg FrameId.file hid
  · exact congrArg FrameId.line hid
  · simp

theorem wrap_miss_unknown_frame_witness :
    ∃ e1 f1, wrap exElsewhere (.wrapped exErr) [.Msg "in worker", .With "k" (.str "v")] = some e1
      ∧ e1.frames = exErr.frames
      ∧ e1.unknownFrames = exErr.unknownFrames ++ [f1]
      ∧ f1.fn = "go.nozzle.io/app.worker" ∧ f1.full = "go.nozzle.io/app.worker"
      ∧ f1.file = "worker.go" ∧ f1.line = 7
      ∧ f1 = frameEffects (flattenAll [.Msg "in worker", .With "k" (.str "v")])
          { fn := "go.nozzle.io/app.worker", full := "go.nozzle.io/app.worker", file := "worker.go",
            line := 7 }
      ∧ e1.currentFrameIdx = 0 :=
  wrap_miss_unknown_frame exElsewhere exErr [.Msg "in worker", .With "k" (.str "v")]
    { name := "go.nozzle.io/app.worker", filepath := "worker.go", line := 7 } rfl (by decide)
    (by simp)
    (by
      intro i f hi hf
      match i, hi, hf with
      | 0, hi, _ => simp [exErr] at hi
      | 1, _, hf =>
        simp only [exErr, exFrames, List.getElem?_cons_succ, List.getElem?_cons_zero,
          Option.some.injEq] at hf
        rw [← hf]
        decide
      | n + 2, _, hf => simp [exErr, exFrames] at hf)

/-! ## C5 : skip merge with a valid count -/

/-- C5: for a context with frames `F` and skip count `N`, `0 < N < len(F)`,
`handleSkipFrameOption` returns; the new frames are `len(F) - N` many, the frame
at every index `i >= 1` is `F[N+i]`, and the new frame 0 has the identity
fields and class of `F[N]` and the vars, msg and details of `F[0]`. -/
theorem handleSkip_valid_frames (e : Err) (n : Nat) (hn : e.skipFrames = (n : Int)) (h0 : 0 < n)
    (hlt : n < e.frames.length) :
    ∃ e1 f0 fn g, e.handleSkipFrameOption = some e1
      ∧ e.frames[0]? = some f0 ∧ e.frames[n]? = some fn
      ∧ e1.frames.length = e.frames.length - n
      ∧ (∀ i, 1 ≤ i → e1.frames[i]? = e.frames[n + i]?)
      ∧ e1.frames[0]? = some g
      ∧ g.ident = fn.ident ∧ g.vars = f0.vars ∧ g.msg = f0.msg ∧ g.errDetails = f0.errDetails := by
  obtain ⟨f0, fn, hf0, hfn, heq⟩ := handleSkip_valid e n hn h0 hlt
  have hfr := (setTopAppFrameLoop_shape
      ({ fn with vars := f0.vars, msg := f0.msg, errDetails := f0.errDetails }
        :: e.frames.drop (n + 1)) 0
      { e with
        frames := { fn with vars := f0.vars, msg := f0.msg, errDetails := f0.errDetails }
          :: e.frames.drop (n + 1)
        topAppFrame := some 0 }).1
  refine ⟨_, f0, fn, { fn with vars := f0.vars, msg := f0.msg, errDetails := f0.errDetails },
    heq, hf0, hfn, ?_, ?_, ?_, rfl, rfl, rfl, rfl⟩
  · rw [hfr]
    simp only [List.length_cons, List.length_drop]
    omega
  · intro i hi
    rw [hfr]
    obtain ⟨j, rfl⟩ : ∃ j, i = j + 1 := ⟨i - 1, by omega⟩
    simp only [List.getElem?_cons_succ, List.getElem?_drop]
    congr 1
    omega
  · rw [hfr]
    simp

theorem handleSkip_valid_frames_witness :
    ∃ e1 f0 fn g, exSkipErr.handleSkipFrameOption = some e1
      ∧ exSkipErr.frames[0]? = some f0 ∧ exSkipErr.frames[1]? = some fn
      ∧ e1.frames.length = exSkipErr.frames.length - 1
      ∧ (∀ i, 1 ≤ i → e1.frames[i]? = exSkipErr.frames[1 + i]?)
      ∧ e1.frames[0]? = some g
      ∧ g.ident = fn.ident ∧ g.vars = f0.vars ∧ g.msg = f0.msg ∧ g.errDetails = f0.errDetails :=
  handleSkip_valid_frames exSkipErr 1 rfl (by decide) (by decide)

/-! ## C6 : skip merge with an invalid count -/

/-- C6: on a first wrap whose stack parses to the non-empty frames `F` and whose
options request a skip count `N >= len(F)`, the wrap returns; the frames keep
their number, order and identities, the frames after frame 0 are those of `F`,
frame 0 carries the variable "invalidSkipFrameCount" with value `N`, and the
cursor is on frame 0. -/
theorem wrap_skip_invalid (rt : Runtime) (r : GoError) (opts : List WrapOption) (F : List frame)
    (N : Int) (hparse : parseStack rt.stack = some F) (hne : F ≠ [])
    (hreq : requestedSkip opts = N) (hge : N ≥ (F.length : Int)) :
    ∃ e1 g, wrap rt (.raw r) opts = some e1
      ∧ e1.frames.length = F.length
      ∧ e1.frames.map frame.ident = F.map frame.ident
      ∧ e1.frames.tail = F.tail
      ∧ e1.frames[0]? = some g
      ∧ mapGet g.vars "invalidSkipFrameCount" = some (Value.int N)
      ∧ e1.currentFrameIdx = 0 := by
  obtain ⟨e0, h0, hfresh⟩ := newErr_fresh r rt.stack F hparse hne
  cases F with
  | nil => exact absurd rfl hne
  | cons f0 rest =>
    have hcur := hfresh.currentFrame
    have hw := wrap_raw_eq rt r opts e0 f0 h0 hcur
    obtain ⟨s1, s2, s3, _, _⟩ := errEffects_shape (wrapOptions (.raw r) opts) e0
    have hskip : ((errEffects (wrapOptions (.raw r) opts) e0).setCurrentFrame
        (frameEffects (wrapOptions (.raw r) opts) f0)).skipFrames = N := by
      rw [skipFrames_setCurrentFrame, errEffects_skipFrames, hfresh.skipFrames,
        skipOf_wrapOptions]
      exact hreq
    have hfr : ((errEffects (wrapOptions (.raw r) opts) e0).setCurrentFrame
        (frameEffects (wrapOptions (.raw r) opts) f0)).frames
        = frameEffects (wrapOptions (.raw r) opts) f0 :: rest := by
      simp [Err.setCurrentFrame, s3, s1, hfresh.currentFrameIdx, hfresh.frames]
    have hidx : ((errEffects (wrapOptions (.raw r) opts) e0).setCurrentFrame
        (frameEffects (wrapOptions (.raw r) opts) f0)).currentFrameIdx = 0 := by
      rw [currentFrameIdx_setCurrentFrame, s3, hfresh.currentFrameIdx]
    have hcur1 : ((errEffects (wrapOptions (.raw r) opts) e0).setCurrentFrame
        (frameEffects (wrapOptions (.raw r) opts) f0)).currentFrame
        = some (frameEffects (wrapOptions (.raw r) opts) f0) := by
      unfold Err.currentFrame
      rw [hidx, hfr]
      simp
    have hlen : (0 : Int) < N := by
      simp only [List.length_cons] at hge
      omega
    rw [hskip, if_pos hlen] at hw
    rw [handleSkip_invalid _ _ hcur1 (by rw [hskip, hfr]; simpa using hge), hskip] at hw
    obtain ⟨hfr2, _⟩ := frames_setCurrentFrame_zero _
      { frameEffects (wrapOptions (.raw r) opts) f0 with
        vars := mapSet (frameEffects (wrapOptions (.raw r) opts) f0).vars
          "invalidSkipFrameCount" (Value.int N) } _ _ hidx hfr
    refine ⟨_, { frameEffects (wrapOptions (.raw r) opts) f0 with
        vars := mapSet (frameEffects (wrapOptions (.raw r) opts) f0).vars
          "invalidSkipFrameCount" (Value.int N) }, hw, ?_, ?_, ?_, ?_, mapGet_mapSet _ _ _, ?_⟩
    · rw [hfr2]; rfl
    · have hid := frameEffects_ident (wrapOptions (.raw r) opts) f0
      rw [hfr2]
      simp only [List.map_cons, List.cons.injEq, and_true]
      exact hid
    · rw [hfr2]; rfl
    · rw [hfr2]; simp
    · rw [currentFrameIdx_setCurrentFrame, hidx]

theorem wrap_skip_invalid_witness :
    ∃ e1 g, wrap exInner (.raw (errorsNew "boom")) [.Msg "m", .SkipFrames 5] = some e1
      ∧ e1.frames.length = exFrames.length
      ∧ e1.frames.map frame.ident = exFrames.map frame.ident
      ∧ e1.frames.tail = exFrames.tail
      ∧ e1.frames[0]? = some g
      ∧ mapGet g.vars "invalidSkipFrameCount" = some (Value.int 5)
      ∧ e1.currentFrameIdx = 0 :=
  wrap_skip_invalid exInner (errorsNew "boom") [.Msg "m", .SkipFrames 5] exFrames 5 exStack_parse
    (by simp [exFrames]) rfl (by decide)

/-! ## C7 : the cursor advance -/

/-- C7: the cursor at the end of `wrap`.  (a) An option-free re-wrap returns with
the cursor advanced by one.  (b) A first wrap whose options request no positive
skip count returns with the cursor at 1.  (c) A first wrap whose options request
a positive skip count returns what `handleSkipFrameOption`, run once on the
context the options produced, returns, and the cursor is 0.  (d) A re-wrap with
options from a known calling site returns with the cursor one past the index
`findFrame` returned (so 0 after a miss).  (e) A re-wrap with options when the
calling site is unavailable, if it returns, has advanced the cursor by one. -/
theorem wrap_cursor_advance :
    (∀ (rt : Runtime) (e : Err),
      ∃ e1, wrap rt (.wrapped e) [] = some e1 ∧ e1.currentFrameIdx = e.currentFrameIdx + 1)
    ∧ (∀ (rt : Runtime) (r : GoError) (opts : List WrapOption) (F : List frame),
        parseStack rt.stack = some F → F ≠ [] → requestedSkip opts ≤ 0 →
        ∃ e1, wrap rt (.raw r) opts = some e1 ∧ e1.currentFrameIdx = 1)
    ∧ (∀ (rt : Runtime) (r : GoError) (opts : List WrapOption) (F : List frame),
        parseStack rt.stack = some F → F ≠ [] → 0 < requestedSkip opts →
        ∃ e0 e1 e2, newErr r rt.stack = some e0
          ∧ applyOptions (googleOptions (.raw r) ++ opts ++ getWrapOptionsFromInterfaces r.caps) e0
              = some e1
          ∧ e1.skipFrames = requestedSkip opts
          ∧ e1.handleSkipFrameOption = some e2
          ∧ wrap rt (.raw r) opts = some e2 ∧ e2.currentFrameIdx = 0)
    ∧ (∀ (rt : Runtime) (e : Err) (opts : List WrapOption) (site : CallSite),
        rt.caller = some site → 0 ≤ e.currentFrameIdx → opts ≠ [] →
        ∃ idx e1, e.findFrame site.name = some idx ∧ wrap rt (.wrapped e) opts = some e1
          ∧ e1.currentFrameIdx = idx + 1)
    ∧ (∀ (rt : Runtime) (e : Err) (opts : List WrapOption) (e1 : Err),
        rt.caller = none → opts ≠ [] → wrap rt (.wrapped e) opts = some e1 →
        e1.currentFrameIdx = e.currentFrameIdx + 1) := by
  refine ⟨fun rt e => ⟨_, rfl, rfl⟩, ?_, ?_, ?_, ?_⟩
  · intro rt r opts F hparse hne hreq
    obtain ⟨e0, h0, hfresh⟩ := newErr_fresh r rt.stack F hparse hne
    cases F with
    | nil => exact absurd rfl hne
    | cons f0 rest =>
      have hw := wrap_raw_eq rt r opts e0 f0 h0 hfresh.currentFrame
      have hskip : ((errEffects (wrapOptions (.raw r) opts) e0).setCurrentFrame
          (frameEffects (wrapOptions (.raw r) opts) f0)).skipFrames = requestedSkip opts := by
        rw [skipFrames_setCurrentFrame, errEffects_skipFrames, hfresh.skipFrames,
          skipOf_wrapOptions]
        rfl
      have hnot : ¬ (requestedSkip opts > 0) := by omega
      rw [hskip, if_neg hnot] at hw
      refine ⟨_, hw, ?_⟩
      simp only [currentFrameIdx_setCurrentFrame, (errEffects_shape _ _).2.2.1,
        hfresh.currentFrameIdx]
      rfl
  · intro rt r opts F hparse hne hreq
    obtain ⟨e0, h0, hfresh⟩ := newErr_fresh r rt.stack F hparse hne
    cases F with
    | nil => exact absurd rfl hne
    | cons f0 rest =>
      have hcur := hfresh.currentFrame
      have hw := wrap_raw_eq rt r opts e0 f0 h0 hcur
      have happ := applyOptions_effect
        (googleOptions (.raw r) ++ opts ++ getWrapOptionsFromInterfaces r.caps) e0 f0 hcur
      have hskip : ((errEffects (wrapOptions (.raw r) opts) e0).setCurrentFrame
          (frameEffects (wrapOptions (.raw r) opts) f0)).skipFrames = requestedSkip opts := by
        rw [skipFrames_setCurrentFrame, errEffects_skipFrames, hfresh.skipFrames,
          skipOf_wrapOptions]
        rfl
      obtain ⟨s1, _, s3, _, _⟩ := errEffects_shape (wrapOptions (.raw r) opts) e0
      have hidx : ((errEffects (wrapOptions (.raw r) opts) e0).setCurrentFrame
          (frameEffects (wrapOptions (.raw r) opts) f0)).currentFrameIdx = 0 := by
        rw [currentFrameIdx_setCurrentFrame, s3, hfresh.currentFrameIdx]
      have hfr := (frames_setCurrentFrame_zero (errEffects (wrapOptions (.raw r) opts) e0)
        (frameEffects (wrapOptions (.raw r) opts) f0) f0 rest
        (s3.trans hfresh.currentFrameIdx) (s1.trans hfresh.frames)).1
      obtain ⟨e2, g, tl, hs, _, _, hi, _⟩ := handleSkip_total _ _ _ hfr hidx
      rw [hskip, if_pos hreq, hs] at hw
      exact ⟨e0, _, e2, h0, happ, hskip, hs, hw, hi⟩
  · intro rt e opts site hcaller hcur hopts
    obtain ⟨r, e1, f, hfind, _, _, _, _, hw⟩ := wrap_correlated rt e opts site hcaller hcur hopts
    exact ⟨r, _, hfind, hw, rfl⟩
  · intro rt e opts e1 hcaller hopts hw
    have hne : (opts.isEmpty) = false := by
      cases opts with
      | nil => exact absurd rfl hopts
      | cons o os => rfl
    simp only [wrap, googleOptions, List.nil_append, hne, Bool.false_eq_true, if_false, correlate,
      hcaller, Option.some_bind, finishWrap, Bool.not_true, false_and] at hw
    cases happ : applyOptions (opts ++ getWrapOptionsFromInterfaces (ErrorValue.wrapped e).caps)
        { e with unknownFrames := e.unknownFrames ++ [unknownFrame none] } with
    | none => simp [happ] at hw
    | some e2 =>
      simp only [happ, Option.some_bind, Option.some.injEq] at hw
      have := applyOptions_idx _ _ _ happ
      rw [← hw]
      simp [this]

theorem wrap_cursor_advance_witness :
    (∃ e1, wrap exOuter (.wrapped exErr) [] = some e1
        ∧ e1.currentFrameIdx = exErr.currentFrameIdx + 1)
    ∧ (∃ e1, wrap exInner (.raw (errorsNew "boom")) [.Msg "m"] = some e1 ∧ e1.currentFrameIdx = 1)
    ∧ (∃ e0 e1 e2, newErr (errorsNew "boom") exInner.stack = some e0
          ∧ applyOptions (googleOptions (.raw (errorsNew "boom")) ++ [.Msg "m", .SkipFrames 1]
              ++ getWrapOptionsFromInterfaces (errorsNew "boom").caps) e0 = some e1
          ∧ e1.skipFrames = requestedSkip [.Msg "m", .SkipFrames 1]
          ∧ e1.handleSkipFrameOption = some e2
          ∧ wrap exInner (.raw (errorsNew "boom")) [.Msg "m", .SkipFrames 1] = some e2
          ∧ e2.currentFrameIdx = 0)
    ∧ (∃ idx e1, exErr.findFrame "go.nozzle.io/app.outer" = some idx
          ∧ wrap exOuter (.wrapped exErr) [.Msg "m"] = some e1 ∧ e1.currentFrameIdx = idx + 1)
    ∧ (wrap { stack := exStack } (.wrapped exErr) [.Critical]
          = some { exErr with unknownFrames := [{}], Level := LevelCritical, currentFrameIdx := 2 }
        ∧ ({ exErr with unknownFrames := [{}], Level := LevelCritical, currentFrameIdx := 2 } :
            Err).currentFrameIdx = exErr.currentFrameIdx + 1) :=
  ⟨wrap_cursor_advance.1 exOuter exErr,
    wrap_cursor_advance.2.1 exInner (errorsNew "boom") [.Msg "m"] exFrames exStack_parse
      (by simp [exFrames]) (by decide),
    wrap_cursor_advance.2.2.1 exInner (errorsNew "boom") [.Msg "m", .SkipFrames 1] exFrames
      exStack_parse (by simp [exFrames]) (by decide),
    wrap_cursor_advance.2.2.2.1 exOuter exErr [.Msg "m"]
      { name := "go.nozzle.io/app.outer", filepath := "app.go", line := 11 } rfl (by decide)
      (by simp),
    ⟨rfl, wrap_cursor_advance.2.2.2.2 { stack := exStack } exErr [.Critical] _ rfl (by simp) rfl⟩⟩

/-! ## C8 : wrapping nil -/

/-- C8: when the captured stack parses to at least one frame, `Wrap(nil, opts...)`
returns a context whose root cause is the error with the fixed text "you tried
to wrap a nil error", with code DataLoss, level Critical, not retriable, with
the parsed frames, no unknown frame, no tag, no skip count and the other flags
unset; the caller's options have no effect: the result is that of `Wrap(nil)`. -/
theorem Wrap_nil (rt : Runtime) (opts : List WrapOption) (F : List frame)
    (hparse : parseStack rt.stack = some F) (hne : F ≠ []) :
    ∃ e, Wrap rt none opts = some e
      ∧ e.rootErr.text = "you tried to wrap a nil error"
      ∧ e.code = codes.DataLoss ∧ e.Level = LevelCritical ∧ e.isRetriable = false
      ∧ e.frames = F ∧ e.unknownFrames = [] ∧ e.currentFrameIdx = 1
      ∧ e.tags = [] ∧ e.noReport = false ∧ e.isInfra = false ∧ e.skipFrames = 0
      ∧ Wrap rt none opts = Wrap rt none [] := by
  obtain ⟨e0, h0, hfresh⟩ :=
    newErr_fresh (errorsNew "you tried to wrap a nil error") rt.stack F hparse hne
  cases F with
  | nil => exact absurd rfl hne
  | cons f0 rest =>
    have hcur := hfresh.currentFrame
    have hw := wrap_raw_eq rt (errorsNew "you tried to wrap a nil error")
      [.Code codes.DataLoss, .Critical, .NotRetriable] e0 f0 h0 hcur
    have hall : wrapOptions (.raw (errorsNew "you tried to wrap a nil error"))
        [.Code codes.DataLoss, .Critical, .NotRetriable]
        = [.Code codes.DataLoss, .Critical, .NotRetriable] := rfl
    rw [hall] at hw
    have hfe : frameEffects [.Code codes.DataLoss, .Critical, .NotRetriable] f0 = f0 := rfl
    rw [hfe, setCurrentFrame_self _ _
      ((currentFrame_congr _ _ (errEffects_shape _ _).1 (errEffects_shape _ _).2.1
        (errEffects_shape _ _).2.2.1).trans hcur)] at hw
    have hee : errEffects [.Code codes.DataLoss, .Critical, .NotRetriable] e0
        = { e0 with code := codes.DataLoss, Level := LevelCritical, isRetriable := false } := rfl
    rw [hee] at hw
    simp only [hfresh.skipFrames, gt_iff_lt, lt_self_iff_false, if_false,
      hfresh.currentFrameIdx] at hw
    refine ⟨_, hw, ?_, rfl, rfl, rfl, hfresh.frames, hfresh.unknownFrames, rfl, hfresh.tags,
      hfresh.noReport, hfresh.isInfra, rfl, rfl⟩
    simp [hfresh.rootErr, errorsNew]

theorem Wrap_nil_witness :
    ∃ e, Wrap exInner none [.Code codes.NotFound, .Warning, .Msg "m", .SkipFrames 1] = some e
      ∧ e.rootErr.text = "you tried to wrap a nil error"
      ∧ e.code = codes.DataLoss ∧ e.Level = LevelCritical ∧ e.isRetriable = false
      ∧ e.frames = exFrames ∧ e.unknownFrames = [] ∧ e.currentFrameIdx = 1
      ∧ e.tags = [] ∧ e.noReport = false ∧ e.isInfra = false ∧ e.skipFrames = 0
      ∧ Wrap exInner none [.Code codes.NotFound, .Warning, .Msg "m", .SkipFrames 1]
          = Wrap exInner none [] :=
  Wrap_nil exInner [.Code codes.NotFound, .Warning, .Msg "m", .SkipFrames 1] exFrames
    exStack_parse (by simp [exFrames])

/-! ## C9 : caller options and self-reported values -/

/-- C9 (amended): on a first wrap whose stack parses to at least one frame, with
any caller options, the wrap returns and the self-reported values win: the code
is the one `ErrCode()` returns when it is not OK, the message of frame 0 is the
one `ErrMsg()` returns, and the level is the one `ErrLevel()` returns when it is
one of the three levels.  (The interface options are appended after the
caller's and run last.) -/
theorem wrap_self_reported_wins (rt : Runtime) (r : GoError) (opts : List WrapOption)
    (F : List frame) (hparse : parseStack rt.stack = some F) (hne : F ≠ []) :
    ∃ e g, wrap rt (.raw r) opts = some e ∧ e.frames[0]? = some g
      ∧ (∀ c1, r.caps.probe.code = some c1 → c1 ≠ codes.OK → e.code = c1)
      ∧ (∀ m1, r.caps.probe.msg = some m1 → g.msg = m1)
      ∧ (∀ l1, r.caps.probe.level = some l1 →
          (l1 = LevelCritical ∨ l1 = LevelError ∨ l1 = LevelWarning) → e.Level = l1) := by
  obtain ⟨e0, h0, hfresh⟩ := newErr_fresh r rt.stack F hparse hne
  cases F with
  | nil => exact absurd rfl hne
  | cons f0 rest =>
    have hw := wrap_raw_eq rt r opts e0 f0 h0 hfresh.currentFrame
    have hsplit := wrapOptions_split (.raw r) opts
    simp only [ErrorValue.caps] at hsplit
    have hcode : ∀ c1, r.caps.probe.code = some c1 → c1 ≠ codes.OK →
        (errEffects (wrapOptions (.raw r) opts) e0).code = c1 := by
      intro c1 h1 h2
      rw [hsplit, errEffects_append, errEffects_append, errEffects_append,
        errEffects_levelOptions_code, (errEffects_flagOptions _ _).1,
        errEffects_codeOptions _ _ c1 h1 h2]
    have hlevel : ∀ l1, r.caps.probe.level = some l1 →
        (l1 = LevelCritical ∨ l1 = LevelError ∨ l1 = LevelWarning) →
        (errEffects (wrapOptions (.raw r) opts) e0).Level = l1 := by
      intro l1 h1 h2
      rw [hsplit, errEffects_append, errEffects_levelOptions _ _ l1 h1 h2]
    have hmsg : ∀ m1, r.caps.probe.msg = some m1 →
        (frameEffects (wrapOptions (.raw r) opts) f0).msg = m1 := by
      intro m1 h1
      rw [hsplit]
      simp only [List.append_assoc]
      rw [frameEffects_append, frameEffects_append, frameEffects_append]
      simp only [← List.append_assoc]
      rw [frameEffects_after_msg, frameEffects_msgOptions _ _ m1 h1]
    obtain ⟨s1, _, s3, _, _⟩ := errEffects_shape (wrapOptions (.raw r) opts) e0
    obtain ⟨c1, c2, _⟩ := setCurrentFrame_fields (errEffects (wrapOptions (.raw r) opts) e0)
      (frameEffects (wrapOptions (.raw r) opts) f0)
    have hidx : ((errEffects (wrapOptions (.raw r) opts) e0).setCurrentFrame
        (frameEffects (wrapOptions (.raw r) opts) f0)).currentFrameIdx = 0 := by
      rw [currentFrameIdx_setCurrentFrame, s3, hfresh.currentFrameIdx]
    have hfr := (frames_setCurrentFrame_zero (errEffects (wrapOptions (.raw r) opts) e0)
      (frameEffects (wrapOptions (.raw r) opts) f0) f0 rest
      (s3.trans hfresh.currentFrameIdx) (s1.trans hfresh.frames)).1
    split_ifs at hw with hskip
    · obtain ⟨e2, g, tl, hs, hfr2, hg, _, _, hc, hl, _⟩ := handleSkip_total _ _ _ hfr hidx
      rw [hs] at hw
      refine ⟨e2, g, hw, by rw [hfr2]; simp, ?_, ?_, ?_⟩
      · intro k1 h1 h2
        rw [hc, c1, hcode k1 h1 h2]
      · intro m1 h1
        rw [hg, hmsg m1 h1]
      · intro l1 h1 h2
        rw [hl, c2, hlevel l1 h1 h2]
    · refine ⟨_, frameEffects (wrapOptions (.raw r) opts) f0, hw, ?_, ?_, ?_, ?_⟩
      · show ((errEffects (wrapOptions (.raw r) opts) e0).setCurrentFrame
          (frameEffects (wrapOptions (.raw r) opts) f0)).frames[0]? = _
        rw [hfr]
        simp
      · intro k1 h1 h2
        exact c1.trans (hcode k1 h1 h2)
      · intro m1 h1
        exact hmsg m1 h1
      · intro l1 h1 h2
        exact c2.trans (hlevel l1 h1 h2)

theorem wrap_self_reported_wins_witness :
    ∃ e g, wrap exInner (.raw exSelfReporting)
          [.Code codes.Internal, .Msg "caller msg", .Critical] = some e
      ∧ e.frames[0]? = some g
      ∧ (∀ c1, exSelfReporting.caps.probe.code = some c1 → c1 ≠ codes.OK → e.code = c1)
      ∧ (∀ m1, exSelfReporting.caps.probe.msg = some m1 → g.msg = m1)
      ∧ (∀ l1, exSelfReporting.caps.probe.level = some l1 →
          (l1 = LevelCritical ∨ l1 = LevelError ∨ l1 = LevelWarning) → e.Level = l1) :=
  wrap_self_reported_wins exInner exSelfReporting
    [.Code codes.Internal, .Msg "caller msg", .Critical] exFrames exStack_parse
    (by simp [exFrames])

/-- C9 as stated fails: a raw error reporting code NotFound, message "self msg"
and level Warning, first wrapped with `Code(Internal)`, `Msg("caller msg")` and
`Critical()`, gives a context with the self-reported code, message and level,
not the caller's. -/
theorem wrap_caller_options_counterexample :
    ∃ e g, wrap exInner (.raw exSelfReporting)
          [.Code codes.Internal, .Msg "caller msg", .Critical] = some e
      ∧ e.frames[0]? = some g
      ∧ e.code = codes.NotFound ∧ e.code ≠ codes.Internal
      ∧ g.msg = "self msg" ∧ g.msg ≠ "caller msg"
      ∧ e.Level = LevelWarning ∧ e.Level ≠ LevelCritical :=
  ⟨_, _, rfl, rfl, rfl, by decide, rfl, by decide, rfl, by decide⟩

/-! ## C10 : the self-reported infra flag -/

/-- C10 fails on the code: wrapping, with no caller option, a raw error whose
`ErrIsInfra()` returns true gives `isInfra = false`, and one whose `ErrIsInfra()`
returns false gives `isInfra = true`. -/
theorem wrap_infra_inverted :
    (wrap exInner (.raw { text := "disk full", caps := { probe := { isInfra := some true } } })
        []).map (fun e => e.isInfra) = some false
    ∧ (wrap exInner (.raw { text := "bad input", caps := { probe := { isInfra := some false } } })
        []).map (fun e => e.isInfra) = some true :=
  ⟨rfl, rfl⟩

/-! ## C11 : the top application frame -/

/-- C11 fails on the code: `setTopAppFrame` first points `topAppFrame` at frame 0,
so its test `topAppFrame == nil` never holds and the search for an App frame
never assigns.  For an error created in a third-party module called from the
application, the frames are classified Vendor, App and `topAppFrame` is frame 0,
the Vendor frame, at creation and after a skip merge alike; the source comment
says the topmost frame is the default "in case no app frame is found". -/
theorem setTopAppFrame_not_first_app :
    (∃ e, New { stack := exLibStack } "boom" [] = some e
      ∧ e.frames.map (fun f => f.cls) = [.classVendor, .classApp]
      ∧ e.topAppFrame = some 0
      ∧ e.frames.findIdx? frame.isAppFrame = some 1)
    ∧ (∃ e, wrap { stack := { goroutines := [[callDebugStack, callWrapLower, callNew,
            callInner, callLibQuery, callOuter]] } } (.raw (errorsNew "boom")) [.SkipFrames 1]
          = some e
      ∧ e.frames.map (fun f => f.cls) = [.classVendor, .classApp]
      ∧ e.topAppFrame = some 0
      ∧ e.frames.findIdx? frame.isAppFrame = some 1) :=
  ⟨⟨_, rfl, rfl, rfl, rfl⟩, ⟨_, rfl, rfl, rfl, rfl⟩⟩

/-! ## C12 : the panic flag -/

/-- C12 as stated fails: a wrap made in a deferred function while `inner` panics,
with `SkipFrames(2)`, drops the frame of the deferred function and the Panic frame
in the skip merge; the context returned has `isPanic = true` and no Panic frame. -/
theorem wrap_isPanic_counterexample :
    ∃ e, wrap exRecovering (.raw (errorsNew "boom")) [.SkipFrames 2] = some e
      ∧ e.frames.map (fun f => f.cls) = [.classApp, .classApp]
      ∧ ¬ (e.isPanic = true ↔ ∃ f ∈ e.frames, f.cls = .classPanic) := by
  refine ⟨_, rfl, rfl, fun h => ?_⟩
  obtain ⟨f, hf, hc⟩ := h.mp rfl
  have hm : f.cls ∈ [FrameClass.classApp, FrameClass.classApp] :=
    List.mem_map.mpr ⟨f, hf, rfl⟩
  simp [hc] at hm

/-- C12, amended: `isPanic` is set from the frames the stack parses to and is never
cleared.  A first wrap of a stack that parses to the non-empty frames `F` returns
a context on which `isPanic` is true exactly when a frame of `F` is classified
Panic; the classes of its frames are a suffix of those of `F`, and when no valid
skip count was requested they are those of `F`, so that `isPanic` is then true
exactly when a frame currently in `frames` is Panic.  A later wrap that returns
leaves `isPanic` and the classes of the frames as they were. -/
theorem wrap_isPanic_parsed :
    (∀ (rt : Runtime) (r : GoError) (opts : List WrapOption) (F : List frame),
      parseStack rt.stack = some F → F ≠ [] →
      ∃ e, wrap rt (.raw r) opts = some e
        ∧ (e.isPanic = true ↔ ∃ f ∈ F, f.cls = .classPanic)
        ∧ e.frames.map (fun f => f.cls) <:+ F.map (fun f => f.cls)
        ∧ (¬ (0 < requestedSkip opts ∧ requestedSkip opts < (F.length : Int)) →
            e.frames.map (fun f => f.cls) = F.map (fun f => f.cls)
            ∧ (e.isPanic = true ↔ ∃ f ∈ e.frames, f.cls = .classPanic)))
    ∧ (∀ (rt : Runtime) (ev : ErrorValue) (opts : List WrapOption) (e e1 : Err),
      ev.inner = some e → wrap rt ev opts = some e1 →
      e1.isPanic = e.isPanic
        ∧ e1.frames.map (fun f => f.cls) = e.frames.map (fun f => f.cls)
        ∧ ((e.isPanic = true ↔ ∃ f ∈ e.frames, f.cls = .classPanic) →
            (e1.isPanic = true ↔ ∃ f ∈ e1.frames, f.cls = .classPanic))) := by
  have hcls : ∀ l1 l2 : List frame, l1.map (fun f => f.cls) = l2.map (fun f => f.cls) →
      ((∃ f ∈ l1, f.cls = .classPanic) ↔ ∃ f ∈ l2, f.cls = .classPanic) := by
    intro l1 l2 h
    have key : ∀ l : List frame,
        (∃ f ∈ l, f.cls = .classPanic) ↔ FrameClass.classPanic ∈ l.map (fun f => f.cls) := by
      intro l
      simp only [List.mem_map]
    rw [key, key, h]
  refine ⟨fun rt r opts F hparse hne => ?_, fun rt ev opts e e1 hin h => ?_⟩
  · obtain ⟨e, he, hp, hsuf, hsame⟩ := wrap_raw_panic rt r opts F hparse hne
    refine ⟨e, he, hp, hsuf, fun hnot => ⟨hsame hnot, ?_⟩⟩
    rw [hp]
    exact (hcls _ _ (hsame hnot)).symm
  · obtain ⟨a1, a2, _⟩ := wrap_later_keeps rt ev opts e e1 hin h
    have hc := cls_of_ident _ _ a1
    refine ⟨a2, hc, fun hinv => ?_⟩
    rw [a2, hinv]
    exact (hcls _ _ hc).symm

theorem wrap_isPanic_parsed_witness :
    (∃ e, wrap exRecovering (.raw (errorsNew "boom")) [.Msg "recovered"] = some e
        ∧ (e.isPanic = true ↔ ∃ f ∈ [frameOfCall callRecoverer, frameOfCall callPanic,
            frameOfCall callInner, frameOfCall callOuter], f.cls = .classPanic)
        ∧ e.frames.map (fun f => f.cls) = [frameOfCall callRecoverer, frameOfCall callPanic,
            frameOfCall callInner, frameOfCall callOuter].map (fun f => f.cls)
        ∧ (e.isPanic = true ↔ ∃ f ∈ e.frames, f.cls = .classPanic))
    ∧ (wrap exOuter (.wrapped exErr) [.Msg "m"]
          = some { exErr with
              frames := [exFrames.get ⟨0, by decide⟩,
                { exFrames.get ⟨1, by decide⟩ with msg := "m" }]
              currentFrameIdx := 2 }
        ∧ ({ exErr with
              frames := [exFrames.get ⟨0, by decide⟩,
                { exFrames.get ⟨1, by decide⟩ with msg := "m" }]
              currentFrameIdx := 2 } : Err).isPanic = exErr.isPanic) := by
  obtain ⟨e, he, hp, _, hsame⟩ := wrap_isPanic_parsed.1 exRecovering (errorsNew "boom")
    [.Msg "recovered"] [frameOfCall callRecoverer, frameOfCall callPanic,
      frameOfCall callInner, frameOfCall callOuter] rfl (by simp)
  have hn : ¬ (0 < requestedSkip [.Msg "recovered"]
      ∧ requestedSkip [.Msg "recovered"] < (([frameOfCall callRecoverer,
        frameOfCall callPanic, frameOfCall callInner,
        frameOfCall callOuter] : List frame).length : Int)) := by decide
  exact ⟨⟨e, he, hp, (hsame hn).1, (hsame hn).2⟩, rfl,
    (wrap_isPanic_parsed.2 exOuter (.wrapped exErr) [.Msg "m"] exErr _ rfl rfl).1⟩

/-! ## C13 : the panic sentinel -/

/-- C13: a call record whose function name is "panic" is classified Panic by
`getFrameClass`, whatever its location and import path; and when the frame of
such a record is among the frames the stack parses to, the context created from
that stack, by `newErr` and by a first wrap with any options, exists and has
`isPanic = true`. -/
theorem panic_sentinel :
    (∀ call : Call, call.Func.Name = "panic" → getFrameClass call = .classPanic)
    ∧ (∀ (rt : Runtime) (r : GoError) (opts : List WrapOption) (F : List frame) (c : Call),
        parseStack rt.stack = some F → frameOfCall c ∈ F → c.Func.Name = "panic" →
        (∃ e0, newErr r rt.stack = some e0 ∧ e0.isPanic = true)
          ∧ ∃ e, wrap rt (.raw r) opts = some e ∧ e.isPanic = true) := by
  have hclass : ∀ call : Call, call.Func.Name = "panic" → getFrameClass call = .classPanic := by
    intro call h
    unfold getFrameClass
    rw [if_pos h]
  refine ⟨hclass, fun rt r opts F c hparse hmem hname => ?_⟩
  have hne : F ≠ [] := List.ne_nil_of_mem hmem
  have hex : ∃ f ∈ F, f.cls = .classPanic := ⟨frameOfCall c, hmem, hclass c hname⟩
  obtain ⟨e0, h0, _⟩ := newErr_fresh r rt.stack F hparse hne
  obtain ⟨e, he, hp, _⟩ := wrap_raw_panic rt r opts F hparse hne
  refine ⟨⟨e0, h0, ?_⟩, e, he, hp.mpr hex⟩
  rw [(newErr_isPanic r rt.stack F e0 hparse h0).1]
  exact (any_isPanicFrame F).mpr hex

theorem panic_sentinel_witness :
    getFrameClass callPanic = .classPanic
    ∧ getFrameClass
        { Func := { Complete := "go.nozzle.io/app.panic", ImportPath := "go.nozzle.io/app",
                    DirName := "app", Name := "panic" },
          SrcName := "app.go", Line := 3, Location := .GOPATH } = .classPanic
    ∧ (∃ e0, newErr (errorsNew "boom") exRecovering.stack = some e0 ∧ e0.isPanic = true)
    ∧ ∃ e, wrap exRecovering (.raw (errorsNew "boom")) [.SkipFrames 2] = some e
        ∧ e.isPanic = true :=
  ⟨panic_sentinel.1 callPanic rfl,
    panic_sentinel.1 _ rfl,
    (panic_sentinel.2 exRecovering (errorsNew "boom") [.SkipFrames 2]
      [frameOfCall callRecoverer, frameOfCall callPanic, frameOfCall callInner,
        frameOfCall callOuter] callPanic rfl
      (List.mem_cons_of_mem _ (List.mem_cons_self _ _)) rfl).1,
    (panic_sentinel.2 exRecovering (errorsNew "boom") [.SkipFrames 2]
      [frameOfCall callRecoverer, frameOfCall callPanic, frameOfCall callInner,
        frameOfCall callOuter] callPanic rfl
      (List.mem_cons_of_mem _ (List.mem_cons_self _ _)) rfl).2⟩

/-! ## C14 : the order of the classification rules -/

/-- C14 as stated fails: a function of a module found in the module cache, with
no dot in its import path, is classified Vendor by `getFrameClass`, while the
decision list of the specification reaches its rule for a path with no
namespace separator and gives StandardLibrary. -/
theorem getFrameClass_counterexample :
    getFrameClass callDotless = .classVendor
    ∧ specFrameClass callDotless = .classStdLib
    ∧ getFrameClass callDotless ≠ specFrameClass callDotless :=
  ⟨rfl, rfl, by decide⟩

/-- C14, amended: `getFrameClass` equals the decision list of the specification
evaluated in order, except that a record located in the module cache or in the
package tree of GOPATH (`GoMod`, `GoPkg`) that is not decided by the rules before
the one for an import path with no namespace separator is Vendor, where the list
says StandardLibrary.  The result is always one of the five classes. -/
theorem getFrameClass_decision_list (call : Call) :
    getFrameClass call
        = (if (call.Location = .GoPkg ∨ call.Location = .GoMod)
              ∧ specFrameClass call = .classStdLib
            then .classVendor else specFrameClass call)
      ∧ getFrameClass call ≠ .unset := by
  unfold getFrameClass specFrameClass
  by_cases h1 : call.Func.Name = "panic"
  · simp [h1]
  · by_cases h2 : call.Location = .Stdlib
    · simp [h1, h2]
    · by_cases h3 : stringsHasPrefix call.Func.ImportPath "go.nozzle.io/pkg" = true
      · simp [h1, h2, h3]
      · by_cases h4 : stringsHasPrefix call.Func.ImportPath "go.nozzle.io/vendor" = true
        · simp [h1, h2, h3, h4]
        · by_cases h5 : stringsHasPrefix call.Func.ImportPath "go.nozzle.io" = true
          · simp [h1, h2, h3, h4, h5]
          · by_cases h6 : call.Location = .GoPkg ∨ call.Location = .GoMod
            · by_cases h7 : stringsContains call.Func.ImportPath "." = true
              · simp [h1, h2, h3, h4, h5, h6, h7]
              · simp [h1, h2, h3, h4, h5, h6, h7]
            · by_cases h7 : stringsContains call.Func.ImportPath "." = true
              · simp [h1, h2, h3, h4, h5, h6, h7]
              · simp [h1, h2, h3, h4, h5, h6, h7]

/-! ## C15 : skipping only trims the top -/

/-- C15: the call records split into a prefix of skippable records and the rest,
which starts at the first record that is not skippable; the frames returned by
`parseStack` are built, in order and with the identity fields copied unchanged,
from the first `k` records of that rest.  Once a frame has been emitted the skip
rule drops nothing: a skippable record at a later position of the rest is
retained, at the same position, unless the truncation of the stack has ended the
parse before it. -/
theorem parseStack_skips_top (rawStack : RawStack) (calls : List Call)
    (h : getPanicParseStack rawStack = some calls) :
    ∃ (skipped : List Call) (k : Nat),
      calls = skipped ++ afterSkipped calls
      ∧ (∀ c ∈ skipped, shouldSkipFrame c 0 = true)
      ∧ (∀ c, (afterSkipped calls).head? = some c → shouldSkipFrame c 0 = false)
      ∧ parseStack rawStack = some (((afterSkipped calls).take k).map frameOfCall)
      ∧ (∀ c : Call, (frameOfCall c).file = c.SrcName ∧ (frameOfCall c).path = c.Func.ImportPath
          ∧ (frameOfCall c).pkg = c.Func.DirName ∧ (frameOfCall c).fn = c.Func.Name
          ∧ (frameOfCall c).full = c.Func.Complete ∧ (frameOfCall c).line = c.Line
          ∧ (frameOfCall c).cls = getFrameClass c)
      ∧ (∀ (c : Call) (n : Nat), 0 < n → shouldSkipFrame c n = false)
      ∧ (∀ (j : Nat) (c : Call), 0 < j → (afterSkipped calls)[j]? = some c →
          shouldSkipFrame c 0 = true →
          (∀ (i : Nat) (d : Call), 2 ≤ i → i ≤ j → (afterSkipped calls)[i]? = some d →
            shouldTruncateStack d = false) →
          ∃ F, parseStack rawStack = some F ∧ F[j]? = some (frameOfCall c)) := by
  obtain ⟨skipped, hsplit, hskip, hhead⟩ := afterSkipped_split calls
  obtain ⟨k, hk, hstop, _⟩ := beforeBoundary_eq_take (afterSkipped calls)
  have hparse : parseStack rawStack = some (((afterSkipped calls).take k).map frameOfCall) := by
    unfold parseStack
    rw [h, Option.map_some', parseCalls_eq_beforeBoundary, hk]
  refine ⟨skipped, k, hsplit, hskip, hhead, hparse,
    fun c => ⟨rfl, rfl, rfl, rfl, rfl, rfl, rfl⟩, shouldSkipFrame_pos, ?_⟩
  intro j c _ hj _ hno
  have hjlt : j < (afterSkipped calls).length := by
    by_contra hcon
    rw [List.getElem?_eq_none (by omega)] at hj
    exact absurd hj (by simp)
  have hjk : j < k := by
    by_contra hcon
    obtain ⟨h2, b, hb, hbt⟩ := hstop (by omega)
    have := hno k b h2 (by omega) hb
    rw [this] at hbt
    exact absurd hbt (by simp)
  refine ⟨_, hparse, ?_⟩
  rw [List.getElem?_map, List.getElem?_take_of_lt hjk, hj]
  rfl

theorem parseStack_skips_top_witness :
    getPanicParseStack exTestStack = some exTestCalls
    ∧ afterSkipped exTestCalls
        = [callInner, callWrapLower, callWrapUpper, callOuter, callTestRunner, callGoexit]
    ∧ parseStack exTestStack
        = some [frameOfCall callInner, frameOfCall callWrapLower, frameOfCall callWrapUpper,
            frameOfCall callOuter]
    ∧ ∃ (skipped : List Call) (k : Nat),
      exTestCalls = skipped ++ afterSkipped exTestCalls
      ∧ (∀ c ∈ skipped, shouldSkipFrame c 0 = true)
      ∧ (∀ c, (afterSkipped exTestCalls).head? = some c → shouldSkipFrame c 0 = false)
      ∧ parseStack exTestStack = some (((afterSkipped exTestCalls).take k).map frameOfCall)
      ∧ (∀ c : Call, (frameOfCall c).file = c.SrcName ∧ (frameOfCall c).path = c.Func.ImportPath
          ∧ (frameOfCall c).pkg = c.Func.DirName ∧ (frameOfCall c).fn = c.Func.Name
          ∧ (frameOfCall c).full = c.Func.Complete ∧ (frameOfCall c).line = c.Line
          ∧ (frameOfCall c).cls = getFrameClass c)
      ∧ (∀ (c : Call) (n : Nat), 0 < n → shouldSkipFrame c n = false)
      ∧ (∀ (j : Nat) (c : Call), 0 < j → (afterSkipped exTestCalls)[j]? = some c →
          shouldSkipFrame c 0 = true →
          (∀ (i : Nat) (d : Call), 2 ≤ i → i ≤ j → (afterSkipped exTestCalls)[i]? = some d →
            shouldTruncateStack d = false) →
          ∃ F, parseStack exTestStack = some F ∧ F[j]? = some (frameOfCall c)) :=
  ⟨rfl, by decide, rfl, parseStack_skips_top exTestStack exTestCalls rfl⟩

/-! ## C16 : truncation with a two-frame minimum -/

/-- C16: with `run` the call records from the first one that is not skipped,
`parseStack` returns the frames of the first `k` records of `run`, where the
first two records of `run` are always among them, boundary call sites or not;
when `k` is less than the length of `run` the record at position `k` is a
boundary call site, and it and every record after it are discarded; no record at
a position from 2 up to `k` is a boundary call site; and when no record of `run`
from the third on is a boundary call site, every record of `run` gives a frame. -/
theorem parseStack_truncates (rawStack : RawStack) (calls : List Call)
    (h : getPanicParseStack rawStack = some calls) :
    ∃ k : Nat,
      parseStack rawStack = some (((afterSkipped calls).take k).map frameOfCall)
      ∧ min 2 (afterSkipped calls).length ≤ k
      ∧ (k < (afterSkipped calls).length →
          ∃ b, (afterSkipped calls)[k]? = some b ∧ shouldTruncateStack b = true)
      ∧ (∀ (i : Nat) (d : Call), 2 ≤ i → i < k → (afterSkipped calls)[i]? = some d →
          shouldTruncateStack d = false)
      ∧ ((∀ d ∈ (afterSkipped calls).drop 2, shouldTruncateStack d = false) →
          parseStack rawStack = some ((afterSkipped calls).map frameOfCall)) := by
  obtain ⟨k, hk, hstop, hfirst⟩ := beforeBoundary_eq_take (afterSkipped calls)
  have hparse : parseStack rawStack = some (beforeBoundary (afterSkipped calls) |>.map frameOfCall) := by
    unfold parseStack
    rw [h, Option.map_some', parseCalls_eq_beforeBoundary]
  refine ⟨max k (min 2 (afterSkipped calls).length), ?_, le_max_right _ _, ?_, ?_, ?_⟩
  · rw [hparse, hk]
    by_cases hlt : k < (afterSkipped calls).length
    · have := (hstop hlt).1
      rw [max_eq_left (by omega)]
    · rw [List.take_of_length_le (by omega), List.take_of_length_le]
      exact le_trans (by omega) (le_max_left _ _)
  · intro hlt
    have hlt2 : k < (afterSkipped calls).length := lt_of_le_of_lt (le_max_left _ _) hlt
    obtain ⟨h2, hb⟩ := hstop hlt2
    rw [max_eq_left (by omega)]
    exact hb
  · intro i d hi hik hd
    by_cases hlt : i < k
    · exact hfirst i d hi hlt hd
    · exfalso
      have hil : i < (afterSkipped calls).length := by
        by_contra hcon
        rw [List.getElem?_eq_none (by omega)] at hd
        exact absurd hd (by simp)
      have : max k (min 2 (afterSkipped calls).length) ≤ max k 2 :=
        max_le_max le_rfl (min_le_left _ _)
      rcases le_total k 2 with hk2 | hk2
      · rw [max_eq_right hk2] at this
        omega
      · rw [max_eq_left hk2] at this
        omega
  · intro hno
    rw [hparse, hk]
    by_cases hlt : k < (afterSkipped calls).length
    · exfalso
      obtain ⟨h2, b, hb, hbt⟩ := hstop hlt
      have hmem : b ∈ (afterSkipped calls).drop 2 := by
        have hb2 : ((afterSkipped calls).drop 2)[k - 2]? = some b := by
          rw [List.getElem?_drop]
          have : 2 + (k - 2) = k := by omega
          rw [this]
          exact hb
        exact List.getElem?_mem hb2
      rw [hno b hmem] at hbt
      exact absurd hbt (by simp)
    · rw [List.take_of_length_le (by omega)]

theorem parseStack_truncates_witness :
    getPanicParseStack exTestStack = some exTestCalls
    ∧ afterSkipped exTestCalls
        = [callInner, callWrapLower, callWrapUpper, callOuter, callTestRunner, callGoexit]
    ∧ shouldTruncateStack callTestRunner = true
    ∧ ∃ k : Nat,
      parseStack exTestStack = some (((afterSkipped exTestCalls).take k).map frameOfCall)
      ∧ min 2 (afterSkipped exTestCalls).length ≤ k
      ∧ (k < (afterSkipped exTestCalls).length →
          ∃ b, (afterSkipped exTestCalls)[k]? = some b ∧ shouldTruncateStack b = true)
      ∧ (∀ (i : Nat) (d : Call), 2 ≤ i → i < k → (afterSkipped exTestCalls)[i]? = some d →
          shouldTruncateStack d = false)
      ∧ ((∀ d ∈ (afterSkipped exTestCalls).drop 2, shouldTruncateStack d = false) →
          parseStack exTestStack = some ((afterSkipped exTestCalls).map frameOfCall)) :=
  ⟨rfl, by decide, by decide, parseStack_truncates exTestStack exTestCalls rfl⟩

/-! ## C17 : frames after creation -/

/-- C17 fails on the code: when every call record of the snapshot is skipped, as
for `go e.New("x")`, whose goroutine holds only `debug.Stack`, `wrap` and `New`,
or when the snapshot holds no call record, `parseStack` returns no frame and
`newErr`, hence the first wrap, panics on `frames[0]` in `setTopAppFrame`;
`Location` and `githubURL` test `len(err.frames) == 0` before that access. -/
theorem newErr_no_frame :
    getPanicParseStack exBareStack = some [callDebugStack, callWrapLower, callNew]
    ∧ parseStack exBareStack = some []
    ∧ newErr (errorsNew "x") exBareStack = none
    ∧ New { stack := exBareStack } "x" [] = none
    ∧ parseStack { goroutines := [[]] } = some []
    ∧ New { stack := { goroutines := [[]] } } "x" [] = none :=
  ⟨rfl, rfl, rfl, rfl, rfl, rfl⟩

/-! ## C20 : the size of the mutator cache -/

/-- C20 fails on the code: the capacity test is `len(errKeys) > maxErrorMutators`,
so a cache holding 10 entries still takes a new one: starting from the empty
cache, `MutatorFromError` called on eleven errors with distinct messages leaves
11 entries, more than `maxErrorMutators` = 10 (the doc comment says the map is
"capped at maxErrorMutators (10)"). -/
theorem MutatorFromError_eleven_entries :
    (mutatorCalls [] exElevenErrors).map List.length = some 11
    ∧ maxErrorMutators = 10
    ∧ (mutatorCalls [] (exElevenErrors.take 10)).map List.length = some 10 :=
  ⟨by decide, rfl, by decide⟩

/-! ## C18 : where the cursor is after a wrap -/

/-- C18 as stated fails: after `New` in `inner` and `Wrap` with an option in
`outer`, the outermost function of the stack, the cursor is 2 with 2 frames and
no unknown frame, so it resolves to no frame; a further `Wrap` without option
leaves it at 3. -/
theorem wrap_cursor_counterexample :
    (∃ e, wrapChain "boom" [(exInner, "a", Value.int 1), (exOuter, "b", Value.int 2)] = some e
      ∧ e.currentFrameIdx = 2 ∧ e.frames.length = 2 ∧ e.unknownFrames = []
      ∧ ¬ ((0 ≤ e.currentFrameIdx ∧ e.currentFrameIdx < (e.frames.length : Int))
            ∨ (e.currentFrameIdx = -1 ∧ e.unknownFrames ≠ []))
      ∧ e.currentFrame = none)
    ∧ (∃ e, (wrapChain "boom" [(exInner, "a", Value.int 1), (exOuter, "b", Value.int 2)]).bind
          (fun e => wrap exElsewhere (.wrapped e) []) = some e
      ∧ e.currentFrameIdx = 3 ∧ e.frames.length = 2 ∧ e.unknownFrames = []
      ∧ ¬ ((0 ≤ e.currentFrameIdx ∧ e.currentFrameIdx < (e.frames.length : Int))
            ∨ (e.currentFrameIdx = -1 ∧ e.unknownFrames ≠ []))) := by
  have key : ∀ (e : Err) (c : Int), e.currentFrameIdx = c → e.frames.length = 2 → 2 ≤ c →
      ¬ ((0 ≤ e.currentFrameIdx ∧ e.currentFrameIdx < (e.frames.length : Int))
            ∨ (e.currentFrameIdx = -1 ∧ e.unknownFrames ≠ [])) := by
    intro e c h1 h2 hc h
    rw [h1, h2] at h
    rcases h with ⟨_, h3⟩ | ⟨h3, _⟩
    · have : ((2 : Nat) : Int) = 2 := rfl
      omega
    · omega
  exact ⟨⟨_, rfl, rfl, rfl, rfl, key _ 2 rfl rfl (by decide), rfl⟩,
    ⟨_, rfl, rfl, rfl, rfl, key _ 3 rfl rfl (by decide)⟩⟩

/-- C18, amended: the cursor resolves to an existing frame while the options of
a wrap run, and on return it is one past that frame, so it is never negative but
may be `len(frames)` or more.  A first wrap of a stack that parses to at least
one frame runs its options on frame 0 and returns a context with
0 <= cursor <= len(frames).  A re-wrap without options of a context whose cursor
is not negative returns it with the cursor increased by one.  A re-wrap with
options from a calling site the runtime reports, of a context whose cursor is
not negative, runs its options with the cursor on a frame of `frames` or, with
the unknown sentinel, on the last of the non-empty `unknownFrames`, and returns
a context with 0 <= cursor <= len(frames).  Whenever a wrap of an error whose
context, if any, has a cursor that is not negative returns, the cursor returned
is not negative. -/
theorem wrap_cursor_one_past :
    (∀ (rt : Runtime) (r : GoError) (opts : List WrapOption) (F : List frame),
      parseStack rt.stack = some F → F ≠ [] →
      ∃ e0 f0 e, newErr r rt.stack = some e0 ∧ e0.currentFrame = some f0
        ∧ wrap rt (.raw r) opts = some e
        ∧ 0 ≤ e.currentFrameIdx ∧ e.currentFrameIdx ≤ (e.frames.length : Int))
    ∧ (∀ (rt : Runtime) (e : Err), 0 ≤ e.currentFrameIdx →
      ∃ e1, wrap rt (.wrapped e) [] = some e1
        ∧ e1.currentFrameIdx = e.currentFrameIdx + 1 ∧ 0 ≤ e1.currentFrameIdx)
    ∧ (∀ (rt : Runtime) (e : Err) (opts : List WrapOption) (site : CallSite),
      rt.caller = some site → 0 ≤ e.currentFrameIdx → opts ≠ [] →
      ∃ (r : Int) (e1 : Err) (f : frame) (e2 : Err), correlate rt e = some e1
        ∧ e1.currentFrameIdx = r ∧ e1.currentFrame = some f
        ∧ ((0 ≤ r ∧ r < (e1.frames.length : Int)) ∨ (r = -1 ∧ e1.unknownFrames ≠ []))
        ∧ wrap rt (.wrapped e) opts = some e2 ∧ e2.currentFrameIdx = r + 1
        ∧ 0 ≤ e2.currentFrameIdx ∧ e2.currentFrameIdx ≤ (e2.frames.length : Int))
    ∧ (∀ (rt : Runtime) (ev : ErrorValue) (opts : List WrapOption) (e1 : Err),
      (∀ e, ev.inner = some e → 0 ≤ e.currentFrameIdx) → wrap rt ev opts = some e1 →
      0 ≤ e1.currentFrameIdx) := by
  refine ⟨fun rt r opts F hparse hne => ?_, fun rt e hcur => ?_,
    fun rt e opts site hcaller hcur hopts => ?_, wrap_cursor_nonneg⟩
  · obtain ⟨e0, f0, e, h0, _, hf0, hw, hfr, hidx⟩ := wrap_raw_cursor rt r opts F hparse hne
    have hlen : 0 < e.frames.length := List.length_pos.mpr hfr
    refine ⟨e0, f0, e, h0, hf0, hw, ?_, ?_⟩ <;> rcases hidx with h | h <;> rw [h] <;> omega
  · refine ⟨_, rfl, rfl, ?_⟩
    show 0 ≤ e.currentFrameIdx + 1
    omega
  · obtain ⟨r, e1, f, e2, hcorr, hidx, hcurf, hres, hw, hidx2, hlen⟩ :=
      wrap_rewrap_cursor rt e opts site hcaller hcur hopts
    refine ⟨r, e1, f, e2, hcorr, hidx, hcurf, hres, hw, hidx2, ?_, ?_⟩
    · rcases hres with ⟨h1, _⟩ | ⟨h1, _⟩ <;> omega
    · rw [hlen]
      rcases hres with ⟨_, h2⟩ | ⟨h1, _⟩ <;> omega

theorem wrap_cursor_one_past_witness :
    (parseStack exInner.stack = some exFrames
      ∧ ∃ e0 f0 e, newErr (errorsNew "boom") exInner.stack = some e0
        ∧ e0.currentFrame = some f0
        ∧ wrap exInner (.raw (errorsNew "boom")) [.Msg "m"] = some e
        ∧ 0 ≤ e.currentFrameIdx ∧ e.currentFrameIdx ≤ (e.frames.length : Int))
    ∧ (∃ e1, wrap exOuter (.wrapped exErr) [] = some e1
        ∧ e1.currentFrameIdx = exErr.currentFrameIdx + 1 ∧ 0 ≤ e1.currentFrameIdx)
    ∧ (∃ (r : Int) (e1 : Err) (f : frame) (e2 : Err), correlate exOuter exErr = some e1
        ∧ e1.currentFrameIdx = r ∧ e1.currentFrame = some f
        ∧ ((0 ≤ r ∧ r < (e1.frames.length : Int)) ∨ (r = -1 ∧ e1.unknownFrames ≠ []))
        ∧ wrap exOuter (.wrapped exErr) [.Msg "m"] = some e2 ∧ e2.currentFrameIdx = r + 1
        ∧ 0 ≤ e2.currentFrameIdx ∧ e2.currentFrameIdx ≤ (e2.frames.length : Int))
    ∧ (∃ e1, wrap { stack := exStack } (.wrapped exErr) [.Critical] = some e1
        ∧ e1.unknownFrames = [{}] ∧ 0 ≤ e1.currentFrameIdx) :=
  ⟨⟨exStack_parse, wrap_cursor_one_past.1 exInner (errorsNew "boom") [.Msg "m"] exFrames
      exStack_parse (by simp [exFrames])⟩,
    wrap_cursor_one_past.2.1 exOuter exErr (by decide),
    wrap_cursor_one_past.2.2.1 exOuter exErr [.Msg "m"]
      { name := "go.nozzle.io/app.outer", filepath := "app.go", line := 11 } rfl (by decide)
      (by simp),
    ⟨_, rfl, rfl, wrap_cursor_one_past.2.2.2 { stack := exStack } (.wrapped exErr) [.Critical] _
      (fun e he => by
        have h2 : exErr = e := Option.some.inj he
        rw [← h2]
        decide) rfl⟩⟩

/-! ## C19 : the code inferred from the message -/

/-- C19 as stated fails: the test for "context canceled" comes before the test for
"deadline exceeded", so a raw error whose message holds both gets the code
Canceled; and for a `*googleapi.Error` the wrap itself runs `Code` with the code
of the HTTP status, so one with status 503 whose message holds "deadline
exceeded" gets Unavailable.  In both cases the caller gives no option and
the error reports no code of its own. -/
theorem wrap_deadline_counterexample :
    (stringsContains exBothTexts.text "deadline exceeded" = true
      ∧ exBothTexts.caps.probe.code = none
      ∧ (wrap exInner (.raw exBothTexts) []).map (fun e => e.code) = some codes.Canceled
      ∧ codes.Canceled ≠ codes.DeadlineExceeded)
    ∧ (stringsContains exGoogleDeadline.text "deadline exceeded" = true
      ∧ exGoogleDeadline.caps.probe.code = none
      ∧ (wrap exInner (.raw exGoogleDeadline) []).map (fun e => e.code) = some codes.Unavailable
      ∧ codes.Unavailable ≠ codes.DeadlineExceeded) :=
  ⟨⟨by decide, rfl, rfl, by decide⟩, ⟨by decide, rfl, rfl, by decide⟩⟩

/-- C19, amended: for every raw error that is not a `*googleapi.Error` and whose
message contains "deadline exceeded" and does not contain "context canceled"
(the sentinel `context.Canceled` has the message "context canceled"), a first
wrap of a stack that parses to at least one frame, in which no `Code` option runs
(none among the caller's options and the options of the interfaces of the
error and of the values attached, once expanded), returns a context with the code
DeadlineExceeded. -/
theorem wrap_deadline_exceeded (rt : Runtime) (r : GoError) (opts : List WrapOption)
    (F : List frame) (hparse : parseStack rt.stack = some F) (hne : F ≠ [])
    (hdead : stringsContains r.text "deadline exceeded" = true)
    (hcanc : stringsContains r.text "context canceled" = false)
    (hsent : r.kind = .contextCanceled → r.text = "context canceled")
    (hgoogle : ∀ c, r.kind ≠ .googleapi c)
    (hopts : ∀ o ∈ flattenAll (opts ++ getWrapOptionsFromInterfaces r.caps),
      ∀ c, o ≠ .Code c) :
    ∃ e, wrap rt (.raw r) opts = some e ∧ e.code = codes.DeadlineExceeded := by
  obtain ⟨e0, e, _, hc0, hw, hc⟩ := wrap_raw_code rt r opts F hparse hne
  refine ⟨e, hw, ?_⟩
  have hlist : wrapOptions (.raw r) opts
      = flattenAll (opts ++ getWrapOptionsFromInterfaces r.caps) := by
    unfold wrapOptions
    rw [googleOptions_raw r hgoogle]
    rfl
  rw [hc, hlist, errEffects_code_of_ne _ _ hopts, hc0]
  have hk : r.kind ≠ .contextCanceled := by
    intro hk
    rw [hsent hk] at hcanc
    exact absurd hcanc (by decide)
  unfold defaultCode
  rw [if_neg hk]
  by_cases hd : r.kind = .contextDeadlineExceeded
  · rw [if_pos hd]
  · rw [if_neg hd, hcanc, hdead]
    simp

theorem wrap_deadline_exceeded_witness :
    (stringsContains exDeadline.text "deadline exceeded" = true
      ∧ stringsContains exDeadline.text "context canceled" = false)
    ∧ ∃ e, wrap exInner (.raw exDeadline) [.Msg "m", .Critical] = some e
        ∧ e.code = codes.DeadlineExceeded :=
  ⟨⟨by decide, by decide⟩,
    wrap_deadline_exceeded exInner exDeadline [.Msg "m", .Critical] exFrames exStack_parse
      (by simp [exFrames]) (by decide) (by decide) (fun h => absurd h (by decide))
      (fun c h => by
        have h2 : ErrKind.other = ErrKind.googleapi c := h
        exact ErrKind.noConfusion h2)
      (fun o ho c => by
        have h2 : o ∈ [WrapOption.Msg "m", WrapOption.Critical] := ho
        simp only [List.mem_cons, List.mem_singleton, List.not_mem_nil, or_false] at h2
        rcases h2 with h | h <;> rw [h] <;> simp)⟩

/-! ## C21 : the fallback when the cache is full -/

/-- C21 fails on the code: after ten calls with distinct messages on the empty
cache, the call for the eleventh distinct message finds `len(errKeys)` = 10, not
more than `maxErrorMutators`, so it does not return the "other" mutator: it
inserts the message and returns the stored value.  Only from the twelfth
distinct message on is "other" returned and nothing inserted.  (The defect is
the one of C20: the test `>` where the documentation says the map is capped at
`maxErrorMutators`.) -/
theorem MutatorFromError_eleventh_inserted :
    (mutatorCalls [] (exElevenErrors.take 10)).map
        (fun c => (c.length, keyGet c (reportKey "k"))) = some (maxErrorMutators, none)
    ∧ ((mutatorCalls [] (exElevenErrors.take 10)).bind
        (fun c => MutatorFromError c (some (.raw (errorsNew "k"))))).map
        (fun r => (r.1, r.2.length, keyGet r.2 (reportKey "k")))
          = some (Mutator.nil, 11, some Mutator.nil)
    ∧ Mutator.nil ≠ mutatorErrorOther
    ∧ ((mutatorCalls [] exElevenErrors).bind
        (fun c => MutatorFromError c (some (.raw (errorsNew "l"))))).map
        (fun r => (r.1, r.2.length, keyGet r.2 (reportKey "l")))
          = some (mutatorErrorOther, 11, none) :=
  ⟨by decide, by decide, by decide, by decide⟩

/-! ## C22 : one tag per message -/

/-- C22: for every cache, two calls of `MutatorFromError` on errors whose root
cause messages have the same first `maxErrorMutatorLen` bytes (in particular the
same message), with any calls on non-nil errors in between, all return, and the
two calls return the same mutator. -/
theorem MutatorFromError_stable (c0 : List (List Nat × Mutator)) (e1 e2 : ErrorValue)
    (between : List ErrorValue)
    (hkey : reportKey (Cause e1).text = reportKey (Cause e2).text) :
    ∃ m c1 c2 c3, MutatorFromError c0 (some e1) = some (m, c1)
      ∧ mutatorCalls c1 (between.map some) = some c2
      ∧ MutatorFromError c2 (some e2) = some (m, c3) := by
  cases hg : keyGet c0 (reportKey (Cause e1).text) with
  | some m =>
    obtain ⟨c2, h2, h3⟩ := mutatorCalls_keeps between c0 _ m hg
    rw [hkey] at h3
    exact ⟨m, c0, c2, c2, MutatorFromError_hit c0 e1 m hg, h2, MutatorFromError_hit c2 e2 m h3⟩
  | none =>
    by_cases hfull : c0.length > maxErrorMutators
    · refine ⟨mutatorErrorOther, c0, c0, c0, MutatorFromError_miss_full c0 e1 hg hfull,
        mutatorCalls_full between c0 hfull, ?_⟩
      rw [hkey] at hg
      exact MutatorFromError_miss_full c0 e2 hg hfull
    · obtain ⟨c2, h2, h3⟩ := mutatorCalls_keeps between
        (keySet c0 (reportKey (Cause e1).text) Mutator.nil) _ Mutator.nil (keyGet_keySet _ _ _)
      rw [hkey] at h3
      exact ⟨Mutator.nil, _, c2, c2, MutatorFromError_miss c0 e1 hg hfull, h2,
        MutatorFromError_hit c2 e2 Mutator.nil h3⟩

theorem MutatorFromError_stable_witness :
    reportKey (Cause (.raw (errorsNew "boom"))).text = reportKey (Cause (.wrapped exErr)).text
    ∧ ∃ m c1 c2 c3, MutatorFromError [] (some (.raw (errorsNew "boom"))) = some (m, c1)
      ∧ mutatorCalls c1 ([ErrorValue.raw (errorsNew "x"), ErrorValue.raw exDeadline].map some)
          = some c2
      ∧ MutatorFromError c2 (some (.wrapped exErr)) = some (m, c3) :=
  ⟨by decide, MutatorFromError_stable [] (.raw (errorsNew "boom")) (.wrapped exErr)
    [.raw (errorsNew "x"), .raw exDeadline] (by decide)⟩

/-! ## C23 : a miss under capacity -/

/-- C23 fails on the code: the statement that creates the mutator is commented
out, so on a miss under capacity `MutatorFromError` stores and returns the zero
value of `tag.Mutator` (nil), whatever the message; the doc comment says it
"returns a newly created mutator and stores it in the map". -/
theorem MutatorFromError_stores_nil :
    MutatorFromError [] (some (.raw (errorsNew "boom")))
        = some (Mutator.nil, [(goBytes "boom", Mutator.nil)])
    ∧ MutatorFromError [(goBytes "boom", Mutator.nil)] (some (.raw (errorsNew "disk full")))
        = some (Mutator.nil, [(goBytes "boom", Mutator.nil), (goBytes "disk full", Mutator.nil)])
    ∧ Mutator.nil ≠ Mutator.insert "error" "boom" :=
  ⟨by decide, by decide, by decide⟩

/-! ## C26 : `Code` with the OK code -/

/-- C26 fails on the code: `Code(codes.OK)` does not panic.  On a context whose
cursor is on a frame it stores the variable "invalidOkCode" on that frame,
leaves the code as it was and returns; the doc comment of `Code` says "Panics if
an invalid code is given". -/
theorem Code_OK_returns :
    (∃ e1 f1, (WrapOption.Code codes.OK).apply exErr = some e1
      ∧ e1.code = exErr.code
      ∧ e1.currentFrame = some f1
      ∧ f1.vars = [("invalidOkCode", Value.code codes.OK)])
    ∧ (∃ e, New exInner "boom" [.Code codes.OK] = some e ∧ e.code = codes.Unknown
      ∧ e.frames.map (fun f => f.vars) = [[("invalidOkCode", Value.code codes.OK)], []]) :=
  ⟨⟨_, _, rfl, rfl, rfl, rfl⟩, ⟨_, rfl, rfl, rfl⟩⟩

/-! ## C29 : more than one goroutine -/

/-- C29: `getPanicParseStack` panics whenever the snapshot holds more than one
goroutine, and for a snapshot decoded without error that holds exactly one
goroutine it returns the call list of that goroutine. -/
theorem getPanicParseStack_goroutines :
    (∀ s : RawStack, s.goroutines.length > 1 → getPanicParseStack s = none)
    ∧ (∀ (s : RawStack) (calls : List Call), s.scanError = false → s.goroutines = [calls] →
        getPanicParseStack s = some calls) := by
  refine ⟨fun s h => ?_, fun s calls herr hone => ?_⟩
  · unfold getPanicParseStack
    split_ifs
    · rfl
    · rfl
  · unfold getPanicParseStack
    rw [hone]
    simp [herr]

theorem getPanicParseStack_goroutines_witness :
    ((({ goroutines := [[callInner], [callOuter]] } : RawStack).goroutines.length > 1)
      ∧ getPanicParseStack { goroutines := [[callInner], [callOuter]] } = none)
    ∧ (exTestStack.scanError = false ∧ exTestStack.goroutines = [exTestCalls]
      ∧ getPanicParseStack exTestStack = some exTestCalls) :=
  ⟨⟨by decide, getPanicParseStack_goroutines.1 _ (by decide)⟩,
    ⟨rfl, rfl, getPanicParseStack_goroutines.2 exTestStack exTestCalls rfl rfl⟩⟩

/-! ## C24 : options run in order, the last write wins -/

/-- C24: the options run as a left fold in list order (a panic ending the run).
On every context `Code(c1)` then `Code(c2)`, neither OK, leaves the code `c2`;
`Tag(k, a)` then `Tag(k, b)` leaves `tags[k] = b` and the other tags as they
were; on a context whose cursor is on a frame, `With(k, a)` then `With(k, b)`
with plain values leaves `vars[k] = b` on that frame and its other variables as
they were, and `Msg(a)` then `Msg(b)` leaves the message `b`; and a list of
level options leaves the level of its last option. -/
theorem options_last_wins :
    (∀ (e : Err) (o : WrapOption) (os : List WrapOption),
        applyOptions [] e = some e
          ∧ applyOptions (o :: os) e = (o.apply e).bind (applyOptions os))
    ∧ (∀ (e : Err) (c1 c2 : Code), c1 ≠ codes.OK → c2 ≠ codes.OK →
        ∃ e1, applyOptions [.Code c1, .Code c2] e = some e1 ∧ e1.code = c2)
    ∧ (∀ (e : Err) (k a b : String),
        ∃ e1, applyOptions [.Tag k a, .Tag k b] e = some e1 ∧ mapGet e1.tags k = some b
          ∧ ∀ k2, k2 ≠ k → mapGet e1.tags k2 = mapGet e.tags k2)
    ∧ (∀ (e : Err) (f : frame) (k : String) (a b : Value), e.currentFrame = some f →
        a.plain = true → b.plain = true →
        ∃ e1 f1, applyOptions [.With k a, .With k b] e = some e1 ∧ e1.currentFrame = some f1
          ∧ mapGet f1.vars k = some b
          ∧ ∀ k2, k2 ≠ k → mapGet f1.vars k2 = mapGet f.vars k2)
    ∧ (∀ (e : Err) (f : frame) (a b : String), e.currentFrame = some f →
        ∃ e1 f1, applyOptions [.Msg a, .Msg b] e = some e1 ∧ e1.currentFrame = some f1
          ∧ f1.msg = b)
    ∧ (∀ (e : Err) (ls : List WrapOption) (last : WrapOption),
        (∀ o ∈ ls ++ [last], o.levelSet.isSome = true) →
        ∃ e1, applyOptions (ls ++ [last]) e = some e1 ∧ some e1.Level = last.levelSet) := by
  refine ⟨fun e o os => ⟨rfl, rfl⟩, fun e c1 c2 h1 h2 => ?_, fun e k a b => ?_,
    fun e f k a b hcur ha hb => ?_, fun e f a b hcur => ?_,
    fun e ls last h => applyOptions_levels ls last e h⟩
  · have hstep : ∀ (c : Code) (x : Err), c ≠ codes.OK →
        ∃ x1, (WrapOption.Code c).apply x = some x1 ∧ x1.code = c := by
      intro c x hc
      simp only [WrapOption.apply, applyCore, if_neg hc]
      exact ⟨_, rfl, rfl⟩
    obtain ⟨x1, hx1, _⟩ := hstep c1 e h1
    obtain ⟨x2, hx2, hc2⟩ := hstep c2 x1 h2
    refine ⟨x2, ?_, hc2⟩
    show ((WrapOption.Code c1).apply e).bind (applyOptions [.Code c2]) = some x2
    rw [hx1]
    show ((WrapOption.Code c2).apply x1).bind (applyOptions []) = some x2
    rw [hx2]
    rfl
  · refine ⟨{ e with tags := mapSet (mapSet e.tags k a) k b }, rfl, mapGet_mapSet _ _ _,
      fun k2 hk => ?_⟩
    show mapGet (mapSet (mapSet e.tags k a) k b) k2 = mapGet e.tags k2
    rw [mapGet_mapSet_ne _ _ _ _ hk, mapGet_mapSet_ne _ _ _ _ hk]
  · obtain ⟨e1, he1, _, hc⟩ := applyOptions_current [.With k a, .With k b] e f hcur
    have hflat : flattenAll [.With k a, .With k b] = [.With k a, .With k b] := by
      apply flattenAll_of_plain
      intro o ho k1 v1 hv
      simp only [List.mem_cons, List.mem_singleton, List.not_mem_nil, or_false] at ho
      rcases ho with h | h <;> rw [h] at hv <;> cases hv <;> assumption
    rw [hflat] at hc
    refine ⟨e1, _, he1, hc, ?_, fun k2 hk => ?_⟩
    · show mapGet (mapSet (mapSet f.vars k a.stored) k b.stored) k = some b
      rw [mapGet_mapSet, stored_plain b hb]
    · show mapGet (mapSet (mapSet f.vars k a.stored) k b.stored) k2 = mapGet f.vars k2
      rw [mapGet_mapSet_ne _ _ _ _ hk, mapGet_mapSet_ne _ _ _ _ hk]
  · obtain ⟨e1, he1, _, hc⟩ := applyOptions_current [.Msg a, .Msg b] e f hcur
    exact ⟨e1, _, he1, hc, rfl⟩

theorem options_last_wins_witness :
    (∃ e1, applyOptions [.Code codes.NotFound, .Code codes.Internal] exErr = some e1
        ∧ e1.code = codes.Internal)
    ∧ (∃ e1 f1, applyOptions [.With "k" (.int 1), .With "k" (.str "b")] exErr = some e1
        ∧ e1.currentFrame = some f1 ∧ mapGet f1.vars "k" = some (.str "b")
        ∧ ∀ k2, k2 ≠ "k" → mapGet f1.vars k2 = mapGet (exFrames.get ⟨1, by decide⟩).vars k2)
    ∧ (∃ e1 f1, applyOptions [.Msg "a", .Msg "b"] exErr = some e1 ∧ e1.currentFrame = some f1
        ∧ f1.msg = "b")
    ∧ (∃ e1, applyOptions ([.Critical, .Warning] ++ [.Error]) exErr = some e1
        ∧ some e1.Level = some LevelError) :=
  ⟨options_last_wins.2.1 exErr codes.NotFound codes.Internal (by decide) (by decide),
    options_last_wins.2.2.2.1 exErr (exFrames.get ⟨1, by decide⟩) "k" (.int 1) (.str "b") rfl
      rfl rfl,
    options_last_wins.2.2.2.2.1 exErr (exFrames.get ⟨1, by decide⟩) "a" "b" rfl,
    options_last_wins.2.2.2.2.2 exErr [.Critical, .Warning] .Error (by
      intro o ho
      simp only [List.cons_append, List.nil_append, List.mem_cons, List.mem_singleton,
        List.not_mem_nil, or_false] at ho
      rcases ho with h | h | h <;> rw [h] <;> rfl)⟩

/-! ## C27 : the identity of a frame -/

/-- C27: the identity of a frame is its fields other than `msg`, `vars` and
`errDetails`.  A wrap of an error that already carries a context, with any
options, returns the same number of frames with the same identities, frame by
frame (and it does return when the runtime reports the calling site and the
cursor is not negative).  The skip merge, and so a first wrap with any options,
leaves the frames from some position on, each with its identity. -/
theorem frame_identity_immutable :
    (∀ f g : frame, f.ident = g.ident ↔
        (f.full = g.full ∧ f.fn = g.fn ∧ f.path = g.path ∧ f.pkg = g.pkg ∧ f.file = g.file
          ∧ f.line = g.line ∧ f.cls = g.cls))
    ∧ (∀ (rt : Runtime) (ev : ErrorValue) (opts : List WrapOption) (e e1 : Err),
        ev.inner = some e → wrap rt ev opts = some e1 →
        e1.frames.map frame.ident = e.frames.map frame.ident)
    ∧ (∀ (rt : Runtime) (e : Err) (opts : List WrapOption) (site : CallSite),
        rt.caller = some site → 0 ≤ e.currentFrameIdx →
        ∃ e1, wrap rt (.wrapped e) opts = some e1
          ∧ e1.frames.map frame.ident = e.frames.map frame.ident)
    ∧ (∀ (e : Err) (f0 : frame) (rest : List frame),
        e.frames = f0 :: rest → e.currentFrameIdx = 0 →
        ∃ e1 n, e.handleSkipFrameOption = some e1 ∧ n < e.frames.length
          ∧ e1.frames.map frame.ident = (e.frames.drop n).map frame.ident)
    ∧ (∀ (rt : Runtime) (r : GoError) (opts : List WrapOption) (F : List frame),
        parseStack rt.stack = some F → F ≠ [] →
        ∃ e n, wrap rt (.raw r) opts = some e ∧ n < F.length
          ∧ e.frames.map frame.ident = (F.drop n).map frame.ident) := by
  refine ⟨fun f g => ?_, fun rt ev opts e e1 hin h => (wrap_later_keeps rt ev opts e e1 hin h).1,
    fun rt e opts site hcaller hcur => ?_, handleSkip_ident, wrap_raw_ident⟩
  · constructor
    · intro h
      have h2 : f.ident.full = g.ident.full ∧ f.ident.fn = g.ident.fn
          ∧ f.ident.path = g.ident.path ∧ f.ident.pkg = g.ident.pkg
          ∧ f.ident.file = g.ident.file ∧ f.ident.line = g.ident.line
          ∧ f.ident.cls = g.ident.cls := by
        rw [h]
        exact ⟨rfl, rfl, rfl, rfl, rfl, rfl, rfl⟩
      exact h2
    · rintro ⟨h1, h2, h3, h4, h5, h6, h7⟩
      simp only [frame.ident, h1, h2, h3, h4, h5, h6, h7]
  · by_cases hopts : opts = []
    · subst hopts
      exact ⟨_, rfl, rfl⟩
    · obtain ⟨r, e1, f, _, _, _, _, _, hw⟩ := wrap_correlated rt e opts site hcaller hcur hopts
      exact ⟨_, hw, (wrap_later_keeps rt (.wrapped e) opts e _ rfl hw).1⟩

theorem frame_identity_immutable_witness :
    (∃ e1, wrap exOuter (.wrapped exErr) [.Msg "m", .With "k" (.int 1)] = some e1
        ∧ e1.frames.map frame.ident = exErr.frames.map frame.ident
        ∧ e1.frames.map (fun f => f.msg) = ["", "m"])
    ∧ (∃ e1 n, exSkipErr.handleSkipFrameOption = some e1 ∧ n < exSkipErr.frames.length
        ∧ e1.frames.map frame.ident = (exSkipErr.frames.drop n).map frame.ident)
    ∧ (∃ e n, wrap exInner (.raw (errorsNew "boom")) [.SkipFrames 1, .Msg "m"] = some e
        ∧ n < exFrames.length
        ∧ e.frames.map frame.ident = (exFrames.drop n).map frame.ident) :=
  ⟨⟨_, rfl, frame_identity_immutable.2.1 exOuter (.wrapped exErr)
      [.Msg "m", .With "k" (.int 1)] exErr _ rfl rfl, rfl⟩,
    frame_identity_immutable.2.2.2.1 exSkipErr _ _ rfl rfl,
    frame_identity_immutable.2.2.2.2 exInner (errorsNew "boom") [.SkipFrames 1, .Msg "m"]
      exFrames exStack_parse (by simp [exFrames])⟩

/-! ## C28 : the root cause -/

/-- C28 as stated fails: `Override` replaces the root error.  A context created
by `New("boom")` and then wrapped with `Override(errors.New("replaced"))` has
the root error "replaced"; and `New("boom", Override(...))` has it from
creation. -/
theorem wrap_override_counterexample :
    (∃ e, (New exInner "boom" []).bind
          (fun e => wrap exOuter (.wrapped e) [.Override (errorsNew "replaced")]) = some e
      ∧ e.rootErr.text = "replaced" ∧ e.rootErr.text ≠ (errorsNew "boom").text)
    ∧ (∃ e, New exInner "boom" [.Override (errorsNew "replaced")] = some e
      ∧ e.rootErr.text = "replaced" ∧ e.rootErr.text ≠ (errorsNew "boom").text) := by
  have key : ∀ g : GoError, g.text = "replaced" → g.text ≠ (errorsNew "boom").text := by
    intro g hg h
    rw [hg] at h
    exact absurd h (by decide)
  exact ⟨⟨_, rfl, rfl, key _ rfl⟩, ⟨_, rfl, rfl, key _ rfl⟩⟩

/-- C28, amended: the root cause changes only through `Override`.  A first wrap
of the raw error `x` (on a stack that parses to at least one frame) returns a
context whose root error is the argument of the last `Override` among the
options of the caller, and `x` when there is none; a later wrap that returns
leaves as root error the argument of the last `Override` among its options, and
the root error it found when there is none. -/
theorem wrap_rootErr_override :
    (∀ (rt : Runtime) (x : GoError) (opts : List WrapOption) (F : List frame),
        parseStack rt.stack = some F → F ≠ [] →
        ∃ e, wrap rt (.raw x) opts = some e ∧ e.rootErr = rootOf opts x
          ∧ ((∀ o ∈ opts, ∀ y, o ≠ .Override y) → e.rootErr = x))
    ∧ (∀ (rt : Runtime) (ev : ErrorValue) (opts : List WrapOption) (e e1 : Err),
        ev.inner = some e → wrap rt ev opts = some e1 →
        e1.rootErr = rootOf opts e.rootErr
          ∧ ((∀ o ∈ opts, ∀ y, o ≠ .Override y) → e1.rootErr = e.rootErr))
    ∧ (∀ (l1 l2 : List WrapOption) (y x : GoError), (∀ o ∈ l2, ∀ z, o ≠ .Override z) →
        rootOf (l1 ++ [.Override y] ++ l2) x = y) := by
  refine ⟨fun rt x opts F hparse hne => ?_, fun rt ev opts e e1 hin h => ?_,
    fun l1 l2 y x h => ?_⟩
  · obtain ⟨e, he, hr⟩ := wrap_raw_rootErr rt x opts F hparse hne
    exact ⟨e, he, hr, fun hno => by rw [hr, rootOf_of_no_override opts hno]⟩
  · have hr := wrap_later_rootErr rt ev opts e e1 hin h
    exact ⟨hr, fun hno => by rw [hr, rootOf_of_no_override opts hno]⟩
  · rw [rootOf_append, rootOf_append, rootOf_of_no_override l2 h]
    rfl

theorem wrap_rootErr_override_witness :
    (∃ e, wrap exInner (.raw (errorsNew "boom")) [.Msg "m", .Critical] = some e
        ∧ e.rootErr = rootOf [.Msg "m", .Critical] (errorsNew "boom")
        ∧ e.rootErr = errorsNew "boom")
    ∧ (∃ e1, wrap exOuter (.wrapped exErr) [.With "k" (.int 1)] = some e1
        ∧ e1.rootErr = exErr.rootErr)
    ∧ rootOf ([.Msg "m"] ++ [.Override (errorsNew "replaced")] ++ [.Critical])
        (errorsNew "boom") = errorsNew "replaced" := by
  have hno1 : ∀ o ∈ [WrapOption.Msg "m", WrapOption.Critical], ∀ y, o ≠ .Override y := by
    intro o ho y
    simp only [List.mem_cons, List.mem_singleton, List.not_mem_nil, or_false] at ho
    rcases ho with h | h <;> rw [h] <;> simp
  have hno2 : ∀ o ∈ [WrapOption.With "k" (.int 1)], ∀ y, o ≠ .Override y := by
    intro o ho y
    rw [List.mem_singleton.mp ho]
    simp
  have hno3 : ∀ o ∈ [WrapOption.Critical], ∀ y, o ≠ .Override y := by
    intro o ho y
    rw [List.mem_singleton.mp ho]
    simp
  obtain ⟨e, he, hr, hx⟩ := wrap_rootErr_override.1 exInner (errorsNew "boom")
    [.Msg "m", .Critical] exFrames exStack_parse (by simp [exFrames])
  exact ⟨⟨e, he, hr, hx hno1⟩,
    ⟨_, rfl, (wrap_rootErr_override.2.1 exOuter (.wrapped exErr) [.With "k" (.int 1)] exErr _
      rfl rfl).2 hno2⟩,
    wrap_rootErr_override.2.2 [.Msg "m"] [.Critical] (errorsNew "replaced") (errorsNew "boom")
      hno3⟩

/-! ## C25 : options applied twice -/

/-- C25 as stated fails in two ways.  `FieldViolation` appends its violation
every time it runs: applied once to a context whose cursor is on a frame without
details it leaves one `BadRequest` with one violation, applied again it leaves
that `BadRequest` with the violation twice.  And `With` of a value whose
`ErrVars()` map holds two variables that each report a message ranges that map
anew at every run: when the first run visits "a" then "b" the frame message is
"B", and a second run that visits "b" then "a" leaves the message "A". -/
theorem options_twice_counterexample :
    (∃ e1 e2, exErr.currentFrame.isSome = true
      ∧ (WrapOption.FieldViolation "name" "is required").apply exErr = some e1
      ∧ (WrapOption.FieldViolation "name" "is required").apply e1 = some e2
      ∧ e1.frames.map (fun f => f.errDetails) = [[], [.badRequest [("name", "is required")]]]
      ∧ e2.frames.map (fun f => f.errDetails)
          = [[], [.badRequest [("name", "is required"), ("name", "is required")]]]
      ∧ e2 ≠ e1)
    ∧ (∃ e1 e2, (WrapOption.With "k" exTwoMessages).reranged (.With "k" exTwoMessagesAgain)
      ∧ (WrapOption.With "k" exTwoMessages).apply exErr = some e1
      ∧ (WrapOption.With "k" exTwoMessagesAgain).apply e1 = some e2
      ∧ e1.frames.map (fun f => f.msg) = ["", "B"]
      ∧ e2.frames.map (fun f => f.msg) = ["", "A"]
      ∧ e2 ≠ e1) := by
  have key : ∀ (a b : Err) (X Y : List (List Detail)),
      a.frames.map (fun f => f.errDetails) = X → b.frames.map (fun f => f.errDetails) = Y →
      X ≠ Y → b ≠ a := by
    intro a b X Y ha hb hne hab
    rw [hab, ha] at hb
    exact hne hb
  have key2 : ∀ (a b : Err) (X Y : List String),
      a.frames.map (fun f => f.msg) = X → b.frames.map (fun f => f.msg) = Y →
      X ≠ Y → b ≠ a := by
    intro a b X Y ha hb hne hab
    rw [hab, ha] at hb
    exact hne hb
  exact ⟨⟨_, _, rfl, rfl, rfl, rfl, rfl, key _ _ _ _ rfl rfl (by decide)⟩,
    ⟨_, _, ⟨_, rfl, _, _, rfl, List.Perm.swap _ _ _, trivial⟩, rfl, rfl, rfl, rfl,
      key2 _ _ _ _ rfl rfl (by decide)⟩⟩

/-- C25, amended: for every option `o` made by a constructor of the package other
than `FieldViolation` (`Code`, `Critical`, `Error`, `Warning`, `Tag`,
`NotRetriable`, `NoReport`, `Infra`, `Stack`, `Override`, `SkipFrames`, `Msg`,
`With`) and every context whose cursor is on a frame, the option runs; and a
second run `o'` of the same option returns the context the first run returned,
provided that the second run ranges the maps `ErrVars()` and `ErrTags()` of the
value of a `With` in the order of the first run, or that these maps have
distinct keys and the variables `ErrVars()` reports yield no interface option of
their own (then in whatever order the second run ranges them). -/
theorem options_idempotent (o o' : WrapOption) (e : Err) (f : frame)
    (hcur : e.currentFrame = some f) (h : ∀ a b, o ≠ .FieldViolation a b)
    (hre : o.reranged o') (hflat : o' = o ∨ ∀ k v, o = .With k v → v.flatMaps) :
    ∃ e1, o.apply e = some e1 ∧ o'.apply e1 = some e1 :=
  apply_reranged o o' e f hcur h hre hflat

theorem options_idempotent_witness :
    exErr.currentFrame = some (exFrames.get ⟨1, by decide⟩)
    ∧ (WrapOption.With "k" exReporting).reranged (.With "k" exReportingAgain)
    ∧ exReporting.flatMaps
    ∧ (∃ e1, (WrapOption.With "k" exReporting).apply exErr = some e1
        ∧ (WrapOption.With "k" exReportingAgain).apply e1 = some e1
        ∧ e1.frames.map (fun f => f.msg) = ["", "m"] ∧ e1.code = codes.NotFound) := by
  have hre : (WrapOption.With "k" exReporting).reranged (.With "k" exReportingAgain) :=
    ⟨_, rfl, _, _, rfl, List.Perm.swap _ _ _, List.Perm.swap _ _ _⟩
  have hflat : exReporting.flatMaps := by
    refine ⟨by decide, ?_, ?_⟩
    · intro kv hkv
      simp only [List.mem_cons, List.mem_singleton, List.not_mem_nil, or_false] at hkv
      rcases hkv with rfl | rfl <;> rfl
    · intro t ht
      have ht2 : [("t", "1"), ("u", "2")] = t := Option.some.inj ht
      rw [← ht2]
      decide
  obtain ⟨e1, h1, h2⟩ := options_idempotent (.With "k" exReporting) (.With "k" exReportingAgain)
    exErr _ rfl (fun _ _ h => WrapOption.noConfusion h) hre
    (Or.inr (fun k v hkv => by
      have hv : exReporting = v := by
        injection hkv
      rw [← hv]
      exact hflat))
  have hval : (WrapOption.With "k" exReporting).apply exErr
      = some { exErr with
          frames := [exFrames.get ⟨0, by decide⟩,
            { exFrames.get ⟨1, by decide⟩ with
              msg := "m", vars := [("a", .int 1), ("b", .str "x")] }]
          code := codes.NotFound, tags := [("t", "1"), ("u", "2")] } := rfl
  have he : e1 = _ := Option.some.inj (h1.symm.trans hval)
  refine ⟨rfl, hre, hflat, e1, h1, h2, ?_, ?_⟩
  · rw [he]
    rfl
  · rw [he]

/-! ## C30 : the details of an invalid-argument error -/

/-- C30: for an argument list of even length, read as (field, description)
pairs, called where the stack parses to at least one frame, `NewErrInvalidArg`
returns a context with the code InvalidArgument that is not retriable and whose
`Error()` text contains "field: description" for every pair, whatever the
formatting libraries print; for an argument list of odd length it panics. -/
theorem NewErrInvalidArg_details :
    (∀ (rt : Runtime) (fields : List String) (fm : Formats) (F : List frame),
      parseStack rt.stack = some F → F ≠ [] → fields.length % 2 = 0 →
      ∃ e, NewErrInvalidArg rt fields = some e ∧ e.code = codes.InvalidArgument
        ∧ e.isRetriable = false
        ∧ ∀ p ∈ fieldPairs fields, stringsContains (e.Error fm) (p.1 ++ ": " ++ p.2) = true)
    ∧ (∀ (rt : Runtime) (fields : List String), fields.length % 2 = 1 →
      NewErrInvalidArg rt fields = none) := by
  refine ⟨fun rt fields fm F hparse hne heven => ?_, fun rt fields hodd => ?_⟩
  · have hnoskip : ∀ o ∈ WrapOption.Code codes.InvalidArgument :: invalidArgOptions fields,
        ∀ m, o ≠ WrapOption.SkipFrames m := by
      intro o ho m heq
      rcases List.mem_cons.mp ho with h | h
      · rw [heq] at h
        exact WrapOption.noConfusion h
      · rcases invalidArgOptions_mem fields o h with ⟨a, b, h1⟩ | ⟨k, d, h1⟩ <;>
          rw [heq] at h1 <;> exact WrapOption.noConfusion h1
    have hplain : ∀ o ∈ WrapOption.Code codes.InvalidArgument :: invalidArgOptions fields,
        ∀ k v, o = WrapOption.With k v → v.plain = true := by
      intro o ho k v heq
      rcases List.mem_cons.mp ho with h | h
      · rw [heq] at h
        exact WrapOption.noConfusion h
      · rcases invalidArgOptions_mem fields o h with ⟨a, b, h1⟩ | ⟨k1, d, h1⟩
        · rw [heq] at h1
          exact WrapOption.noConfusion h1
        · rw [heq] at h1
          cases h1
          rfl
    obtain ⟨e0, f0, rest, e, h0, hfresh, hF, hw, hfr, hcode, hretr⟩ :=
      wrap_raw_noskip rt (errorsNew "invalid argument")
        (.Code codes.InvalidArgument :: invalidArgOptions fields) F hparse hne
        (skipOf_of_no_skip _ _ hnoskip)
    have hW : wrapOptions (.raw (errorsNew "invalid argument"))
        (.Code codes.InvalidArgument :: invalidArgOptions fields)
        = .Code codes.InvalidArgument :: invalidArgOptions fields := by
      have h1 : wrapOptions (.raw (errorsNew "invalid argument"))
          (.Code codes.InvalidArgument :: invalidArgOptions fields)
          = flattenAll (.Code codes.InvalidArgument :: invalidArgOptions fields) := by
        simp [wrapOptions, googleOptions, errorsNew, ErrorValue.caps,
          getWrapOptionsFromInterfaces, probeOptions]
      rw [h1, flattenAll_of_plain _ hplain]
    rw [hW] at hfr hcode hretr
    have hstep : errEffects (.Code codes.InvalidArgument :: invalidArgOptions fields) e0
        = errEffects (invalidArgOptions fields)
            { e0 with isRetriable := false, code := codes.InvalidArgument } := rfl
    refine ⟨e, ?_, ?_, ?_, fun p hp => ?_⟩
    · unfold NewErrInvalidArg
      rw [if_neg (by omega)]
      exact hw
    · rw [hcode, hstep, errEffects_code_of_ne]
      intro o ho c heq
      rcases invalidArgOptions_mem fields o ho with ⟨a, b, h1⟩ | ⟨k, d, h1⟩ <;>
        rw [heq] at h1 <;> exact WrapOption.noConfusion h1
    · rw [hretr, hstep]
      exact errEffects_notRetriable _ _ rfl
    · have hrec : ∃ vs, Detail.badRequest vs ∈ (frameEffects
          (.Code codes.InvalidArgument :: invalidArgOptions fields) f0).errDetails ∧ p ∈ vs :=
        invalidArgOptions_records fields _ p hp
      obtain ⟨vs, hvs, hpv⟩ := hrec
      apply Error_contains fm e _ _ (by rw [hfr]; exact List.mem_cons_self _ _)
      exact frame_string_contains fm _ _ (detailLines_contains _ vs p hvs hpv)
  · unfold NewErrInvalidArg
    rw [if_pos hodd]

theorem NewErrInvalidArg_details_witness :
    (∃ e, NewErrInvalidArg exInner
          ["workspaceId", "workspaceId 0 is invalid", "name", "test is not a valid name"] = some e
        ∧ e.code = codes.InvalidArgument ∧ e.isRetriable = false
        ∧ stringsContains (e.Error exFormats) "workspaceId: workspaceId 0 is invalid" = true
        ∧ stringsContains (e.Error exFormats) "name: test is not a valid name" = true)
    ∧ NewErrInvalidArg exInner ["workspaceId"] = none := by
  obtain ⟨e, he, hc, hr, hall⟩ := NewErrInvalidArg_details.1 exInner
    ["workspaceId", "workspaceId 0 is invalid", "name", "test is not a valid name"] exFormats
    exFrames exStack_parse (by simp [exFrames]) (by decide)
  exact ⟨⟨e, he, hc, hr,
      hall ("workspaceId", "workspaceId 0 is invalid") (by simp [fieldPairs]),
      hall ("name", "test is not a valid name") (by simp [fieldPairs])⟩,
    NewErrInvalidArg_details.2 exInner ["workspaceId"] (by decide)⟩

/-! ## C39 : retriability -/

/-- C39: a context made by `newErr` is retriable; `Code(InvalidArgument)` and
`NotRetriable()` run on every context and leave it not retriable; and every
option that returns on a context that is not retriable leaves it not
retriable, a `Code` with another code included. -/
theorem retriable_only_decreases :
    (∀ (r : GoError) (stack : RawStack) (F : List frame), parseStack stack = some F → F ≠ [] →
        ∃ e0, newErr r stack = some e0 ∧ e0.isRetriable = true)
    ∧ (∀ e : Err, ∃ e1, (WrapOption.Code codes.InvalidArgument).apply e = some e1
        ∧ e1.isRetriable = false)
    ∧ (∀ e : Err, ∃ e1, WrapOption.NotRetriable.apply e = some e1 ∧ e1.isRetriable = false)
    ∧ (∀ (o : WrapOption) (e e1 : Err), o.apply e = some e1 → e.isRetriable = false →
        e1.isRetriable = false)
    ∧ (∀ (e : Err) (c : Code), c ≠ codes.OK → e.isRetriable = false →
        ∃ e1, (WrapOption.Code c).apply e = some e1 ∧ e1.code = c ∧ e1.isRetriable = false) := by
  refine ⟨fun r stack F hparse hne => ?_, fun e => ⟨_, rfl, rfl⟩, fun e => ⟨_, rfl, rfl⟩,
    apply_notRetriable, fun e c hc hr => ?_⟩
  · obtain ⟨e0, h0, hfresh⟩ := newErr_fresh r stack F hparse hne
    exact ⟨e0, h0, hfresh.isRetriable⟩
  · have happ : (WrapOption.Code c).apply e
        = some { (if c = codes.InvalidArgument then { e with isRetriable := false } else e) with
            code := c } := by
      simp only [WrapOption.apply, applyCore, if_neg hc]
    refine ⟨_, happ, rfl, ?_⟩
    show (if c = codes.InvalidArgument then { e with isRetriable := false } else e).isRetriable
      = false
    split_ifs
    · rfl
    · exact hr

theorem retriable_only_decreases_witness :
    (∃ e0, newErr (errorsNew "boom") exStack = some e0 ∧ e0.isRetriable = true)
    ∧ (∃ e2, (WrapOption.With "k" (.obj [] { retriable := some true })).apply
          { exErr with isRetriable := false } = some e2
        ∧ e2.isRetriable = false)
    ∧ (∃ e1, (WrapOption.Code codes.NotFound).apply { exErr with isRetriable := false } = some e1
        ∧ e1.code = codes.NotFound ∧ e1.isRetriable = false) :=
  ⟨retriable_only_decreases.1 (errorsNew "boom") exStack exFrames exStack_parse
      (by simp [exFrames]),
    ⟨_, rfl,
      retriable_only_decreases.2.2.2.1 (.With "k" (.obj [] { retriable := some true }))
        { exErr with isRetriable := false } _ rfl rfl⟩,
    retriable_only_decreases.2.2.2.2 { exErr with isRetriable := false } codes.NotFound
      (by decide) rfl⟩

/-! ## C36 : field violations -/

/-- C36: on a context whose cursor is on a frame without a `BadRequest` detail,
in particular one without details, `FieldViolation(f1, d1)`, ...,
`FieldViolation(fn, dn)`, with n at least 1, run and leave on that frame the
details it had followed by exactly one `BadRequest` whose violations are
(f1, d1), ..., (fn, dn) in call order; on any frame the details of other kinds
are kept, in order, and the message and the variables are untouched. -/
theorem FieldViolation_merge :
    (∀ (e : Err) (f : frame) (v : String × String) (rest : List (String × String)),
      e.currentFrame = some f → f.errDetails.any Detail.isBadRequest = false →
      ∃ e1 f1, applyOptions (violationOptions (v :: rest)) e = some e1
        ∧ e1.currentFrame = some f1
        ∧ f1.errDetails = f.errDetails ++ [.badRequest (v :: rest)]
        ∧ (f.errDetails = [] → f1.errDetails = [.badRequest (v :: rest)]))
    ∧ (∀ (e : Err) (f : frame) (vs : List (String × String)), e.currentFrame = some f →
      ∃ e1 f1, applyOptions (violationOptions vs) e = some e1 ∧ e1.currentFrame = some f1
        ∧ f1.errDetails.filter (fun d => !d.isBadRequest)
            = f.errDetails.filter (fun d => !d.isBadRequest)
        ∧ f1.msg = f.msg ∧ f1.vars = f.vars ∧ f1.ident = f.ident) := by
  refine ⟨fun e f v rest hcur hno => ?_, fun e f vs hcur => ?_⟩
  · obtain ⟨e1, he1, _, hc⟩ := applyOptions_current (violationOptions (v :: rest)) e f hcur
    rw [flattenAll_violationOptions] at hc
    have hd := violationOptions_details f v rest hno
    refine ⟨e1, _, he1, hc, hd, fun hnil => ?_⟩
    rw [hd, hnil]
    rfl
  · obtain ⟨e1, he1, _, hc⟩ := applyOptions_current (violationOptions vs) e f hcur
    rw [flattenAll_violationOptions] at hc
    obtain ⟨h1, h2, h3⟩ := violationOptions_others vs f
    exact ⟨e1, _, he1, hc, h1, h2, h3, frameEffects_ident _ f⟩

theorem FieldViolation_merge_witness :
    (∃ e1 f1, applyOptions (violationOptions [("name", "is required"), ("id", "is not valid")])
          exErr = some e1
        ∧ e1.currentFrame = some f1
        ∧ f1.errDetails = [.badRequest [("name", "is required"), ("id", "is not valid")]])
    ∧ (∃ e1 f1, applyOptions (violationOptions [("name", "is required")])
          (exErr.setCurrentFrame { errDetails := [.other "help", .badRequest [("a", "b")]] })
            = some e1
        ∧ e1.currentFrame = some f1
        ∧ f1.errDetails.filter (fun d => !d.isBadRequest) = [.other "help"]) := by
  obtain ⟨e1, f1, h1, h2, _, h4⟩ := FieldViolation_merge.1 exErr (exFrames.get ⟨1, by decide⟩)
    ("name", "is required") [("id", "is not valid")] rfl rfl
  obtain ⟨e2, f2, g1, g2, g3, _⟩ := FieldViolation_merge.2
    (exErr.setCurrentFrame { errDetails := [.other "help", .badRequest [("a", "b")]] })
    { errDetails := [.other "help", .badRequest [("a", "b")]] }
    [("name", "is required")] rfl
  exact ⟨⟨e1, f1, h1, h2, h4 rfl⟩, ⟨e2, f2, g1, g2, g3⟩⟩

/-! ## C33 : the code of an error -/

/-- C33: `CodeFromError` returns OK for the nil error, Unknown for an error that
is not itself an `*Err` (a raw error, or one that only has an `*Err` in its
chain), and the stored code for an `*Err`.  So for a raw error `x` none of
whose interface options is a `Code`, wrapped on a stack that parses to at least
one frame, `CodeFromError(Wrap(x, Code(c)))` is `c` whenever `c` is not OK. -/
theorem CodeFromError_cases :
    CodeFromError none = codes.OK
    ∧ (∀ r : GoError, CodeFromError (some (.raw r)) = codes.Unknown)
    ∧ (∀ (outer : GoError) (e : Err), CodeFromError (some (.chained outer e)) = codes.Unknown)
    ∧ (∀ e : Err, CodeFromError (some (.wrapped e)) = e.code)
    ∧ (∀ (rt : Runtime) (x : GoError) (c : Code) (F : List frame),
        parseStack rt.stack = some F → F ≠ [] → c ≠ codes.OK →
        (∀ o ∈ flattenAll (getWrapOptionsFromInterfaces x.caps), ∀ c1, o ≠ .Code c1) →
        ∃ e, Wrap rt (some (.raw x)) [.Code c] = some e
          ∧ CodeFromError (some (.wrapped e)) = c) := by
  refine ⟨rfl, fun _ => rfl, fun _ _ => rfl, fun _ => rfl,
    fun rt x c F hparse hne hc hself => ?_⟩
  obtain ⟨e0, e, _, _, hw, hcode⟩ := wrap_raw_code rt x [.Code c] F hparse hne
  refine ⟨e, hw, ?_⟩
  show e.code = c
  have hsplit : wrapOptions (.raw x) [.Code c]
      = flattenAll (googleOptions (.raw x)) ++ [.Code c]
        ++ flattenAll (getWrapOptionsFromInterfaces x.caps) := by
    simp only [wrapOptions, flattenAll_append, ErrorValue.caps]
    rfl
  rw [hcode, hsplit, errEffects_append, errEffects_code_of_ne _ _ hself, errEffects_append]
  show (errEffect (.Code c) _).code = c
  simp only [errEffect, if_neg hc]

theorem CodeFromError_cases_witness :
    ∃ e, Wrap exInner (some (.raw exGoogleDeadline)) [.Code codes.NotFound] = some e
      ∧ CodeFromError (some (.wrapped e)) = codes.NotFound :=
  CodeFromError_cases.2.2.2.2 exInner exGoogleDeadline codes.NotFound exFrames exStack_parse
    (by simp [exFrames]) (by decide) (fun o ho => by
      have h2 : o ∈ ([] : List WrapOption) := ho
      simp at h2)

/-! ## C34 : the cause of a wrapped error -/

/-- C34 as stated fails: for an `*Err`, `Cause` returns the root error as it is,
without following its chain.  For a raw error `x` whose `Unwrap()` returns
another error, `Cause(Wrap(x))` is `x`, while `Cause(x)` is the error at the end
of the chain of `x`. -/
theorem Cause_wrap_counterexample :
    ∃ e, Wrap exInner (some (.raw exWrappedEOF)) [] = some e
      ∧ (Cause (.wrapped e)).text = "read config: unexpected EOF"
      ∧ (Cause (.raw exWrappedEOF)).text = "unexpected EOF"
      ∧ Cause (.wrapped e) ≠ Cause (.raw exWrappedEOF) := by
  have key : ∀ (a b : GoError) (s t : String), a.text = s → b.text = t → s ≠ t → a ≠ b := by
    intro a b s t ha hb hne hab
    rw [hab, hb] at ha
    exact hne ha.symm
  exact ⟨_, rfl, rfl, rfl, key _ _ _ _ rfl rfl (by decide)⟩

/-- C34, amended: for every raw error `x`, wrapped without options on a stack
that parses to at least one frame, `Cause(Wrap(x))` is `x` itself; it is
`Cause(x)` when `x` exposes neither `Unwrap()` nor `Cause()`, in which case
`Cause(x)` is `x`. -/
theorem Cause_wrap (rt : Runtime) (x : GoError) (F : List frame)
    (hparse : parseStack rt.stack = some F) (hne : F ≠ []) :
    ∃ e, Wrap rt (some (.raw x)) [] = some e ∧ Cause (.wrapped e) = x
      ∧ (x.unwraps = [] → Cause (.raw x) = x ∧ Cause (.wrapped e) = Cause (.raw x)) := by
  obtain ⟨e, he, hr⟩ := wrap_raw_rootErr rt x [] F hparse hne
  have hx : Cause (.wrapped e) = x := hr
  refine ⟨e, he, hx, fun hnil => ?_⟩
  have hc : Cause (.raw x) = x := by
    simp only [Cause, hnil, List.getLast?_nil]
  exact ⟨hc, hx.trans hc.symm⟩

theorem Cause_wrap_witness :
    parseStack exInner.stack = some exFrames
    ∧ ∃ e, Wrap exInner (some (.raw exDeadline)) [] = some e ∧ Cause (.wrapped e) = exDeadline
      ∧ Cause (.raw exDeadline) = exDeadline ∧ Cause (.wrapped e) = Cause (.raw exDeadline) := by
  obtain ⟨e, he, hx, hrest⟩ := Cause_wrap exInner exDeadline exFrames exStack_parse
    (by simp [exFrames])
  exact ⟨exStack_parse, e, he, hx, (hrest rfl).1, (hrest rfl).2⟩

/-! ## C31 : the head of the text of an error -/

/-- C31: for a context whose frame 0 is `f0`, `Error()` is the root error text,
a blank line, "Error Code: " and the name of the code, then on the next line
the link made of the repository URL, the path of `f0` without the module
prefix, its file, "#L" and its line, then a blank line, then a body: the body is
the banner "--- NOT RETRIABLE ---" and a blank line when the context is not
retriable and nothing when it is (so the body starts with the banner exactly
when the context is not retriable), followed by the line of dashes and every
frame of `frames`, rendered in stored order, each ending its line. -/
theorem Error_header (fm : Formats) (e : Err) (f0 : frame) (rest : List frame)
    (h : e.frames = f0 :: rest) :
    ∃ body tail,
      e.Error fm
        = (e.rootErr.text ++ "\n" ++ "\n" ++ "Error Code: " ++ codeString e.code ++ "\n"
            ++ ("https://github.com/nozzle/e/blob/" ++ "main"
                ++ stringsTrimPrefix f0.path "github.com/nozzle/e" ++ "/" ++ f0.file ++ "#L"
                ++ toString f0.line)
            ++ "\n" ++ "\n") ++ body
      ∧ body = (if e.isRetriable then "" else "--- NOT RETRIABLE ---\n\n")
          ++ ("-------------------------------\n"
              ++ (e.frames.map (fun f => f.string fm ++ "\n")).foldr (fun a b => a ++ b) "")
          ++ tail
      ∧ stringsHasPrefix body "--- NOT RETRIABLE ---" = !e.isRetriable
      ∧ stringsHasPrefix (e.Error fm)
          (e.rootErr.text ++ "\n" ++ "\n" ++ "Error Code: " ++ codeString e.code ++ "\n") = true := by
  have hurl : e.githubURL = "https://github.com/nozzle/e/blob/" ++ "main"
      ++ stringsTrimPrefix f0.path "github.com/nozzle/e" ++ "/" ++ f0.file ++ "#L"
      ++ toString f0.line := by
    unfold Err.githubURL
    rw [h]
  have heq : e.Error fm
      = (e.rootErr.text ++ "\n" ++ "\n" ++ "Error Code: " ++ codeString e.code ++ "\n"
          ++ ("https://github.com/nozzle/e/blob/" ++ "main"
              ++ stringsTrimPrefix f0.path "github.com/nozzle/e" ++ "/" ++ f0.file ++ "#L"
              ++ toString f0.line)
          ++ "\n" ++ "\n")
        ++ ((if e.isRetriable then "" else "--- NOT RETRIABLE ---\n\n")
          ++ ("-------------------------------\n"
              ++ (e.frames.map (fun f => f.string fm ++ "\n")).foldr (fun a b => a ++ b) "")
          ++ ((if e.unknownFrames.length > 0 then
                "\n\n--- UNKNOWN STACK FRAMES FOUND ---" ++ framesString fm e.unknownFrames
              else "")
            ++ (if !stringsHasPrefix (fm.rootText e.rootErr) "&errors.errorString" then
                "\nErr: " ++ fm.dumpText e.rootErr
              else ""))) := by
    unfold Err.Error framesString
    rw [hurl, frameLines_foldr]
    cases e.isRetriable <;> simp only [String.append_assoc, Bool.not_true, Bool.not_false,
      Bool.false_eq_true, if_true, if_false]
  refine ⟨_, _, heq, rfl, ?_, ?_⟩
  · cases hr : e.isRetriable
    · simp only [Bool.false_eq_true, if_false, Bool.not_false, String.append_assoc]
      exact banner_prefix _
    · simp only [if_true, Bool.not_true, String.append_assoc, String.empty_append]
      exact dashes_not_banner _
  · rw [heq]
    exact stringsHasPrefix_append _ _ _ (stringsHasPrefix_append _ _ _
      (stringsHasPrefix_append _ _ _ (stringsHasPrefix_self_append _ _)))

theorem Error_header_witness :
    exErr.frames = exFrames
    ∧ ∃ body tail,
      exErr.Error exFormats
        = (exErr.rootErr.text ++ "\n" ++ "\n" ++ "Error Code: " ++ codeString exErr.code ++ "\n"
            ++ ("https://github.com/nozzle/e/blob/" ++ "main"
                ++ stringsTrimPrefix (exFrames.get ⟨0, by decide⟩).path "github.com/nozzle/e"
                ++ "/" ++ (exFrames.get ⟨0, by decide⟩).file ++ "#L"
                ++ toString (exFrames.get ⟨0, by decide⟩).line)
            ++ "\n" ++ "\n") ++ body
      ∧ body = (if exErr.isRetriable then "" else "--- NOT RETRIABLE ---\n\n")
          ++ ("-------------------------------\n"
              ++ (exErr.frames.map (fun f => f.string exFormats ++ "\n")).foldr
                  (fun a b => a ++ b) "")
          ++ tail
      ∧ stringsHasPrefix body "--- NOT RETRIABLE ---" = !exErr.isRetriable
      ∧ stringsHasPrefix (exErr.Error exFormats)
          (exErr.rootErr.text ++ "\n" ++ "\n" ++ "Error Code: " ++ codeString exErr.code
            ++ "\n") = true :=
  ⟨rfl, Error_header exFormats exErr _ _ rfl⟩

/-! ## C32 : unknown frames in the text of an error -/

/-- C32: the text of an error is a part before and a part after which do not
depend on the unknown frames, with between them, exactly when `unknownFrames`
is not empty, the section "--- UNKNOWN STACK FRAMES FOUND ---" followed by the
line of dashes and every unknown frame rendered in order; the text then
contains the title of the section. -/
theorem Error_unknown_section (fm : Formats) (e : Err) :
    ∃ before after : String,
      (∀ u : List frame, u ≠ [] →
        ({ e with unknownFrames := u } : Err).Error fm
          = before
            ++ ("\n\n--- UNKNOWN STACK FRAMES FOUND ---"
                ++ ("-------------------------------\n"
                    ++ (u.map (fun f => f.string fm ++ "\n")).foldr (fun a b => a ++ b) ""))
            ++ after
        ∧ stringsContains (({ e with unknownFrames := u } : Err).Error fm)
            "--- UNKNOWN STACK FRAMES FOUND ---" = true)
      ∧ ({ e with unknownFrames := [] } : Err).Error fm = before ++ after := by
  refine ⟨e.rootErr.text ++ "\n" ++ "\n" ++ "Error Code: " ++ codeString e.code ++ "\n"
      ++ e.githubURL ++ "\n" ++ "\n"
      ++ (if !e.isRetriable then "--- NOT RETRIABLE ---\n\n" else "")
      ++ framesString fm e.frames,
    (if !stringsHasPrefix (fm.rootText e.rootErr) "&errors.errorString" then
      "\nErr: " ++ fm.dumpText e.rootErr
    else ""), fun u hu => ?_, ?_⟩
  · have hlen : u.length > 0 := List.length_pos.mpr hu
    have heq : ({ e with unknownFrames := u } : Err).Error fm
        = (e.rootErr.text ++ "\n" ++ "\n" ++ "Error Code: " ++ codeString e.code ++ "\n"
          ++ e.githubURL ++ "\n" ++ "\n"
          ++ (if !e.isRetriable then "--- NOT RETRIABLE ---\n\n" else "")
          ++ framesString fm e.frames)
          ++ ("\n\n--- UNKNOWN STACK FRAMES FOUND ---"
              ++ ("-------------------------------\n"
                  ++ (u.map (fun f => f.string fm ++ "\n")).foldr (fun a b => a ++ b) ""))
          ++ (if !stringsHasPrefix (fm.rootText e.rootErr) "&errors.errorString" then
              "\nErr: " ++ fm.dumpText e.rootErr
            else "") := by
      unfold Err.Error Err.githubURL
      simp only [hlen, if_true]
      rw [← frameLines_foldr]
      rfl
    refine ⟨heq, ?_⟩
    rw [heq]
    apply stringsContains_append_left
    apply stringsContains_append_right
    apply stringsContains_append_left
    have hs : "\n\n--- UNKNOWN STACK FRAMES FOUND ---"
        = "\n\n" ++ "--- UNKNOWN STACK FRAMES FOUND ---" := by decide
    rw [hs]
    exact stringsContains_append_right _ _ _ (stringsContains_self _)
  · unfold Err.Error Err.githubURL
    simp only [List.length_nil, gt_iff_lt, lt_self_iff_false, if_false, String.append_empty]

theorem Error_unknown_section_witness :
    ∃ before after : String,
      ({ exErr with unknownFrames := [unknownFrame exElsewhere.caller] } : Err).Error exFormats
          = before
            ++ ("\n\n--- UNKNOWN STACK FRAMES FOUND ---"
                ++ ("-------------------------------\n"
                    ++ ([unknownFrame exElsewhere.caller].map
                        (fun f => f.string exFormats ++ "\n")).foldr (fun a b => a ++ b) ""))
            ++ after
      ∧ stringsContains
          (({ exErr with unknownFrames := [unknownFrame exElsewhere.caller] } : Err).Error
            exFormats) "--- UNKNOWN STACK FRAMES FOUND ---" = true
      ∧ ({ exErr with unknownFrames := [] } : Err).Error exFormats = before ++ after := by
  obtain ⟨b, a, h1, h2⟩ := Error_unknown_section exFormats exErr
  exact ⟨b, a, (h1 [unknownFrame exElsewhere.caller] (by simp)).1,
    (h1 [unknownFrame exElsewhere.caller] (by simp)).2, h2⟩

/-! ## C38 : option application and the cursor -/

/-- C38 fails when the caller lookup is unavailable: after `New` in `inner` and
`Wrap` with an option in `outer` the context has 2 frames and cursor 2; a further
`Wrap` with `Msg` for which `runtime.Caller` reports `ok = false` appends an
unknown frame but leaves the cursor at 2, so `Msg` reads `frames[2]` of 2 frames
and the call panics.  The same call with a calling site that is not on the stack
sets the cursor to -1 and `Msg` lands on the unknown frame. -/
theorem wrap_no_caller_out_of_range :
    ∃ e, wrapChain "boom" [(exInner, "a", Value.int 1), (exOuter, "b", Value.int 2)] = some e
      ∧ e.frames.length = 2 ∧ e.currentFrameIdx = 2
      ∧ (correlate { stack := exStack } e).map
          (fun e1 => (e1.currentFrameIdx, e1.unknownFrames.length, e1.currentFrame.isSome))
          = some (2, 1, false)
      ∧ wrap { stack := exStack } (.wrapped e) [.Msg "m"] = none
      ∧ (wrap exElsewhere (.wrapped e) [.Msg "m"]).map
          (fun e1 => (e1.unknownFrames.map frame.msg, e1.frames.map frame.msg))
          = some (["m"], ["", ""]) :=
  ⟨_, rfl, rfl, rfl, rfl, rfl, rfl⟩

/-! ## C40 : statuses converted to contexts -/

/-- C40 fails: `StatusToError` takes `e.currentFrame()` after `New` has advanced
the cursor to 1.  When the stack parses to the single frame of the caller the
call panics, with or without details; when it parses to two frames the details
are attached to frame 1, the caller of the caller, and frame 0 has none.  Code,
root-cause message and `Details()` are as the status gives them. -/
theorem StatusToError_second_frame :
    (parseStack exStatusEntryRuntime.stack).map List.length = some 1
    ∧ StatusToError exStatusEntryRuntime exStatus = none
    ∧ StatusToError exStatusEntryRuntime { exStatus with details := [] } = none
    ∧ (New exStatusEntryRuntime "no such row" [.Code codes.NotFound]).map
        (fun e => (e.currentFrameIdx, e.frames.length)) = some (1, 1)
    ∧ (StatusToError exStatusRuntime exStatus).map (fun e => e.frames.map frame.full)
        = some ["go.nozzle.io/app.inner", "go.nozzle.io/app.outer"]
    ∧ (StatusToError exStatusRuntime exStatus).map (fun e => e.frames.map frame.errDetails)
        = some [[], [.other "retry info", .badRequest [("id", "unknown")]]]
    ∧ (StatusToError exStatusRuntime exStatus).map
        (fun e => (e.code, e.rootErr.text, e.Details))
        = some (codes.NotFound, "no such row",
            [.other "retry info", .badRequest [("id", "unknown")]]) :=
  ⟨rfl, rfl, rfl, rfl, rfl, rfl, rfl⟩

/-! ## C37 : the cursor only moves up -/

/-- C37: on a context with cursor `p ≥ 0`, a wrap without options returns with
cursor `p + 1`; a wrap with options whose calling site `findFrame` finds at index
`i` returns with cursor `i + 1`, where `i ≥ p` and frame `i` has the signature of
the site; both are greater than `p`.  Hence successive option-carrying wraps from
one signature all return, and when none of them misses, their targets increase
strictly, are pairwise distinct, and each is a frame of that signature. -/
theorem wrap_cursor_increases (e : Err) (hcur : 0 ≤ e.currentFrameIdx) :
    (∀ rt : Runtime, ∃ e1, wrap rt (.wrapped e) [] = some e1
        ∧ e1.currentFrameIdx = e.currentFrameIdx + 1 ∧ e.currentFrameIdx < e1.currentFrameIdx)
    ∧ (∀ (rt : Runtime) (site : CallSite) (opts : List WrapOption) (i : Int),
        rt.caller = some site → opts ≠ [] → e.findFrame site.name = some i → i ≠ -1 →
        ∃ e1 f, wrap rt (.wrapped e) opts = some e1 ∧ e.frames[i.toNat]? = some f
          ∧ f.full = site.name ∧ e.currentFrameIdx ≤ i ∧ e1.currentFrameIdx = i + 1
          ∧ e.currentFrameIdx < e1.currentFrameIdx)
    ∧ (∀ (s : String) (calls : List (Runtime × List WrapOption)),
        (∀ c ∈ calls, (∃ site, c.1.caller = some site ∧ site.name = s) ∧ c.2 ≠ []) →
        ∃ ts, wrapsFrom calls e = some ts ∧ ts.length = calls.length
          ∧ ((-1 : Int) ∉ ts → ts.Pairwise (fun a b => a < b) ∧ ts.Nodup
              ∧ ∀ t ∈ ts, e.currentFrameIdx ≤ t
                  ∧ (e.frames.map frame.full)[t.toNat]? = some s)) := by
  refine ⟨fun rt => ⟨_, rfl, rfl, ?_⟩, ?_, ?_⟩
  · show e.currentFrameIdx < e.currentFrameIdx + 1
    omega
  · intro rt site opts i hcaller hopts hfind hi
    obtain ⟨r, e1, f, hfind1, -, -, -, -, hwrap⟩ :=
      wrap_correlated rt e opts site hcaller hcur hopts
    rw [hfind] at hfind1
    have hri : i = r := Option.some.inj hfind1
    rcases findFrame_cases e site.name hcur with ⟨h1, -⟩ | ⟨j, g, h1, h2, h3, h4⟩
    · rw [hfind] at h1
      exact absurd (Option.some.inj h1) hi
    · rw [hfind] at h1
      have hij : i = (j : Int) := Option.some.inj h1
      refine ⟨_, g, hwrap, ?_, h3, by omega, ?_, ?_⟩
      · rw [hij, Int.toNat_ofNat]
        exact h2
      · show r + 1 = i + 1
        omega
      · show e.currentFrameIdx < r + 1
        omega
  · intro s calls hall
    obtain ⟨ts, hts, hlen, hinc⟩ := wrapsFrom_increasing s calls e hcur hall
    refine ⟨ts, hts, hlen, fun hno => ?_⟩
    obtain ⟨hpw, hmem⟩ := hinc hno
    exact ⟨hpw, hpw.imp (fun h => ne_of_lt h), hmem⟩

theorem wrap_cursor_increases_witness :
    New exWalk "boom" [] = some exWalkErr ∧ 0 ≤ exWalkErr.currentFrameIdx
    ∧ (∃ e1, wrap exOuter (.wrapped exWalkErr) [] = some e1 ∧ e1.currentFrameIdx = 2)
    ∧ (∃ ts, wrapsFrom [(exWalk, [.Msg "mid"]), (exWalk, [.Msg "top"])] exWalkErr = some ts
        ∧ ts = [1, 2] ∧ ts.Pairwise (fun a b => a < b) ∧ ts.Nodup
        ∧ ∀ t ∈ ts, (exWalkErr.frames.map frame.full)[t.toNat]? = some "go.nozzle.io/app.walk") := by
  have hcur : 0 ≤ exWalkErr.currentFrameIdx := by decide
  obtain ⟨h1, -, h3⟩ := wrap_cursor_increases exWalkErr hcur
  refine ⟨rfl, hcur, ?_, ?_⟩
  · obtain ⟨e1, he1, hc1, -⟩ := h1 exOuter
    exact ⟨e1, he1, hc1⟩
  · obtain ⟨ts, hts, -, hinc⟩ := h3 "go.nozzle.io/app.walk"
      [(exWalk, [.Msg "mid"]), (exWalk, [.Msg "top"])]
      (by
        intro c hc
        simp only [List.mem_cons, List.mem_singleton, List.not_mem_nil, or_false] at hc
        rcases hc with rfl | rfl <;> exact ⟨⟨_, rfl, rfl⟩, by simp⟩)
    have hval : wrapsFrom [(exWalk, [.Msg "mid"]), (exWalk, [.Msg "top"])] exWalkErr
        = some [1, 2] := rfl
    have hts2 : ts = [1, 2] := Option.some.inj (hts.symm.trans hval)
    subst hts2
    obtain ⟨hpw, hnd, hmem⟩ := hinc (by decide)
    exact ⟨_, hts, rfl, hpw, hnd, fun t ht => (hmem t ht).2⟩

/-! ## C35 : Recover and the propagation of the panic -/

/-- C35: inside `Recover`, where the stack starts with `debug.Stack` and
`Recover`, for every list of recover options, every state of the context `c` and
whatever the runtime reports: with no panic in flight `Recover` returns having
done nothing; with a panic in flight it builds a context (root error made of the
recovered value, code Internal, level Critical) and panics with that context,
as the user's function left it, exactly when no option is `RecoverNoPanic`, and
returns exactly when one is. -/
theorem Recover_propagation (rt : Runtime) (cErr : Option String) (opts : List RecoverOption)
    (rest : List Call)
    (hstack : rt.stack = { goroutines := [callDebugStack :: callRecover :: rest] }) :
    Recover rt cErr opts none = some {}
    ∧ ∀ x : Recovered, ∃ res built, Recover rt cErr opts (some x) = some res
        ∧ res.built = some built ∧ built.rootErr = x.rawErr ∧ built.code = codes.Internal
        ∧ built.Level = LevelCritical
        ∧ (res.panicValue = some ((recoverDataOf opts).handed built)
            ↔ ∀ o ∈ opts, o.isNoPanic = false)
        ∧ (res.panicValue = none ↔ ∃ o ∈ opts, o.isNoPanic = true) := by
  refine ⟨rfl, fun x => ?_⟩
  obtain ⟨F, hparse⟩ := parseStack_in_Recover rest
  rw [← hstack] at hparse
  obtain ⟨built, hres, hroot, hcode, hlevel⟩ :=
    Recover_built rt cErr opts x (frameOfCall callRecover) F hparse
  refine ⟨_, built, hres, rfl, hroot, hcode, hlevel, ?_, ?_⟩
  · show (if (recoverDataOf opts).shouldPanic then some ((recoverDataOf opts).handed built)
        else none) = some ((recoverDataOf opts).handed built) ↔ _
    rw [recoverDataOf_shouldPanic]
    cases hany : opts.any RecoverOption.isNoPanic with
    | false =>
      simp only [Bool.not_false, if_true, true_iff]
      intro o ho
      have h1 := List.any_eq_false.mp hany o ho
      simpa using h1
    | true =>
      simp only [Bool.not_true, Bool.false_eq_true, if_false]
      refine ⟨fun h => absurd h (by simp), fun hall => ?_⟩
      obtain ⟨o, ho, h1⟩ := List.any_eq_true.mp hany
      rw [hall o ho] at h1
      exact absurd h1 (by decide)
  · show (if (recoverDataOf opts).shouldPanic then some ((recoverDataOf opts).handed built)
        else none) = none ↔ _
    rw [recoverDataOf_shouldPanic]
    cases hany : opts.any RecoverOption.isNoPanic with
    | false =>
      simp only [Bool.not_false, if_true]
      refine ⟨fun h => absurd h (by simp), ?_⟩
      rintro ⟨o, ho, h2⟩
      have h1 := List.any_eq_false.mp hany o ho
      exact absurd h2 h1
    | true =>
      simp only [Bool.not_true, Bool.false_eq_true, if_false, true_iff]
      exact List.any_eq_true.mp hany

theorem Recover_propagation_witness :
    exRecoverRuntime.stack
        = { goroutines := [callDebugStack :: callRecover :: [callPanic, callInner, callOuter]] }
    ∧ Recover exRecoverRuntime (some "context canceled") [.RecoverNoLog, .RecoverNoReport] none
        = some {}
    ∧ ∃ res built, Recover exRecoverRuntime (some "context canceled")
          [.RecoverNoLog, .RecoverNoReport] (some (.text "boom")) = some res
        ∧ res.built = some built ∧ res.panicValue = some built
        ∧ built.code = codes.Internal ∧ built.Level = LevelCritical := by
  obtain ⟨h1, h2⟩ := Recover_propagation exRecoverRuntime (some "context canceled")
    [.RecoverNoLog, .RecoverNoReport] [callPanic, callInner, callOuter] rfl
  obtain ⟨res, built, hres, hb, -, hcode, hlevel, hp, -⟩ := h2 (.text "boom")
  refine ⟨rfl, h1, res, built, hres, hb, ?_, hcode, hlevel⟩
  exact hp.mpr (by
    intro o ho
    simp only [List.mem_cons, List.mem_singleton, List.not_mem_nil, or_false] at ho
    rcases ho with rfl | rfl <;> rfl)

end NozzleE
